import Mathlib

/-!
# Assembler / linker / emulator toolchain: embedding and verified properties

The three tools of the repository (`assembler.cpp`, `linker.cpp`,
`emulator.cpp`) are embedded as pure Lean functions over explicit state
records.  Machine integers are represented as `Int` (or `Nat` for `unsigned`)
with explicit wrap-around:

* `short`  : an `Int` in `[-32768, 32767]`, conversions through `toShort`;
* `char`   : an `Int` in `[-128, 127]` (plain `char` is signed on the x86 /
  x86-64 ABI the tools are built for), conversions through `toChar`;
* `int`    : 32 bits, conversions through `toInt`;
* `unsigned` : a `Nat` taken modulo `2^32`.

`std::map<K, T>` is an association list with unique keys, kept in key order
by `mapInsert`, so that a traversal of the list is the traversal of the map.
Masks and shifts by constants are written arithmetically
(`0xFF & x` is `x % 256`, `x >> 8` is `x / 256`, `x << 8` is `x * 256`);
genuine bitwise operations go through `bitAnd`, `bitOr`, `bitXor`, `bitNot`,
which act on the 32-bit two's complement pattern.
Files are values: the source of the assembler is the list of its lines, the
object file that the assembler writes is the list of its bytes, which the
reader of the linker parses again, and the linker and the emulator otherwise
take an object file or a program image as the parsed sequence of records; the
file written by a tool is the value returned.  The replacements of
`std::regex` in `readFile` are written out as list functions.
-/

set_option autoImplicit false

/-! ## Machine integers -/

/-- Conversion to `short`: 16-bit two's complement wrap. -/
def toShort (x : Int) : Int := (x + 32768) % 65536 - 32768

/-- Conversion to (signed) `char`: 8-bit two's complement wrap. -/
def toChar (x : Int) : Int := (x + 128) % 256 - 128

/-- Conversion to `int`: 32-bit two's complement wrap. -/
def toInt (x : Int) : Int := (x + 2147483648) % 4294967296 - 2147483648

/-- The 32-bit pattern of an `int`, i.e. its conversion to `unsigned`. -/
def toUnsigned (x : Int) : Nat := (x % 4294967296).toNat

/-- The 64-bit pattern of an integer, i.e. its conversion to `size_t`. -/
def toSizeT (x : Int) : Nat := (x % 18446744073709551616).toNat

/-- Bitwise `|` on `int`. -/
def bitOr (x y : Int) : Int := toInt ((toUnsigned x ||| toUnsigned y : Nat) : Int)

/-- Bitwise `&` on `int`. -/
def bitAnd (x y : Int) : Int := toInt ((toUnsigned x &&& toUnsigned y : Nat) : Int)

/-- Bitwise `^` on `int`. -/
def bitXor (x y : Int) : Int := toInt ((toUnsigned x ^^^ toUnsigned y : Nat) : Int)

/-- Bitwise `~` on `int`. -/
def bitNot (x : Int) : Int := -x - 1

/-- Left shift `x << s` on `int`.  A count outside `0..31` is undefined in
C++; it is taken modulo 32 as the x86 shift instructions do. -/
def shiftLeft (x s : Int) : Int := toInt (x * 2 ^ (s % 32).toNat)

/-- Right shift `x >> s` on `int` (arithmetic).  A count outside `0..31` is
undefined in C++; it is taken modulo 32 as the x86 shift instructions do. -/
def shiftRight (x s : Int) : Int := x / 2 ^ (s % 32).toNat

/-! ## Emulator (`emulator.h`, `emulator.cpp`) -/

namespace Emulator

/-- Constant `MEMORY_SIZE` as used in the constructor, `memory(1 << 16)`. -/
def MEMORY_SIZE : Nat := 65536

/-- Constant `MMAP_REGISTERS_START_ADDRESS`. -/
def MMAP_REGISTERS_START_ADDRESS : Nat := 0xFF00

/-- Constant `NO_REGISTERS`: `r0..r7` and `psw`. -/
def NO_REGISTERS : Nat := 9

/-- Constant `R_INDEX::sp`. -/
def sp : Int := 6

/-- Constant `R_INDEX::pc`. -/
def pc : Int := 7

/-- Constant `R_INDEX::psw`. -/
def psw : Int := 8

/-- Constant `FLAG_MASK::z`. -/
def FLAG_z : Int := 1

/-- Constant `FLAG_MASK::o`. -/
def FLAG_o : Int := 2

/-- Constant `FLAG_MASK::c`. -/
def FLAG_c : Int := 4

/-- Constant `FLAG_MASK::n`. -/
def FLAG_n : Int := 8

/-- Constant `IVT_ENTRY_PROGRAM_START`. -/
def IVT_ENTRY_PROGRAM_START : Int := 0

/-- Constants of `enum MNEMONIC`. -/
def MNEMONIC_halt : Int := 0x00
def MNEMONIC_int : Int := 0x10
def MNEMONIC_iret : Int := 0x20
def MNEMONIC_call : Int := 0x30
def MNEMONIC_ret : Int := 0x40
def MNEMONIC_jmp : Int := 0x50
def MNEMONIC_jeq : Int := 0x51
def MNEMONIC_jne : Int := 0x52
def MNEMONIC_jgt : Int := 0x53
def MNEMONIC_xchg : Int := 0x60
def MNEMONIC_add : Int := 0x70
def MNEMONIC_sub : Int := 0x71
def MNEMONIC_mul : Int := 0x72
def MNEMONIC_div : Int := 0x73
def MNEMONIC_cmp : Int := 0x74
def MNEMONIC_not : Int := 0x80
def MNEMONIC_and : Int := 0x81
def MNEMONIC_or : Int := 0x82
def MNEMONIC_xor : Int := 0x83
def MNEMONIC_test : Int := 0x84
def MNEMONIC_shl : Int := 0x90
def MNEMONIC_shr : Int := 0x91
def MNEMONIC_ldr_pop : Int := 0xA0
def MNEMONIC_str_push : Int := 0xB0

/-- Constants of `enum UPDATE_TYPE`. -/
def no_update : Int := 0
def pre_decrement : Int := 1
def pre_increment : Int := 2
def post_decrement : Int := 3
def post_increment : Int := 4

/-- Constants of `enum ADDRESSING_MODE`. -/
def immed : Int := 0
def regdir : Int := 1
def regind : Int := 2
def regind_disp : Int := 3
def memdir : Int := 4
def regdir_disp : Int := 5

/-- Constants `BYTE` and `WORD`. -/
def BYTE : Nat := 1
def WORD : Nat := 2

/-- Constants `LITTLE_ENDIAN_ORDER` and `BIG_ENDIAN_ORDER`. -/
def LITTLE_ENDIAN_ORDER : Bool := true
def BIG_ENDIAN_ORDER : Bool := false

/-- Record `struct ProgramSegmentData`: one segment of a program image. -/
structure ProgramSegmentData where
  segmentData : List Int
  baseAddress : Nat
  deriving DecidableEq, Repr

/-- Record `struct CommandData`: the decoded fields of the current command. -/
structure CommandData where
  mnemonic : Int
  rDst : Int
  rSrc : Int
  updateType : Int
  addressingMode : Int
  payload : Int
  deriving DecidableEq, Repr

/-- The value-initialised command data, `cd = {}`. -/
def CommandData.empty : CommandData := ⟨0, 0, 0, 0, 0, 0⟩

end Emulator

/-- The data members of `class Emulator` that the emulation reads and writes:
`memory` is a `vector<char>`, `registers` a `vector<short>`. -/
structure Emulator where
  memory : List Int
  registers : List Int
  cd : Emulator.CommandData
  emulatingErrors : List String
  deriving DecidableEq, Repr

namespace Emulator

/-- The constructor `Emulator::Emulator`: `memory(MEMORY_SIZE)` and
`registers(NO_REGISTERS)`, both zero-filled. -/
def new : Emulator :=
  { memory := List.replicate MEMORY_SIZE 0
    registers := List.replicate NO_REGISTERS 0
    cd := CommandData.empty
    emulatingErrors := [] }

/-- Read of `registers[i]`. -/
def reg (e : Emulator) (i : Int) : Int := e.registers.getD i.toNat 0

/-- The assignment `registers[i] = v`, with the conversion to `short`. -/
def setReg (e : Emulator) (i : Int) (v : Int) : Emulator :=
  { e with registers := e.registers.set i.toNat (toShort v) }

/-- The call `emulatingErrors.push_back(msg)`. -/
def pushError (e : Emulator) (msg : String) : Emulator :=
  { e with emulatingErrors := e.emulatingErrors ++ [msg] }

/-- Model of `vector::insert(begin() + pos, first, last)`: the new elements are placed
before position `pos` and the tail moves up. -/
def vectorInsert (v : List Int) (pos : Nat) (data : List Int) : List Int :=
  v.take pos ++ data ++ v.drop pos

/-- The loop body of `Emulator::fillMemoryFromInputFile` for one segment of
the image.  The test `ps.baseAddress + ps.segmentData.size() - 1 >
MMAP_REGISTERS_START_ADDRESS` is evaluated in `size_t`. -/
def loadSegment (e : Emulator) (ps : ProgramSegmentData) : Emulator × Bool :=
  if toSizeT ((ps.baseAddress : Int) + (ps.segmentData.length : Int) - 1)
      > MMAP_REGISTERS_START_ADDRESS then
    (pushError e "Program segment overlaps with memory reserved for registers.", false)
  else
    ({ e with memory := vectorInsert e.memory ps.baseAddress ps.segmentData }, true)

/-- Method `Emulator::fillMemoryFromInputFile` on an opened, well-formed image file:
the segments are loaded in file order and the first rejected one ends the
load. -/
def fillMemoryFromInputFile (e : Emulator) : List ProgramSegmentData → Emulator × Bool
  | [] => (e, true)
  | ps :: rest =>
    match loadSegment e ps with
    | (e1, true) => fillMemoryFromInputFile e1 rest
    | (e1, false) => (e1, false)

/-- Method `Emulator::readFromMemory(startAddress, nOfBytes, littleEndian)`. -/
def readFromMemory (e : Emulator) (startAddress : Int) (nOfBytes : Nat)
    (littleEndian : Bool) : Int :=
  let lowerByte := e.memory.getD startAddress.toNat 0
  let higherByte := if nOfBytes = WORD then e.memory.getD (startAddress + 1).toNat 0 else 0
  if littleEndian then toShort (bitOr (higherByte * 256) (lowerByte % 256))
  else toShort (bitOr (lowerByte * 256) (higherByte % 256))

/-- Method `Emulator::writeToMemory(startAddress, nOfBytes, value)`. -/
def writeToMemory (e : Emulator) (startAddress : Int) (nOfBytes : Nat) (value : Int) :
    Emulator :=
  if nOfBytes = BYTE then
    { e with memory := e.memory.set startAddress.toNat (toChar (value % 256)) }
  else
    let firstByte := toChar (value % 256)
    let secondByte := toChar ((value / 256) % 256)
    { e with memory :=
        (e.memory.set startAddress.toNat firstByte).set (startAddress + 1).toNat secondByte }

/-- The fetch of one byte at `pc`, `readFromMemory(0xFFFF & registers[pc], BYTE)`. -/
def fetchByte (e : Emulator) : Int :=
  readFromMemory e (reg e pc % 65536) BYTE LITTLE_ENDIAN_ORDER

/-- The statement `registers[pc]++`. -/
def incPc (e : Emulator) : Emulator := setReg e pc (reg e pc + 1)

/-- The second instruction byte `[rDst (4b) | rSrc (4b)]` read into `cd`,
followed by `registers[pc]++`. -/
def fetchRegisters (e : Emulator) : Emulator :=
  let byte := fetchByte e
  incPc { e with cd := { e.cd with rDst := (byte / 16) % 16, rSrc := byte % 16 } }

/-- The third instruction byte `[update (4b) | addressing mode (4b)]` read into
`cd`, followed by `registers[pc]++`. -/
def fetchMode (e : Emulator) : Emulator :=
  let byte := fetchByte e
  incPc { e with cd := { e.cd with updateType := (byte / 16) % 16, addressingMode := byte % 16 } }

/-- The payload read shared by the jump and load/store cases: a big-endian
word unless the mode is `regdir` or `regind`. -/
def fetchPayload (e : Emulator) : Emulator :=
  if e.cd.addressingMode ≠ regdir ∧ e.cd.addressingMode ≠ regind then
    let payload := readFromMemory e (reg e pc % 65536) WORD BIG_ENDIAN_ORDER
    setReg { e with cd := { e.cd with payload := payload } } pc (reg e pc + 2)
  else e

/-- The inner `switch (byte)` of the jump case. -/
def jumpMnemonic (byte : Int) : Option Int :=
  if byte = 0x30 then some MNEMONIC_call
  else if byte = 0x50 then some MNEMONIC_jmp
  else if byte = 0x51 then some MNEMONIC_jeq
  else if byte = 0x52 then some MNEMONIC_jne
  else if byte = 0x53 then some MNEMONIC_jgt
  else none

/-- The inner `switch (byte)` of the arithmetic, logic and shift case. -/
def registerMnemonic (byte : Int) : Option Int :=
  if byte = 0x10 then some MNEMONIC_int
  else if byte = 0x60 then some MNEMONIC_xchg
  else if byte = 0x70 then some MNEMONIC_add
  else if byte = 0x71 then some MNEMONIC_sub
  else if byte = 0x72 then some MNEMONIC_mul
  else if byte = 0x73 then some MNEMONIC_div
  else if byte = 0x74 then some MNEMONIC_cmp
  else if byte = 0x80 then some MNEMONIC_not
  else if byte = 0x81 then some MNEMONIC_and
  else if byte = 0x82 then some MNEMONIC_or
  else if byte = 0x83 then some MNEMONIC_xor
  else if byte = 0x84 then some MNEMONIC_test
  else if byte = 0x90 then some MNEMONIC_shl
  else if byte = 0x91 then some MNEMONIC_shr
  else none

/-- The case `0x0`, `0x2`, `0x4` of the `switch (operationCode)` of
`commandFetchAndDecode`: `halt`, `iret` and `ret`. -/
def decodeNoOperand (e : Emulator) (operationCode modificator : Int) : Emulator × Bool :=
  if modificator ≠ 0x0 then
    (pushError e "Wrong command specified modificator for operation code: ", false)
  else
    ({ e with cd := { e.cd with mnemonic :=
        if operationCode = 0x0 then MNEMONIC_halt
        else if operationCode = 0x2 then MNEMONIC_iret else MNEMONIC_ret } }, true)

/-- The case `0x3`, `0x5` of the `switch (operationCode)`: the jump commands. -/
def decodeJump (e : Emulator) (byte : Int) : Emulator × Bool :=
  match jumpMnemonic byte with
  | none => (pushError e "Wrong command specified modificator for operation code: ", false)
  | some m =>
    let e := { e with cd := { e.cd with mnemonic := m } }
    let e := fetchRegisters e
    let e := fetchMode e
    if e.cd.addressingMode > regdir_disp then
      (pushError e "Wrong command specified addressing mode: ", false)
    else if e.cd.updateType ≠ no_update then
      (pushError e "Wrong command specified update type: ", false)
    else (fetchPayload e, true)

/-- The case `0x1`, `0x6`, `0x7`, `0x8`, `0x9` of the `switch (operationCode)`:
the commands with register operands only. -/
def decodeRegisterCommand (e : Emulator) (byte : Int) : Emulator × Bool :=
  match registerMnemonic byte with
  | none => (pushError e "Wrong command specified modificator for operation code: ", false)
  | some m =>
    let e := { e with cd := { e.cd with mnemonic := m } }
    let e := fetchRegisters e
    if e.cd.rDst > psw
        ∨ (e.cd.mnemonic ≠ MNEMONIC_int ∧ e.cd.mnemonic ≠ MNEMONIC_not ∧ e.cd.rSrc > psw)
        ∨ ((e.cd.mnemonic = MNEMONIC_int ∨ e.cd.mnemonic = MNEMONIC_not) ∧ e.cd.rSrc ≠ 0xF) then
      (pushError e "Wrong command specified register indices [rDst = , rSrc = ].", false)
    else (e, true)

/-- The case `0xA`, `0xB` of the `switch (operationCode)`: `ldr`/`pop` and
`str`/`push`. -/
def decodeLoadStore (e : Emulator) (operationCode modificator : Int) : Emulator × Bool :=
  if modificator ≠ 0x0 then
    (pushError e "Wrong command specified modificator for operation code: ", false)
  else
    let e := { e with cd := { e.cd with mnemonic :=
      if operationCode = 0xA then MNEMONIC_ldr_pop else MNEMONIC_str_push } }
    let e := fetchRegisters e
    if e.cd.rDst > psw then
      (pushError e "Wrong command specified register indices [rDst = , rSrc = ].", false)
    else
      let e := fetchMode e
      if e.cd.addressingMode > memdir
          ∨ (e.cd.mnemonic = MNEMONIC_str_push ∧ e.cd.addressingMode = immed) then
        (pushError e "Wrong command specified addressing mode: ", false)
      else (fetchPayload e, true)

/-- Method `Emulator::commandFetchAndDecode`.  The text appended to an error message
by pointer arithmetic in the source is left out of the message. -/
def commandFetchAndDecode (e : Emulator) : Emulator × Bool :=
  let byte := fetchByte e
  let operationCode := (byte / 16) % 16
  let modificator := byte % 16
  let e := incPc e
  if operationCode = 0x0 ∨ operationCode = 0x2 ∨ operationCode = 0x4 then
    decodeNoOperand e operationCode modificator
  else if operationCode = 0x3 ∨ operationCode = 0x5 then decodeJump e byte
  else if operationCode = 0x1 ∨ operationCode = 0x6 ∨ operationCode = 0x7
      ∨ operationCode = 0x8 ∨ operationCode = 0x9 then
    decodeRegisterCommand e byte
  else if operationCode = 0xA ∨ operationCode = 0xB then
    decodeLoadStore e operationCode modificator
  else (pushError e "Wrong command operation code: ", false)

/-- Method `Emulator::updateSource`. -/
def updateSource (e : Emulator) : Emulator :=
  if e.cd.updateType = pre_decrement ∨ e.cd.updateType = post_decrement then
    setReg e e.cd.rSrc (reg e e.cd.rSrc - 2)
  else if e.cd.updateType = pre_increment ∨ e.cd.updateType = post_increment then
    setReg e e.cd.rSrc (reg e e.cd.rSrc + 2)
  else e

/-- Method `Emulator::getOperand`: the operand value, and the emulator with the error
recorded when the addressing mode is not recognised. -/
def getOperand (e : Emulator) : Emulator × Int :=
  if e.cd.addressingMode = immed then (e, e.cd.payload)
  else if e.cd.addressingMode = regdir then (e, reg e e.cd.rSrc)
  else if e.cd.addressingMode = regind then
    (e, readFromMemory e (reg e e.cd.rSrc % 65536) WORD LITTLE_ENDIAN_ORDER)
  else if e.cd.addressingMode = regind_disp then
    (e, readFromMemory e ((reg e e.cd.rSrc + e.cd.payload) % 65536) WORD LITTLE_ENDIAN_ORDER)
  else if e.cd.addressingMode = memdir then
    (e, readFromMemory e (e.cd.payload % 65536) WORD LITTLE_ENDIAN_ORDER)
  else if e.cd.addressingMode = regdir_disp then
    (e, toShort (reg e e.cd.rSrc + e.cd.payload))
  else (pushError e "Unrecognised addressing mode: ", -1)

/-- Method `Emulator::setOperand`. -/
def setOperand (e : Emulator) : Emulator × Bool :=
  if e.cd.addressingMode = regdir then (setReg e e.cd.rSrc (reg e e.cd.rDst), true)
  else if e.cd.addressingMode = regind then
    (writeToMemory e (reg e e.cd.rSrc % 65536) WORD (reg e e.cd.rDst), true)
  else if e.cd.addressingMode = regind_disp then
    (writeToMemory e ((reg e e.cd.rSrc + e.cd.payload) % 65536) WORD (reg e e.cd.rDst), true)
  else if e.cd.addressingMode = memdir then
    (writeToMemory e (e.cd.payload % 65536) WORD (reg e e.cd.rDst), true)
  else (pushError e "Unrecognised or unsuitable addressing mode: ", false)

/-- Method `Emulator::pushOnStack`. -/
def pushOnStack (e : Emulator) (value : Int) : Emulator :=
  let e := setReg e sp (reg e sp - 2)
  writeToMemory e (reg e sp % 65536) WORD value

/-- Method `Emulator::popFromStack`. -/
def popFromStack (e : Emulator) : Emulator × Int :=
  let value := readFromMemory e (reg e sp % 65536) WORD LITTLE_ENDIAN_ORDER
  (setReg e sp (reg e sp + 2), value)

/-- Method `Emulator::evaluateJumpCondition`. -/
def evaluateJumpCondition (e : Emulator) : Bool :=
  let condition := toShort (bitAnd (reg e psw) FLAG_z)
  if e.cd.mnemonic = MNEMONIC_jeq then decide (condition ≠ 0)
  else if e.cd.mnemonic = MNEMONIC_jne then decide (condition = 0)
  else if e.cd.mnemonic = MNEMONIC_jgt then
    let condition := toShort (bitOr condition (bitAnd (reg e psw) FLAG_o))
    let condition := toShort (bitOr condition (bitAnd (reg e psw) FLAG_n))
    decide (condition = 0)
  else true

/-- The statement `registers[psw] |= mask`. -/
def setFlag (e : Emulator) (mask : Int) : Emulator :=
  setReg e psw (bitOr (reg e psw) mask)

/-- The statement `registers[psw] &= ~mask`. -/
def clearFlag (e : Emulator) (mask : Int) : Emulator :=
  setReg e psw (bitAnd (reg e psw) (bitNot mask))

/-- Method `Emulator::updatePswFlags(result)`.  The comparison of the two registers
and the difference `op1 - op2` are those of the source: `short` operands,
promoted to `int`. -/
def updatePswFlags (e : Emulator) (result : Int) : Emulator :=
  let e := if result = 0 then setFlag e FLAG_z else clearFlag e FLAG_z
  let e := if result < 0 then setFlag e FLAG_n else clearFlag e FLAG_n
  if e.cd.mnemonic = MNEMONIC_cmp then
    let e := if reg e e.cd.rDst < reg e e.cd.rSrc then setFlag e FLAG_c else clearFlag e FLAG_c
    let op1 := reg e e.cd.rDst
    let op2 := reg e e.cd.rSrc
    if (op1 < 0 ∧ op2 > 0 ∧ (op1 - op2) > 0) ∨ (op1 > 0 ∧ op2 < 0 ∧ (op1 - op2) < 0) then
      setFlag e FLAG_o
    else clearFlag e FLAG_o
  else if e.cd.mnemonic = MNEMONIC_shl then
    let op1 := reg e e.cd.rDst
    let op2 := reg e e.cd.rSrc
    if bitAnd (shiftRight op1 (16 - op2)) 1 ≠ 0 then setFlag e FLAG_c else clearFlag e FLAG_c
  else if e.cd.mnemonic = MNEMONIC_shr then
    let op1 := reg e e.cd.rDst
    let op2 := reg e e.cd.rSrc
    if bitAnd (shiftRight op1 (op2 - 1)) 1 ≠ 0 then setFlag e FLAG_c else clearFlag e FLAG_c
  else e

/-- Result of `Emulator::commandExecute(running)`: the emulator, the value left
in `running`, and the returned flag. -/
structure ExecResult where
  emulator : Emulator
  running : Bool
  ok : Bool
  deriving DecidableEq, Repr

/-- Method `Emulator::commandExecute(running)`. -/
def commandExecute (e : Emulator) (running : Bool) : ExecResult :=
  let m := e.cd.mnemonic
  if m = MNEMONIC_halt then ⟨e, false, true⟩
  else if m = MNEMONIC_int then
    let e := pushOnStack e (reg e pc)
    let e := pushOnStack e (reg e psw)
    let e := setReg e pc
      (readFromMemory e ((Int.tmod (reg e e.cd.rDst) 8 * 2) % 65536) WORD LITTLE_ENDIAN_ORDER)
    ⟨e, running, true⟩
  else if m = MNEMONIC_iret then
    let (e, v) := popFromStack e
    let e := setReg e psw v
    let (e, v) := popFromStack e
    ⟨setReg e pc v, running, true⟩
  else if m = MNEMONIC_call then
    let e := pushOnStack e (reg e pc)
    let (e, v) := getOperand e
    let e := setReg e pc v
    if e.emulatingErrors.length ≠ 0 then ⟨e, running, false⟩ else ⟨e, running, true⟩
  else if m = MNEMONIC_ret then
    let (e, v) := popFromStack e
    ⟨setReg e pc v, running, true⟩
  else if m = MNEMONIC_jmp ∨ m = MNEMONIC_jeq ∨ m = MNEMONIC_jne ∨ m = MNEMONIC_jgt then
    if evaluateJumpCondition e then
      let (e, v) := getOperand e
      let e := setReg e pc v
      if e.emulatingErrors.length ≠ 0 then ⟨e, running, false⟩ else ⟨e, running, true⟩
    else ⟨e, running, true⟩
  else if m = MNEMONIC_xchg then
    let d := reg e e.cd.rDst
    let s := reg e e.cd.rSrc
    ⟨setReg (setReg e e.cd.rDst s) e.cd.rSrc d, running, true⟩
  else if m = MNEMONIC_add then
    ⟨setReg e e.cd.rDst (reg e e.cd.rDst + reg e e.cd.rSrc), running, true⟩
  else if m = MNEMONIC_sub then
    ⟨setReg e e.cd.rDst (reg e e.cd.rDst - reg e e.cd.rSrc), running, true⟩
  else if m = MNEMONIC_mul then
    ⟨setReg e e.cd.rDst (reg e e.cd.rDst * reg e e.cd.rSrc), running, true⟩
  else if m = MNEMONIC_div then
    if reg e e.cd.rSrc = 0 then
      ⟨pushError e "Division with zero is undefined.", running, false⟩
    else ⟨setReg e e.cd.rDst (Int.tdiv (reg e e.cd.rDst) (reg e e.cd.rSrc)), running, true⟩
  else if m = MNEMONIC_cmp then
    let tmp := toShort (reg e e.cd.rDst - reg e e.cd.rSrc)
    ⟨updatePswFlags e tmp, running, true⟩
  else if m = MNEMONIC_not then
    ⟨setReg e e.cd.rDst (bitNot (reg e e.cd.rDst)), running, true⟩
  else if m = MNEMONIC_and then
    ⟨setReg e e.cd.rDst (bitAnd (reg e e.cd.rDst) (reg e e.cd.rSrc)), running, true⟩
  else if m = MNEMONIC_or then
    ⟨setReg e e.cd.rDst (bitOr (reg e e.cd.rDst) (reg e e.cd.rSrc)), running, true⟩
  else if m = MNEMONIC_xor then
    ⟨setReg e e.cd.rDst (bitXor (reg e e.cd.rDst) (reg e e.cd.rSrc)), running, true⟩
  else if m = MNEMONIC_test then
    let tmp := toShort (bitAnd (reg e e.cd.rDst) (reg e e.cd.rSrc))
    ⟨updatePswFlags e tmp, running, true⟩
  else if m = MNEMONIC_shl ∨ m = MNEMONIC_shr then
    let tmp :=
      if m = MNEMONIC_shl then toShort (shiftLeft (reg e e.cd.rDst) (reg e e.cd.rSrc))
      else toShort (shiftRight (reg e e.cd.rDst) (reg e e.cd.rSrc))
    let e := updatePswFlags e tmp
    ⟨setReg e e.cd.rDst tmp, running, true⟩
  else if m = MNEMONIC_ldr_pop then
    let (e, v) := getOperand e
    let e := setReg e e.cd.rDst v
    if e.emulatingErrors.length ≠ 0 then ⟨e, running, false⟩
    else ⟨updateSource e, running, true⟩
  else if m = MNEMONIC_str_push then
    let e := updateSource e
    match setOperand e with
    | (e, false) => ⟨e, running, false⟩
    | (e, true) => ⟨e, running, true⟩
  else ⟨pushError e "Can not proceed executing unknown instruction.", running, false⟩

end Emulator

/-! ## Ordered maps (`std::map`) -/

/-- Model of `std::map::insert`: the entry is placed at its position in key order, and
the map is left as it is when the key is already present.  A `std::string`
key is passed as its list of characters, which carries the lexicographic
order of `std::string`. -/
def mapInsert {α κ : Type} [LT κ] [∀ a b : κ, Decidable (a < b)] [DecidableEq κ]
    (key : α → κ) (x : α) : List α → List α
  | [] => [x]
  | y :: ys =>
    if key x < key y then x :: y :: ys
    else if key x = key y then y :: ys
    else y :: mapInsert key x ys

/-- Model of `std::map::find`: the entry stored under key `k`, when there is one. -/
def mapFind {α κ : Type} [DecidableEq κ] (key : α → κ) (k : κ) (m : List α) : Option α :=
  m.find? (fun y => decide (key y = k))

/-- Replacement of the entry stored under key `k` by its image under `f`
(a write through the reference returned by `find` or `operator[]`). -/
def mapModify {α κ : Type} [DecidableEq κ] (key : α → κ) (k : κ) (f : α → α) (m : List α) :
    List α :=
  m.map (fun y => if key y = k then f y else y)

/-! ## Linker (`linker.h`, `linker.cpp`) -/

namespace Linker

/-- The `struct SectionTableRecord` of the linker. -/
structure SectionTableRecord where
  id : Nat
  length : Nat
  name : String
  sectionData : List Int
  baseAddress : Nat
  deriving DecidableEq, Repr

/-- The `struct SymbolTableRecord` of the linker; `sectionName` is the field
`section` of the source. -/
structure SymbolTableRecord where
  id : Nat
  offset : Int
  isDefined : Bool
  isLocal : Bool
  isExtern : Bool
  sectionName : String
  name : String
  file : String
  deriving DecidableEq, Repr

/-- The `struct RelocationTableRecord` of the linker; `sectionName` is the
field `section` of the source. -/
structure RelocationTableRecord where
  sectionName : String
  offset : Nat
  type : String
  symbol : String
  file : String
  deriving DecidableEq, Repr

/-- The `struct InputSectionData`: what the linker records about the
contribution of one input file to one section. -/
structure InputSectionData where
  length : Nat
  name : String
  file : String
  baseAddressOfUnaggregatedSection : Nat
  deriving DecidableEq, Repr

/-- The content of one relocatable object file, in the order in which
`fillOutputTablesFromInputFiles` reads it: section table, symbol table,
relocation table.  The fields that the file does not carry (`baseAddress`,
`file`) are overwritten by the reader. -/
structure ObjectFile where
  sections : List SectionTableRecord
  symbols : List SymbolTableRecord
  relocations : List RelocationTableRecord
  deriving DecidableEq, Repr

/-- The binary program image written by `writeBinaryFile`: the segment count
written first, then the segments. -/
structure ProgramImage where
  nSegments : Nat
  segments : List Emulator.ProgramSegmentData
  deriving DecidableEq, Repr

end Linker

/-- The data members of `class Linker`.  `sectionTable` and `symbolTable` are
maps keyed by name, `InputSectionsData` is the two-level map keyed by section
name and then by input file path (kept as one list ordered by that pair), and
`outputFile` is the binary file written by `link`, if any. -/
structure Linker where
  inputFilesPaths : List String
  outputFilePath : String
  linkingErrors : List String
  sectionTable : List Linker.SectionTableRecord
  symbolTable : List Linker.SymbolTableRecord
  externSymbols : List String
  relocationTable : List Linker.RelocationTableRecord
  InputSectionsData : List Linker.InputSectionData
  outputFile : Option Linker.ProgramImage
  deriving DecidableEq, Repr

namespace Linker

/-- The constructor `Linker::Linker(inputFiles, outputPath)`. -/
def new (inputFiles : List String) (outputPath : String) : Linker :=
  { inputFilesPaths := inputFiles
    outputFilePath := outputPath
    linkingErrors := []
    sectionTable := []
    symbolTable := []
    externSymbols := []
    relocationTable := []
    InputSectionsData := []
    outputFile := none }

/-- The call `InputSectionsData[a.name].insert({a.file, a})`: entries are
ordered by section name and then by file path, and an entry already present
under the same two keys is kept. -/
def insertInputSectionData (a : InputSectionData) : List InputSectionData → List InputSectionData
  | [] => [a]
  | b :: bs =>
    if a.name.data < b.name.data ∨ (a.name = b.name ∧ a.file.data < b.file.data) then a :: b :: bs
    else if a.name = b.name ∧ a.file = b.file then b :: bs
    else b :: insertInputSectionData a bs

/-- The lookup `InputSectionsData[name].find(file)`. -/
def findInputSectionData (l : Linker) (name file : String) : Option InputSectionData :=
  l.InputSectionsData.find? (fun a => decide (a.name = name ∧ a.file = file))

/-- The value `InputSectionsData[name][file].baseAddressOfUnaggregatedSection`;
`operator[]` yields a zero-filled record for a missing key. -/
def inputSectionBase (l : Linker) (name file : String) : Nat :=
  match findInputSectionData l name file with
  | some a => a.baseAddressOfUnaggregatedSection
  | none => 0

/-- The value `sectionTable[name].baseAddress`, zero for a missing key. -/
def sectionBase (l : Linker) (name : String) : Nat :=
  match mapFind SectionTableRecord.name name l.sectionTable with
  | some s => s.baseAddress
  | none => 0

/-- Method `Linker::addOutputSection(section, fileName)`. -/
def addOutputSection (l : Linker) (sec : SectionTableRecord) (fileName : String) : Linker :=
  let previousSection := mapFind SectionTableRecord.name sec.name l.sectionTable
  let l :=
    if sec.name ≠ "UNDEF" then
      let previousSectionEnd := match previousSection with
        | some p => p.length
        | none => 0
      let a : InputSectionData :=
        { name := sec.name, file := fileName, length := sec.length,
          baseAddressOfUnaggregatedSection := previousSectionEnd }
      { l with InputSectionsData := insertInputSectionData a l.InputSectionsData }
    else l
  match previousSection with
  | some _ =>
    let aggregate := fun (p : SectionTableRecord) =>
      let newLength := (p.length + sec.length) % 4294967296
      { p with
        length := newLength,
        sectionData :=
          if newLength ≠ 0 then p.sectionData ++ sec.sectionData else p.sectionData }
    { l with sectionTable := mapModify SectionTableRecord.name sec.name aggregate l.sectionTable }
  | none =>
    let sec := { sec with
      id := if sec.name = "UNDEF" then 0 else if sec.name = "ABS" then 1
            else l.sectionTable.length,
      baseAddress := 0 }
    let symbol : SymbolTableRecord :=
      { id := if sec.name = "UNDEF" then 0 else if sec.name = "ABS" then 1
              else l.symbolTable.length
        isDefined := true, isLocal := true, isExtern := false
        name := sec.name, sectionName := sec.name
        offset := sec.baseAddress
        file := fileName }
    { l with
      sectionTable := mapInsert (fun (x : SectionTableRecord) => x.name.data) sec l.sectionTable,
      symbolTable := mapInsert (fun (x : SymbolTableRecord) => x.name.data) symbol l.symbolTable }

/-- Method `Linker::addOutputSymbol(symbol)`. -/
def addOutputSymbol (l : Linker) (symbol : SymbolTableRecord) : Linker × Bool :=
  if symbol.isExtern then
    ({ l with externSymbols := l.externSymbols ++ [symbol.name] }, true)
  else if (mapFind SymbolTableRecord.name symbol.name l.symbolTable).isSome then
    ({ l with linkingErrors :=
        l.linkingErrors ++ ["Multiple definitions of " ++ symbol.name ++ " symbol."] }, false)
  else
    let symbol := { symbol with id := l.symbolTable.length }
    ({ l with symbolTable := mapInsert (fun (x : SymbolTableRecord) => x.name.data) symbol l.symbolTable }, true)

/-- Method `Linker::addOutputRelocation(record)`. -/
def addOutputRelocation (l : Linker) (record : RelocationTableRecord) : Linker :=
  { l with relocationTable := l.relocationTable ++ [record] }

/-- The body of the loop of `fillOutputTablesFromInputFiles` for one opened
file: every section goes to `addOutputSection`, every symbol (tagged with the
file) to `addOutputSymbol`, whose result the loop does not look at, and every
relocation record (tagged with the file) to `addOutputRelocation`. -/
def readObjectFile (l : Linker) (filePath : String) (o : ObjectFile) : Linker :=
  let l := o.sections.foldl (fun l sec => addOutputSection l sec filePath) l
  let l := o.symbols.foldl (fun l symbol => (addOutputSymbol l { symbol with file := filePath }).1) l
  o.relocations.foldl (fun l r => addOutputRelocation l { r with file := filePath }) l

/-- The loop of `fillOutputTablesFromInputFiles` over the remaining input
paths; `fs` gives the content of the file at a path, `none` when it cannot be
opened. -/
def fillFrom (fs : String → Option ObjectFile) (l : Linker) : List String → Linker × Bool
  | [] => (l, true)
  | filePath :: rest =>
    match fs filePath with
    | none => ({ l with linkingErrors := l.linkingErrors ++ [filePath ++ " opening failed."] }, false)
    | some o => fillFrom fs (readObjectFile l filePath o) rest

/-- Method `Linker::fillOutputTablesFromInputFiles`. -/
def fillOutputTablesFromInputFiles (fs : String → Option ObjectFile) (l : Linker) :
    Linker × Bool :=
  fillFrom fs l l.inputFilesPaths

/-- The loop of `resolveExternSymbols` over the remaining extern names. -/
def resolveExternFrom (l : Linker) : List String → Linker × Bool
  | [] => (l, true)
  | externSymbol :: rest =>
    if (mapFind SymbolTableRecord.name externSymbol l.symbolTable).isNone then
      ({ l with linkingErrors :=
          l.linkingErrors ++ ["Unresolved definition of " ++ externSymbol ++ " symbol."] }, false)
    else resolveExternFrom l rest

/-- Method `Linker::resolveExternSymbols`. -/
def resolveExternSymbols (l : Linker) : Linker × Bool :=
  resolveExternFrom l l.externSymbols

/-- The map `sectionTableOrderedByID` of `setSectionsBaseAddress`: section
names keyed by `section.id` (as an `int`), filled by iterating the section
table in name order, the first entry of an id being the one kept. -/
def sectionNamesOrderedByID (l : Linker) : List (Int × String) :=
  l.sectionTable.foldl (fun m s => mapInsert Prod.fst (toInt (s.id : Int), s.name) m) []

/-- The write `a.baseAddressOfUnaggregatedSection += base` on the entry of
`InputSectionsData[name]` for `fileName`, when there is one. -/
def shiftInputSection (name : String) (base : Nat) (l : Linker) (fileName : String) : Linker :=
  match findInputSectionData l name fileName with
  | some _ =>
    let shift := fun (a : InputSectionData) =>
      if a.name = name ∧ a.file = fileName then
        { a with baseAddressOfUnaggregatedSection :=
            (a.baseAddressOfUnaggregatedSection + base) % 4294967296 }
      else a
    { l with InputSectionsData := l.InputSectionsData.map shift }
  | none => l

/-- The second loop of `setSectionsBaseAddress`, over the remaining entries of
`sectionTableOrderedByID`, with the running `currentSectionVA`. -/
def placeSections (l : Linker) (currentSectionVA : Nat) : List (Int × String) → Linker × Bool
  | [] => (l, true)
  | item :: rest =>
    match mapFind SectionTableRecord.name item.2 l.sectionTable with
    | none => placeSections l currentSectionVA rest
    | some sec =>
      if sec.name = "UNDEF" ∨ sec.name = "ABS" then placeSections l currentSectionVA rest
      else
        let baseAddress := currentSectionVA
        let place := fun (s : SectionTableRecord) => { s with baseAddress := baseAddress }
        let l := { l with
          sectionTable := mapModify SectionTableRecord.name sec.name place l.sectionTable }
        let next := (currentSectionVA + sec.length) % 4294967296
        if baseAddress ≥ 0xFF00 ∧ baseAddress ≤ 0xFFFF then
          let message := "Section " ++ sec.name ++ " overlaps with memory reserved for registers."
          ({ l with linkingErrors := l.linkingErrors ++ [message] }, false)
        else
          let l := l.inputFilesPaths.foldl (shiftInputSection sec.name baseAddress) l
          placeSections l next rest

/-- The update of one symbol in the last loop of `setSectionsBaseAddress`.  A
section symbol takes the base address of its section (zero when the table has
no such section), any other symbol outside `ABS` is moved by the base of the
contribution of its file to its section. -/
def rehomeSymbol (l : Linker) (symbol : SymbolTableRecord) : SymbolTableRecord :=
  if symbol.name = symbol.sectionName then
    { symbol with offset := toInt (sectionBase l symbol.name : Nat) }
  else if symbol.sectionName ≠ "ABS" then
    let base : Nat := inputSectionBase l symbol.sectionName symbol.file
    { symbol with offset := toInt (symbol.offset + (base : Int)) }
  else symbol

/-- Method `Linker::setSectionsBaseAddress`. -/
def setSectionsBaseAddress (l : Linker) : Linker × Bool :=
  match placeSections l 0 (sectionNamesOrderedByID l) with
  | (l, false) => (l, false)
  | (l, true) => ({ l with symbolTable := l.symbolTable.map (rehomeSymbol l) }, true)

/-- The first loop of `resolveRelocations` on one record: `r.offset` becomes
the offset in the aggregated section (arithmetic in `unsigned`). -/
def translateRelocation (l : Linker) (r : RelocationTableRecord) : RelocationTableRecord :=
  let moved : Nat := (r.offset + inputSectionBase l r.sectionName r.file) % 4294967296
  { r with offset := toUnsigned ((moved : Int) - (sectionBase l r.sectionName : Nat)) }

/-- Read of `sectionTable[name].sectionData[i]`. -/
def sectionByte (l : Linker) (name : String) (i : Nat) : Int :=
  match mapFind SectionTableRecord.name name l.sectionTable with
  | some s => s.sectionData.getD i 0
  | none => 0

/-- The assignment `sectionTable[name].sectionData[i] = v`, with the conversion
to `char`. -/
def setSectionByte (l : Linker) (name : String) (i : Nat) (v : Int) : Linker :=
  let store := fun (s : SectionTableRecord) =>
    { s with sectionData := s.sectionData.set i (toChar v) }
  { l with sectionTable := mapModify SectionTableRecord.name name store l.sectionTable }

/-- The body of the second loop of `resolveRelocations` for one record: the
linker with the field patched, and whether the record is erased.  The two
bytes are read as (signed) `char`, and `(int)lByte | hByte << 8` is the
bitwise or of the two promoted values. -/
def applyRelocation (l : Linker) (r : RelocationTableRecord) : Linker × Bool :=
  let isLittleEndian : Bool := decide (r.type.back ≠ 'C')
  let patchingPlaceAddition : Int :=
    if (mapFind SectionTableRecord.name r.symbol l.sectionTable).isSome then
      toInt (inputSectionBase l r.symbol r.file : Nat)
    else match mapFind SymbolTableRecord.name r.symbol l.symbolTable with
      | some s => s.offset
      | none => 0
  let isPcRelative : Bool := decide (r.type = "R_HYP_16_PC_C")
  let patchingPlaceAddress : Nat :=
    if isPcRelative then
      toUnsigned ((if isLittleEndian then (r.offset : Int) else (r.offset : Int) - 1)
        + (sectionBase l r.sectionName : Nat))
    else 0
  let isSymbolLocalWithPatchedSection : Bool :=
    isPcRelative &&
      (match mapFind SymbolTableRecord.name r.symbol l.symbolTable with
       | some s => decide (s.sectionName = r.sectionName)
       | none => false)
  let higherIndex : Nat := toUnsigned ((r.offset : Int) + (if isLittleEndian then 1 else -1))
  let lByte := sectionByte l r.sectionName r.offset
  let hByte := sectionByte l r.sectionName higherIndex
  let finalValue : Int :=
    toInt (bitOr lByte (hByte * 256) + patchingPlaceAddition - (patchingPlaceAddress : Nat))
  let l := setSectionByte l r.sectionName r.offset (finalValue % 256)
  let l := setSectionByte l r.sectionName higherIndex ((finalValue / 256) % 256)
  (l, isSymbolLocalWithPatchedSection)

/-- The second loop of `resolveRelocations` over the remaining records; the
records that are not erased are collected in order. -/
def applyRelocations (l : Linker) :
    List RelocationTableRecord → Linker × List RelocationTableRecord
  | [] => (l, [])
  | r :: rest =>
    match applyRelocation l r with
    | (l1, erased) =>
      match applyRelocations l1 rest with
      | (l2, kept) => (l2, if erased then kept else r :: kept)

/-- Method `Linker::resolveRelocations`. -/
def resolveRelocations (l : Linker) : Linker :=
  let l := { l with relocationTable := l.relocationTable.map (translateRelocation l) }
  match applyRelocations l l.relocationTable with
  | (l1, kept) => { l1 with relocationTable := kept }

/-- The map `sectionTableOrderedByID` of `writeBinaryFile`: section records
keyed by `section.id`. -/
def sectionsOrderedByID (l : Linker) : List SectionTableRecord :=
  l.sectionTable.foldl (fun m s => mapInsert (fun (x : SectionTableRecord) => toInt (x.id : Int)) s m) []

/-- Method `Linker::writeBinaryFile`, the output file being opened with success. -/
def writeBinaryFile (l : Linker) : Linker × Bool :=
  let tmp := l.sectionTable.length
  let tmp := if (mapFind SectionTableRecord.name "UNDEF" l.sectionTable).isSome then tmp - 1 else tmp
  let tmp := if (mapFind SectionTableRecord.name "ABS" l.sectionTable).isSome then tmp - 1 else tmp
  let segments := ((sectionsOrderedByID l).filter
      (fun s => decide (¬ (s.name = "UNDEF" ∨ s.name = "ABS")))).map
    (fun s => (⟨s.sectionData, s.baseAddress⟩ : Emulator.ProgramSegmentData))
  ({ l with outputFile := some ⟨tmp, segments⟩ }, true)

/-- Method `Linker::link`.  The text dump of `writeHexFile` is not part of the model
and its file is taken to open. -/
def link (fs : String → Option ObjectFile) (l : Linker) : Linker × Bool :=
  match fillOutputTablesFromInputFiles fs l with
  | (l, false) => (l, false)
  | (l, true) =>
    match resolveExternSymbols l with
    | (l, false) => (l, false)
    | (l, true) =>
      match setSectionsBaseAddress l with
      | (l, false) => (l, false)
      | (l, true) => writeBinaryFile (resolveRelocations l)

end Linker

/-! ## Assembler (`assembler.h`, `regexes.h`, `assembler.cpp`)

A line is matched against the regular expressions of the source in their
order.  Every expression is anchored at both ends, so a match is a
decomposition of the whole line; the recognisers below compute that
decomposition on the list of characters of the line. -/

namespace Assembler

/-- The `struct SymbolTableRecord` of the assembler; `sectionName` is the
field `section` of the source. -/
structure SymbolTableRecord where
  id : Nat
  offset : Int
  isDefined : Bool
  isLocal : Bool
  isExtern : Bool
  sectionName : String
  name : String
  deriving DecidableEq, Repr

/-- The `struct SectionTableRecord` of the assembler. -/
structure SectionTableRecord where
  id : Nat
  length : Nat
  name : String
  sectionData : List Int
  deriving DecidableEq, Repr

/-- The `struct ForwardReferenceTableRecord`; `sectionName` is the field
`section` of the source. -/
structure ForwardReferenceTableRecord where
  sectionName : String
  offset : Nat
  isLittleEndian : Bool
  operation : Char
  currentLine : Nat
  symbol : String
  deriving DecidableEq, Repr

/-- The `struct RelocationTableRecord` of the assembler; `sectionName` is the
field `section` of the source. -/
structure RelocationTableRecord where
  sectionName : String
  offset : Nat
  type : String
  symbol : String
  deriving DecidableEq, Repr

end Assembler

/-- The data members of `class Assembler` that the pass reads and writes.
`errorMessages` is the map from line number to message; the two tables keyed
by name are ordered maps. -/
structure Assembler where
  currentLine : Nat
  errorOccurred : Bool
  errorMessages : List (Nat × String)
  nextSymbolID : Nat
  symbolTable : List Assembler.SymbolTableRecord
  nextSectionID : Nat
  sectionTable : List Assembler.SectionTableRecord
  forwardReferenceTable : List Assembler.ForwardReferenceTableRecord
  relocationTable : List Assembler.RelocationTableRecord
  locationCounter : Nat
  currentSection : String
  deriving DecidableEq, Repr

namespace Assembler

/-- Pattern `decimalPattern`, `-?[0-9]+`, matched against the whole text. -/
def matchesDecimal (s : List Char) : Bool :=
  let digits := if s.head? = some '-' then s.drop 1 else s
  !digits.isEmpty && digits.all Char.isDigit

/-- A character of the class `[0-9A-Fa-f]`. -/
def isHexDigit (c : Char) : Bool :=
  c.isDigit || ('A' ≤ c && c ≤ 'F') || ('a' ≤ c && c ≤ 'f')

/-- Pattern `hexadecimalPattern`, `0[xX][0-9A-Fa-f]+`, matched against the
whole text. -/
def matchesHexadecimal (s : List Char) : Bool :=
  s.head? = some '0' && ((s.drop 1).head? = some 'x' || (s.drop 1).head? = some 'X')
    && !(s.drop 2).isEmpty && (s.drop 2).all isHexDigit

/-- Pattern `symbolPattern`, `[a-zA-Z][a-zA-Z_0-9]*`, matched against the
whole text. -/
def matchesSymbol (s : List Char) : Bool :=
  match s with
  | [] => false
  | c :: cs => c.isAlpha && cs.all (fun d => d.isAlphanum || d == '_')

/-- Pattern `literalPattern`. -/
def matchesLiteral (s : List Char) : Bool := matchesDecimal s || matchesHexadecimal s

/-- Pattern `literalOrSymbolPattern`. -/
def matchesLiteralOrSymbol (s : List Char) : Bool := matchesLiteral s || matchesSymbol s

/-- The group `(r[0-7]|psw)` matched against the whole text, with the index
computed from it: `r != "psw" ? (r.at(1) - '0') : 8`. -/
def parseRegister (s : List Char) : Option (Fin 9) :=
  if s = ['p', 's', 'w'] then some 8
  else if s = ['r', '0'] then some 0
  else if s = ['r', '1'] then some 1
  else if s = ['r', '2'] then some 2
  else if s = ['r', '3'] then some 3
  else if s = ['r', '4'] then some 4
  else if s = ['r', '5'] then some 5
  else if s = ['r', '6'] then some 6
  else if s = ['r', '7'] then some 7
  else none

/-- The decomposition of a text at the first occurrence of `sep`. -/
def splitFirst (sep : Char) (s : List Char) : Option (List Char × List Char) :=
  match s.dropWhile (fun c => c != sep) with
  | [] => none
  | _ :: rest => some (s.takeWhile (fun c => c != sep), rest)

/-- The text left after the prefix `p`, when the text starts with it. -/
def stripPrefix (p s : List Char) : Option (List Char) :=
  if p.isPrefixOf s then some (s.drop p.length) else none

/-- The text before the final character `c`, when the text ends with it. -/
def stripLast (c : Char) (s : List Char) : Option (List Char) :=
  if s.getLast? = some c then some s.dropLast else none

/-- The group `(.*)`: `.` matches every character except the line
terminators. -/
def matchesAny (s : List Char) : Bool := s.all (fun c => c != '\n' && c != '\r')

/-- The mnemonics of `^(halt|iret|ret)$`. -/
inductive NoOperandCommand where
  | halt | iret | ret
  deriving DecidableEq, Repr

/-- The mnemonics of `^(int|push|pop|not) (r[0-7]|psw)$`. -/
inductive OneRegisterCommand where
  | int | push | pop | not
  deriving DecidableEq, Repr

/-- The mnemonics of the two-register expression. -/
inductive TwoRegisterCommand where
  | xchg | add | sub | mul | div | cmp | and | or | xor | test | shl | shr
  deriving DecidableEq, Repr

/-- The mnemonics of `^(call|jmp|jeq|jne|jgt) (.*)$`. -/
inductive JumpCommand where
  | call | jmp | jeq | jne | jgt
  deriving DecidableEq, Repr

/-- The mnemonics of `^(ldr|str) (r[0-7]|psw),(.*)$`. -/
inductive LoadStoreCommand where
  | ldr | str
  deriving DecidableEq, Repr

/-- The alternative of `(halt|iret|ret)` that a text is. -/
def parseNoOperandCommand (s : List Char) : Option NoOperandCommand :=
  if s = "halt".data then some .halt
  else if s = "iret".data then some .iret
  else if s = "ret".data then some .ret
  else none

/-- The alternative of `(int|push|pop|not)` that a text is. -/
def parseOneRegisterCommand (s : List Char) : Option OneRegisterCommand :=
  if s = "int".data then some .int
  else if s = "push".data then some .push
  else if s = "pop".data then some .pop
  else if s = "not".data then some .not
  else none

/-- The alternative of `(xchg|add|sub|mul|div|cmp|and|or|xor|test|shl|shr)`
that a text is. -/
def parseTwoRegisterCommand (s : List Char) : Option TwoRegisterCommand :=
  if s = "xchg".data then some .xchg
  else if s = "add".data then some .add
  else if s = "sub".data then some .sub
  else if s = "mul".data then some .mul
  else if s = "div".data then some .div
  else if s = "cmp".data then some .cmp
  else if s = "and".data then some .and
  else if s = "or".data then some .or
  else if s = "xor".data then some .xor
  else if s = "test".data then some .test
  else if s = "shl".data then some .shl
  else if s = "shr".data then some .shr
  else none

/-- The alternative of `(call|jmp|jeq|jne|jgt)` that a text is. -/
def parseJumpCommand (s : List Char) : Option JumpCommand :=
  if s = "call".data then some .call
  else if s = "jmp".data then some .jmp
  else if s = "jeq".data then some .jeq
  else if s = "jne".data then some .jne
  else if s = "jgt".data then some .jgt
  else none

/-- The alternative of `(ldr|str)` that a text is. -/
def parseLoadStoreCommand (s : List Char) : Option LoadStoreCommand :=
  if s = "ldr".data then some .ldr
  else if s = "str".data then some .str
  else none

/-- The operand syntaxes that `processCommand` tells apart, with the captured
groups.  `absolute` is `<symbol/literal>` for a jump and `$<symbol/literal>`
for a load or store; `memdir` is `*<symbol/literal>` for a jump and
`<symbol/literal>` for a load or store; `displacement` carries the value of
the local `operation` next to the register and the displacement text. -/
inductive Operand where
  | regdir (r : Fin 9)
  | regind (r : Fin 9)
  | absolute (literalOrSymbol : List Char)
  | pcrel (symbol : List Char)
  | displacement (r : Fin 9) (operation : Char) (text : List Char)
  | memdir (literalOrSymbol : List Char)
  deriving DecidableEq, Repr

/-- A match of `<open>(r[0-7]|psw) <sign> (<literalOrSymbol>)\]` against the
whole operand, for the opening text `open` (`*[` or `[`) and the sign
character `sign`: the register index and the displacement text. -/
def matchDisplacement (opening : List Char) (sign : Char) (operand : List Char) :
    Option (Fin 9 × List Char) :=
  match stripPrefix opening operand with
  | none => none
  | some inner =>
    match splitFirst ' ' inner with
    | none => none
    | some (regText, rest) =>
      match parseRegister regText, stripPrefix [sign, ' '] rest with
      | some r, some tail =>
        match stripLast ']' tail with
        | some text => if matchesLiteralOrSymbol text then some (r, text) else none
        | none => none
      | _, _ => none

/-- The cascade of operand expressions of the jump branch, in source order. -/
def classifyJumpOperand (operand : List Char) : Option Operand :=
  match (stripPrefix ['*'] operand).bind parseRegister with
  | some r => some (.regdir r)
  | none =>
  match ((stripPrefix ['*', '['] operand).bind (stripLast ']')).bind parseRegister with
  | some r => some (.regind r)
  | none =>
  if matchesLiteralOrSymbol operand then some (.absolute operand)
  else
  match (stripPrefix ['%'] operand).filter matchesSymbol with
  | some symbol => some (.pcrel symbol)
  | none =>
  match (matchDisplacement ['*', '['] '+' operand).orElse
      (fun _ => matchDisplacement ['*', '['] '-' operand) with
  | some (r, text) =>
    some (.displacement r
      (if (matchDisplacement ['*', '['] '-' operand).isSome then '-' else '+') text)
  | none =>
  match (stripPrefix ['*'] operand).filter matchesLiteralOrSymbol with
  | some text => some (.memdir text)
  | none => none

/-- The cascade of operand expressions of the load/store branch, in source
order.  The test that sets `operation` to `'-'` is the one of the source, an
expression that starts with `\*\[`. -/
def classifyLoadStoreOperand (operand : List Char) : Option Operand :=
  match parseRegister operand with
  | some r => some (.regdir r)
  | none =>
  match ((stripPrefix ['['] operand).bind (stripLast ']')).bind parseRegister with
  | some r => some (.regind r)
  | none =>
  match (stripPrefix ['$'] operand).filter matchesLiteralOrSymbol with
  | some text => some (.absolute text)
  | none =>
  match (stripPrefix ['%'] operand).filter matchesSymbol with
  | some symbol => some (.pcrel symbol)
  | none =>
  match (matchDisplacement ['['] '+' operand).orElse
      (fun _ => matchDisplacement ['['] '-' operand) with
  | some (r, text) =>
    some (.displacement r
      (if (matchDisplacement ['*', '['] '-' operand).isSome then '-' else '+') text)
  | none =>
  if matchesLiteralOrSymbol operand then some (.memdir operand)
  else none

/-- The outcome of the cascade of command expressions of `processCommand`:
the expression that matched first, with its captured groups.  For a jump or a
load/store the operand is `none` when no operand expression matches. -/
inductive CommandForm where
  | noOperand (command : NoOperandCommand)
  | oneRegister (command : OneRegisterCommand) (r : Fin 9)
  | twoRegisters (command : TwoRegisterCommand) (rD rS : Fin 9)
  | jump (command : JumpCommand) (operand : Option Operand)
  | loadStore (command : LoadStoreCommand) (rD : Fin 9) (operand : Option Operand)
  deriving DecidableEq, Repr

/-- A match of `^(int|push|pop|not) (r[0-7]|psw)$`. -/
def matchOneRegister (line : List Char) : Option CommandForm :=
  match splitFirst ' ' line with
  | none => none
  | some (c, r) =>
    match parseOneRegisterCommand c, parseRegister r with
    | some command, some index => some (.oneRegister command index)
    | _, _ => none

/-- A match of the two-register expression. -/
def matchTwoRegisters (line : List Char) : Option CommandForm :=
  match splitFirst ' ' line with
  | none => none
  | some (c, rest) =>
    match parseTwoRegisterCommand c, splitFirst ',' rest with
    | some command, some (rD, rS) =>
      match parseRegister rD, parseRegister rS with
      | some d, some s => some (.twoRegisters command d s)
      | _, _ => none
    | _, _ => none

/-- A match of `^(call|jmp|jeq|jne|jgt) (.*)$`, with the operand classified. -/
def matchJump (line : List Char) : Option CommandForm :=
  match splitFirst ' ' line with
  | none => none
  | some (c, operand) =>
    match parseJumpCommand c with
    | some command =>
      if matchesAny operand then some (.jump command (classifyJumpOperand operand)) else none
    | none => none

/-- A match of `^(ldr|str) (r[0-7]|psw),(.*)$`, with the operand classified. -/
def matchLoadStore (line : List Char) : Option CommandForm :=
  match splitFirst ' ' line with
  | none => none
  | some (c, rest) =>
    match parseLoadStoreCommand c, splitFirst ',' rest with
    | some command, some (rD, operand) =>
      match parseRegister rD with
      | some d =>
        if matchesAny operand then
          some (.loadStore command d (classifyLoadStoreOperand operand))
        else none
      | none => none
    | _, _ => none

/-- The cascade of command expressions of `processCommand`, in source order. -/
def classifyCommand (line : List Char) : Option CommandForm :=
  match parseNoOperandCommand line with
  | some command => some (.noOperand command)
  | none =>
    (matchOneRegister line).orElse fun _ =>
    (matchTwoRegisters line).orElse fun _ =>
    (matchJump line).orElse fun _ =>
    matchLoadStore line

/-- The range check of `std::stoi`: the value, or no result when the call
throws `std::out_of_range` (the exception is not caught anywhere). -/
def stoi (v : Int) : Option Int :=
  if -2147483648 ≤ v ∧ v ≤ 2147483647 then some v else none

/-- The value of one digit of a numeral in base 10 or 16. -/
def digitValue (c : Char) : Nat :=
  if c.isDigit then c.toNat - 48
  else if 'a' ≤ c ∧ c ≤ 'f' then c.toNat - 87
  else c.toNat - 55

/-- The value of a run of digits in the given base. -/
def numeral (base : Nat) (digits : List Char) : Nat :=
  digits.foldl (fun n c => n * base + digitValue c) 0

/-- Method `Assembler::getDecimalFromLiteral`.  The local `converted` is not
initialised in the source; `junk` stands for the value it holds when neither
expression matches.  No result means that `stoi` threw. -/
def getDecimalFromLiteral (junk : Int) (literal : List Char) : Option Int :=
  let afterHex : Option Int :=
    if matchesHexadecimal literal then stoi (numeral 16 (literal.drop 2)) else some junk
  match afterHex with
  | none => none
  | some converted =>
    if matchesDecimal literal then
      stoi (if literal.head? = some '-' then -(numeral 10 (literal.drop 1) : Int)
            else (numeral 10 literal : Int))
    else some converted

/-- The call `errorMessages.insert({currentLine, message})`. -/
def insertError (a : Assembler) (message : String) : Assembler :=
  { a with errorMessages :=
      mapInsert (fun (x : Nat × String) => x.1) (a.currentLine, message) a.errorMessages }

/-- The call `sectionTable[currentSection].sectionData.push_back(v)`, with the
conversion of `v` to `char`.  The current section is an entry of the section
table in every state the pass reaches. -/
def pushByte (a : Assembler) (v : Int) : Assembler :=
  let store := fun (s : SectionTableRecord) => { s with sectionData := s.sectionData ++ [toChar v] }
  { a with sectionTable := mapModify SectionTableRecord.name a.currentSection store a.sectionTable }

/-- The two `push_back` calls that store the payload `tmpValue`, high byte
first. -/
def pushPayload (a : Assembler) (tmpValue : Int) : Assembler :=
  pushByte (pushByte a ((tmpValue / 256) % 256)) (tmpValue % 256)

/-- The statement `locationCounter += n`. -/
def advance (a : Assembler) (n : Nat) : Assembler :=
  { a with locationCounter := a.locationCounter + n }

/-- Method `Assembler::absoluteAddressing(symbol, isLittleEndian, operation)`: the
state with the record added, and the value returned. -/
def absoluteAddressing (a : Assembler) (symbol : String) (isLittleEndian : Bool)
    (operation : Char) : Assembler × Int :=
  match mapFind SymbolTableRecord.name symbol a.symbolTable with
  | some s =>
    if s.sectionName = "ABS" then (a, s.offset)
    else
      let record : RelocationTableRecord :=
        { sectionName := a.currentSection
          offset := a.locationCounter + (if isLittleEndian then 0 else 4)
          type := if isLittleEndian then "R_HYP_16" else "R_HYP_16_C"
          symbol := if !s.isLocal || s.isExtern then s.name else s.sectionName }
      ({ a with relocationTable := a.relocationTable ++ [record] },
        if !s.isLocal || s.isExtern then 0 else s.offset)
  | none =>
    let record : ForwardReferenceTableRecord :=
      { sectionName := a.currentSection
        offset := a.locationCounter + (if isLittleEndian then 0 else 3)
        isLittleEndian := isLittleEndian
        operation := operation
        symbol := symbol
        currentLine := a.currentLine }
    ({ a with forwardReferenceTable := a.forwardReferenceTable ++ [record] }, 0)

/-- Method `Assembler::relativeAddressing(symbol)`: the state with the record added,
and the value returned. -/
def relativeAddressing (a : Assembler) (symbol : String) : Assembler × Int :=
  match mapFind SymbolTableRecord.name symbol a.symbolTable with
  | some s =>
    if s.sectionName = "ABS" then (a, toInt (s.offset + (-2)))
    else if s.isDefined ∧ s.sectionName = a.currentSection then
      (a, toInt (s.offset - ((a.locationCounter : Int) + 3) + (-2)))
    else
      let record : RelocationTableRecord :=
        { sectionName := a.currentSection
          offset := a.locationCounter + 4
          type := "R_HYP_16_PC_C"
          symbol := if !s.isLocal || s.isExtern then s.name else s.sectionName }
      ({ a with relocationTable := a.relocationTable ++ [record] },
        if !s.isLocal || s.isExtern then -2 else toInt (s.offset + (-2)))
  | none =>
    let record : ForwardReferenceTableRecord :=
      { sectionName := a.currentSection
        offset := a.locationCounter + 3
        isLittleEndian := false
        operation := 'R'
        symbol := symbol
        currentLine := a.currentLine }
    ({ a with forwardReferenceTable := a.forwardReferenceTable ++ [record] }, 0)

/-- The payload `tmpValue` of an operand text that is a symbol or a literal:
`absoluteAddressing` for a symbol, `getDecimalFromLiteral` for a literal, the
literal text being `prefixText` followed by the operand text. -/
def operandValue (junk : Int) (a : Assembler) (text : List Char) (operation : Char)
    (prefixText : List Char) : Option (Assembler × Int) :=
  if matchesSymbol text then some (absoluteAddressing a (String.mk text) false operation)
  else (getDecimalFromLiteral junk (prefixText ++ text)).map (fun v => (a, v))

/-- The first byte of a no-operand command. -/
def NoOperandCommand.opcode : NoOperandCommand → Int
  | .halt => 0x00
  | .iret => 0x20
  | .ret => 0x40

/-- The first byte of a two-register command, the local `tmpValue`. -/
def TwoRegisterCommand.opcode : TwoRegisterCommand → Int
  | .xchg => 0x60
  | .add => 0x70
  | .sub => 0x71
  | .mul => 0x72
  | .div => 0x73
  | .cmp => 0x74
  | .and => 0x81
  | .or => 0x82
  | .xor => 0x83
  | .test => 0x84
  | .shl => 0x90
  | .shr => 0x91

/-- The first byte of a jump command. -/
def JumpCommand.opcode : JumpCommand → Int
  | .call => 0x30
  | .jmp => 0x50
  | .jeq => 0x51
  | .jne => 0x52
  | .jgt => 0x53

/-- The first byte of a load or store command. -/
def LoadStoreCommand.opcode : LoadStoreCommand → Int
  | .ldr => 0xA0
  | .str => 0xB0

/-- The bytes after the first one of a jump command, and the step of the
location counter, for a classified operand. -/
def processJumpOperand (junk : Int) (a : Assembler) : Operand → Option (Assembler × Bool)
  | .regdir r =>
    some (advance (pushByte (pushByte a (bitOr 0xF0 (r : Int))) 0x01) 3, true)
  | .regind r =>
    some (advance (pushByte (pushByte a (bitOr 0xF0 (r : Int))) 0x02) 3, true)
  | .absolute text =>
    let a := pushByte (pushByte a 0xFF) 0x00
    (operandValue junk a text '+' []).map
      (fun (p : Assembler × Int) => (advance (pushPayload p.1 p.2) 5, true))
  | .pcrel symbol =>
    let a := pushByte (pushByte a 0xF7) 0x05
    let p := relativeAddressing a (String.mk symbol)
    some (advance (pushPayload p.1 p.2) 5, true)
  | .displacement r operation text =>
    let a := pushByte (pushByte a (bitOr 0xF0 (r : Int))) 0x03
    (operandValue junk a text operation (if operation = '-' then ['-'] else [])).map
      (fun (p : Assembler × Int) => (advance (pushPayload p.1 p.2) 5, true))
  | .memdir text =>
    let a := pushByte (pushByte a 0xFF) 0x04
    (operandValue junk a text '+' []).map
      (fun (p : Assembler × Int) => (advance (pushPayload p.1 p.2) 5, true))

/-- The bytes after the first one of a load or store command with
destination register `rD`, and the step of the location counter, for a
classified operand. -/
def processLoadStoreOperand (junk : Int) (a : Assembler) (rD : Fin 9) :
    Operand → Option (Assembler × Bool)
  | .regdir r =>
    some (advance (pushByte (pushByte a (bitOr (r : Int) ((rD : Int) * 16))) 0x01) 3, true)
  | .regind r =>
    some (advance (pushByte (pushByte a (bitOr (r : Int) ((rD : Int) * 16))) 0x02) 3, true)
  | .absolute text =>
    let a := pushByte (pushByte a (bitOr 0x0F ((rD : Int) * 16))) 0x00
    (operandValue junk a text '+' []).map
      (fun (p : Assembler × Int) => (advance (pushPayload p.1 p.2) 5, true))
  | .pcrel symbol =>
    let a := pushByte (pushByte a (bitOr 0x07 ((rD : Int) * 16))) 0x03
    let p := relativeAddressing a (String.mk symbol)
    some (advance (pushPayload p.1 p.2) 5, true)
  | .displacement r operation text =>
    let a := pushByte (pushByte a (bitOr (r : Int) ((rD : Int) * 16))) 0x03
    (operandValue junk a text operation (if operation = '-' then ['-'] else [])).map
      (fun (p : Assembler × Int) => (advance (pushPayload p.1 p.2) 5, true))
  | .memdir text =>
    let a := pushByte (pushByte a (bitOr 0x0F ((rD : Int) * 16))) 0x04
    (operandValue junk a text '+' []).map
      (fun (p : Assembler × Int) => (advance (pushPayload p.1 p.2) 5, true))

/-- The branch of `processCommand` taken for a matched expression. -/
def processForm (junk : Int) (a : Assembler) (inputLine : String) :
    CommandForm → Option (Assembler × Bool)
  | .noOperand command => some (advance (pushByte a command.opcode) 1, true)
  | .oneRegister command r =>
    if command = .int ∨ command = .not then
      let a := pushByte a (if command = .int then 0x10 else 0x80)
      let a := pushByte a (bitOr 0x0F ((r : Int) * 16))
      some (advance a 2, true)
    else
      let a := pushByte a (if command = .push then 0xB0 else 0xA0)
      let a := pushByte a (bitOr 0x06 ((r : Int) * 16))
      let a := pushByte a (if command = .push then 0x12 else 0x42)
      some (advance a 3, true)
  | .twoRegisters command rD rS =>
    let a := pushByte a (toChar command.opcode)
    let a := pushByte a (bitOr (rS : Int) ((rD : Int) * 16))
    some (advance a 2, true)
  | .jump command operand =>
    let a := pushByte a (command.opcode % 256)
    match operand with
    | some o => processJumpOperand junk a o
    | none => some (insertError a ("The addressing mode is not supported. " ++ inputLine), false)
  | .loadStore command rD operand =>
    let a := pushByte a (command.opcode % 256)
    match operand with
    | some o => processLoadStoreOperand junk a rD o
    | none => some (insertError a ("The addressing mode is not supported. " ++ inputLine), false)

/-- Method `Assembler::processCommand(inputLine)`.  No result means that the call
does not return (`stoi` threw); `junk` is the value of the uninitialised local
of `getDecimalFromLiteral`. -/
def processCommand (junk : Int) (a : Assembler) (inputLine : String) :
    Option (Assembler × Bool) :=
  if a.currentSection = "" then
    some (insertError a ("Command is not specified within a section. " ++ inputLine), false)
  else
    match classifyCommand inputLine.data with
    | some form => processForm junk a inputLine form
    | none =>
      some (insertError a ("The assembler command is not supported. " ++ inputLine), false)

/-- The bytes `sectionTable[name].sectionData`. -/
def sectionDataOf (a : Assembler) (name : String) : List Int :=
  match mapFind SectionTableRecord.name name a.sectionTable with
  | some s => s.sectionData
  | none => []

/-- Method `Assembler::addSymbol(symbolLabel)`, the definition of a label. -/
def addSymbol (a : Assembler) (symbolLabel : String) : Assembler × Bool :=
  if a.currentSection = "" then
    (insertError a "Symbol as label has to be defined in a section.", false)
  else
    match mapFind SymbolTableRecord.name symbolLabel a.symbolTable with
    | some symbol =>
      if symbol.isDefined ∨ symbol.isExtern then
        let messageString :=
          if symbol.isDefined then "Symbol is previously defined."
          else "Symbol with the same name is already imported."
        (insertError a messageString, false)
      else
        let define := fun (s : SymbolTableRecord) =>
          { s with isDefined := true, offset := (a.locationCounter : Int),
                   sectionName := a.currentSection }
        ({ a with symbolTable := mapModify SymbolTableRecord.name symbolLabel define a.symbolTable },
          true)
    | none =>
      let symbol : SymbolTableRecord :=
        { id := a.nextSymbolID, isDefined := true, isLocal := true, isExtern := false
          name := symbolLabel, sectionName := a.currentSection
          offset := (a.locationCounter : Int) }
      ({ a with
          nextSymbolID := a.nextSymbolID + 1,
          symbolTable := mapInsert (fun (x : SymbolTableRecord) => x.name.data) symbol a.symbolTable },
        true)

/-- Method `Assembler::addSectionSymbol(sectionName)`, the `.section` directive. -/
def addSectionSymbol (a : Assembler) (sectionName : String) : Assembler × Bool :=
  let a :=
    if a.currentSection ≠ "" then
      let close := fun (s : SectionTableRecord) => { s with length := a.locationCounter }
      { a with sectionTable := mapModify SectionTableRecord.name a.currentSection close a.sectionTable }
    else a
  let a := { a with locationCounter := 0, currentSection := sectionName }
  let sec : SectionTableRecord :=
    { id := a.nextSectionID, name := sectionName, length := 0, sectionData := [] }
  let a := { a with
    nextSectionID := a.nextSectionID + 1,
    sectionTable := mapInsert (fun (x : SectionTableRecord) => x.name.data) sec a.sectionTable }
  ((addSymbol a sectionName).1, true)

/-- Method `Assembler::addGlobalSymbol(symbolName)`, the `.global` directive. -/
def addGlobalSymbol (a : Assembler) (symbolName : String) : Assembler × Bool :=
  match mapFind SymbolTableRecord.name symbolName a.symbolTable with
  | some symbol =>
    if symbol.isExtern then
      (insertError a "Symbol with the same name has an external definition.", false)
    else
      let globalise := fun (s : SymbolTableRecord) => { s with isLocal := false }
      ({ a with symbolTable := mapModify SymbolTableRecord.name symbolName globalise a.symbolTable },
        true)
  | none =>
    let symbol : SymbolTableRecord :=
      { id := a.nextSymbolID, isDefined := false, isLocal := false, isExtern := false
        name := symbolName, sectionName := "UNDEF", offset := 0 }
    ({ a with
        nextSymbolID := a.nextSymbolID + 1,
        symbolTable := mapInsert (fun (x : SymbolTableRecord) => x.name.data) symbol a.symbolTable },
      true)

/-- Method `Assembler::addExternSymbol(symbolName)`, the `.extern` directive. -/
def addExternSymbol (a : Assembler) (symbolName : String) : Assembler × Bool :=
  match mapFind SymbolTableRecord.name symbolName a.symbolTable with
  | some symbol =>
    if symbol.isDefined then
      (insertError a "Symbol is previously defined locally.", false)
    else
      let import_ := fun (s : SymbolTableRecord) => { s with isExtern := true }
      ({ a with symbolTable := mapModify SymbolTableRecord.name symbolName import_ a.symbolTable },
        true)
  | none =>
    let symbol : SymbolTableRecord :=
      { id := a.nextSymbolID, isDefined := false, isLocal := false, isExtern := true
        name := symbolName, sectionName := "UNDEF", offset := 0 }
    ({ a with
        nextSymbolID := a.nextSymbolID + 1,
        symbolTable := mapInsert (fun (x : SymbolTableRecord) => x.name.data) symbol a.symbolTable },
      true)

/-- The constructor `Assembler::Assembler`: the sections `UNDEF` and `ABS` are
opened in turn, and no section is current afterwards. -/
def new : Assembler :=
  let a : Assembler :=
    { currentLine := 0, errorOccurred := false, errorMessages := []
      nextSymbolID := 0, symbolTable := []
      nextSectionID := 0, sectionTable := []
      forwardReferenceTable := [], relocationTable := []
      locationCounter := 0, currentSection := "" }
  let a := (addSectionSymbol a "UNDEF").1
  let a := (addSectionSymbol a "ABS").1
  { a with currentSection := "" }

end Assembler

/-! ## Encoding and decoding of one command -/

namespace Emulator

/-- The bytes `bytes` lie in memory from the address in `pc` on, below the end
of the 64 KiB address space. -/
def holdsAtPc (e : Emulator) (bytes : List Int) : Prop :=
  (reg e pc % 65536).toNat + bytes.length ≤ 65536 ∧
    ∀ i, i < bytes.length → e.memory.getD ((reg e pc % 65536).toNat + i) 0 = bytes.getD i 0

/-- The state in which `pc` has advanced by `k` and the command data are `c`. -/
def atPc (e : Emulator) (k : Int) (c : CommandData) : Emulator :=
  { e with registers := e.registers.set 7 (toShort (reg e pc + k)), cd := c }

end Emulator

namespace Assembler

/-- The mnemonic of the opcode table for a no-operand command. -/
def NoOperandCommand.mnemonic : NoOperandCommand → Int
  | .halt => Emulator.MNEMONIC_halt
  | .iret => Emulator.MNEMONIC_iret
  | .ret => Emulator.MNEMONIC_ret

/-- The mnemonic of the opcode table for a one-register command; `push` and
`pop` share the opcodes of `str` and `ldr`. -/
def OneRegisterCommand.mnemonic : OneRegisterCommand → Int
  | .int => Emulator.MNEMONIC_int
  | .push => Emulator.MNEMONIC_str_push
  | .pop => Emulator.MNEMONIC_ldr_pop
  | .not => Emulator.MNEMONIC_not

/-- The mnemonic of the opcode table for a two-register command. -/
def TwoRegisterCommand.mnemonic : TwoRegisterCommand → Int
  | .xchg => Emulator.MNEMONIC_xchg
  | .add => Emulator.MNEMONIC_add
  | .sub => Emulator.MNEMONIC_sub
  | .mul => Emulator.MNEMONIC_mul
  | .div => Emulator.MNEMONIC_div
  | .cmp => Emulator.MNEMONIC_cmp
  | .and => Emulator.MNEMONIC_and
  | .or => Emulator.MNEMONIC_or
  | .xor => Emulator.MNEMONIC_xor
  | .test => Emulator.MNEMONIC_test
  | .shl => Emulator.MNEMONIC_shl
  | .shr => Emulator.MNEMONIC_shr

/-- The mnemonic of the opcode table for a jump command. -/
def JumpCommand.mnemonic : JumpCommand → Int
  | .call => Emulator.MNEMONIC_call
  | .jmp => Emulator.MNEMONIC_jmp
  | .jeq => Emulator.MNEMONIC_jeq
  | .jne => Emulator.MNEMONIC_jne
  | .jgt => Emulator.MNEMONIC_jgt

/-- The mnemonic of the opcode table for a load or store command. -/
def LoadStoreCommand.mnemonic : LoadStoreCommand → Int
  | .ldr => Emulator.MNEMONIC_ldr_pop
  | .str => Emulator.MNEMONIC_str_push

/-- The source register nibble of an operand: the register of a register-based
operand, `pc` for a PC-relative one, and `0xF` (unused) otherwise. -/
def Operand.rSrc : Operand → Int
  | .regdir r => (r : Int)
  | .regind r => (r : Int)
  | .displacement r _ _ => (r : Int)
  | .pcrel _ => Emulator.pc
  | .absolute _ => 0xF
  | .memdir _ => 0xF

/-- The addressing mode nibble of an operand, for a jump (`jump = true`) or a
load/store. -/
def Operand.mode (jump : Bool) : Operand → Int
  | .regdir _ => Emulator.regdir
  | .regind _ => Emulator.regind
  | .displacement _ _ _ => Emulator.regind_disp
  | .pcrel _ => if jump then Emulator.regdir_disp else Emulator.regind_disp
  | .absolute _ => Emulator.immed
  | .memdir _ => Emulator.memdir

/-- The integer that the assembler converts a literal operand text to. -/
def Operand.literalValue (junk : Int) : Operand → Option Int
  | .absolute text => getDecimalFromLiteral junk text
  | .memdir text => getDecimalFromLiteral junk text
  | .displacement _ operation text =>
    getDecimalFromLiteral junk ((if operation = '-' then ['-'] else []) ++ text)
  | _ => some 0

/-- The tuple (mnemonic, rDst, rSrc, update, addressing mode, payload) that a
matched command with register and literal operands encodes, after the
instruction layout and the opcode table of the specification: `0xF` stands for
an unused register, `push` and `pop` are `str` and `ldr` on `sp` with
pre-decrement and post-increment, and the payload is the literal as a 16-bit
value.  Fields that the instruction has no byte for are zero. -/
def encodedFields (junk : Int) : CommandForm → Emulator.CommandData
  | .noOperand c => ⟨c.mnemonic, 0, 0, 0, 0, 0⟩
  | .oneRegister c r =>
    if c = .int ∨ c = .not then ⟨c.mnemonic, (r : Int), 0xF, 0, 0, 0⟩
    else ⟨c.mnemonic, (r : Int), Emulator.sp,
      if c = .push then Emulator.pre_decrement else Emulator.post_increment, Emulator.regind, 0⟩
  | .twoRegisters c rD rS => ⟨c.mnemonic, (rD : Int), (rS : Int), 0, 0, 0⟩
  | .jump c (some o) =>
    ⟨c.mnemonic, 0xF, o.rSrc, Emulator.no_update, o.mode true,
      toShort ((o.literalValue junk).getD 0)⟩
  | .jump _ none => Emulator.CommandData.empty
  | .loadStore c rD (some o) =>
    ⟨c.mnemonic, (rD : Int), o.rSrc, Emulator.no_update, o.mode false,
      toShort ((o.literalValue junk).getD 0)⟩
  | .loadStore _ _ none => Emulator.CommandData.empty

/-- An operand made of registers and literals only: a register-based syntax,
or a syntax whose text is not a symbol. -/
def Operand.isRegisterOrLiteral : Operand → Prop
  | .regdir _ => True
  | .regind _ => True
  | .absolute text => matchesSymbol text = false
  | .memdir text => matchesSymbol text = false
  | .displacement _ _ text => matchesSymbol text = false
  | .pcrel _ => False

/-- The commands of the register-only and jump families with register and
literal operands. -/
def CommandForm.isRegisterOrJump : CommandForm → Prop
  | .noOperand _ => True
  | .oneRegister _ _ => True
  | .twoRegisters _ _ _ => True
  | .jump _ (some o) => o.isRegisterOrLiteral
  | _ => False

/-- The state in which `sectionTable[currentSection]` holds the bytes `bytes`
(before conversion to `char`) pushed one after the other. -/
def pushBytes (a : Assembler) (bytes : List Int) : Assembler := bytes.foldl pushByte a

end Assembler

namespace Assembler

end Assembler

/-! ## The assembler pass (`Assembler::assemblePass`) -/

namespace Assembler

/-- The symbol of `labelRegex`, `^(symbol):$`, when the line matches. -/
def matchLabel (line : List Char) : Option (List Char) :=
  match stripLast ':' line with
  | some labelName => if matchesSymbol labelName then some labelName else none
  | none => none

/-- The symbol and the rest of `labelWithInstructionRegex`, `^(symbol):(.*)$`,
when the line matches.  A symbol holds no colon, so the symbol is the text
before the first colon. -/
def matchLabelWithInstruction (line : List Char) : Option (List Char × List Char) :=
  match splitFirst ':' line with
  | some (labelName, rest) =>
    if matchesSymbol labelName ∧ matchesAny rest then some (labelName, rest) else none
  | none => none

/-- The pieces that `getline(ss, item, ',')` reads from a list whose items are
not empty. -/
def splitCommas : List Char → List (List Char)
  | [] => [[]]
  | c :: cs =>
    if c = ',' then [] :: splitCommas cs
    else
      match splitCommas cs with
      | [] => [[c]]
      | item :: items => (c :: item) :: items

/-- The items of a directive `^keyword (item(,item)*)$`, when the line matches;
`keyword` ends with the blank.  No item pattern admits a comma. -/
def matchList (keyword : List Char) (item : List Char → Bool) (line : List Char) :
    Option (List String) :=
  match stripPrefix keyword line with
  | some list =>
    if (splitCommas list).all item then some ((splitCommas list).map String.mk) else none
  | none => none

/-- The name of `sectionDirectiveRegex`, `^\.section (symbol)$`. -/
def matchSection (line : List Char) : Option String :=
  match stripPrefix ".section ".data line with
  | some sectionName => if matchesSymbol sectionName then some (String.mk sectionName) else none
  | none => none

/-- The literal of `skipDirectiveRegex`, `^\.skip (literal)$`. -/
def matchSkip (line : List Char) : Option String :=
  match stripPrefix ".skip ".data line with
  | some literal => if matchesLiteral literal then some (String.mk literal) else none
  | none => none

/-- Method `Assembler::processWordDirective(literalOrSymbol)`.  No result means that
`stoi` threw. -/
def processWordDirective (junk : Int) (a : Assembler) (literalOrSymbol : String) :
    Option (Assembler × Bool) :=
  if a.currentSection = "" then
    some (insertError a "Directive .word is not specified within a section.", false)
  else
    let filled : Option (Assembler × Int) :=
      if matchesSymbol literalOrSymbol.data then
        some (absoluteAddressing a literalOrSymbol true '+')
      else (getDecimalFromLiteral junk literalOrSymbol.data).map (fun v => (a, v))
    filled.map (fun (p : Assembler × Int) =>
      (advance (pushByte (pushByte p.1 (p.2 % 256)) ((p.2 / 256) % 256)) 2, true))

/-- Method `Assembler::processSkipDirective(literal)`.  The loop stores no byte for a
count that is not positive, and `locationCounter += nOfBytes` adds the `int`
to the `unsigned` counter modulo 2^32. -/
def processSkipDirective (junk : Int) (a : Assembler) (literal : String) :
    Option (Assembler × Bool) :=
  if a.currentSection = "" then
    some (insertError a "Directive .skip is not specified within a section.", false)
  else
    (getDecimalFromLiteral junk literal.data).map (fun (nOfBytes : Int) =>
      let a := pushBytes a (List.replicate nOfBytes.toNat 0)
      ({ a with locationCounter := toUnsigned ((a.locationCounter : Int) + nOfBytes) }, true))

/-- The statement `if (!call) errorOccurred = true;` for the result of a call. -/
def recordFailure (p : Assembler × Bool) : Assembler :=
  if p.2 then p.1 else { p.1 with errorOccurred := true }

/-- The loop over the items of a `.word` directive. -/
def processWordList (junk : Int) : Assembler → List String → Option Assembler
  | a, [] => some a
  | a, literalOrSymbol :: rest =>
    match processWordDirective junk a literalOrSymbol with
    | some p => processWordList junk (recordFailure p) rest
    | none => none

/-- The part of the loop body of `assemblePass` after the label: the directives
and the command.  `match2` is the value that the variable `match2` holds on
entry, true when a label with an instruction was matched; the test of
`.extern` leaves it as it is when `.extern` matches.  The boolean of the
result is false when the loop ends (`.end`). -/
def assembleInstruction (junk : Int) (a : Assembler) (inputLine : String) (match2 : Bool) :
    Option (Assembler × Bool) :=
  match matchList ".extern ".data matchesSymbol inputLine.data with
  | some symbols =>
    let step := fun (a : Assembler) (symbol : String) =>
      let a := recordFailure (addExternSymbol a symbol)
      if match2 then recordFailure (addGlobalSymbol a symbol) else a
    some (symbols.foldl step a, true)
  | none =>
    match matchList ".global ".data matchesSymbol inputLine.data with
    | some symbols =>
      some (symbols.foldl (fun a symbol => recordFailure (addGlobalSymbol a symbol)) a, true)
    | none =>
      match matchSection inputLine.data with
      | some sectionName => some (recordFailure (addSectionSymbol a sectionName), true)
      | none =>
        match matchList ".word ".data matchesLiteralOrSymbol inputLine.data with
        | some values => (processWordList junk a values).map (fun a => (a, true))
        | none =>
          match matchSkip inputLine.data with
          | some literal =>
            (processSkipDirective junk a literal).map (fun p => (recordFailure p, true))
          | none =>
            if inputLine.data = ".end".data then some (a, false)
            else (processCommand junk a inputLine).map (fun p => (recordFailure p, true))

/-- The loop body of `assemblePass` for one line. -/
def assembleLine (junk : Int) (a : Assembler) (inputLine : String) : Option (Assembler × Bool) :=
  let a := { a with currentLine := a.currentLine + 1 }
  match matchLabel inputLine.data with
  | some labelName => some (recordFailure (addSymbol a (String.mk labelName)), true)
  | none =>
    match matchLabelWithInstruction inputLine.data with
    | some (labelName, rest) =>
      assembleInstruction junk (recordFailure (addSymbol a (String.mk labelName)))
        (String.mk rest) true
    | none => assembleInstruction junk a inputLine false

/-- The loop of `assemblePass` over the lines of `inputFile`. -/
def assembleLines (junk : Int) : Assembler → List String → Option Assembler
  | a, [] => some a
  | a, inputLine :: rest =>
    match assembleLine junk a inputLine with
    | some (a, true) => assembleLines junk a rest
    | some (a, false) => some a
    | none => none

/-- Method `Assembler::assemblePass()` on the cleaned lines `inputFile`: the state
reached and the value returned.  No result means that `stoi` threw; `junk` is
the value of the uninitialised local of `getDecimalFromLiteral`. -/
def assemblePass (junk : Int) (a : Assembler) (inputFile : List String) :
    Option (Assembler × Bool) :=
  (assembleLines junk { a with currentLine := 0 } inputFile).map (fun (a : Assembler) =>
    let close := fun (s : SectionTableRecord) => { s with length := a.locationCounter }
    let a :=
      if a.currentSection ≠ "" then
        { a with sectionTable :=
            mapModify SectionTableRecord.name a.currentSection close a.sectionTable }
      else a
    (a, !a.errorOccurred))

end Assembler

/-! ## States reached by the symbol operations -/

namespace Assembler

/-- The symbol-flag conditions on one symbol: not both local and extern, not
both extern and defined, local only when defined, and undefined only with
section `UNDEF` and offset 0. -/
def SymbolTableRecord.flagsConsistent (s : SymbolTableRecord) : Prop :=
  ¬ (s.isLocal = true ∧ s.isExtern = true)
    ∧ ¬ (s.isExtern = true ∧ s.isDefined = true)
    ∧ (s.isLocal = true → s.isDefined = true)
    ∧ (s.isDefined = false → s.sectionName = "UNDEF" ∧ s.offset = 0)

/-- The assembler states that the constructor and any sequence of label
definitions, `.global`, `.extern` and `.section` operations produce, whether
the operations succeed or fail; bytes may be emitted in between, which moves
the location counter. -/
inductive Reachable : Assembler → Prop
  | constructed : Reachable new
  | label (a : Assembler) (name : String) : Reachable a → Reachable (addSymbol a name).1
  | globalDirective (a : Assembler) (name : String) :
      Reachable a → Reachable (addGlobalSymbol a name).1
  | externDirective (a : Assembler) (name : String) :
      Reachable a → Reachable (addExternSymbol a name).1
  | sectionDirective (a : Assembler) (name : String) :
      Reachable a → Reachable (addSectionSymbol a name).1
  | emitted (a : Assembler) (n : Nat) : Reachable a → Reachable (advance a n)

end Assembler

/-! ## Linker: contributions of the input files, placement -/

namespace Linker

/-- The sections of all input files in the order in which
`fillOutputTablesFromInputFiles` hands them to `addOutputSection`, each with the
path of its file. -/
def inputSections (fs : String → Option ObjectFile) (paths : List String) :
    List (SectionTableRecord × String) :=
  paths.flatMap (fun p =>
    match fs p with
    | some o => o.sections.map (fun s => (s, p))
    | none => [])

/-- The sections named `name` among `sections`: the contributions to the
section, in input order. -/
def contributions (sections : List (SectionTableRecord × String)) (name : String) :
    List (SectionTableRecord × String) :=
  sections.filter (fun e => decide (e.1.name = name))

/-- The sum of the lengths of the given sections. -/
def totalLength (sections : List (SectionTableRecord × String)) : Nat :=
  (sections.map (fun e => e.1.length)).sum

/-- The bytes of the given sections, one after the other. -/
def joinedData (sections : List (SectionTableRecord × String)) : List Int :=
  (sections.map (fun e => e.1.sectionData)).flatten

/-- The contributions to section `name` that precede the contribution of the
file `path`. -/
def contributionsBefore (sections : List (SectionTableRecord × String)) (name path : String) :
    List (SectionTableRecord × String) :=
  (contributions sections name).takeWhile (fun e => decide (e.2 ≠ path))

/-- The number of distinct section names met before the first section named
`name`. -/
def firstEncounterIndex (sections : List (SectionTableRecord × String)) (name : String) : Nat :=
  (((sections.map (fun e => e.1.name)).takeWhile (fun m => decide (m ≠ name))).dedup).length

/-- The entry of section `name` in the section table is the aggregate of its
contributions among `sections`: absent when there is none, and otherwise the
sum of the lengths, the bytes in input order, and no address yet. -/
def sectionAggregates (l : Linker) (sections : List (SectionTableRecord × String))
    (name : String) : Prop :=
  match mapFind SectionTableRecord.name name l.sectionTable with
  | none => contributions sections name = []
  | some r =>
    contributions sections name ≠ [] ∧ r.name = name
      ∧ r.length = totalLength (contributions sections name)
      ∧ r.sectionData = joinedData (contributions sections name)
      ∧ r.baseAddress = 0

/-- The records of `InputSectionsData` for section `name` are those of its
contributions among `sections`, each with the sum of the lengths of the
contributions before it; `UNDEF` has no record. -/
def basesRecorded (l : Linker) (sections : List (SectionTableRecord × String))
    (name : String) : Prop :=
  ∀ file, findInputSectionData l name file =
    if name = "UNDEF" then none
    else
      ((contributions sections name).find? (fun e => decide (e.2 = file))).map (fun e =>
        ⟨e.1.length, name, file, totalLength (contributionsBefore sections name file)⟩)

end Linker

namespace Linker

/-- The section table has one entry for each section name met among
`sections`, and the id of an entry is 0 for `UNDEF`, 1 for `ABS`, and for any
other name the number of distinct names met before it. -/
def sectionIdsAssigned (l : Linker) (sections : List (SectionTableRecord × String)) : Prop :=
  l.sectionTable.length = ((sections.map (fun e => e.1.name)).dedup).length
    ∧ ∀ name,
      ((mapFind SectionTableRecord.name name l.sectionTable).isSome = true
          ↔ name ∈ sections.map (fun e => e.1.name))
        ∧ ∀ r, mapFind SectionTableRecord.name name l.sectionTable = some r →
            r.id = if name = "UNDEF" then 0 else if name = "ABS" then 1
                   else firstEncounterIndex sections name

end Linker

namespace Linker

/-- Whether the object file at `path` has a section named `name`. -/
def hasSection (fs : String → Option ObjectFile) (name path : String) : Bool :=
  match fs path with
  | some o => o.sections.any (fun s => decide (s.name = name))
  | none => false

/-- The names of the symbols that `addOutputSymbol` may enter from the input
files read before the first file with a section named `name`: the non-extern
symbols of those files. -/
def symbolNamesBefore (fs : String → Option ObjectFile) (paths : List String) (name : String) :
    List String :=
  (paths.takeWhile (fun p => !hasSection fs name p)).flatMap (fun p =>
    match fs p with
    | some o => (o.symbols.filter (fun s => !s.isExtern)).map (fun s => s.name)
    | none => [])

/-- The symbol table holds the section symbol of `name`: local, defined, not
extern, in the section of its own name at offset 0. -/
def sectionSymbolPresent (l : Linker) (name : String) : Prop :=
  (mapFind SectionTableRecord.name name l.sectionTable).isSome = true
    ∧ ∃ symbol, mapFind SymbolTableRecord.name name l.symbolTable = some symbol
      ∧ symbol.isDefined = true ∧ symbol.isLocal = true ∧ symbol.isExtern = false
      ∧ symbol.name = name ∧ symbol.sectionName = name ∧ symbol.offset = 0

/-- Neither table has an entry named `name`. -/
def nameUnused (l : Linker) (name : String) : Prop :=
  mapFind SectionTableRecord.name name l.sectionTable = none
    ∧ mapFind SymbolTableRecord.name name l.symbolTable = none

end Linker

namespace Linker

/-- The value `sectionTable[name].length`, zero for a missing key. -/
def sectionLength (l : Linker) (name : String) : Nat :=
  match mapFind SectionTableRecord.name name l.sectionTable with
  | some s => s.length
  | none => 0

/-- The names of the user sections (all but `UNDEF` and `ABS`) in the order
of `sectionTableOrderedByID`, that is by ascending id. -/
def userSectionNames (l : Linker) : List String :=
  ((sectionNamesOrderedByID l).map Prod.snd).filter
    (fun name => decide (¬ (name = "UNDEF" ∨ name = "ABS")))

/-- The sections `names` lie one after the other from the address `cursor`
on: each starts where the one before it ends. -/
def placedFrom (l : Linker) : Nat → List String → Prop
  | _, [] => True
  | cursor, name :: rest =>
    sectionBase l name = cursor ∧ placedFrom l (cursor + sectionLength l name) rest

/-- The state after the body of the loop of `setSectionsBaseAddress` for the
user section `name` placed at `base`: the base address is written to the
section table, and the records of the contributions to the section are moved
by it. -/
def placeSection (l : Linker) (name : String) (base : Nat) : Linker :=
  let place := fun (s : SectionTableRecord) => { s with baseAddress := base }
  l.inputFilesPaths.foldl (shiftInputSection name base)
    { l with sectionTable := mapModify SectionTableRecord.name name place l.sectionTable }

end Linker

namespace Linker

/-- The record of a contribution after the statement
`a.baseAddressOfUnaggregatedSection += base`. -/
def InputSectionData.movedBy (base : Nat) (a : InputSectionData) : InputSectionData :=
  { a with baseAddressOfUnaggregatedSection :=
      (a.baseAddressOfUnaggregatedSection + base) % 4294967296 }

end Linker

/-! ## Emulator: bits of a register, typed states, the loop of `emulate` -/

namespace Emulator

/-- Bit `k` of the two's complement pattern of `x`. -/
def bitAt (x : Int) (k : Nat) : Bool := decide (x / 2 ^ k % 2 = 1)

/-- The invariant that the types of the data members impose on a state:
`registers` holds `NO_REGISTERS` values of type `short`, and `memory` holds at
least `MEMORY_SIZE` values of type `char`. -/
def wellTyped (e : Emulator) : Prop :=
  e.registers.length = NO_REGISTERS ∧ (∀ r ∈ e.registers, -32768 ≤ r ∧ r < 32768) ∧
    MEMORY_SIZE ≤ e.memory.length ∧ ∀ b ∈ e.memory, -128 ≤ b ∧ b < 128

/-- One iteration of the loop of `Emulator::emulate`: `cd = {}`, then
`commandFetchAndDecode` and, when it succeeds, `commandExecute(running)`. -/
def emulateStep (e : Emulator) (running : Bool) : ExecResult :=
  let d := commandFetchAndDecode { e with cd := CommandData.empty }
  if d.2 = true then commandExecute d.1 running else ⟨d.1, running, false⟩

/-- The loop `while (running)` of `Emulator::emulate`, cut after `fuel` iterations:
the final state and the value returned, or no result when the loop has not
ended by then. -/
def emulateLoop : Nat → Emulator → Option (Emulator × Bool)
  | 0, _ => none
  | fuel + 1, e =>
    let r := emulateStep e true
    if r.ok = false then some (r.emulator, false)
    else if r.running then emulateLoop fuel r.emulator
    else some (r.emulator, true)

/-- Method `Emulator::emulate` on the segments of an opened image file. -/
def emulate (fuel : Nat) (e : Emulator) (segments : List ProgramSegmentData) :
    Option (Emulator × Bool) :=
  let f := fillMemoryFromInputFile e segments
  if f.2 = false then some (f.1, false)
  else
    let e2 := setReg f.1 pc (readFromMemory f.1 IVT_ENTRY_PROGRAM_START WORD LITTLE_ENDIAN_ORDER)
    let e3 := setReg e2 sp MMAP_REGISTERS_START_ADDRESS
    let e4 := setReg e3 psw 0x6000
    emulateLoop fuel e4

end Emulator

/-! ## Assembler: backpatching, the object file, `Assembler::assemble` -/

namespace Assembler

/-- The write `sectionTable[sectionName].sectionData[index] = v`, with the
conversion of `v` to `char`.  No result means that the index is outside the
vector (for a section that is not in the table, `operator[]` makes an empty
one). -/
def setSectionByte (a : Assembler) (sectionName : String) (index : Nat) (v : Int) :
    Option Assembler :=
  match mapFind SectionTableRecord.name sectionName a.sectionTable with
  | some s =>
    if index < s.sectionData.length then
      let store := fun (s : SectionTableRecord) =>
        { s with sectionData := s.sectionData.set index (toChar v) }
      some { a with sectionTable := mapModify SectionTableRecord.name sectionName store a.sectionTable }
    else none
  | none => none

/-- The value of the local `short fillValue` of `backpatching` for a record whose
symbol is in the symbol table, with the state after the call that computes
it: `currentSection` and `locationCounter` are set from the record first. -/
def fillValueOf (a : Assembler) (record : ForwardReferenceTableRecord) : Assembler × Int :=
  let a := { a with currentSection := record.sectionName }
  if record.operation = 'R' then
    let p := relativeAddressing
      { a with locationCounter := toUnsigned ((record.offset : Int) - 3) } record.symbol
    (p.1, toShort p.2)
  else
    let p := absoluteAddressing
      { a with locationCounter :=
          toUnsigned ((record.offset : Int) - (if record.isLittleEndian then 0 else 3)) }
      record.symbol record.isLittleEndian record.operation
    (p.1, if record.operation = '-' then toShort (-(toShort p.2)) else toShort p.2)

/-- The two values that `backpatching` stores at `record.offset` and
`record.offset + 1`: `0xFF & fillValue` and `0xFF & (fillValue >> 8)`, in this
order for a directive (little endian) and in the other order for a command. -/
def patchBytes (isLittleEndian : Bool) (fillValue : Int) : Int × Int :=
  if isLittleEndian then (fillValue % 256, fillValue / 256 % 256)
  else (fillValue / 256 % 256, fillValue % 256)

/-- The body of the loop of `backpatching` for one record.  No result means that
a write went outside the section data. -/
def backpatchRecord (a : Assembler) (record : ForwardReferenceTableRecord) : Option Assembler :=
  if (mapFind SymbolTableRecord.name record.symbol a.symbolTable).isSome then
    let p := fillValueOf a record
    let bytes := patchBytes record.isLittleEndian p.2
    (setSectionByte p.1 p.1.currentSection record.offset bytes.1).bind (fun a1 =>
      setSectionByte a1 a1.currentSection ((record.offset + 1) % 4294967296) bytes.2)
  else
    some { a with
      errorMessages := mapInsert (fun (x : Nat × String) => x.1)
        (record.currentLine, "Symbol " ++ record.symbol ++ " is not in the symbol table.")
        a.errorMessages,
      errorOccurred := true }

/-- The loop of `backpatching` over the remaining records. -/
def backpatchRecords : Assembler → List ForwardReferenceTableRecord → Option Assembler
  | a, [] => some a
  | a, record :: rest => (backpatchRecord a record).bind (fun a1 => backpatchRecords a1 rest)

/-- Method `Assembler::backpatching()`: the state reached and the value returned.
No result means that a write went outside the section data. -/
def backpatching (a : Assembler) : Option (Assembler × Bool) :=
  (backpatchRecords a a.forwardReferenceTable).map (fun a1 => (a1, !a1.errorOccurred))

/-- The four bytes of an `unsigned` or `int` object as `file.write` stores them
(least significant byte first), each as a `char`. -/
def wordBytes (n : Int) : List Int :=
  [toChar (n % 256), toChar (n / 256 % 256), toChar (n / 65536 % 256), toChar (n / 16777216 % 256)]

/-- The byte of a `bool` object. -/
def boolByte (b : Bool) : List Int := [if b then 1 else 0]

/-- The bytes written for a `std::string`: the length as an `unsigned`, then
the characters.  A `std::string` is modelled by the `String` whose characters
are its bytes. -/
def stringBytes (s : String) : List Int :=
  wordBytes s.length ++ s.data.map (fun c => toChar c.toNat)

/-- The bytes written for one section by `writeBinaryFile`. -/
def sectionBytes (s : SectionTableRecord) : List Int :=
  wordBytes s.id ++ wordBytes s.length ++ stringBytes s.name
    ++ wordBytes s.sectionData.length ++ s.sectionData

/-- The bytes written for one symbol by `writeBinaryFile`. -/
def symbolBytes (s : SymbolTableRecord) : List Int :=
  wordBytes s.id ++ wordBytes s.offset ++ boolByte s.isDefined ++ boolByte s.isLocal
    ++ boolByte s.isExtern ++ stringBytes s.sectionName ++ stringBytes s.name

/-- The bytes written for one relocation record by `writeBinaryFile`. -/
def relocationBytes (r : RelocationTableRecord) : List Int :=
  stringBytes r.sectionName ++ wordBytes r.offset ++ stringBytes r.type ++ stringBytes r.symbol

/-- The map `sectionTableOrderedByID` of `writeBinaryFile`: the sections keyed by
`section.id` (as an `int`), filled by iterating the section table in name
order, the first entry of an id being the one kept. -/
def sectionTableOrderedByID (a : Assembler) : List SectionTableRecord :=
  a.sectionTable.foldl
    (fun m s => mapInsert (fun (x : SectionTableRecord) => toInt (x.id : Int)) s m) []

/-- Method `Assembler::writeBinaryFile()` on an opened file: the bytes written. -/
def writeBinaryFile (a : Assembler) : List Int :=
  wordBytes a.sectionTable.length ++ (sectionTableOrderedByID a).flatMap sectionBytes
    ++ wordBytes a.symbolTable.length ++ a.symbolTable.flatMap symbolBytes
    ++ wordBytes a.relocationTable.length ++ a.relocationTable.flatMap relocationBytes

/-- Method `Assembler::assemble()` on the cleaned lines of an input file that
opens, the output files opening too: the state reached, the value returned
and the object file written, if any.  No result means that the call does not
return. -/
def assemble (junk : Int) (a : Assembler) (inputFile : List String) :
    Option (Assembler × Bool × Option (List Int)) :=
  (assemblePass junk a inputFile).bind (fun p =>
    if p.2 = false then some (p.1, false, none)
    else (backpatching p.1).bind (fun q =>
      if q.2 = false then some (q.1, false, none)
      else some (q.1, true, some (writeBinaryFile q.1))))

end Assembler

namespace Linker

/-- The call `file.read((char *)(&x), sizeof(x))` for an `unsigned` object:
the value and the rest of the file.  No result means that the file ends
before. -/
def readWord : List Int → Option (Nat × List Int)
  | b0 :: b1 :: b2 :: b3 :: rest =>
    some ((b0 % 256 + 256 * (b1 % 256) + 65536 * (b2 % 256) + 16777216 * (b3 % 256)).toNat, rest)
  | _ => none

/-- The same call for an `int` object. -/
def readInt (bytes : List Int) : Option (Int × List Int) :=
  (readWord bytes).map (fun p => (toInt (p.1 : Int), p.2))

/-- The same call for a `bool` object. -/
def readBool : List Int → Option (Bool × List Int)
  | b :: rest => some (decide (b ≠ 0), rest)
  | [] => none

/-- The call `file.read(buffer, n)` into an array of `char`. -/
def readChars (n : Nat) (bytes : List Int) : Option (List Int × List Int) :=
  if n ≤ bytes.length then some (bytes.take n, bytes.drop n) else none

/-- The reads of the length and of the characters of a `std::string`. -/
def readString (bytes : List Int) : Option (String × List Int) :=
  (readWord bytes).bind (fun p =>
    (readChars p.1 p.2).map (fun q =>
      (String.mk (q.1.map (fun b => Char.ofNat (b % 256).toNat)), q.2)))

/-- The reads of one section in the first loop of
`fillOutputTablesFromInputFiles`; `baseAddress`, which the file does not
carry, is left at zero. -/
def readSection (bytes : List Int) : Option (SectionTableRecord × List Int) :=
  (readWord bytes).bind (fun id =>
    (readWord id.2).bind (fun len =>
      (readString len.2).bind (fun name =>
        (readWord name.2).bind (fun size =>
          (readChars size.1 size.2).map (fun data =>
            (⟨id.1, len.1, name.1, data.1, 0⟩, data.2))))))

/-- The reads of one symbol in the second loop; `file` is left empty. -/
def readSymbol (bytes : List Int) : Option (SymbolTableRecord × List Int) :=
  (readWord bytes).bind (fun id =>
    (readInt id.2).bind (fun offset =>
      (readBool offset.2).bind (fun isDefined =>
        (readBool isDefined.2).bind (fun isLocal =>
          (readBool isLocal.2).bind (fun isExtern =>
            (readString isExtern.2).bind (fun sectionName =>
              (readString sectionName.2).map (fun name =>
                (⟨id.1, offset.1, isDefined.1, isLocal.1, isExtern.1, sectionName.1, name.1, ""⟩,
                  name.2))))))))

/-- The reads of one relocation record in the third loop; `file` is left
empty. -/
def readRelocation (bytes : List Int) : Option (RelocationTableRecord × List Int) :=
  (readString bytes).bind (fun sectionName =>
    (readWord sectionName.2).bind (fun offset =>
      (readString offset.2).bind (fun type =>
        (readString type.2).map (fun symbol =>
          (⟨sectionName.1, offset.1, type.1, symbol.1, ""⟩, symbol.2)))))

/-- A loop `for (i = 0; i < n; i++)` of reads of one record each. -/
def readMany {α : Type} (read : List Int → Option (α × List Int)) :
    Nat → List Int → Option (List α × List Int)
  | 0, bytes => some ([], bytes)
  | n + 1, bytes =>
    (read bytes).bind (fun p => (readMany read n p.2).map (fun q => (p.1 :: q.1, q.2)))

/-- The reads of `fillOutputTablesFromInputFiles` on one opened file: the count
and the records of the section table, of the symbol table and of the
relocation table, in this order. -/
def parseObjectFile (bytes : List Int) : Option ObjectFile :=
  (readWord bytes).bind (fun n1 =>
    (readMany readSection n1.1 n1.2).bind (fun sections =>
      (readWord sections.2).bind (fun n2 =>
        (readMany readSymbol n2.1 n2.2).bind (fun symbols =>
          (readWord symbols.2).bind (fun n3 =>
            (readMany readRelocation n3.1 n3.2).map (fun relocations =>
              ⟨sections.1, symbols.1, relocations.1⟩))))))

end Linker

namespace Assembler

/-- A `String` that stands for a `std::string`: its characters are bytes and
its length fits an `unsigned`. -/
def isByteString (s : String) : Prop :=
  s.length < 4294967296 ∧ ∀ c ∈ s.data, c.toNat < 256

/-- What the types of the tables and the numbering of the sections give for
the three tables that `writeBinaryFile` stores: the section ids are pairwise
distinct, the sizes of the tables fit the loop counter `int i`, the fields
of type `unsigned` and `int` are in range, and the strings are byte strings. -/
def typedTables (a : Assembler) : Prop :=
  (a.sectionTable.map (fun s => toInt (s.id : Int))).Nodup
    ∧ a.sectionTable.length < 2147483648
    ∧ a.symbolTable.length < 2147483648
    ∧ a.relocationTable.length < 2147483648
    ∧ (∀ s ∈ a.sectionTable, s.id < 4294967296 ∧ s.length < 4294967296
        ∧ isByteString s.name ∧ s.sectionData.length < 4294967296)
    ∧ (∀ s ∈ a.symbolTable, s.id < 4294967296
        ∧ (-2147483648 ≤ s.offset ∧ s.offset < 2147483648)
        ∧ isByteString s.sectionName ∧ isByteString s.name)
    ∧ (∀ r ∈ a.relocationTable, isByteString r.sectionName ∧ r.offset < 4294967296
        ∧ isByteString r.type ∧ isByteString r.symbol)

end Assembler

namespace Linker

/-- The tables of an object file as tables of the assembler: the fields that
the file carries. -/
def ObjectFile.sectionRecords (o : ObjectFile) : List Assembler.SectionTableRecord :=
  o.sections.map (fun s => ⟨s.id, s.length, s.name, s.sectionData⟩)

def ObjectFile.symbolRecords (o : ObjectFile) : List Assembler.SymbolTableRecord :=
  o.symbols.map (fun s => ⟨s.id, s.offset, s.isDefined, s.isLocal, s.isExtern, s.sectionName, s.name⟩)

def ObjectFile.relocationRecords (o : ObjectFile) : List Assembler.RelocationTableRecord :=
  o.relocations.map (fun r => ⟨r.sectionName, r.offset, r.type, r.symbol⟩)

end Linker

/-! ## Assembler: direct emission of a reference -/

namespace Assembler

end Assembler

/-! ## Assembler: the cleaning of the input lines (`Assembler::readFile`) -/

namespace Assembler

/-- The characters that `.` does not match in an ECMAScript expression of
`std::regex`: the line terminators. -/
def isLineTerminator (c : Char) : Bool := c == '\n' || c == '\r'

/-- The call `regex_replace(line, commentsRegex, "$1", format_first_only)` for
`([^#]*)#.*`: the first match starts at the start of the line, its group is the
text before the first `#`, and `.*` runs up to the next line terminator; the
text from there on is kept. -/
def stripComment (line : List Char) : List Char :=
  if line.contains '#' then
    line.takeWhile (fun c => c != '#')
      ++ ((line.dropWhile (fun c => c != '#')).drop 1).dropWhile (fun c => !isLineTerminator c)
  else line

/-- The call `regex_replace(line, tabsRegex, " ")` for `\t`. -/
def replaceTabs (line : List Char) : List Char :=
  line.map (fun c => if c = '\t' then ' ' else c)

/-- The call `regex_replace(line, extraSpacesRegex, " ")` for ` {2,}`: every
maximal run of two or more blanks becomes one blank. -/
def collapseSpaces : List Char → List Char
  | [] => []
  | [c] => [c]
  | c :: d :: rest =>
    if c = ' ' ∧ d = ' ' then collapseSpaces (d :: rest) else c :: collapseSpaces (d :: rest)

/-- The call `regex_replace(line, extraBoundsSpacesRegex, "$2")` for
`^( *)([^ ].*[^ ])( *)$`.  The expression matches the whole line when the text
from the first to the last character other than a blank has at least two
characters and no line terminator strictly inside; the line becomes that
text.  Otherwise nothing matches and the line is as before. -/
def trimBounds (line : List Char) : List Char :=
  let core := ((line.dropWhile (fun c => c == ' ')).reverse.dropWhile (fun c => c == ' ')).reverse
  if 2 ≤ core.length ∧ (core.drop 1).dropLast.all (fun c => !isLineTerminator c) then core
  else line

/-- The call `regex_replace(line, regex, d)` for ` ?d ?` with the delimiter `d`
(`commaSpacesRegex` for `,`, `colonSpacesRegex` for `:`): the matches are taken
from left to right, each is the delimiter with the blank before it and the
blank after it, if there are any.  The flag tells that the last character
read was the delimiter of a match, whose optional blank may follow. -/
def removeSpacesAround (d : Char) : Bool → List Char → List Char
  | _, [] => []
  | afterDelimiter, c :: rest =>
    if c = d then d :: removeSpacesAround d true rest
    else if c = ' ' then
      if afterDelimiter then removeSpacesAround d false rest
      else if rest.head? = some d then removeSpacesAround d false rest
      else ' ' :: removeSpacesAround d false rest
    else c :: removeSpacesAround d false rest

/-- The six replacements that the loop of `Assembler::readFile` applies to one
line, in the order of the source. -/
def cleanLine (line : String) : String :=
  String.mk (removeSpacesAround ':' false (removeSpacesAround ',' false
    (trimBounds (collapseSpaces (replaceTabs (stripComment line.data))))))

/-- The loop of `Assembler::readFile` over the lines that `getline` gives, the
counter `inputFileLineNumber` being `n`: the cleaned lines that are kept, each
with its line number in the file. -/
def readLines : Nat → List String → List (Nat × String)
  | _, [] => []
  | n, line :: rest =>
    if cleanLine line ≠ " " ∧ cleanLine line ≠ "" then
      (n + 1, cleanLine line) :: readLines (n + 1) rest
    else readLines (n + 1) rest

/-- Method `Assembler::readFile()` on a file that opens, given by its lines: the
vector `inputFile` and the vector `inputFileLineNumbers`, whose first entry is
0. -/
def readFile (lines : List String) : List String × List Nat :=
  ((readLines 0 lines).map Prod.snd, 0 :: (readLines 0 lines).map Prod.fst)

end Assembler

/-! ## Example inputs -/

namespace Assembler

/-- The assembler state after the single line `.section text`. -/
def afterSectionText : Assembler := (addSectionSymbol new "text").1

end Assembler

namespace Emulator

/-- An emulator whose memory holds `bytes` from address 0 on, zero elsewhere,
with `pc = 0` and the command data reset. -/
def withProgram (bytes : List Int) : Emulator :=
  { new with memory := bytes ++ List.replicate (MEMORY_SIZE - bytes.length) 0 }

end Emulator

namespace Linker

/-- The object file that the assembler writes for the source
`.global foo`, `.section data`, `foo: .word 0`: the sections `UNDEF`, `ABS`
and `data` (two zero bytes), and the symbols in name order, `foo` being
defined, global, at offset 0 of `data`. -/
def globalFooObject : ObjectFile :=
  { sections := [⟨0, 0, "UNDEF", [], 0⟩, ⟨1, 0, "ABS", [], 0⟩, ⟨2, 2, "data", [0, 0], 0⟩]
    symbols := [⟨1, 0, true, true, false, "ABS", "ABS", ""⟩,
                ⟨0, 0, true, true, false, "UNDEF", "UNDEF", ""⟩,
                ⟨3, 0, true, true, false, "data", "data", ""⟩,
                ⟨2, 0, true, false, false, "data", "foo", ""⟩]
    relocations := [] }

/-- Two input files `a.o` and `b.o`, each with the content `globalFooObject`. -/
def twoGlobalFooFiles (path : String) : Option ObjectFile :=
  if path = "a.o" ∨ path = "b.o" then some globalFooObject else none

/-- The object file that the assembler writes for the source `.section data`,
`.skip 128`, `lab: .word lab`: the word at offset 128 holds the offset of the
local symbol `lab`, `0x0080` in little-endian order, and an `R_HYP_16` record
at offset 128 refers to the section `data`. -/
def localWordObject : ObjectFile :=
  { sections := [⟨0, 0, "UNDEF", [], 0⟩, ⟨1, 0, "ABS", [], 0⟩,
                 ⟨2, 130, "data", List.replicate 128 0 ++ [-128, 0], 0⟩]
    symbols := [⟨1, 0, true, true, false, "ABS", "ABS", ""⟩,
                ⟨0, 0, true, true, false, "UNDEF", "UNDEF", ""⟩,
                ⟨2, 0, true, true, false, "data", "data", ""⟩,
                ⟨3, 128, true, true, false, "data", "lab", ""⟩]
    relocations := [⟨"data", 128, "R_HYP_16", "data", ""⟩] }

/-- The single input file `a.o` with the content `localWordObject`. -/
def localWordFiles (path : String) : Option ObjectFile :=
  if path = "a.o" then some localWordObject else none

/-- The object file that the assembler writes for the source `.extern foo`. -/
def externFooObject : ObjectFile :=
  { sections := [⟨0, 0, "UNDEF", [], 0⟩, ⟨1, 0, "ABS", [], 0⟩]
    symbols := [⟨1, 0, true, true, false, "ABS", "ABS", ""⟩,
                ⟨0, 0, true, true, false, "UNDEF", "UNDEF", ""⟩,
                ⟨2, 0, false, false, true, "UNDEF", "foo", ""⟩]
    relocations := [] }

/-- The object file that the assembler writes for the source `.global foo`
with no label `foo`: the symbol is neither defined nor extern. -/
def undefinedGlobalFooObject : ObjectFile :=
  { sections := [⟨0, 0, "UNDEF", [], 0⟩, ⟨1, 0, "ABS", [], 0⟩]
    symbols := [⟨1, 0, true, true, false, "ABS", "ABS", ""⟩,
                ⟨0, 0, true, true, false, "UNDEF", "UNDEF", ""⟩,
                ⟨2, 0, false, false, false, "UNDEF", "foo", ""⟩]
    relocations := [] }

/-- The input files `a.o`, which declares `foo` extern, and `b.o`, which
declares `foo` global without a definition. -/
def externAndUndefinedFiles (path : String) : Option ObjectFile :=
  if path = "a.o" then some externFooObject
  else if path = "b.o" then some undefinedGlobalFooObject
  else none

/-- An object file with one user section `text` of `0xFF01` zero bytes (the
source `.section text`, `.skip 0xFF01`). -/
def longTextObject : ObjectFile :=
  { sections := [⟨0, 0, "UNDEF", [], 0⟩, ⟨1, 0, "ABS", [], 0⟩,
                 ⟨2, 0xFF01, "text", List.replicate 0xFF01 0, 0⟩]
    symbols := [⟨1, 0, true, true, false, "ABS", "ABS", ""⟩,
                ⟨0, 0, true, true, false, "UNDEF", "UNDEF", ""⟩,
                ⟨2, 0, true, true, false, "text", "text", ""⟩]
    relocations := [] }

/-- The single input file `a.o` with the content `longTextObject`. -/
def longTextFiles (path : String) : Option ObjectFile :=
  if path = "a.o" then some longTextObject else none

end Linker

namespace Emulator

/-- The emulator about to execute `cmp r0,r1` with `r0 = x` and `r1 = y`:
the registers as `emulate` initialises them (`sp = 0xFF00`, `psw = 0x6000`)
and the command data as decoded from the bytes `74 01`. -/
def beforeCmp (x y : Int) : Emulator :=
  { new with
    registers := [x, y, 0, 0, 0, 0, toShort 0xFF00, 0, 0x6000],
    cd := ⟨MNEMONIC_cmp, 0, 1, 0, 0, 0⟩ }

end Emulator

namespace Assembler

/-- The source `.section text`, `.skip -1`, `.end`, as cleaned lines. -/
def skipMinusOneSource : List String := [".section text", ".skip -1", ".end"]

/-- The source `.section text`, `halt`, `.section text`, `.end`, as cleaned
lines: the section `text` is opened twice. -/
def reopenedSectionSource : List String := [".section text", "halt", ".section text", ".end"]

/-- The assembler state after the single line `.global data`. -/
def afterGlobalData : Assembler := (addGlobalSymbol new "data").1

/-- The assembler state after the lines `.extern x`, `.global y`,
`.section text`, `y:`. -/
def afterFourOperations : Assembler :=
  (addSymbol (addSectionSymbol (addGlobalSymbol (addExternSymbol new "x").1 "y").1 "text").1 "y").1

end Assembler

namespace Linker

/-- The object file that the assembler writes for the source `.section text`,
three `halt`, `.section data`, `.skip 1`, `x: .word 0`: three bytes of `text`,
three bytes of `data`, and the local symbol `x` at offset 1 of `data`. -/
def textDataObject : ObjectFile :=
  { sections := [⟨0, 0, "UNDEF", [], 0⟩, ⟨1, 0, "ABS", [], 0⟩, ⟨2, 3, "text", [0, 0, 0], 0⟩,
      ⟨3, 3, "data", [0, 0, 0], 0⟩]
    symbols := [⟨1, 0, true, true, false, "ABS", "ABS", ""⟩,
      ⟨0, 0, true, true, false, "UNDEF", "UNDEF", ""⟩,
      ⟨3, 0, true, true, false, "data", "data", ""⟩,
      ⟨2, 0, true, true, false, "text", "text", ""⟩,
      ⟨4, 1, true, true, false, "data", "x", ""⟩]
    relocations := [] }

/-- The object file that the assembler writes for the source `.section data`,
`y: .word 0`, `.section text`, `halt`: two bytes of `data`, one byte of
`text`, and the local symbol `y` at offset 0 of `data`. -/
def dataTextObject : ObjectFile :=
  { sections := [⟨0, 0, "UNDEF", [], 0⟩, ⟨1, 0, "ABS", [], 0⟩, ⟨2, 2, "data", [0, 0], 0⟩,
      ⟨3, 1, "text", [0], 0⟩]
    symbols := [⟨1, 0, true, true, false, "ABS", "ABS", ""⟩,
      ⟨0, 0, true, true, false, "UNDEF", "UNDEF", ""⟩,
      ⟨2, 0, true, true, false, "data", "data", ""⟩,
      ⟨4, 0, true, true, false, "text", "text", ""⟩,
      ⟨3, 0, true, true, false, "data", "y", ""⟩]
    relocations := [] }

/-- The input files `a.o` (`textDataObject`) and `b.o` (`dataTextObject`). -/
def textDataFiles (path : String) : Option ObjectFile :=
  if path = "a.o" then some textDataObject
  else if path = "b.o" then some dataTextObject
  else none

/-- The linker after the intake of `a.o` and `b.o` of `textDataFiles`. -/
def afterTextDataIntake : Linker :=
  (fillOutputTablesFromInputFiles textDataFiles (new ["a.o", "b.o"] "out.hex")).1

/-- The object file that the assembler writes for the source `.global data`,
`.section text`, `data: halt`: the global label `data` at offset 0 of
`text`. -/
def labelDataObject : ObjectFile :=
  { sections := [⟨0, 0, "UNDEF", [], 0⟩, ⟨1, 0, "ABS", [], 0⟩, ⟨2, 1, "text", [0], 0⟩]
    symbols := [⟨1, 0, true, true, false, "ABS", "ABS", ""⟩,
      ⟨0, 0, true, true, false, "UNDEF", "UNDEF", ""⟩,
      ⟨2, 0, true, false, false, "text", "data", ""⟩,
      ⟨3, 0, true, true, false, "text", "text", ""⟩]
    relocations := [] }

/-- The object file that the assembler writes for the source `.section data`,
`.word 0`. -/
def sectionDataObject : ObjectFile :=
  { sections := [⟨0, 0, "UNDEF", [], 0⟩, ⟨1, 0, "ABS", [], 0⟩, ⟨2, 2, "data", [0, 0], 0⟩]
    symbols := [⟨1, 0, true, true, false, "ABS", "ABS", ""⟩,
      ⟨0, 0, true, true, false, "UNDEF", "UNDEF", ""⟩,
      ⟨2, 0, true, true, false, "data", "data", ""⟩]
    relocations := [] }

/-- The input files `a.o` (`labelDataObject`) and `b.o` (`sectionDataObject`):
the first has a label named as a section of the second. -/
def labelThenSectionFiles (path : String) : Option ObjectFile :=
  if path = "a.o" then some labelDataObject
  else if path = "b.o" then some sectionDataObject
  else none

end Linker

namespace Assembler

/-- The bytes that `Assembler::processCommand` appends to the section data for the
line `line`, taken in a section `text` that has just been opened. -/
def commandBytes (junk : Int) (line : String) : List Int :=
  match processCommand junk afterSectionText line with
  | some (a, _) => sectionDataOf a "text"
  | none => []

/-- The operand text of one of the registers `r0..r5`. -/
def generalRegister : Fin 6 → String
  | 0 => "r0"
  | 1 => "r1"
  | 2 => "r2"
  | 3 => "r3"
  | 4 => "r4"
  | 5 => "r5"

end Assembler

namespace Emulator

/-- The image of one segment at address 0 that holds the entry `IVT[0] = 2`
followed by the code of `ldr r0,$5`, `push r0`, `pop r1`, `halt`. -/
def pushPopImage (junk : Int) : List ProgramSegmentData :=
  [⟨[2, 0] ++ Assembler.commandBytes junk "ldr r0,$5" ++ Assembler.commandBytes junk "push r0"
      ++ Assembler.commandBytes junk "pop r1" ++ Assembler.commandBytes junk "halt", 0⟩]

end Emulator

namespace Assembler

/-- The source `.section text`, `jmp target`, `halt`, `target: halt`, `.end` as
`readFile` leaves it: the blank after the colon of the label is removed. -/
def forwardJumpSource : List String :=
  [".section text", "jmp target", "halt", "target:halt", ".end"]

end Assembler

namespace Emulator

/-- The emulator about to execute `jgt 0x40` with `psw = 8` (N set, Z and O
clear): the command data as decoded from the bytes `53 FF 00 00 40`. -/
def jgtAfterNegative : Emulator :=
  { new with
    registers := [0, 0, 0, 0, 0, 0, toShort 0xFF00, 5, 8],
    cd := ⟨MNEMONIC_jgt, 15, 15, no_update, immed, 0x40⟩ }

/-- The emulator about to execute `div r0,r1` with `r0 = x` and `r1 = y`: the
command data as decoded from the bytes `73 01`. -/
def beforeDiv (x y : Int) : Emulator :=
  { new with
    registers := [x, y, 0, 0, 0, 0, toShort 0xFF00, 0, 0x6000],
    cd := ⟨MNEMONIC_div, 0, 1, 0, 0, 0⟩ }

/-- The emulator about to execute `int r0` with `r0 = -1` (the bit pattern
`0xFFFF`): entry 7 of the interrupt vector table (addresses 14 and 15) holds
`0x0020`, the last two bytes of the memory (addresses `0xFFFE`, `0xFFFF`) hold
`0x0040`, and the command data are as decoded from the bytes `10 0F`. -/
def beforeInt : Emulator :=
  { new with
    memory := List.replicate 14 0 ++ [0x20, 0] ++ List.replicate 65518 0 ++ [0x40, 0],
    registers := [-1, 0, 0, 0, 0, 0, toShort 0xFF00, 0x100, 0x6000],
    cd := ⟨MNEMONIC_int, 0, 15, 0, 0, 0⟩ }

/-- An emulator whose memory holds the code of `push r0`, `pop r1` from address
0 on, with `pc = 0`, `sp = 0xFF00` and `r0 = 7`. -/
def pushPopState : Emulator :=
  { new with
    memory := [-80, 6, 18, -96, 22, 66] ++ List.replicate 65530 0,
    registers := [7, 0, 0, 0, 0, 0, toShort 0xFF00, 0, 0x6000] }

end Emulator

namespace Assembler

/-- The state in which `assemble` writes the object file of `forwardJumpSource`. -/
def afterForwardJump : Assembler :=
  ((assemble 0 new forwardJumpSource).map Prod.fst).getD new

end Assembler

namespace Emulator

/-- The emulator about to execute `shl r0,r1` with `r0 = x` and `r1 = y`: the
registers as `emulate` initialises them and the command data as decoded from
the bytes `90 01`. -/
def beforeShl (x y : Int) : Emulator :=
  { new with
    registers := [x, y, 0, 0, 0, 0, toShort 0xFF00, 0, 0x6000],
    cd := ⟨MNEMONIC_shl, 0, 1, 0, 0, 0⟩ }

/-- The emulator about to execute `shr r0,r1` with `r0 = x` and `r1 = y`: the
command data as decoded from the bytes `91 01`. -/
def beforeShr (x y : Int) : Emulator :=
  { new with
    registers := [x, y, 0, 0, 0, 0, toShort 0xFF00, 0, 0x6000],
    cd := ⟨MNEMONIC_shr, 0, 1, 0, 0, 0⟩ }

end Emulator

namespace Assembler

/-- The source `.section text`, `<mnemonic> %L`, `L: halt`, `.end` as `readFile`
leaves it: a PC-relative jump whose target is the next instruction. -/
def jumpToNextSource (mnemonic : String) : List String :=
  [".section text", mnemonic ++ " %L", "L:halt", ".end"]

/-- The same source with the line `.global L` at the top. -/
def globalJumpToNextSource : List String :=
  [".global L", ".section text", "jmp %L", "L:halt", ".end"]

/-- The state after the pass over `.extern far`, `.section text`, `halt`,
`near: halt`, `.section data`, `.word 0`: the symbol `near` is local to `text`,
`far` is extern, and the current section is `data` at offset 2. -/
def afterNearAndFar : Assembler :=
  ((assemblePass 0 new
    [".extern far", ".section text", "halt", "near:halt", ".section data", ".word 0"]).map
    Prod.fst).getD new

end Assembler

namespace Assembler

end Assembler

namespace Linker

end Linker

/-! ## Lemmas on machine integers -/

theorem bitOr_shifted (h l : Int) (hh : -8388608 ≤ h ∧ h < 8388608) (hl : 0 ≤ l ∧ l < 256) :
    bitOr (h * 256) l = h * 256 + l := by
  have hk : toUnsigned (h * 256) = 2 ^ 8 * (h % 16777216).toNat := by
    unfold toUnsigned; omega
  have hl2 : toUnsigned l = l.toNat := by
    unfold toUnsigned; omega
  have hlt : l.toNat < 2 ^ 8 := by omega
  rw [bitOr, hk, hl2, ← Nat.mul_add_lt_is_or hlt]
  unfold toInt
  push_cast
  omega

theorem bitOr_zero_byte (l : Int) (hl : 0 ≤ l ∧ l < 256) : bitOr (0 * 256) l = l := by
  rw [bitOr_shifted 0 l (by omega) hl]; omega

theorem toShort_payload (v : Int) :
    toShort (toChar ((v / 256) % 256) * 256 + toChar (v % 256) % 256) = toShort v := by
  unfold toShort toChar; omega

theorem bitOr_F0_register : ∀ r : Fin 9, bitOr 0xF0 (r : Int) = 0xF0 + (r : Int) := by decide

/-! ## Lemmas on the loader -/

namespace Emulator
theorem length_vectorInsert (v : List Int) (pos : Nat) (data : List Int) (h : pos ≤ v.length) :
    (vectorInsert v pos data).length = v.length + data.length := by
  unfold vectorInsert
  simp only [List.length_append, List.length_take, List.length_drop]
  omega

theorem length_memory_new : new.memory.length = 65536 :=
  List.length_replicate 65536 (0 : Int)

theorem length_memory_fill (segments : List ProgramSegmentData) :
    ∀ (e : Emulator), 65536 ≤ e.memory.length →
      (∀ ps ∈ segments, ps.baseAddress + ps.segmentData.length < 18446744073709551616) →
      (fillMemoryFromInputFile e segments).2 = true →
      (fillMemoryFromInputFile e segments).1.memory.length
        = e.memory.length + (segments.map (fun ps => ps.segmentData.length)).sum := by
  induction segments with
  | nil => intro e _ _ _; simp [fillMemoryFromInputFile]
  | cons ps rest ih =>
    intro e he hwf hok
    have hps := hwf ps (List.mem_cons_self _ _)
    unfold fillMemoryFromInputFile at hok ⊢
    unfold loadSegment at hok ⊢
    by_cases hc : toSizeT ((ps.baseAddress : Int) + (ps.segmentData.length : Int) - 1)
        > MMAP_REGISTERS_START_ADDRESS
    · simp [hc] at hok
    · simp only [hc, if_false] at hok ⊢
      have hpos : ps.baseAddress ≤ e.memory.length := by
        unfold toSizeT MMAP_REGISTERS_START_ADDRESS at hc
        omega
      have hl := length_vectorInsert e.memory ps.baseAddress ps.segmentData hpos
      rw [ih _ (by simp only [hl]; omega) (fun q hq => hwf q (List.mem_cons_of_mem _ hq)) hok]
      simp only [hl, List.map_cons, List.sum_cons]
      omega

end Emulator

/-! ## Lemmas on the decoder -/

namespace Emulator

theorem reg_pc_atPc (e : Emulator) (k : Int) (c : CommandData) (hlen : e.registers.length = 9) :
    reg (atPc e k c) pc = toShort (reg e pc + k) := by
  simp [atPc, reg, pc, List.getD_eq_getElem?_getD, List.getElem?_set, hlen]

theorem incPc_eq (e : Emulator) : incPc e = atPc e 1 e.cd := rfl

theorem incPc_atPc (e : Emulator) (k : Int) (c : CommandData) (hlen : e.registers.length = 9) :
    incPc (atPc e k c) = atPc e (k + 1) c := by
  have h : toShort (toShort (reg e pc + k) + 1) = toShort (reg e pc + (k + 1)) := by
    unfold toShort; omega
  unfold incPc setReg
  rw [reg_pc_atPc e k c hlen, h]
  simp [atPc, pc]

theorem fetchByte_atPc (e : Emulator) (k : Int) (c : CommandData) (hlen : e.registers.length = 9) :
    fetchByte (atPc e k c) = e.memory.getD ((reg e pc + k) % 65536).toNat 0 % 256 := by
  unfold fetchByte readFromMemory
  rw [reg_pc_atPc e k c hlen]
  have h1 : toShort (reg e pc + k) % 65536 = (reg e pc + k) % 65536 := by unfold toShort; omega
  simp only [h1, BYTE, WORD, LITTLE_ENDIAN_ORDER, if_true, atPc]
  simp only [show ¬ (1 = 2) by decide, if_false]
  rw [bitOr_zero_byte _ (by omega)]
  unfold toShort; omega

theorem fetchByte_start (e : Emulator) (hlen : e.registers.length = 9) :
    fetchByte e = e.memory.getD ((reg e pc + 0) % 65536).toNat 0 % 256 := by
  have h := fetchByte_atPc e 0 e.cd hlen
  unfold fetchByte readFromMemory at h ⊢
  rw [reg_pc_atPc e 0 e.cd hlen] at h
  have h1 : toShort (reg e pc + 0) % 65536 = reg e pc % 65536 := by unfold toShort; omega
  rw [h1] at h
  exact h

theorem fetchRegisters_atPc (e : Emulator) (k k1 : Int) (c : CommandData)
    (hlen : e.registers.length = 9) (B : Int)
    (hB : e.memory.getD ((reg e pc + k) % 65536).toNat 0 % 256 = B) (hk : k1 = k + 1) :
    fetchRegisters (atPc e k c)
      = atPc e k1 ⟨c.mnemonic, B / 16 % 16, B % 16, c.updateType, c.addressingMode, c.payload⟩ := by
  unfold fetchRegisters
  rw [fetchByte_atPc e k c hlen, hB, hk]
  exact incPc_atPc e k _ hlen

theorem fetchMode_atPc (e : Emulator) (k k1 : Int) (c : CommandData)
    (hlen : e.registers.length = 9) (B : Int)
    (hB : e.memory.getD ((reg e pc + k) % 65536).toNat 0 % 256 = B) (hk : k1 = k + 1) :
    fetchMode (atPc e k c)
      = atPc e k1 ⟨c.mnemonic, c.rDst, c.rSrc, B / 16 % 16, B % 16, c.payload⟩ := by
  unfold fetchMode
  rw [fetchByte_atPc e k c hlen, hB, hk]
  exact incPc_atPc e k _ hlen

theorem fetchPayload_short (e : Emulator) (k : Int) (c : CommandData)
    (hc : c.addressingMode = regdir ∨ c.addressingMode = regind) :
    fetchPayload (atPc e k c) = atPc e k c := by
  unfold fetchPayload
  rw [if_neg]
  show ¬ (c.addressingMode ≠ regdir ∧ c.addressingMode ≠ regind)
  tauto

theorem fetchPayload_long (e : Emulator) (k k2 : Int) (c : CommandData)
    (hlen : e.registers.length = 9) (b3 b4 : Int)
    (hc : c.addressingMode ≠ regdir ∧ c.addressingMode ≠ regind)
    (h3 : e.memory.getD ((reg e pc + k) % 65536).toNat 0 = b3)
    (h4 : e.memory.getD (((reg e pc + k) % 65536) + 1).toNat 0 = b4)
    (hr : -128 ≤ b3 ∧ b3 ≤ 127) (hk : k2 = k + 2) :
    fetchPayload (atPc e k c)
      = atPc e k2 ⟨c.mnemonic, c.rDst, c.rSrc, c.updateType, c.addressingMode,
          toShort (b3 * 256 + b4 % 256)⟩ := by
  have h1 : toShort (reg e pc + k) % 65536 = (reg e pc + k) % 65536 := by unfold toShort; omega
  have h2 : toShort (toShort (reg e pc + k) + 2) = toShort (reg e pc + (k + 2)) := by
    unfold toShort; omega
  unfold fetchPayload
  rw [if_pos (by exact hc)]
  unfold setReg readFromMemory
  rw [reg_pc_atPc e k c hlen, h1, h2, hk]
  have hm : (atPc e k c).memory = e.memory := rfl
  simp only [hm, h3, h4, WORD, BIG_ENDIAN_ORDER, if_true]
  rw [bitOr_shifted b3 (b4 % 256) (by omega) (by omega)]
  simp [atPc, pc]

theorem dispatch (e : Emulator) (hlen : e.registers.length = 9) (B0 : Int)
    (h0 : e.memory.getD ((reg e pc + 0) % 65536).toNat 0 % 256 = B0) :
    commandFetchAndDecode e =
      if B0 / 16 % 16 = 0x0 ∨ B0 / 16 % 16 = 0x2 ∨ B0 / 16 % 16 = 0x4 then
        decodeNoOperand (atPc e 1 e.cd) (B0 / 16 % 16) (B0 % 16)
      else if B0 / 16 % 16 = 0x3 ∨ B0 / 16 % 16 = 0x5 then decodeJump (atPc e 1 e.cd) B0
      else if B0 / 16 % 16 = 0x1 ∨ B0 / 16 % 16 = 0x6 ∨ B0 / 16 % 16 = 0x7
          ∨ B0 / 16 % 16 = 0x8 ∨ B0 / 16 % 16 = 0x9 then
        decodeRegisterCommand (atPc e 1 e.cd) B0
      else if B0 / 16 % 16 = 0xA ∨ B0 / 16 % 16 = 0xB then
        decodeLoadStore (atPc e 1 e.cd) (B0 / 16 % 16) (B0 % 16)
      else (pushError (atPc e 1 e.cd) "Wrong command operation code: ", false) := by
  unfold commandFetchAndDecode
  rw [fetchByte_start e hlen, h0, incPc_eq]

theorem decodeNoOperand_atPc (e : Emulator) (k : Int) (c : CommandData) (op : Int) :
    decodeNoOperand (atPc e k c) op 0
      = (atPc e k ⟨if op = 0x0 then MNEMONIC_halt else if op = 0x2 then MNEMONIC_iret
            else MNEMONIC_ret, c.rDst, c.rSrc, c.updateType, c.addressingMode, c.payload⟩,
        true) := by
  unfold decodeNoOperand
  rw [if_neg (by simp)]
  rfl

theorem decodeJump_atPc (e : Emulator) (hlen : e.registers.length = 9) (c : CommandData)
    (m B0 B1 B2 : Int)
    (h1 : e.memory.getD ((reg e pc + 1) % 65536).toNat 0 % 256 = B1)
    (h2 : e.memory.getD ((reg e pc + 2) % 65536).toNat 0 % 256 = B2)
    (hm : jumpMnemonic B0 = some m) (hmode : B2 % 16 ≤ 5) (hupd : B2 / 16 % 16 = 0) :
    decodeJump (atPc e 1 c) B0
      = (fetchPayload (atPc e 3 ⟨m, B1 / 16 % 16, B1 % 16, B2 / 16 % 16, B2 % 16, c.payload⟩),
          true) := by
  unfold decodeJump
  rw [hm]
  dsimp only
  have e1 : ({ atPc e 1 c with cd := { (atPc e 1 c).cd with mnemonic := m } } : Emulator)
      = atPc e 1 ⟨m, c.rDst, c.rSrc, c.updateType, c.addressingMode, c.payload⟩ := rfl
  rw [e1, fetchRegisters_atPc e 1 2 _ hlen B1 h1 (by norm_num),
    fetchMode_atPc e 2 3 _ hlen B2 h2 (by norm_num)]
  rw [if_neg (by show ¬ (B2 % 16 > regdir_disp); unfold regdir_disp; omega),
    if_neg (by show ¬ (B2 / 16 % 16 ≠ no_update); rw [hupd]; simp [no_update])]

theorem decodeRegisterCommand_atPc (e : Emulator) (hlen : e.registers.length = 9)
    (c : CommandData) (m B0 B1 : Int)
    (h1 : e.memory.getD ((reg e pc + 1) % 65536).toNat 0 % 256 = B1)
    (hm : registerMnemonic B0 = some m)
    (hD : B1 / 16 % 16 ≤ 8)
    (hS : if m = MNEMONIC_int ∨ m = MNEMONIC_not then B1 % 16 = 0xF else B1 % 16 ≤ 8) :
    decodeRegisterCommand (atPc e 1 c) B0
      = (atPc e 2 ⟨m, B1 / 16 % 16, B1 % 16, c.updateType, c.addressingMode, c.payload⟩,
          true) := by
  unfold decodeRegisterCommand
  rw [hm]
  dsimp only
  have e1 : ({ atPc e 1 c with cd := { (atPc e 1 c).cd with mnemonic := m } } : Emulator)
      = atPc e 1 ⟨m, c.rDst, c.rSrc, c.updateType, c.addressingMode, c.payload⟩ := rfl
  rw [e1, fetchRegisters_atPc e 1 2 _ hlen B1 h1 (by norm_num)]
  rw [if_neg]
  show ¬ (B1 / 16 % 16 > psw ∨ (m ≠ MNEMONIC_int ∧ m ≠ MNEMONIC_not ∧ B1 % 16 > psw)
      ∨ ((m = MNEMONIC_int ∨ m = MNEMONIC_not) ∧ B1 % 16 ≠ 0xF))
  unfold psw
  by_cases hmm : m = MNEMONIC_int ∨ m = MNEMONIC_not
  · rw [if_pos hmm] at hS
    rintro (h | h | h)
    · omega
    · rcases hmm with h' | h'
      · exact h.1 h'
      · exact h.2.1 h'
    · exact h.2 hS
  · rw [if_neg hmm] at hS
    rintro (h | h | h)
    · omega
    · omega
    · exact hmm h.1

theorem decodeLoadStore_atPc (e : Emulator) (hlen : e.registers.length = 9) (c : CommandData)
    (op B1 B2 : Int)
    (h1 : e.memory.getD ((reg e pc + 1) % 65536).toNat 0 % 256 = B1)
    (h2 : e.memory.getD ((reg e pc + 2) % 65536).toNat 0 % 256 = B2)
    (hD : B1 / 16 % 16 ≤ 8) (hmode : B2 % 16 ≤ 4)
    (hstr : op = 0xA ∨ B2 % 16 ≠ 0) :
    decodeLoadStore (atPc e 1 c) op 0
      = (fetchPayload (atPc e 3 ⟨if op = 0xA then MNEMONIC_ldr_pop else MNEMONIC_str_push,
            B1 / 16 % 16, B1 % 16, B2 / 16 % 16, B2 % 16, c.payload⟩), true) := by
  unfold decodeLoadStore
  rw [if_neg (by simp)]
  dsimp only
  have e1 : ({ atPc e 1 c with cd := { (atPc e 1 c).cd with
        mnemonic := if op = 0xA then MNEMONIC_ldr_pop else MNEMONIC_str_push } } : Emulator)
      = atPc e 1 ⟨if op = 0xA then MNEMONIC_ldr_pop else MNEMONIC_str_push,
          c.rDst, c.rSrc, c.updateType, c.addressingMode, c.payload⟩ := rfl
  rw [e1, fetchRegisters_atPc e 1 2 _ hlen B1 h1 (by norm_num)]
  rw [if_neg (by show ¬ (B1 / 16 % 16 > psw); unfold psw; omega)]
  rw [fetchMode_atPc e 2 3 _ hlen B2 h2 (by norm_num)]
  rw [if_neg]
  show ¬ (B2 % 16 > memdir ∨
      ((if op = 0xA then MNEMONIC_ldr_pop else MNEMONIC_str_push) = MNEMONIC_str_push
        ∧ B2 % 16 = immed))
  unfold memdir immed
  rintro (hcon | hcon)
  · omega
  · rcases hstr with h | h
    · rw [if_pos h] at hcon
      exact absurd hcon.1 (by decide)
    · exact h hcon.2

end Emulator

namespace Emulator

theorem holdsAtPc_getD (e : Emulator) (bytes : List Int) (h : holdsAtPc e bytes) (k : Nat)
    (hk : k < bytes.length) :
    e.memory.getD ((reg e pc + (k : Int)) % 65536).toNat 0 = bytes.getD k 0 := by
  obtain ⟨hb, hget⟩ := h
  have haddr : ((reg e pc + (k : Int)) % 65536).toNat = (reg e pc % 65536).toNat + k := by omega
  rw [haddr]
  exact hget k hk

theorem holdsAtPc_getD_succ (e : Emulator) (bytes : List Int) (h : holdsAtPc e bytes) (k : Nat)
    (hk : k + 1 < bytes.length) :
    e.memory.getD ((reg e pc + (k : Int)) % 65536 + 1).toNat 0 = bytes.getD (k + 1) 0 := by
  obtain ⟨hb, hget⟩ := h
  have haddr : ((reg e pc + (k : Int)) % 65536 + 1).toNat = (reg e pc % 65536).toNat + (k + 1) := by
    omega
  rw [haddr]
  exact hget (k + 1) hk

theorem toChar_mod (x : Int) : toChar x % 256 = x % 256 := by
  unfold toChar; omega

theorem registerMnemonic_nibble (B m : Int) (h : registerMnemonic B = some m) :
    B / 16 % 16 = 1 ∨ B / 16 % 16 = 6 ∨ B / 16 % 16 = 7 ∨ B / 16 % 16 = 8 ∨ B / 16 % 16 = 9 := by
  by_contra hcon
  have hnone : registerMnemonic B = none := by
    unfold registerMnemonic
    repeat rw [if_neg (by omega)]
  rw [hnone] at h
  cases h

theorem jumpMnemonic_nibble (B m : Int) (h : jumpMnemonic B = some m) :
    B / 16 % 16 = 3 ∨ B / 16 % 16 = 5 := by
  by_contra hcon
  have hnone : jumpMnemonic B = none := by
    unfold jumpMnemonic
    repeat rw [if_neg (by omega)]
  rw [hnone] at h
  cases h

/-- Decoding of a one-byte command. -/
theorem decode_one_byte (e : Emulator) (hlen : e.registers.length = 9)
    (hcd : e.cd = CommandData.empty) (b0 : Int) (h : holdsAtPc e [b0])
    (hB : b0 % 256 = 0x00 ∨ b0 % 256 = 0x20 ∨ b0 % 256 = 0x40) :
    commandFetchAndDecode e = (atPc e 1 ⟨b0 % 256, 0, 0, 0, 0, 0⟩, true) := by
  have h0 := holdsAtPc_getD e _ h 0 (by simp)
  have h0' : e.memory.getD ((reg e pc + 0) % 65536).toNat 0 % 256 = b0 % 256 := by
    rw [show ((0 : Nat) : Int) = 0 from rfl] at h0
    rw [h0]; rfl
  rw [dispatch e hlen _ h0', hcd, if_pos (by omega)]
  have hmod : b0 % 256 % 16 = 0 := by omega
  rw [hmod, decodeNoOperand_atPc e 1 _ _]
  have hmn : (if b0 % 256 / 16 % 16 = 0x0 then MNEMONIC_halt
      else if b0 % 256 / 16 % 16 = 0x2 then MNEMONIC_iret else MNEMONIC_ret) = b0 % 256 := by
    rcases hB with h | h | h <;> rw [h] <;> decide
  rw [hmn]
  rfl

/-- Decoding of a two-byte command. -/
theorem decode_two_bytes (e : Emulator) (hlen : e.registers.length = 9)
    (hcd : e.cd = CommandData.empty) (m b0 b1 rD rS : Int) (h : holdsAtPc e [b0, b1])
    (hm : registerMnemonic (b0 % 256) = some m)
    (hb1 : b1 % 256 = rD * 16 + rS) (hD : 0 ≤ rD ∧ rD ≤ 8) (hS : 0 ≤ rS ∧ rS ≤ 15)
    (hS2 : if m = MNEMONIC_int ∨ m = MNEMONIC_not then rS = 0xF else rS ≤ 8) :
    commandFetchAndDecode e = (atPc e 2 ⟨m, rD, rS, 0, 0, 0⟩, true) := by
  have h0 := holdsAtPc_getD e _ h 0 (by simp)
  have h1 := holdsAtPc_getD e _ h 1 (by simp)
  have h0' : e.memory.getD ((reg e pc + 0) % 65536).toNat 0 % 256 = b0 % 256 := by
    rw [show ((0 : Nat) : Int) = 0 from rfl] at h0
    rw [h0]; rfl
  have h1' : e.memory.getD ((reg e pc + 1) % 65536).toNat 0 % 256 = b1 % 256 := by
    rw [show ((1 : Nat) : Int) = 1 from rfl] at h1
    rw [h1]; rfl
  have hop := registerMnemonic_nibble _ _ hm
  rw [dispatch e hlen _ h0', hcd, if_neg (by omega), if_neg (by omega), if_pos hop]
  have hq : b1 % 256 / 16 % 16 = rD := by omega
  have hr : b1 % 256 % 16 = rS := by omega
  rw [decodeRegisterCommand_atPc e hlen _ m _ _ h1' hm (by omega) (by rw [hr]; exact hS2), hq, hr]
  rfl

/-- Decoding of a jump command without payload. -/
theorem decode_jump_short (e : Emulator) (hlen : e.registers.length = 9)
    (hcd : e.cd = CommandData.empty) (m b0 b1 b2 rS mode : Int)
    (h : holdsAtPc e [b0, b1, b2])
    (hm : jumpMnemonic (b0 % 256) = some m)
    (hb1 : b1 % 256 = 0xF0 + rS) (hS : 0 ≤ rS ∧ rS ≤ 15)
    (hb2 : b2 % 256 = mode) (hmode : mode = regdir ∨ mode = regind) :
    commandFetchAndDecode e = (atPc e 3 ⟨m, 0xF, rS, 0, mode, 0⟩, true) := by
  have h0 := holdsAtPc_getD e _ h 0 (by simp)
  have h1 := holdsAtPc_getD e _ h 1 (by simp)
  have h2 := holdsAtPc_getD e _ h 2 (by simp)
  have h0' : e.memory.getD ((reg e pc + 0) % 65536).toNat 0 % 256 = b0 % 256 := by
    rw [show ((0 : Nat) : Int) = 0 from rfl] at h0
    rw [h0]; rfl
  have h1' : e.memory.getD ((reg e pc + 1) % 65536).toNat 0 % 256 = b1 % 256 := by
    rw [show ((1 : Nat) : Int) = 1 from rfl] at h1
    rw [h1]; rfl
  have h2' : e.memory.getD ((reg e pc + 2) % 65536).toNat 0 % 256 = b2 % 256 := by
    rw [show ((2 : Nat) : Int) = 2 from rfl] at h2
    rw [h2]; rfl
  have hop := jumpMnemonic_nibble _ _ hm
  have hmode2 : mode = 1 ∨ mode = 2 := hmode
  rw [dispatch e hlen _ h0', hcd, if_neg (by omega), if_pos hop]
  have hq : b1 % 256 / 16 % 16 = 0xF := by omega
  have hr : b1 % 256 % 16 = rS := by omega
  have hu : b2 % 256 / 16 % 16 = 0 := by omega
  have hmd : b2 % 256 % 16 = mode := by omega
  rw [decodeJump_atPc e hlen _ m _ _ _ h1' h2' hm (by omega) hu, hq, hr, hu, hmd]
  rw [fetchPayload_short e 3 _ hmode]
  rfl

/-- Decoding of a jump command with payload. -/
theorem decode_jump_long (e : Emulator) (hlen : e.registers.length = 9)
    (hcd : e.cd = CommandData.empty) (m b0 b1 b2 b3 b4 rS mode : Int)
    (h : holdsAtPc e [b0, b1, b2, b3, b4])
    (hm : jumpMnemonic (b0 % 256) = some m)
    (hb1 : b1 % 256 = 0xF0 + rS) (hS : 0 ≤ rS ∧ rS ≤ 15)
    (hb2 : b2 % 256 = mode)
    (hmode : mode = immed ∨ mode = regind_disp ∨ mode = memdir ∨ mode = regdir_disp)
    (hb3 : -128 ≤ b3 ∧ b3 ≤ 127) :
    commandFetchAndDecode e
      = (atPc e 5 ⟨m, 0xF, rS, 0, mode, toShort (b3 * 256 + b4 % 256)⟩, true) := by
  have h0 := holdsAtPc_getD e _ h 0 (by simp)
  have h1 := holdsAtPc_getD e _ h 1 (by simp)
  have h2 := holdsAtPc_getD e _ h 2 (by simp)
  have h3 := holdsAtPc_getD e _ h 3 (by simp)
  have h4 := holdsAtPc_getD_succ e _ h 3 (by simp)
  have h0' : e.memory.getD ((reg e pc + 0) % 65536).toNat 0 % 256 = b0 % 256 := by
    rw [show ((0 : Nat) : Int) = 0 from rfl] at h0
    rw [h0]; rfl
  have h1' : e.memory.getD ((reg e pc + 1) % 65536).toNat 0 % 256 = b1 % 256 := by
    rw [show ((1 : Nat) : Int) = 1 from rfl] at h1
    rw [h1]; rfl
  have h2' : e.memory.getD ((reg e pc + 2) % 65536).toNat 0 % 256 = b2 % 256 := by
    rw [show ((2 : Nat) : Int) = 2 from rfl] at h2
    rw [h2]; rfl
  have h3' : e.memory.getD ((reg e pc + 3) % 65536).toNat 0 = b3 := by
    rw [show ((3 : Nat) : Int) = 3 from rfl] at h3
    rw [h3]; rfl
  have h4' : e.memory.getD ((reg e pc + 3) % 65536 + 1).toNat 0 = b4 := by
    rw [show ((3 : Nat) : Int) = 3 from rfl] at h4
    rw [h4]; rfl
  have hop := jumpMnemonic_nibble _ _ hm
  have hmode2 : mode = 0 ∨ mode = 3 ∨ mode = 4 ∨ mode = 5 := hmode
  rw [dispatch e hlen _ h0', hcd, if_neg (by omega), if_pos hop]
  have hq : b1 % 256 / 16 % 16 = 0xF := by omega
  have hr : b1 % 256 % 16 = rS := by omega
  have hu : b2 % 256 / 16 % 16 = 0 := by omega
  have hmd : b2 % 256 % 16 = mode := by omega
  rw [decodeJump_atPc e hlen _ m _ _ _ h1' h2' hm (by omega) hu, hq, hr, hu, hmd]
  rw [fetchPayload_long e 3 5 _ hlen b3 b4 (by
    show mode ≠ regdir ∧ mode ≠ regind
    unfold regdir regind
    omega) h3' h4' hb3 (by norm_num)]

/-- Decoding of a load or store command without payload. -/
theorem decode_loadStore_short (e : Emulator) (hlen : e.registers.length = 9)
    (hcd : e.cd = CommandData.empty) (b0 b1 b2 rD rS update mode : Int)
    (h : holdsAtPc e [b0, b1, b2])
    (hb0 : b0 % 256 = 0xA0 ∨ b0 % 256 = 0xB0)
    (hb1 : b1 % 256 = rD * 16 + rS) (hD : 0 ≤ rD ∧ rD ≤ 8) (hS : 0 ≤ rS ∧ rS ≤ 15)
    (hb2 : b2 % 256 = update * 16 + mode) (hU : 0 ≤ update ∧ update ≤ 15)
    (hmode : mode = regdir ∨ mode = regind) :
    commandFetchAndDecode e = (atPc e 3 ⟨b0 % 256, rD, rS, update, mode, 0⟩, true) := by
  have h0 := holdsAtPc_getD e _ h 0 (by simp)
  have h1 := holdsAtPc_getD e _ h 1 (by simp)
  have h2 := holdsAtPc_getD e _ h 2 (by simp)
  have h0' : e.memory.getD ((reg e pc + 0) % 65536).toNat 0 % 256 = b0 % 256 := by
    rw [show ((0 : Nat) : Int) = 0 from rfl] at h0
    rw [h0]; rfl
  have h1' : e.memory.getD ((reg e pc + 1) % 65536).toNat 0 % 256 = b1 % 256 := by
    rw [show ((1 : Nat) : Int) = 1 from rfl] at h1
    rw [h1]; rfl
  have h2' : e.memory.getD ((reg e pc + 2) % 65536).toNat 0 % 256 = b2 % 256 := by
    rw [show ((2 : Nat) : Int) = 2 from rfl] at h2
    rw [h2]; rfl
  have hmode2 : mode = 1 ∨ mode = 2 := hmode
  rw [dispatch e hlen _ h0', hcd, if_neg (by omega), if_neg (by omega), if_neg (by omega),
    if_pos (by omega)]
  have hq : b1 % 256 / 16 % 16 = rD := by omega
  have hr : b1 % 256 % 16 = rS := by omega
  have hu : b2 % 256 / 16 % 16 = update := by omega
  have hmd : b2 % 256 % 16 = mode := by omega
  have hmod : b0 % 256 % 16 = 0 := by omega
  rw [hmod, decodeLoadStore_atPc e hlen _ _ _ _ h1' h2' (by omega) (by omega) (by omega),
    hq, hr, hu, hmd]
  rw [fetchPayload_short e 3 _ hmode]
  have hmn : (if b0 % 256 / 16 % 16 = 0xA then MNEMONIC_ldr_pop else MNEMONIC_str_push)
      = b0 % 256 := by
    rcases hb0 with h | h <;> rw [h] <;> decide
  rw [hmn]
  rfl

/-- Decoding of a load or store command with payload. -/
theorem decode_loadStore_long (e : Emulator) (hlen : e.registers.length = 9)
    (hcd : e.cd = CommandData.empty) (b0 b1 b2 b3 b4 rD rS update mode : Int)
    (h : holdsAtPc e [b0, b1, b2, b3, b4])
    (hb0 : b0 % 256 = 0xA0 ∨ b0 % 256 = 0xB0)
    (hb1 : b1 % 256 = rD * 16 + rS) (hD : 0 ≤ rD ∧ rD ≤ 8) (hS : 0 ≤ rS ∧ rS ≤ 15)
    (hb2 : b2 % 256 = update * 16 + mode) (hU : 0 ≤ update ∧ update ≤ 15)
    (hmode : (mode = immed ∧ b0 % 256 = 0xA0) ∨ mode = regind_disp ∨ mode = memdir)
    (hb3 : -128 ≤ b3 ∧ b3 ≤ 127) :
    commandFetchAndDecode e
      = (atPc e 5 ⟨b0 % 256, rD, rS, update, mode, toShort (b3 * 256 + b4 % 256)⟩, true) := by
  have h0 := holdsAtPc_getD e _ h 0 (by simp)
  have h1 := holdsAtPc_getD e _ h 1 (by simp)
  have h2 := holdsAtPc_getD e _ h 2 (by simp)
  have h3 := holdsAtPc_getD e _ h 3 (by simp)
  have h4 := holdsAtPc_getD_succ e _ h 3 (by simp)
  have h0' : e.memory.getD ((reg e pc + 0) % 65536).toNat 0 % 256 = b0 % 256 := by
    rw [show ((0 : Nat) : Int) = 0 from rfl] at h0
    rw [h0]; rfl
  have h1' : e.memory.getD ((reg e pc + 1) % 65536).toNat 0 % 256 = b1 % 256 := by
    rw [show ((1 : Nat) : Int) = 1 from rfl] at h1
    rw [h1]; rfl
  have h2' : e.memory.getD ((reg e pc + 2) % 65536).toNat 0 % 256 = b2 % 256 := by
    rw [show ((2 : Nat) : Int) = 2 from rfl] at h2
    rw [h2]; rfl
  have h3' : e.memory.getD ((reg e pc + 3) % 65536).toNat 0 = b3 := by
    rw [show ((3 : Nat) : Int) = 3 from rfl] at h3
    rw [h3]; rfl
  have h4' : e.memory.getD ((reg e pc + 3) % 65536 + 1).toNat 0 = b4 := by
    rw [show ((3 : Nat) : Int) = 3 from rfl] at h4
    rw [h4]; rfl
  have hmode2 : (mode = 0 ∧ b0 % 256 = 0xA0) ∨ mode = 3 ∨ mode = 4 := hmode
  rw [dispatch e hlen _ h0', hcd, if_neg (by omega), if_neg (by omega), if_neg (by omega),
    if_pos (by omega)]
  have hq : b1 % 256 / 16 % 16 = rD := by omega
  have hr : b1 % 256 % 16 = rS := by omega
  have hu : b2 % 256 / 16 % 16 = update := by omega
  have hmd : b2 % 256 % 16 = mode := by omega
  have hmod : b0 % 256 % 16 = 0 := by omega
  rw [hmod, decodeLoadStore_atPc e hlen _ _ _ _ h1' h2' (by omega) (by omega) (by omega),
    hq, hr, hu, hmd]
  rw [fetchPayload_long e 3 5 _ hlen b3 b4 (by
    show mode ≠ regdir ∧ mode ≠ regind
    unfold regdir regind
    omega) h3' h4' hb3 (by norm_num)]
  have hmn : (if b0 % 256 / 16 % 16 = 0xA then MNEMONIC_ldr_pop else MNEMONIC_str_push)
      = b0 % 256 := by
    rcases hb0 with h | h <;> rw [h] <;> decide
  rw [hmn]

end Emulator

/-! ## Lemmas on the bytes emitted by the assembler -/

theorem mapFind_mapModify {α κ : Type} [DecidableEq κ] (key : α → κ) (k : κ) (f : α → α)
    (hf : ∀ y, key (f y) = key y) (m : List α) :
    mapFind key k (mapModify key k f m) = (mapFind key k m).map f := by
  induction m with
  | nil => rfl
  | cons y ys ih =>
    unfold mapFind mapModify at *
    rw [List.map_cons, List.find?_cons, List.find?_cons]
    by_cases hy : key y = k
    · rw [if_pos hy, hf, hy]
      simp
    · rw [if_neg hy]
      simp only [hy, decide_False]
      exact ih

namespace Assembler

theorem mapFind_pushByte (a : Assembler) (s : SectionTableRecord) (v : Int)
    (hfind : mapFind SectionTableRecord.name a.currentSection a.sectionTable = some s) :
    mapFind SectionTableRecord.name (pushByte a v).currentSection (pushByte a v).sectionTable
      = some { s with sectionData := s.sectionData ++ [toChar v] } := by
  unfold pushByte
  simp only
  rw [mapFind_mapModify SectionTableRecord.name a.currentSection
    (fun (s : SectionTableRecord) => { s with sectionData := s.sectionData ++ [toChar v] })
    (fun _ => rfl), hfind]
  rfl

theorem pushBytes_spec (bytes : List Int) :
    ∀ (a : Assembler) (s : SectionTableRecord),
      mapFind SectionTableRecord.name a.currentSection a.sectionTable = some s →
      sectionDataOf (pushBytes a bytes) a.currentSection = s.sectionData ++ bytes.map toChar
        ∧ (pushBytes a bytes).locationCounter = a.locationCounter
        ∧ (pushBytes a bytes).currentSection = a.currentSection := by
  induction bytes with
  | nil =>
    intro a s hfind
    simp [pushBytes, sectionDataOf, hfind]
  | cons b bs ih =>
    intro a s hfind
    have h1 := mapFind_pushByte a s b hfind
    have h2 := ih (pushByte a b) _ h1
    have hcs : (pushByte a b).currentSection = a.currentSection := rfl
    have hlc : (pushByte a b).locationCounter = a.locationCounter := rfl
    rw [hcs, hlc] at h2
    have hp : pushBytes a (b :: bs) = pushBytes (pushByte a b) bs := rfl
    rw [hp]
    refine ⟨?_, h2.2.1, h2.2.2⟩
    rw [h2.1]
    simp

theorem advance_pushBytes_spec (a : Assembler) (s : SectionTableRecord) (bytes : List Int)
    (n : Nat) (hn : n = bytes.length)
    (hfind : mapFind SectionTableRecord.name a.currentSection a.sectionTable = some s) :
    sectionDataOf (advance (pushBytes a bytes) n) a.currentSection
        = s.sectionData ++ bytes.map toChar
      ∧ (advance (pushBytes a bytes) n).locationCounter
        = a.locationCounter + (bytes.map toChar).length := by
  have h := pushBytes_spec bytes a s hfind
  constructor
  · exact h.1
  · show (pushBytes a bytes).locationCounter + n = _
    rw [h.2.1, hn, List.length_map]

end Assembler

namespace Assembler
open Emulator

theorem decode_projections (e : Emulator) (hlen : e.registers.length = 9) (k : Int)
    (c : CommandData) (h : commandFetchAndDecode e = (atPc e k c, true)) :
    (commandFetchAndDecode e).2 = true ∧ (commandFetchAndDecode e).1.cd = c ∧
      reg (commandFetchAndDecode e).1 pc = toShort (reg e pc + k) ∧
      (commandFetchAndDecode e).1.memory = e.memory := by
  rw [h]
  exact ⟨rfl, rfl, reg_pc_atPc e k c hlen, rfl⟩

theorem register_bounds (r : Fin 9) : 0 ≤ (r : Int) ∧ (r : Int) ≤ 8 := by
  have := r.isLt
  omega

theorem bitOr_0F_register : ∀ r : Fin 9, bitOr 0x0F ((r : Int) * 16) = (r : Int) * 16 + 15 := by
  decide

theorem bitOr_06_register : ∀ r : Fin 9, bitOr 0x06 ((r : Int) * 16) = (r : Int) * 16 + 6 := by
  decide

theorem bitOr_registers :
    ∀ rS rD : Fin 9, bitOr (rS : Int) ((rD : Int) * 16) = (rD : Int) * 16 + (rS : Int) := by
  decide

/-- The bytes of a command of the register-only family and their decoding. -/
theorem register_command_roundtrip (junk : Int) (a : Assembler) (inputLine : String)
    (s : SectionTableRecord)
    (hfind : mapFind SectionTableRecord.name a.currentSection a.sectionTable = some s)
    (form : CommandForm)
    (hfam : match form with
      | .noOperand _ => True
      | .oneRegister _ _ => True
      | .twoRegisters _ _ _ => True
      | _ => False) :
    ∃ (a1 : Assembler) (bytes : List Int),
      processForm junk a inputLine form = some (a1, true) ∧
      sectionDataOf a1 a.currentSection = s.sectionData ++ bytes ∧
      a1.locationCounter = a.locationCounter + bytes.length ∧
      (bytes.length = 1 ∨ bytes.length = 2 ∨ bytes.length = 3 ∨ bytes.length = 5) ∧
      ∀ e : Emulator, e.registers.length = 9 → e.cd = CommandData.empty →
        holdsAtPc e bytes →
        commandFetchAndDecode e = (atPc e bytes.length (encodedFields junk form), true) := by
  cases form with
  | noOperand c =>
    have hs := advance_pushBytes_spec a s [c.opcode] 1 rfl hfind
    refine ⟨advance (pushBytes a [c.opcode]) 1, [c.opcode].map toChar, rfl, hs.1, hs.2,
      Or.inl rfl, ?_⟩
    intro e hlen hcd hmem
    have hd := decode_one_byte e hlen hcd (toChar c.opcode) hmem (by cases c <;> decide)
    rw [hd]
    have : toChar c.opcode % 256 = c.mnemonic := by cases c <;> decide
    rw [this]
    rfl
  | oneRegister c r =>
    have hr := register_bounds r
    cases c with
    | int =>
      have hs := advance_pushBytes_spec a s [0x10, bitOr 0x0F ((r : Int) * 16)] 2 rfl hfind
      refine ⟨advance (pushBytes a [0x10, bitOr 0x0F ((r : Int) * 16)]) 2, _, rfl, hs.1, hs.2,
        Or.inr (Or.inl rfl), ?_⟩
      intro e hlen hcd hmem
      have hd := decode_two_bytes e hlen hcd MNEMONIC_int (toChar 0x10)
        (toChar (bitOr 0x0F ((r : Int) * 16))) (r : Int) 15 hmem (by decide)
        (by rw [toChar_mod, bitOr_0F_register]; omega) hr (by omega) (by decide)
      rw [hd]
      rfl
    | not =>
      have hs := advance_pushBytes_spec a s [0x80, bitOr 0x0F ((r : Int) * 16)] 2 rfl hfind
      refine ⟨advance (pushBytes a [0x80, bitOr 0x0F ((r : Int) * 16)]) 2, _, rfl, hs.1, hs.2,
        Or.inr (Or.inl rfl), ?_⟩
      intro e hlen hcd hmem
      have hd := decode_two_bytes e hlen hcd MNEMONIC_not (toChar 0x80)
        (toChar (bitOr 0x0F ((r : Int) * 16))) (r : Int) 15 hmem (by decide)
        (by rw [toChar_mod, bitOr_0F_register]; omega) hr (by omega) (by decide)
      rw [hd]
      rfl
    | push =>
      have hs := advance_pushBytes_spec a s [0xB0, bitOr 0x06 ((r : Int) * 16), 0x12] 3 rfl hfind
      refine ⟨advance (pushBytes a [0xB0, bitOr 0x06 ((r : Int) * 16), 0x12]) 3, _, rfl,
        hs.1, hs.2, Or.inr (Or.inr (Or.inl rfl)), ?_⟩
      intro e hlen hcd hmem
      have hd := decode_loadStore_short e hlen hcd (toChar 0xB0)
        (toChar (bitOr 0x06 ((r : Int) * 16))) (toChar 0x12) (r : Int) 6 1 2 hmem (by decide)
        (by rw [toChar_mod, bitOr_06_register]; omega) hr (by omega) (by decide) (by omega)
        (Or.inr rfl)
      rw [hd]
      rfl
    | pop =>
      have hs := advance_pushBytes_spec a s [0xA0, bitOr 0x06 ((r : Int) * 16), 0x42] 3 rfl hfind
      refine ⟨advance (pushBytes a [0xA0, bitOr 0x06 ((r : Int) * 16), 0x42]) 3, _, rfl,
        hs.1, hs.2, Or.inr (Or.inr (Or.inl rfl)), ?_⟩
      intro e hlen hcd hmem
      have hd := decode_loadStore_short e hlen hcd (toChar 0xA0)
        (toChar (bitOr 0x06 ((r : Int) * 16))) (toChar 0x42) (r : Int) 6 4 2 hmem (by decide)
        (by rw [toChar_mod, bitOr_06_register]; omega) hr (by omega) (by decide) (by omega)
        (Or.inr rfl)
      rw [hd]
      rfl
  | twoRegisters c rD rS =>
    have hD := register_bounds rD
    have hS := register_bounds rS
    have hs := advance_pushBytes_spec a s
      [toChar c.opcode, bitOr (rS : Int) ((rD : Int) * 16)] 2 rfl hfind
    refine ⟨advance (pushBytes a [toChar c.opcode, bitOr (rS : Int) ((rD : Int) * 16)]) 2, _,
      rfl, hs.1, hs.2, Or.inr (Or.inl rfl), ?_⟩
    intro e hlen hcd hmem
    have hd := decode_two_bytes e hlen hcd c.mnemonic (toChar (toChar c.opcode))
      (toChar (bitOr (rS : Int) ((rD : Int) * 16))) (rD : Int) (rS : Int) hmem
      (by cases c <;> decide)
      (by rw [toChar_mod, bitOr_registers]; omega) hD (by omega)
      (by cases c <;> (rw [if_neg (by decide)]; omega))
    rw [hd]
    rfl
  | jump _ _ => exact absurd hfam id
  | loadStore _ _ _ => exact absurd hfam id

end Assembler

namespace Assembler
open Emulator

theorem operandValue_literal (junk : Int) (a : Assembler) (text : List Char) (operation : Char)
    (prefixText : List Char) (h : matchesSymbol text = false) :
    operandValue junk a text operation prefixText
      = (getDecimalFromLiteral junk (prefixText ++ text)).map (fun v => (a, v)) := by
  unfold operandValue
  rw [h]
  rfl

theorem toChar_range (x : Int) : -128 ≤ toChar x ∧ toChar x ≤ 127 := by
  unfold toChar; omega

theorem payload_bytes (v : Int) :
    toShort (toChar (v / 256 % 256) * 256 + toChar (v % 256) % 256) = toShort v :=
  toShort_payload v

/-- The bytes of a jump command with a register or literal operand and their
decoding. -/
theorem jump_command_roundtrip (junk : Int) (a : Assembler) (inputLine : String)
    (s : SectionTableRecord)
    (hfind : mapFind SectionTableRecord.name a.currentSection a.sectionTable = some s)
    (c : JumpCommand) (o : Operand) (ho : o.isRegisterOrLiteral)
    (hret : (processForm junk a inputLine (.jump c (some o))).isSome) :
    ∃ (a1 : Assembler) (bytes : List Int),
      processForm junk a inputLine (.jump c (some o)) = some (a1, true) ∧
      sectionDataOf a1 a.currentSection = s.sectionData ++ bytes ∧
      a1.locationCounter = a.locationCounter + bytes.length ∧
      (bytes.length = 1 ∨ bytes.length = 2 ∨ bytes.length = 3 ∨ bytes.length = 5) ∧
      ∀ e : Emulator, e.registers.length = 9 → e.cd = CommandData.empty →
        holdsAtPc e bytes →
        commandFetchAndDecode e
          = (atPc e bytes.length (encodedFields junk (.jump c (some o))), true) := by
  have hop : jumpMnemonic (toChar (c.opcode % 256) % 256) = some c.mnemonic := by
    cases c <;> decide
  cases o with
  | regdir r =>
    have hr := register_bounds r
    have hs := advance_pushBytes_spec a s [c.opcode % 256, bitOr 0xF0 (r : Int), 0x01] 3 rfl hfind
    refine ⟨advance (pushBytes a [c.opcode % 256, bitOr 0xF0 (r : Int), 0x01]) 3, _, rfl,
      hs.1, hs.2, Or.inr (Or.inr (Or.inl rfl)), ?_⟩
    intro e hlen hcd hmem
    have hd := decode_jump_short e hlen hcd c.mnemonic (toChar (c.opcode % 256))
      (toChar (bitOr 0xF0 (r : Int))) (toChar 0x01) (r : Int) 1 hmem hop
      (by rw [toChar_mod, bitOr_F0_register]; omega) (by omega) (by decide) (Or.inl rfl)
    rw [hd]
    rfl
  | regind r =>
    have hr := register_bounds r
    have hs := advance_pushBytes_spec a s [c.opcode % 256, bitOr 0xF0 (r : Int), 0x02] 3 rfl hfind
    refine ⟨advance (pushBytes a [c.opcode % 256, bitOr 0xF0 (r : Int), 0x02]) 3, _, rfl,
      hs.1, hs.2, Or.inr (Or.inr (Or.inl rfl)), ?_⟩
    intro e hlen hcd hmem
    have hd := decode_jump_short e hlen hcd c.mnemonic (toChar (c.opcode % 256))
      (toChar (bitOr 0xF0 (r : Int))) (toChar 0x02) (r : Int) 2 hmem hop
      (by rw [toChar_mod, bitOr_F0_register]; omega) (by omega) (by decide) (Or.inr rfl)
    rw [hd]
    rfl
  | absolute text =>
    have hlit := operandValue_literal junk
      (pushByte (pushByte (pushByte a (c.opcode % 256)) 0xFF) 0x00) text '+' [] ho
    have hform : processForm junk a inputLine (.jump c (some (.absolute text)))
        = (getDecimalFromLiteral junk text).map (fun v =>
            (advance (pushBytes a [c.opcode % 256, 0xFF, 0x00, v / 256 % 256, v % 256]) 5,
              true)) := by
      show (operandValue junk _ text '+' []).map _ = _
      rw [hlit, Option.map_map]
      rfl
    rw [hform] at hret ⊢
    obtain ⟨v, hv⟩ := Option.isSome_iff_exists.mp (by simpa using hret)
    rw [hv]
    have hs := advance_pushBytes_spec a s
      [c.opcode % 256, 0xFF, 0x00, v / 256 % 256, v % 256] 5 rfl hfind
    refine ⟨_, _, rfl, hs.1, hs.2, Or.inr (Or.inr (Or.inr rfl)), ?_⟩
    intro e hlen hcd hmem
    have hd := decode_jump_long e hlen hcd c.mnemonic (toChar (c.opcode % 256))
      (toChar 0xFF) (toChar 0x00) (toChar (v / 256 % 256)) (toChar (v % 256)) 15 0 hmem hop
      (by decide) (by omega) (by decide) (Or.inl rfl) (toChar_range _)
    rw [hd, payload_bytes]
    have hl : (Operand.absolute text).literalValue junk = some v := hv
    show _ = (atPc e _ ⟨c.mnemonic, 0xF, 0xF, 0, 0,
      toShort (((Operand.absolute text).literalValue junk).getD 0)⟩, true)
    rw [hl]
    rfl
  | pcrel symbol => exact absurd ho id
  | displacement r operation text =>
    have hr := register_bounds r
    have hlit := operandValue_literal junk
      (pushByte (pushByte (pushByte a (c.opcode % 256)) (bitOr 0xF0 (r : Int))) 0x03) text
      operation (if operation = '-' then ['-'] else []) ho
    have hform : processForm junk a inputLine (.jump c (some (.displacement r operation text)))
        = (getDecimalFromLiteral junk ((if operation = '-' then ['-'] else []) ++ text)).map
            (fun v =>
              (advance (pushBytes a
                [c.opcode % 256, bitOr 0xF0 (r : Int), 0x03, v / 256 % 256, v % 256]) 5,
              true)) := by
      show (operandValue junk _ text operation _).map _ = _
      rw [hlit, Option.map_map]
      rfl
    rw [hform] at hret ⊢
    obtain ⟨v, hv⟩ := Option.isSome_iff_exists.mp (by simpa using hret)
    rw [hv]
    have hs := advance_pushBytes_spec a s
      [c.opcode % 256, bitOr 0xF0 (r : Int), 0x03, v / 256 % 256, v % 256] 5 rfl hfind
    refine ⟨_, _, rfl, hs.1, hs.2, Or.inr (Or.inr (Or.inr rfl)), ?_⟩
    intro e hlen hcd hmem
    have hd := decode_jump_long e hlen hcd c.mnemonic (toChar (c.opcode % 256))
      (toChar (bitOr 0xF0 (r : Int))) (toChar 0x03) (toChar (v / 256 % 256)) (toChar (v % 256))
      (r : Int) 3 hmem hop
      (by rw [toChar_mod, bitOr_F0_register]; omega) (by omega) (by decide)
      (Or.inr (Or.inl rfl)) (toChar_range _)
    rw [hd, payload_bytes]
    have hl : (Operand.displacement r operation text).literalValue junk = some v := hv
    show _ = (atPc e _ ⟨c.mnemonic, 0xF, (r : Int), 0, 3,
      toShort (((Operand.displacement r operation text).literalValue junk).getD 0)⟩, true)
    rw [hl]
    rfl
  | memdir text =>
    have hlit := operandValue_literal junk
      (pushByte (pushByte (pushByte a (c.opcode % 256)) 0xFF) 0x04) text '+' [] ho
    have hform : processForm junk a inputLine (.jump c (some (.memdir text)))
        = (getDecimalFromLiteral junk text).map (fun v =>
            (advance (pushBytes a [c.opcode % 256, 0xFF, 0x04, v / 256 % 256, v % 256]) 5,
              true)) := by
      show (operandValue junk _ text '+' []).map _ = _
      rw [hlit, Option.map_map]
      rfl
    rw [hform] at hret ⊢
    obtain ⟨v, hv⟩ := Option.isSome_iff_exists.mp (by simpa using hret)
    rw [hv]
    have hs := advance_pushBytes_spec a s
      [c.opcode % 256, 0xFF, 0x04, v / 256 % 256, v % 256] 5 rfl hfind
    refine ⟨_, _, rfl, hs.1, hs.2, Or.inr (Or.inr (Or.inr rfl)), ?_⟩
    intro e hlen hcd hmem
    have hd := decode_jump_long e hlen hcd c.mnemonic (toChar (c.opcode % 256))
      (toChar 0xFF) (toChar 0x04) (toChar (v / 256 % 256)) (toChar (v % 256)) 15 4 hmem hop
      (by decide) (by omega) (by decide) (Or.inr (Or.inr (Or.inl rfl))) (toChar_range _)
    rw [hd, payload_bytes]
    have hl : (Operand.memdir text).literalValue junk = some v := hv
    show _ = (atPc e _ ⟨c.mnemonic, 0xF, 0xF, 0, 4,
      toShort (((Operand.memdir text).literalValue junk).getD 0)⟩, true)
    rw [hl]
    rfl

end Assembler

namespace Assembler
open Emulator

end Assembler

namespace Assembler
open Emulator

/-- C9.  Encode/decode round trip for the register-only and jump families: for
every line that the command expressions of `processCommand` match as `halt`,
`iret`, `ret`, `int R`, `not R`, `push R`, `pop R`, a two-register command, or
a jump whose operand is made of registers and literals, in a state with a
current section, the call `processCommand` (whenever it returns) accepts the
line and appends 1, 2, 3 or 5 bytes to the current section, advancing the
location counter by as many; and `commandFetchAndDecode`, run with these bytes
at `pc`, succeeds, leaves in `cd` the mnemonic of the opcode table with the
encoded rDst, rSrc, update, addressing mode and 16-bit payload, and advances
`pc` by the number of bytes. -/
theorem processCommand_decode_register_jump (junk : Int) (a : Assembler) (inputLine : String)
    (form : CommandForm) (s : SectionTableRecord)
    (hsec : a.currentSection ≠ "")
    (hfind : mapFind SectionTableRecord.name a.currentSection a.sectionTable = some s)
    (hform : classifyCommand inputLine.data = some form)
    (hfam : form.isRegisterOrJump)
    (hret : (processCommand junk a inputLine).isSome) :
    ∃ (a1 : Assembler) (bytes : List Int),
      processCommand junk a inputLine = some (a1, true) ∧
      sectionDataOf a1 a.currentSection = s.sectionData ++ bytes ∧
      a1.locationCounter = a.locationCounter + bytes.length ∧
      (bytes.length = 1 ∨ bytes.length = 2 ∨ bytes.length = 3 ∨ bytes.length = 5) ∧
      ∀ e : Emulator, e.registers.length = 9 → e.cd = CommandData.empty →
        holdsAtPc e bytes →
        (commandFetchAndDecode e).2 = true ∧
        (commandFetchAndDecode e).1.cd = encodedFields junk form ∧
        reg (commandFetchAndDecode e).1 pc = toShort (reg e pc + bytes.length) ∧
        (commandFetchAndDecode e).1.memory = e.memory := by
  have hp : processCommand junk a inputLine = processForm junk a inputLine form := by
    unfold processCommand
    rw [if_neg hsec, hform]
  rw [hp] at hret ⊢
  have key : ∃ (a1 : Assembler) (bytes : List Int),
      processForm junk a inputLine form = some (a1, true) ∧
      sectionDataOf a1 a.currentSection = s.sectionData ++ bytes ∧
      a1.locationCounter = a.locationCounter + bytes.length ∧
      (bytes.length = 1 ∨ bytes.length = 2 ∨ bytes.length = 3 ∨ bytes.length = 5) ∧
      ∀ e : Emulator, e.registers.length = 9 → e.cd = CommandData.empty →
        holdsAtPc e bytes →
        commandFetchAndDecode e = (atPc e bytes.length (encodedFields junk form), true) := by
    cases form with
    | noOperand c => exact register_command_roundtrip junk a inputLine s hfind _ trivial
    | oneRegister c r => exact register_command_roundtrip junk a inputLine s hfind _ trivial
    | twoRegisters c rD rS => exact register_command_roundtrip junk a inputLine s hfind _ trivial
    | jump c operand =>
      cases operand with
      | none => exact absurd hfam id
      | some o => exact jump_command_roundtrip junk a inputLine s hfind c o hfam hret
    | loadStore c rD operand => exact absurd hfam id
  obtain ⟨a1, bytes, h1, h2, h3, h4, h5⟩ := key
  exact ⟨a1, bytes, h1, h2, h3, h4, fun e hlen hcd hmem =>
    decode_projections e hlen _ _ (h5 e hlen hcd hmem)⟩

/-- C9, witness: the line `jmp *[r1 - 5]` after `.section text` emits the bytes
`50 F1 03 FF FB`, which decode at `pc = 0` to `jmp` with rDst `0xF`, rSrc 1,
no update, mode `regind_disp` and payload -5, leaving `pc = 5`. -/
theorem processCommand_decode_register_jump_witness :
    (processCommand 0 afterSectionText "jmp *[r1 - 5]").map
        (fun p => (sectionDataOf p.1 "text", p.2)) = some ([80, -15, 3, -1, -5], true) ∧
      (commandFetchAndDecode (withProgram [80, -15, 3, -1, -5])).2 = true ∧
      (commandFetchAndDecode (withProgram [80, -15, 3, -1, -5])).1.cd
        = ⟨MNEMONIC_jmp, 0xF, 1, no_update, regind_disp, -5⟩ ∧
      reg (commandFetchAndDecode (withProgram [80, -15, 3, -1, -5])).1 pc = 5 := by
  obtain ⟨a1, bytes, h1, h2, _, _, h5⟩ :=
    processCommand_decode_register_jump 0 afterSectionText "jmp *[r1 - 5]"
      (.jump .jmp (some (.displacement 1 '-' ['5']))) ⟨2, 0, "text", []⟩
      (by decide) (by decide) (by decide)
      (by show matchesSymbol ['5'] = false; decide) (by decide)
  have hbytes : (processCommand 0 afterSectionText "jmp *[r1 - 5]").map
      (fun p => (sectionDataOf p.1 "text", p.2)) = some ([80, -15, 3, -1, -5], true) := by
    decide
  have hb : bytes = [80, -15, 3, -1, -5] := by
    rw [h1] at hbytes
    have h3 : sectionDataOf a1 "text" = [80, -15, 3, -1, -5] := by
      simpa using hbytes
    have h4 : sectionDataOf a1 "text" = [] ++ bytes := h2
    rw [h3] at h4
    simpa using h4.symm
  subst hb
  have hd := h5 (withProgram [80, -15, 3, -1, -5]) (by decide) rfl (by
    constructor
    · decide
    · intro i hi
      have : i = 0 ∨ i = 1 ∨ i = 2 ∨ i = 3 ∨ i = 4 := by
        simp only [List.length_cons, List.length_nil] at hi
        omega
      rcases this with h | h | h | h | h <;> subst h <;> decide)
  refine ⟨hbytes, hd.1, ?_, ?_⟩
  · rw [hd.2.1]
    decide
  · rw [hd.2.2.1]
    decide

end Assembler

namespace Assembler
open Emulator

end Assembler

/-! ## Linker: symbol intake, extern resolution, placement, relocation -/

namespace Linker

/-- C1 (the code diverges).  Two input files that each define the global
symbol `foo`: `Linker::link` records "Multiple definitions of foo symbol." but
returns true and writes the program image, because
`fillOutputTablesFromInputFiles` drops the result of `addOutputSymbol`. -/
theorem link_multiple_definitions_succeeds :
    (link twoGlobalFooFiles (new ["a.o", "b.o"] "out.hex")).2 = true ∧
      "Multiple definitions of foo symbol."
        ∈ (link twoGlobalFooFiles (new ["a.o", "b.o"] "out.hex")).1.linkingErrors ∧
      (link twoGlobalFooFiles (new ["a.o", "b.o"] "out.hex")).1.outputFile
        = some ⟨1, [⟨[0, 0, 0, 0], 0⟩]⟩ := by
  decide

/-- C2 (the code diverges).  An `R_HYP_16` record against the section `data`,
whose contribution is placed at address 0, on a field that holds `0x0080`:
after `Linker::link` the field holds the bytes `80 FF`, the value `0xFF80`,
and not `0x0080 + 0`, because the low byte is read as a negative `char` and
its sign bits are or-ed over the high byte. -/
theorem link_relocation_sign_extends_low_byte :
    (localWordObject.sections.map (fun s => s.sectionData.drop 128)) = [[], [], [-128, 0]] ∧
      (link localWordFiles (new ["a.o"] "out.hex")).2 = true ∧
      (link localWordFiles (new ["a.o"] "out.hex")).1.outputFile.map
          (fun image => image.segments.map (fun s => (s.baseAddress, s.segmentData.drop 128)))
        = some [(0, [-128, -1])] ∧
      ((-128 : Int) % 256 + 256 * ((-1 : Int) % 256) = 0xFF80) := by
  decide

/-- C5 (the code diverges).  File `a.o` declares `foo` extern and file `b.o`
declares `foo` global without defining it: no input defines `foo`, yet
`resolveExternSymbols` and `link` return true, because the test is only that
the name is in the symbol table. -/
theorem resolveExternSymbols_accepts_undefined_global :
    (∀ o ∈ [externFooObject, undefinedGlobalFooObject],
        ∀ symbol ∈ o.symbols, symbol.name = "foo" → symbol.isDefined = false) ∧
      (fillOutputTablesFromInputFiles externAndUndefinedFiles
        (new ["a.o", "b.o"] "out.hex")).1.externSymbols = ["foo"] ∧
      (resolveExternSymbols (fillOutputTablesFromInputFiles externAndUndefinedFiles
        (new ["a.o", "b.o"] "out.hex")).1).2 = true ∧
      (link externAndUndefinedFiles (new ["a.o", "b.o"] "out.hex")).2 = true := by
  decide

/-- C6 (the code diverges).  One user section of `0xFF01` bytes is placed at
address 0 and covers the address `0xFF00`; `setSectionsBaseAddress` returns
true, because only the base address of a section is compared with the
reserved region. -/
theorem setSectionsBaseAddress_ignores_section_end :
    (setSectionsBaseAddress (fillOutputTablesFromInputFiles longTextFiles
        (new ["a.o"] "out.hex")).1).2 = true ∧
      (setSectionsBaseAddress (fillOutputTablesFromInputFiles longTextFiles
        (new ["a.o"] "out.hex")).1).1.sectionTable.map
          (fun s => (s.name, s.baseAddress, s.length))
        = [("ABS", 0, 0), ("UNDEF", 0, 0), ("text", 0, 0xFF01)] := by
  decide

end Linker

/-! ## Emulator: flags of `cmp`, loading of the program image -/

namespace Emulator

/-- C3 (the code diverges).  `cmp r0,r1` with `r0 = 0x0001` and `r1 = 0xFFFF`
leaves the C flag clear although 1 is below 65535 as unsigned values, and with
the operands exchanged it sets C although 65535 is not below 1: the two
registers are compared as signed `short` values. -/
theorem cmp_carry_is_signed_comparison :
    bitAnd (reg (commandExecute (beforeCmp 1 (-1)) true).emulator psw) FLAG_c = 0 ∧
      (1 : Int) % 65536 < (-1 : Int) % 65536 ∧
      bitAnd (reg (commandExecute (beforeCmp (-1) 1) true).emulator psw) FLAG_c = FLAG_c ∧
      ¬ ((-1 : Int) % 65536 < (1 : Int) % 65536) := by
  decide

/-- C4 (the code diverges).  `cmp r0,r1` with `r0 = 0x8000` (-32768) and
`r1 = 1`: the difference -32769 does not fit 16 bits, the operands have
opposite signs and the 16-bit result `0x7FFF` has the sign opposite to `r0`,
yet the O flag is clear after the command, because the test on `op1 - op2` is
made on the `int` difference, which never changes sign. -/
theorem cmp_overflow_flag_not_set :
    bitAnd (reg (commandExecute (beforeCmp (-32768) 1) true).emulator psw) FLAG_o = 0 ∧
      ((-32768 : Int) - 1 < -32768) ∧ toShort (-32768 - 1) = 0x7FFF := by
  decide

/-- C7 (the code diverges).  A one-byte segment at `0xFF00` lies inside the
reserved region and is accepted, and an empty segment at address 0 lies
wholly below it and is rejected: the test compares `base + size - 1`, computed
in `size_t`, with `0xFF00` by `>`. -/
theorem fillMemoryFromInputFile_boundary :
    (fillMemoryFromInputFile new [⟨[7], 0xFF00⟩]).2 = true ∧
      (fillMemoryFromInputFile new [⟨[], 0⟩]).2 = false := by
  decide

/-- C8 (the code diverges).  The image with the one-byte segments `[1]` at
address 1 and `[2]` at address 0, in this order, is loaded with success, but
the memory then has 65538 bytes, and the byte at address 1 is 0 while the byte
`1` of the first segment is at address 2: `vector::insert` moves the old
content up instead of overwriting it. -/
theorem fillMemoryFromInputFile_inserts :
    (fillMemoryFromInputFile new [⟨[1], 1⟩, ⟨[2], 0⟩]).2 = true ∧
      (fillMemoryFromInputFile new [⟨[1], 1⟩, ⟨[2], 0⟩]).1.memory.length = 65538 ∧
      (fillMemoryFromInputFile new [⟨[1], 1⟩, ⟨[2], 0⟩]).1.memory.getD 1 0 = 0 ∧
      (fillMemoryFromInputFile new [⟨[1], 1⟩, ⟨[2], 0⟩]).1.memory.getD 2 0 = 1 := by
  refine ⟨by decide, ?_, by decide, by decide⟩
  rw [length_memory_fill _ _ (by rw [length_memory_new]) (by decide) (by decide),
    length_memory_new]
  rfl

end Emulator

/-! ## Lemmas on ordered maps -/

theorem mapFind_mapInsert_absent {α κ κ' : Type} [DecidableEq κ] [LT κ']
    [∀ a b : κ', Decidable (a < b)] [DecidableEq κ'] (key : α → κ) (key' : α → κ')
    (hkey : ∀ a b, key' a = key' b → key a = key b) (x : α) (m : List α)
    (habs : mapFind key (key x) m = none) (k : κ) :
    mapFind key k (mapInsert key' x m) = if key x = k then some x else mapFind key k m := by
  induction m with
  | nil =>
    unfold mapInsert mapFind
    by_cases h : key x = k <;> simp [h]
  | cons y ys ih =>
    have hy : key y ≠ key x := by
      intro h
      unfold mapFind at habs
      rw [List.find?_cons] at habs
      simp [h] at habs
    have hys : mapFind key (key x) ys = none := by
      unfold mapFind at habs ⊢
      rw [List.find?_cons] at habs
      simpa [hy] using habs
    unfold mapInsert
    by_cases hlt : key' x < key' y
    · rw [if_pos hlt]
      unfold mapFind
      rw [List.find?_cons]
      by_cases h : key x = k <;> simp [h]
    · rw [if_neg hlt]
      have hne : key' x ≠ key' y := fun h => hy (hkey x y h).symm
      rw [if_neg hne]
      have ih := ih hys
      unfold mapFind at ih ⊢
      rw [List.find?_cons, List.find?_cons, ih]
      by_cases h : key y = k
      · have hx : key x ≠ k := fun hx => hy (h.trans hx.symm)
        simp [h, hx]
      · simp [h]

theorem mapFind_mapModify_ne {α κ : Type} [DecidableEq κ] (key : α → κ) (k k' : κ) (f : α → α)
    (hf : ∀ y, key (f y) = key y) (hk : k' ≠ k) (m : List α) :
    mapFind key k' (mapModify key k f m) = mapFind key k' m := by
  induction m with
  | nil => rfl
  | cons y ys ih =>
    unfold mapFind mapModify at *
    rw [List.map_cons, List.find?_cons, List.find?_cons]
    by_cases hy : key y = k
    · rw [if_pos hy, hf]
      have : key y ≠ k' := fun h => hk (h.symm.trans hy)
      simp only [this, decide_False]
      exact ih
    · rw [if_neg hy, ih]

theorem name_data_injective (a b : String) (h : a.data = b.data) : a = b := by
  cases a; cases b; simp_all

theorem perm_mapInsert_absent {α κ : Type} [LT κ] [∀ a b : κ, Decidable (a < b)] [DecidableEq κ]
    (key : α → κ) (x : α) (m : List α) (habs : ∀ y ∈ m, key y ≠ key x) :
    (mapInsert key x m).Perm (x :: m) := by
  induction m with
  | nil => exact List.Perm.refl _
  | cons y ys ih =>
    unfold mapInsert
    by_cases hlt : key x < key y
    · rw [if_pos hlt]
    · rw [if_neg hlt, if_neg (fun h => habs y (List.mem_cons_self _ _) h.symm)]
      exact ((ih (fun z hz => habs z (List.mem_cons_of_mem _ hz))).cons y).trans
        (List.Perm.swap x y ys)

theorem mapFind_eq_none {α κ : Type} [DecidableEq κ] (key : α → κ) (k : κ) (m : List α) :
    mapFind key k m = none ↔ ∀ y ∈ m, key y ≠ k := by
  unfold mapFind
  simp [List.find?_eq_none]

theorem mapFind_some_mem {α κ : Type} [DecidableEq κ] (key : α → κ) (k : κ) (m : List α) (s : α)
    (h : mapFind key k m = some s) : s ∈ m ∧ key s = k := by
  unfold mapFind at h
  exact ⟨List.mem_of_find?_eq_some h, by simpa using List.find?_some h⟩

theorem mapFind_unique {α κ : Type} [DecidableEq κ] (key : α → κ) (k : κ) (m : List α) (s : α)
    (hnodup : (m.map key).Nodup) (h : mapFind key k m = some s) (y : α) (hy : y ∈ m)
    (hk : key y = k) : y = s := by
  obtain ⟨hs, hks⟩ := mapFind_some_mem key k m s h
  exact List.inj_on_of_nodup_map hnodup hy hs (hk.trans hks.symm)

theorem map_key_mapModify {α κ : Type} [DecidableEq κ] (key : α → κ) (k : κ) (f : α → α)
    (hf : ∀ y, key (f y) = key y) (m : List α) :
    (mapModify key k f m).map key = m.map key := by
  unfold mapModify
  rw [List.map_map]
  apply List.map_congr_left
  intro y _
  show key (if key y = k then f y else y) = key y
  split
  · exact hf y
  · rfl

theorem mapFind_mapInsert_isSome {α κ κ' : Type} [DecidableEq κ] [LT κ']
    [∀ a b : κ', Decidable (a < b)] [DecidableEq κ'] (key : α → κ) (key' : α → κ')
    (hkey : ∀ a b, key' a = key' b → key a = key b) (x : α) (m : List α) :
    (mapFind key (key x) (mapInsert key' x m)).isSome = true := by
  induction m with
  | nil =>
    unfold mapInsert mapFind
    simp
  | cons y ys ih =>
    unfold mapInsert
    by_cases hlt : key' x < key' y
    · rw [if_pos hlt]
      unfold mapFind
      simp
    · rw [if_neg hlt]
      by_cases heq : key' x = key' y
      · rw [if_pos heq]
        unfold mapFind
        rw [List.find?_cons]
        simp [hkey x y heq]
      · rw [if_neg heq]
        unfold mapFind at ih ⊢
        rw [List.find?_cons]
        by_cases h : key y = key x
        · simp [h]
        · simpa [h] using ih

/-! ## Lemmas on the symbol operations of the assembler -/

namespace Assembler

theorem addSymbol_noSection (a : Assembler) (symbolLabel : String) (hcur : a.currentSection = "") :
    addSymbol a symbolLabel
      = (insertError a "Symbol as label has to be defined in a section.", false) := by
  unfold addSymbol
  rw [if_pos hcur]

theorem addSymbol_rejected (a : Assembler) (symbolLabel : String) (s : SymbolTableRecord)
    (hcur : a.currentSection ≠ "")
    (hfind : mapFind SymbolTableRecord.name symbolLabel a.symbolTable = some s)
    (hs : s.isDefined = true ∨ s.isExtern = true) :
    (addSymbol a symbolLabel).2 = false
      ∧ (addSymbol a symbolLabel).1.symbolTable = a.symbolTable := by
  unfold addSymbol
  rw [if_neg hcur, hfind]
  simp only
  rw [if_pos hs]
  exact ⟨rfl, rfl⟩

theorem addSymbol_defines (a : Assembler) (symbolLabel : String) (s : SymbolTableRecord)
    (hcur : a.currentSection ≠ "")
    (hfind : mapFind SymbolTableRecord.name symbolLabel a.symbolTable = some s)
    (hs : ¬ (s.isDefined = true ∨ s.isExtern = true)) :
    addSymbol a symbolLabel
      = ({ a with symbolTable :=
            mapModify SymbolTableRecord.name symbolLabel (fun (s : SymbolTableRecord) =>
              { s with isDefined := true, offset := (a.locationCounter : Int),
                       sectionName := a.currentSection }) a.symbolTable }, true) := by
  unfold addSymbol
  rw [if_neg hcur, hfind]
  simp only
  rw [if_neg hs]

theorem addSymbol_inserts (a : Assembler) (symbolLabel : String)
    (hcur : a.currentSection ≠ "")
    (hfind : mapFind SymbolTableRecord.name symbolLabel a.symbolTable = none) :
    addSymbol a symbolLabel
      = ({ a with
            nextSymbolID := a.nextSymbolID + 1,
            symbolTable := mapInsert (fun (x : SymbolTableRecord) => x.name.data)
              ⟨a.nextSymbolID, (a.locationCounter : Int), true, true, false,
                a.currentSection, symbolLabel⟩ a.symbolTable }, true) := by
  unfold addSymbol
  rw [if_neg hcur, hfind]

theorem mapFind_symbol_inserted (x : SymbolTableRecord) (m : List SymbolTableRecord)
    (habs : mapFind SymbolTableRecord.name x.name m = none) (k : String) :
    mapFind SymbolTableRecord.name k (mapInsert (fun (x : SymbolTableRecord) => x.name.data) x m)
      = if x.name = k then some x else mapFind SymbolTableRecord.name k m :=
  mapFind_mapInsert_absent SymbolTableRecord.name (fun x => x.name.data)
    (fun _ _ h => name_data_injective _ _ h) x m habs k

theorem addGlobalSymbol_rejected (a : Assembler) (symbolName : String) (s : SymbolTableRecord)
    (hfind : mapFind SymbolTableRecord.name symbolName a.symbolTable = some s)
    (hs : s.isExtern = true) :
    (addGlobalSymbol a symbolName).2 = false
      ∧ (addGlobalSymbol a symbolName).1.symbolTable = a.symbolTable := by
  unfold addGlobalSymbol
  rw [hfind]
  simp only
  rw [if_pos hs]
  exact ⟨rfl, rfl⟩

theorem addGlobalSymbol_globalises (a : Assembler) (symbolName : String) (s : SymbolTableRecord)
    (hfind : mapFind SymbolTableRecord.name symbolName a.symbolTable = some s)
    (hs : ¬ s.isExtern = true) :
    addGlobalSymbol a symbolName
      = ({ a with symbolTable :=
            mapModify SymbolTableRecord.name symbolName (fun (s : SymbolTableRecord) =>
              { s with isLocal := false }) a.symbolTable }, true) := by
  unfold addGlobalSymbol
  rw [hfind]
  simp only
  rw [if_neg hs]

theorem addGlobalSymbol_inserts (a : Assembler) (symbolName : String)
    (hfind : mapFind SymbolTableRecord.name symbolName a.symbolTable = none) :
    addGlobalSymbol a symbolName
      = ({ a with
            nextSymbolID := a.nextSymbolID + 1,
            symbolTable := mapInsert (fun (x : SymbolTableRecord) => x.name.data)
              ⟨a.nextSymbolID, 0, false, false, false, "UNDEF", symbolName⟩ a.symbolTable },
          true) := by
  unfold addGlobalSymbol
  rw [hfind]

theorem addExternSymbol_rejected (a : Assembler) (symbolName : String) (s : SymbolTableRecord)
    (hfind : mapFind SymbolTableRecord.name symbolName a.symbolTable = some s)
    (hs : s.isDefined = true) :
    (addExternSymbol a symbolName).2 = false
      ∧ (addExternSymbol a symbolName).1.symbolTable = a.symbolTable := by
  unfold addExternSymbol
  rw [hfind]
  simp only
  rw [if_pos hs]
  exact ⟨rfl, rfl⟩

theorem addExternSymbol_imports (a : Assembler) (symbolName : String) (s : SymbolTableRecord)
    (hfind : mapFind SymbolTableRecord.name symbolName a.symbolTable = some s)
    (hs : ¬ s.isDefined = true) :
    addExternSymbol a symbolName
      = ({ a with symbolTable :=
            mapModify SymbolTableRecord.name symbolName (fun (s : SymbolTableRecord) =>
              { s with isExtern := true }) a.symbolTable }, true) := by
  unfold addExternSymbol
  rw [hfind]
  simp only
  rw [if_neg hs]

theorem addExternSymbol_inserts (a : Assembler) (symbolName : String)
    (hfind : mapFind SymbolTableRecord.name symbolName a.symbolTable = none) :
    addExternSymbol a symbolName
      = ({ a with
            nextSymbolID := a.nextSymbolID + 1,
            symbolTable := mapInsert (fun (x : SymbolTableRecord) => x.name.data)
              ⟨a.nextSymbolID, 0, false, false, true, "UNDEF", symbolName⟩ a.symbolTable },
          true) := by
  unfold addExternSymbol
  rw [hfind]

theorem symbol_names_mapInsert (x : SymbolTableRecord) (m : List SymbolTableRecord)
    (habs : mapFind SymbolTableRecord.name x.name m = none)
    (hnodup : (m.map SymbolTableRecord.name).Nodup) :
    ((mapInsert (fun (x : SymbolTableRecord) => x.name.data) x m).map SymbolTableRecord.name).Nodup
      ∧ ∀ y ∈ mapInsert (fun (x : SymbolTableRecord) => x.name.data) x m, y = x ∨ y ∈ m := by
  have hne : ∀ y ∈ m, y.name.data ≠ x.name.data := by
    intro y hy h
    exact (mapFind_eq_none SymbolTableRecord.name x.name m).1 habs y hy (name_data_injective _ _ h)
  have hperm := perm_mapInsert_absent (fun (x : SymbolTableRecord) => x.name.data) x m hne
  constructor
  · rw [(hperm.map SymbolTableRecord.name).nodup_iff, List.map_cons, List.nodup_cons]
    refine ⟨?_, hnodup⟩
    intro hmem
    obtain ⟨y, hy, hname⟩ := List.mem_map.1 hmem
    exact (mapFind_eq_none SymbolTableRecord.name x.name m).1 habs y hy hname
  · intro y hy
    exact List.mem_cons.1 (hperm.mem_iff.1 hy)

theorem symbols_addSymbol (a : Assembler) (symbolLabel : String)
    (hnodup : (a.symbolTable.map SymbolTableRecord.name).Nodup)
    (hflags : ∀ s ∈ a.symbolTable, s.flagsConsistent) :
    ((addSymbol a symbolLabel).1.symbolTable.map SymbolTableRecord.name).Nodup
      ∧ ∀ s ∈ (addSymbol a symbolLabel).1.symbolTable, s.flagsConsistent := by
  by_cases hcur : a.currentSection = ""
  · rw [addSymbol_noSection a symbolLabel hcur]
    exact ⟨hnodup, hflags⟩
  · cases hfind : mapFind SymbolTableRecord.name symbolLabel a.symbolTable with
    | none =>
      rw [addSymbol_inserts a symbolLabel hcur hfind]
      obtain ⟨h1, h2⟩ := symbol_names_mapInsert
        ⟨a.nextSymbolID, (a.locationCounter : Int), true, true, false, a.currentSection,
          symbolLabel⟩ a.symbolTable hfind hnodup
      refine ⟨h1, fun s hs => ?_⟩
      rcases h2 s hs with h | h
      · rw [h]
        simp [SymbolTableRecord.flagsConsistent]
      · exact hflags s h
    | some s =>
      by_cases hs : s.isDefined = true ∨ s.isExtern = true
      · rw [(addSymbol_rejected a symbolLabel s hcur hfind hs).2]
        exact ⟨hnodup, hflags⟩
      · rw [addSymbol_defines a symbolLabel s hcur hfind hs]
        constructor
        · show ((mapModify _ _ _ a.symbolTable).map SymbolTableRecord.name).Nodup
          rw [map_key_mapModify]
          · exact hnodup
          · exact fun _ => rfl
        · intro t ht
          obtain ⟨y, hy, hty⟩ := List.mem_map.1 ht
          by_cases hname : y.name = symbolLabel
          · rw [if_pos hname] at hty
            have hys := mapFind_unique _ _ _ _ hnodup hfind y hy hname
            rw [hys] at hty
            rw [← hty]
            simp only [not_or, Bool.not_eq_true] at hs
            simp [SymbolTableRecord.flagsConsistent, hs.2]
          · rw [if_neg hname] at hty
            rw [← hty]
            exact hflags y hy

theorem symbols_addGlobalSymbol (a : Assembler) (symbolName : String)
    (hnodup : (a.symbolTable.map SymbolTableRecord.name).Nodup)
    (hflags : ∀ s ∈ a.symbolTable, s.flagsConsistent) :
    ((addGlobalSymbol a symbolName).1.symbolTable.map SymbolTableRecord.name).Nodup
      ∧ ∀ s ∈ (addGlobalSymbol a symbolName).1.symbolTable, s.flagsConsistent := by
  cases hfind : mapFind SymbolTableRecord.name symbolName a.symbolTable with
  | none =>
    rw [addGlobalSymbol_inserts a symbolName hfind]
    obtain ⟨h1, h2⟩ := symbol_names_mapInsert
      ⟨a.nextSymbolID, 0, false, false, false, "UNDEF", symbolName⟩ a.symbolTable hfind hnodup
    refine ⟨h1, fun s hs => ?_⟩
    rcases h2 s hs with h | h
    · rw [h]
      simp [SymbolTableRecord.flagsConsistent]
    · exact hflags s h
  | some s =>
    by_cases hs : s.isExtern = true
    · rw [(addGlobalSymbol_rejected a symbolName s hfind hs).2]
      exact ⟨hnodup, hflags⟩
    · rw [addGlobalSymbol_globalises a symbolName s hfind hs]
      constructor
      · show ((mapModify _ _ _ a.symbolTable).map SymbolTableRecord.name).Nodup
        rw [map_key_mapModify]
        · exact hnodup
        · exact fun _ => rfl
      · intro t ht
        obtain ⟨y, hy, hty⟩ := List.mem_map.1 ht
        have hyflags := hflags y hy
        by_cases hname : y.name = symbolName
        · rw [if_pos hname] at hty
          rw [← hty]
          unfold SymbolTableRecord.flagsConsistent at hyflags ⊢
          exact ⟨by simp, hyflags.2.1, by simp, hyflags.2.2.2⟩
        · rw [if_neg hname] at hty
          rw [← hty]
          exact hyflags

theorem symbols_addExternSymbol (a : Assembler) (symbolName : String)
    (hnodup : (a.symbolTable.map SymbolTableRecord.name).Nodup)
    (hflags : ∀ s ∈ a.symbolTable, s.flagsConsistent) :
    ((addExternSymbol a symbolName).1.symbolTable.map SymbolTableRecord.name).Nodup
      ∧ ∀ s ∈ (addExternSymbol a symbolName).1.symbolTable, s.flagsConsistent := by
  cases hfind : mapFind SymbolTableRecord.name symbolName a.symbolTable with
  | none =>
    rw [addExternSymbol_inserts a symbolName hfind]
    obtain ⟨h1, h2⟩ := symbol_names_mapInsert
      ⟨a.nextSymbolID, 0, false, false, true, "UNDEF", symbolName⟩ a.symbolTable hfind hnodup
    refine ⟨h1, fun s hs => ?_⟩
    rcases h2 s hs with h | h
    · rw [h]
      simp [SymbolTableRecord.flagsConsistent]
    · exact hflags s h
  | some s =>
    by_cases hs : s.isDefined = true
    · rw [(addExternSymbol_rejected a symbolName s hfind hs).2]
      exact ⟨hnodup, hflags⟩
    · rw [addExternSymbol_imports a symbolName s hfind hs]
      constructor
      · show ((mapModify _ _ _ a.symbolTable).map SymbolTableRecord.name).Nodup
        rw [map_key_mapModify]
        · exact hnodup
        · exact fun _ => rfl
      · intro t ht
        obtain ⟨y, hy, hty⟩ := List.mem_map.1 ht
        have hyflags := hflags y hy
        by_cases hname : y.name = symbolName
        · rw [if_pos hname] at hty
          have hys := mapFind_unique _ _ _ _ hnodup hfind y hy hname
          rw [hys] at hty hyflags
          rw [← hty]
          unfold SymbolTableRecord.flagsConsistent at hyflags ⊢
          have hlocal : ¬ s.isLocal = true := fun h => hs (hyflags.2.2.1 h)
          exact ⟨fun h => hlocal h.1, fun h => hs h.2, hyflags.2.2.1, hyflags.2.2.2⟩
        · rw [if_neg hname] at hty
          rw [← hty]
          exact hyflags

theorem symbolTable_addSectionSymbol (a : Assembler) (sectionName : String) :
    ∃ a1 : Assembler, a1.symbolTable = a.symbolTable ∧ a1.currentSection = sectionName
      ∧ a1.locationCounter = 0
      ∧ (addSectionSymbol a sectionName).1 = (addSymbol a1 sectionName).1 := by
  unfold addSectionSymbol
  refine ⟨_, ?_, ?_, ?_, rfl⟩
  · show (if a.currentSection ≠ "" then _ else a).symbolTable = a.symbolTable
    split <;> rfl
  · rfl
  · rfl

theorem reachable_symbols (a : Assembler) (h : Reachable a) :
    (a.symbolTable.map SymbolTableRecord.name).Nodup
      ∧ ∀ s ∈ a.symbolTable, s.flagsConsistent := by
  induction h with
  | constructed =>
    constructor
    · decide
    · intro s hs
      have : s = ⟨1, 0, true, true, false, "ABS", "ABS"⟩
          ∨ s = ⟨0, 0, true, true, false, "UNDEF", "UNDEF"⟩ := by
        have hnew : new.symbolTable = [⟨1, 0, true, true, false, "ABS", "ABS"⟩,
          ⟨0, 0, true, true, false, "UNDEF", "UNDEF"⟩] := by decide
        rw [hnew] at hs
        simpa using hs
      rcases this with h | h <;> rw [h] <;> simp [SymbolTableRecord.flagsConsistent]
  | label a name _ ih => exact symbols_addSymbol a name ih.1 ih.2
  | globalDirective a name _ ih => exact symbols_addGlobalSymbol a name ih.1 ih.2
  | externDirective a name _ ih => exact symbols_addExternSymbol a name ih.1 ih.2
  | sectionDirective a name _ ih =>
    obtain ⟨a1, h1, _, _, h2⟩ := symbolTable_addSectionSymbol a name
    rw [h2]
    exact symbols_addSymbol a1 name (h1 ▸ ih.1) (h1 ▸ ih.2)
  | emitted a n _ ih => exact ih

theorem sectionTable_addSymbol (a : Assembler) (symbolLabel : String) :
    (addSymbol a symbolLabel).1.sectionTable = a.sectionTable := by
  unfold addSymbol
  split
  · rfl
  · split
    · split <;> rfl
    · rfl

theorem addSectionSymbol_decomposed (a : Assembler) (sectionName : String) :
    ∃ a1 : Assembler, a1.symbolTable = a.symbolTable ∧ a1.currentSection = sectionName
      ∧ a1.locationCounter = 0 ∧ a1.nextSymbolID = a.nextSymbolID
      ∧ (mapFind SectionTableRecord.name sectionName a1.sectionTable).isSome = true
      ∧ (addSectionSymbol a sectionName).1 = (addSymbol a1 sectionName).1 := by
  unfold addSectionSymbol
  refine ⟨_, ?_, ?_, ?_, ?_, ?_, rfl⟩
  · show (if a.currentSection ≠ "" then _ else a).symbolTable = a.symbolTable
    split <;> rfl
  · rfl
  · rfl
  · show (if a.currentSection ≠ "" then _ else a).nextSymbolID = a.nextSymbolID
    split <;> rfl
  · exact mapFind_mapInsert_isSome SectionTableRecord.name (fun x => x.name.data)
      (fun _ _ h => name_data_injective _ _ h) ⟨_, 0, sectionName, []⟩ _

end Assembler

/-! ## Assembler: labels, `.global`, `.extern`, `.section`, the pass -/

namespace Assembler

/-- C16.  `Assembler::addGlobalSymbol(name)` fails exactly when the name is in the
symbol table with `isExtern` set, and then leaves the symbol table as it is;
an entry that is present and not both extern and local, defined or not, is
afterwards the old entry with `isLocal = false`, every other field kept; an
absent name is entered with `isDefined = isLocal = isExtern = false`, section
`UNDEF` and offset 0. -/
theorem addGlobalSymbol_clears_local (a : Assembler) (symbolName : String) :
    ((addGlobalSymbol a symbolName).2 = false ↔
      ∃ s, mapFind SymbolTableRecord.name symbolName a.symbolTable = some s ∧ s.isExtern = true)
    ∧ ((addGlobalSymbol a symbolName).2 = false →
        (addGlobalSymbol a symbolName).1.symbolTable = a.symbolTable)
    ∧ (∀ s, mapFind SymbolTableRecord.name symbolName a.symbolTable = some s →
        s.isExtern = false ∨ s.isLocal = false →
          mapFind SymbolTableRecord.name symbolName (addGlobalSymbol a symbolName).1.symbolTable
            = some { s with isLocal := false })
    ∧ (mapFind SymbolTableRecord.name symbolName a.symbolTable = none →
        mapFind SymbolTableRecord.name symbolName (addGlobalSymbol a symbolName).1.symbolTable
          = some ⟨a.nextSymbolID, 0, false, false, false, "UNDEF", symbolName⟩
        ∧ (addGlobalSymbol a symbolName).1.nextSymbolID = a.nextSymbolID + 1) := by
  cases hfind : mapFind SymbolTableRecord.name symbolName a.symbolTable with
  | none =>
    rw [addGlobalSymbol_inserts a symbolName hfind]
    refine ⟨⟨fun h => Bool.noConfusion h, ?_⟩, fun h => Bool.noConfusion h, ?_, fun _ => ⟨?_, rfl⟩⟩
    · rintro ⟨s, hs, _⟩
      exact absurd hs (by simp)
    · intro s hs
      exact absurd hs (by simp)
    · show mapFind SymbolTableRecord.name symbolName (mapInsert _ _ a.symbolTable) = _
      rw [mapFind_symbol_inserted _ _ hfind, if_pos rfl]
  | some s =>
    by_cases hs : s.isExtern = true
    · obtain ⟨h2, h1⟩ := addGlobalSymbol_rejected a symbolName s hfind hs
      refine ⟨⟨fun _ => ⟨s, rfl, hs⟩, fun _ => h2⟩, fun _ => h1, ?_, fun h => absurd h (by simp)⟩
      intro t ht hflag
      rw [Option.some.injEq] at ht
      rw [← ht] at hflag ⊢
      rcases hflag with hflag | hflag
      · rw [hs] at hflag
        exact Bool.noConfusion hflag
      · rw [h1, hfind]
        cases s
        simp_all
    · rw [addGlobalSymbol_globalises a symbolName s hfind hs]
      refine ⟨⟨fun h => Bool.noConfusion h, ?_⟩, fun h => Bool.noConfusion h, ?_,
        fun h => absurd h (by simp)⟩
      · rintro ⟨t, ht, hflag⟩
        rw [Option.some.injEq] at ht
        exact absurd (ht ▸ hflag) hs
      · intro t ht _
        rw [Option.some.injEq] at ht
        refine (mapFind_mapModify _ _ _ ?_ _).trans ?_
        · exact fun _ => rfl
        · rw [hfind, ← ht]
          rfl

theorem addGlobalSymbol_clears_local_witness :
    mapFind SymbolTableRecord.name "text" (addGlobalSymbol afterSectionText "text").1.symbolTable
        = some ⟨2, 0, true, false, false, "text", "text"⟩
      ∧ mapFind SymbolTableRecord.name "foo" (addGlobalSymbol afterSectionText "foo").1.symbolTable
        = some ⟨3, 0, false, false, false, "UNDEF", "foo"⟩ :=
  ⟨(addGlobalSymbol_clears_local afterSectionText "text").2.2.1
      ⟨2, 0, true, true, false, "text", "text"⟩ (by decide) (Or.inl (by decide)),
    ((addGlobalSymbol_clears_local afterSectionText "foo").2.2.2 (by decide)).1⟩

/-- C17.  `Assembler::addExternSymbol(name)` fails exactly when the name is in the
symbol table with `isDefined` set, and then leaves the symbol table as it is;
an entry that is present and undefined is the old entry with
`isExtern = true`, every other field kept; an absent name is entered with
`isDefined = false`, `isLocal = false`, `isExtern = true`, section `UNDEF` and
offset 0. -/
theorem addExternSymbol_flags_symbol (a : Assembler) (symbolName : String) :
    ((addExternSymbol a symbolName).2 = false ↔
      ∃ s, mapFind SymbolTableRecord.name symbolName a.symbolTable = some s ∧ s.isDefined = true)
    ∧ ((addExternSymbol a symbolName).2 = false →
        (addExternSymbol a symbolName).1.symbolTable = a.symbolTable)
    ∧ (∀ s, mapFind SymbolTableRecord.name symbolName a.symbolTable = some s →
        s.isDefined = false →
          mapFind SymbolTableRecord.name symbolName (addExternSymbol a symbolName).1.symbolTable
            = some { s with isExtern := true })
    ∧ (mapFind SymbolTableRecord.name symbolName a.symbolTable = none →
        mapFind SymbolTableRecord.name symbolName (addExternSymbol a symbolName).1.symbolTable
          = some ⟨a.nextSymbolID, 0, false, false, true, "UNDEF", symbolName⟩
        ∧ (addExternSymbol a symbolName).1.nextSymbolID = a.nextSymbolID + 1) := by
  cases hfind : mapFind SymbolTableRecord.name symbolName a.symbolTable with
  | none =>
    rw [addExternSymbol_inserts a symbolName hfind]
    refine ⟨⟨fun h => Bool.noConfusion h, ?_⟩, fun h => Bool.noConfusion h, ?_, fun _ => ⟨?_, rfl⟩⟩
    · rintro ⟨s, hs, _⟩
      exact absurd hs (by simp)
    · intro s hs
      exact absurd hs (by simp)
    · show mapFind SymbolTableRecord.name symbolName (mapInsert _ _ a.symbolTable) = _
      rw [mapFind_symbol_inserted _ _ hfind, if_pos rfl]
  | some s =>
    by_cases hs : s.isDefined = true
    · obtain ⟨h2, h1⟩ := addExternSymbol_rejected a symbolName s hfind hs
      refine ⟨⟨fun _ => ⟨s, rfl, hs⟩, fun _ => h2⟩, fun _ => h1, ?_, fun h => absurd h (by simp)⟩
      intro t ht hflag
      rw [Option.some.injEq] at ht
      rw [← ht, hs] at hflag
      exact Bool.noConfusion hflag
    · rw [addExternSymbol_imports a symbolName s hfind hs]
      refine ⟨⟨fun h => Bool.noConfusion h, ?_⟩, fun h => Bool.noConfusion h, ?_,
        fun h => absurd h (by simp)⟩
      · rintro ⟨t, ht, hflag⟩
        rw [Option.some.injEq] at ht
        exact absurd (ht ▸ hflag) hs
      · intro t ht _
        rw [Option.some.injEq] at ht
        refine (mapFind_mapModify _ _ _ ?_ _).trans ?_
        · exact fun _ => rfl
        · rw [hfind, ← ht]
          rfl

theorem addExternSymbol_flags_symbol_witness :
    mapFind SymbolTableRecord.name "data" (addExternSymbol afterGlobalData "data").1.symbolTable
        = some ⟨2, 0, false, false, true, "UNDEF", "data"⟩
      ∧ mapFind SymbolTableRecord.name "foo" (addExternSymbol afterGlobalData "foo").1.symbolTable
        = some ⟨3, 0, false, false, true, "UNDEF", "foo"⟩ :=
  ⟨(addExternSymbol_flags_symbol afterGlobalData "data").2.2.1
      ⟨2, 0, false, false, false, "UNDEF", "data"⟩ (by decide) (by decide),
    ((addExternSymbol_flags_symbol afterGlobalData "foo").2.2.2 (by decide)).1⟩

/-- C18 (counterexample).  After the lines `.global data` and `.section data`
the symbol `data` is defined in section `data` at offset 0, but its `isLocal`
flag is false: `addSymbol` defines the entry that `.global` made and keeps its
flags. -/
theorem addSectionSymbol_after_global_not_local :
    mapFind SymbolTableRecord.name "data" (addSectionSymbol afterGlobalData "data").1.symbolTable
      = some ⟨2, 0, true, false, false, "data", "data"⟩ := by
  decide

/-- C18 (amended).  After `.section name` the section table holds the section
`name`; when the name was not in the symbol table, the symbol `name` is then
local, defined, in section `name` at offset 0; when the name was present,
undefined and not extern (declared by `.global`), the symbol is the old entry
defined in section `name` at offset 0, its `isLocal` flag kept. -/
theorem addSectionSymbol_defines_section_symbol (a : Assembler) (sectionName : String) (hname : sectionName ≠ "") :
    (mapFind SectionTableRecord.name sectionName (addSectionSymbol a sectionName).1.sectionTable).isSome
        = true
    ∧ (mapFind SymbolTableRecord.name sectionName a.symbolTable = none →
        mapFind SymbolTableRecord.name sectionName (addSectionSymbol a sectionName).1.symbolTable
          = some ⟨a.nextSymbolID, 0, true, true, false, sectionName, sectionName⟩)
    ∧ (∀ s, mapFind SymbolTableRecord.name sectionName a.symbolTable = some s →
        s.isDefined = false → s.isExtern = false →
        mapFind SymbolTableRecord.name sectionName (addSectionSymbol a sectionName).1.symbolTable
          = some { s with isDefined := true, offset := 0, sectionName := sectionName }) := by
  obtain ⟨a1, hsym, hcur, hlc, hid, hsec, heq⟩ := addSectionSymbol_decomposed a sectionName
  have hcur1 : a1.currentSection ≠ "" := by rw [hcur]; exact hname
  rw [heq]
  refine ⟨?_, ?_, ?_⟩
  · rw [sectionTable_addSymbol]
    exact hsec
  · intro hnone
    rw [← hsym] at hnone
    rw [addSymbol_inserts a1 sectionName hcur1 hnone]
    show mapFind SymbolTableRecord.name sectionName (mapInsert _ _ a1.symbolTable) = _
    rw [mapFind_symbol_inserted _ _ hnone, if_pos rfl, hid, hlc, hcur]
    rfl
  · intro s hfind hdef hext
    rw [← hsym] at hfind
    have hs : ¬ (s.isDefined = true ∨ s.isExtern = true) := by
      rw [hdef, hext]
      simp
    rw [addSymbol_defines a1 sectionName s hcur1 hfind hs]
    refine (mapFind_mapModify _ _ _ ?_ _).trans ?_
    · exact fun _ => rfl
    · rw [hfind, hlc, hcur]
      rfl

theorem addSectionSymbol_defines_section_symbol_witness :
    "text" ≠ ""
      ∧ mapFind SymbolTableRecord.name "text" (addSectionSymbol new "text").1.symbolTable
        = some ⟨2, 0, true, true, false, "text", "text"⟩
      ∧ mapFind SymbolTableRecord.name "data" (addSectionSymbol afterGlobalData "data").1.symbolTable
        = some ⟨2, 0, true, false, false, "data", "data"⟩ :=
  ⟨by decide, (addSectionSymbol_defines_section_symbol new "text" (by decide)).2.1 (by decide),
    (addSectionSymbol_defines_section_symbol afterGlobalData "data" (by decide)).2.2
      ⟨2, 0, false, false, false, "UNDEF", "data"⟩ (by decide) rfl rfl⟩

/-- C19 (the code diverges).  The source `.section text`, `.skip -1`, `.end` is
accepted (`assemblePass` returns true, with no error message), and the section
`text` then has `length = 4294967295` and no byte of data: `.skip` stores no
byte for a negative count and adds the count to the unsigned location
counter.  The source `.section text`, `halt`, `.section text`, `.end` is
accepted as well, and leaves `text` with `length = 0` and one byte of data:
the second `.section text` resets the location counter and keeps the bytes. -/
theorem assemblePass_length_differs_from_data_size :
    (assemblePass 0 new skipMinusOneSource).map (fun p => (p.2, p.1.errorMessages))
      = some (true, [])
    ∧ (assemblePass 0 new skipMinusOneSource).map
        (fun p => p.1.sectionTable.map (fun s => (s.name, s.length, s.sectionData.length)))
      = some [("ABS", 0, 0), ("UNDEF", 0, 0), ("text", 4294967295, 0)]
    ∧ (assemblePass 0 new reopenedSectionSource).map
        (fun p => (p.2, p.1.sectionTable.map (fun s => (s.name, s.length, s.sectionData.length))))
      = some (true, [("ABS", 0, 0), ("UNDEF", 0, 0), ("text", 0, 1)]) := by
  decide

/-- C20.  In every assembler state that the constructor and any sequence of
label definitions, `.global`, `.extern` and `.section` operations reach,
successful or failing, no symbol is both local and extern, none is both extern
and defined, every local symbol is defined, and every undefined symbol has
section `UNDEF` and offset 0. -/
theorem reachable_flags_consistent (a : Assembler) (h : Reachable a) :
    ∀ s ∈ a.symbolTable,
      ¬ (s.isLocal = true ∧ s.isExtern = true)
        ∧ ¬ (s.isExtern = true ∧ s.isDefined = true)
        ∧ (s.isLocal = true → s.isDefined = true)
        ∧ (s.isDefined = false → s.sectionName = "UNDEF" ∧ s.offset = 0) :=
  fun s hs => (reachable_symbols a h).2 s hs

theorem reachable_flags_consistent_witness :
    Reachable afterFourOperations
      ∧ ∀ s ∈ afterFourOperations.symbolTable,
        ¬ (s.isLocal = true ∧ s.isExtern = true)
          ∧ ¬ (s.isExtern = true ∧ s.isDefined = true)
          ∧ (s.isLocal = true → s.isDefined = true)
          ∧ (s.isDefined = false → s.sectionName = "UNDEF" ∧ s.offset = 0) :=
  ⟨Reachable.label _ "y" (Reachable.sectionDirective _ "text"
      (Reachable.globalDirective _ "y" (Reachable.externDirective _ "x" Reachable.constructed))),
    reachable_flags_consistent afterFourOperations
      (Reachable.label _ "y" (Reachable.sectionDirective _ "text"
        (Reachable.globalDirective _ "y" (Reachable.externDirective _ "x"
          Reachable.constructed))))⟩

end Assembler

/-! ## Emulator: decoding of register nibbles -/

namespace Emulator

/-- C11 (the code diverges).  The bytes `50 FF 01` (`jmp` with register-direct
operand and `rSrc = 15`), `A0 0F 01` (`ldr r0` from register 15) and `A0 00 52`
(`ldr` with update nibble 5) are decoded with success: the jump branch checks
no register nibble, and the load/store branch checks neither `rSrc` nor the
update nibble.  The register file has 9 entries. -/
theorem commandFetchAndDecode_accepts_register_15 :
    (commandFetchAndDecode (withProgram [0x50, -1, 0x01])).2 = true
      ∧ (commandFetchAndDecode (withProgram [0x50, -1, 0x01])).1.cd.rSrc = 15
      ∧ (commandFetchAndDecode (withProgram [0x50, -1, 0x01])).1.cd.addressingMode = regdir
      ∧ (commandFetchAndDecode (withProgram [-96, 0x0F, 0x01])).2 = true
      ∧ (commandFetchAndDecode (withProgram [-96, 0x0F, 0x01])).1.cd.rSrc = 15
      ∧ (commandFetchAndDecode (withProgram [-96, 0x00, 0x52])).2 = true
      ∧ (commandFetchAndDecode (withProgram [-96, 0x00, 0x52])).1.cd.updateType = 5
      ∧ (new.registers.length = 9 ∧ NO_REGISTERS = 9) := by
  decide

end Emulator

/-! ## Lemmas on the intake of sections by the linker -/

theorem mapFind_mapInsert_ne {α κ κ' : Type} [DecidableEq κ] [LT κ']
    [∀ a b : κ', Decidable (a < b)] [DecidableEq κ'] (key : α → κ) (key' : α → κ')
    (x : α) (m : List α) (k : κ) (hk : key x ≠ k) :
    mapFind key k (mapInsert key' x m) = mapFind key k m := by
  induction m with
  | nil =>
    unfold mapInsert mapFind
    simp [hk]
  | cons y ys ih =>
    unfold mapInsert
    by_cases hlt : key' x < key' y
    · rw [if_pos hlt]
      unfold mapFind
      rw [List.find?_cons]
      simp [hk]
    · rw [if_neg hlt]
      by_cases heq : key' x = key' y
      · rw [if_pos heq]
      · rw [if_neg heq]
        unfold mapFind at ih ⊢
        rw [List.find?_cons, List.find?_cons, ih]

theorem length_mapInsert_absent {α κ : Type} [LT κ] [∀ a b : κ, Decidable (a < b)]
    [DecidableEq κ] (key : α → κ) (x : α) (m : List α) (habs : ∀ y ∈ m, key y ≠ key x) :
    (mapInsert key x m).length = m.length + 1 := by
  rw [(perm_mapInsert_absent key x m habs).length_eq]
  rfl

namespace Linker

theorem addOutputSection_sectionTable (l : Linker) (sec : SectionTableRecord) (fileName : String) :
    (addOutputSection l sec fileName).sectionTable
      = match mapFind SectionTableRecord.name sec.name l.sectionTable with
        | some _ =>
          mapModify SectionTableRecord.name sec.name (fun (p : SectionTableRecord) =>
            { p with
              length := (p.length + sec.length) % 4294967296,
              sectionData :=
                if (p.length + sec.length) % 4294967296 ≠ 0 then p.sectionData ++ sec.sectionData
                else p.sectionData }) l.sectionTable
        | none =>
          mapInsert (fun (x : SectionTableRecord) => x.name.data)
            { sec with
              id := if sec.name = "UNDEF" then 0 else if sec.name = "ABS" then 1
                    else l.sectionTable.length,
              baseAddress := 0 } l.sectionTable := by
  unfold addOutputSection
  cases mapFind SectionTableRecord.name sec.name l.sectionTable <;> by_cases h : sec.name = "UNDEF" <;>
    simp [h]

theorem addOutputSection_symbolTable (l : Linker) (sec : SectionTableRecord) (fileName : String) :
    (addOutputSection l sec fileName).symbolTable
      = match mapFind SectionTableRecord.name sec.name l.sectionTable with
        | some _ => l.symbolTable
        | none =>
          mapInsert (fun (x : SymbolTableRecord) => x.name.data)
            ⟨if sec.name = "UNDEF" then 0 else if sec.name = "ABS" then 1
              else l.symbolTable.length, 0, true, true, false, sec.name, sec.name, fileName⟩
            l.symbolTable := by
  unfold addOutputSection
  cases mapFind SectionTableRecord.name sec.name l.sectionTable <;> by_cases h : sec.name = "UNDEF" <;>
    simp [h]

theorem addOutputSection_inputSectionsData (l : Linker) (sec : SectionTableRecord)
    (fileName : String) :
    (addOutputSection l sec fileName).InputSectionsData
      = if sec.name ≠ "UNDEF" then
          insertInputSectionData
            ⟨sec.length, sec.name, fileName,
              ((mapFind SectionTableRecord.name sec.name l.sectionTable).map
                SectionTableRecord.length).getD 0⟩ l.InputSectionsData
        else l.InputSectionsData := by
  unfold addOutputSection
  cases mapFind SectionTableRecord.name sec.name l.sectionTable <;> by_cases h : sec.name = "UNDEF" <;>
    simp [h]

theorem addOutputSection_inputFilesPaths (l : Linker) (sec : SectionTableRecord)
    (fileName : String) :
    (addOutputSection l sec fileName).inputFilesPaths = l.inputFilesPaths := by
  unfold addOutputSection
  cases mapFind SectionTableRecord.name sec.name l.sectionTable <;> by_cases h : sec.name = "UNDEF" <;>
    simp [h]

end Linker

namespace Linker

theorem find_insertInputSectionData_ne (a : InputSectionData) (name file : String)
    (h : ¬ (a.name = name ∧ a.file = file)) (m : List InputSectionData) :
    (insertInputSectionData a m).find? (fun b => decide (b.name = name ∧ b.file = file))
      = m.find? (fun b => decide (b.name = name ∧ b.file = file)) := by
  induction m with
  | nil =>
    unfold insertInputSectionData
    simp [h]
  | cons b bs ih =>
    unfold insertInputSectionData
    split
    · rw [List.find?_cons]
      simp [h]
    · split
      · rfl
      · rw [List.find?_cons, List.find?_cons, ih]

theorem find_insertInputSectionData_absent (a : InputSectionData) (m : List InputSectionData)
    (habs : m.find? (fun b => decide (b.name = a.name ∧ b.file = a.file)) = none) :
    (insertInputSectionData a m).find? (fun b => decide (b.name = a.name ∧ b.file = a.file))
      = some a := by
  induction m with
  | nil =>
    unfold insertInputSectionData
    simp
  | cons b bs ih =>
    rw [List.find?_cons] at habs
    have hb : ¬ (b.name = a.name ∧ b.file = a.file) := by
      intro hb
      simp [hb] at habs
    have hbs : bs.find? (fun b => decide (b.name = a.name ∧ b.file = a.file)) = none := by
      simpa [hb] using habs
    unfold insertInputSectionData
    split
    · rw [List.find?_cons]
      simp
    · split
      · rename_i heq
        exact absurd ⟨heq.1.symm, heq.2.symm⟩ hb
      · rw [List.find?_cons]
        simp only [hb, decide_False]
        exact ih hbs

theorem addOutputSymbol_sectionTable (l : Linker) (symbol : SymbolTableRecord) :
    (addOutputSymbol l symbol).1.sectionTable = l.sectionTable
      ∧ (addOutputSymbol l symbol).1.InputSectionsData = l.InputSectionsData
      ∧ (addOutputSymbol l symbol).1.inputFilesPaths = l.inputFilesPaths := by
  unfold addOutputSymbol
  split
  · exact ⟨rfl, rfl, rfl⟩
  · split <;> exact ⟨rfl, rfl, rfl⟩

theorem foldl_addOutputSymbol_sectionTable (filePath : String) (symbols : List SymbolTableRecord)
    (l : Linker) :
    (symbols.foldl (fun l symbol => (addOutputSymbol l { symbol with file := filePath }).1)
        l).sectionTable = l.sectionTable
      ∧ (symbols.foldl (fun l symbol => (addOutputSymbol l { symbol with file := filePath }).1)
        l).InputSectionsData = l.InputSectionsData
      ∧ (symbols.foldl (fun l symbol => (addOutputSymbol l { symbol with file := filePath }).1)
        l).inputFilesPaths = l.inputFilesPaths := by
  induction symbols generalizing l with
  | nil => exact ⟨rfl, rfl, rfl⟩
  | cons s rest ih =>
    rw [List.foldl_cons]
    obtain ⟨h1, h2, h3⟩ := ih (addOutputSymbol l { s with file := filePath }).1
    obtain ⟨g1, g2, g3⟩ := addOutputSymbol_sectionTable l { s with file := filePath }
    exact ⟨h1.trans g1, h2.trans g2, h3.trans g3⟩

theorem foldl_addOutputRelocation (filePath : String) (relocations : List RelocationTableRecord)
    (l : Linker) :
    (relocations.foldl (fun l r => addOutputRelocation l { r with file := filePath })
        l).sectionTable = l.sectionTable
      ∧ (relocations.foldl (fun l r => addOutputRelocation l { r with file := filePath })
        l).InputSectionsData = l.InputSectionsData
      ∧ (relocations.foldl (fun l r => addOutputRelocation l { r with file := filePath })
        l).inputFilesPaths = l.inputFilesPaths
      ∧ (relocations.foldl (fun l r => addOutputRelocation l { r with file := filePath })
        l).symbolTable = l.symbolTable := by
  induction relocations generalizing l with
  | nil => exact ⟨rfl, rfl, rfl, rfl⟩
  | cons r rest ih =>
    rw [List.foldl_cons]
    obtain ⟨h1, h2, h3, h4⟩ := ih (addOutputRelocation l { r with file := filePath })
    exact ⟨h1, h2, h3, h4⟩

end Linker

theorem takeWhile_append_of_find {α : Type} (p : α → Bool) (xs ys : List α) (x : α)
    (h : xs.find? p = some x) :
    (xs ++ ys).takeWhile (fun a => !p a) = xs.takeWhile (fun a => !p a) := by
  induction xs with
  | nil => simp at h
  | cons a as ih =>
    rw [List.cons_append, List.takeWhile_cons, List.takeWhile_cons]
    by_cases ha : p a = true
    · simp [ha]
    · rw [List.find?_cons] at h
      simp only [Bool.not_eq_true] at ha
      simp only [ha] at h
      simp [ha, ih h]

namespace Linker

theorem contributions_append_same (E : List (SectionTableRecord × String))
    (sec : SectionTableRecord) (fileName : String) :
    contributions (E ++ [(sec, fileName)]) sec.name = contributions E sec.name ++ [(sec, fileName)] := by
  unfold contributions
  rw [List.filter_append]
  simp

theorem contributions_append_other (E : List (SectionTableRecord × String))
    (sec : SectionTableRecord) (fileName name : String) (h : sec.name ≠ name) :
    contributions (E ++ [(sec, fileName)]) name = contributions E name := by
  unfold contributions
  rw [List.filter_append]
  simp [h]

theorem totalLength_append (C D : List (SectionTableRecord × String)) :
    totalLength (C ++ D) = totalLength C + totalLength D := by
  unfold totalLength
  rw [List.map_append, List.sum_append]

theorem joinedData_append (C D : List (SectionTableRecord × String)) :
    joinedData (C ++ D) = joinedData C ++ joinedData D := by
  unfold joinedData
  rw [List.map_append, List.flatten_append]

end Linker

namespace Linker

theorem mapFind_addOutputSection_other (l : Linker) (sec : SectionTableRecord)
    (fileName name : String) (h : sec.name ≠ name) :
    mapFind SectionTableRecord.name name (addOutputSection l sec fileName).sectionTable
      = mapFind SectionTableRecord.name name l.sectionTable := by
  rw [addOutputSection_sectionTable]
  cases mapFind SectionTableRecord.name sec.name l.sectionTable with
  | none => exact mapFind_mapInsert_ne _ _ _ _ _ h
  | some p =>
    refine mapFind_mapModify_ne _ _ _ _ ?_ (Ne.symm h) _
    exact fun _ => rfl

theorem findInputSectionData_addOutputSection_other (l : Linker) (sec : SectionTableRecord)
    (fileName name file : String) (h : ¬ (sec.name = name ∧ fileName = file)) :
    findInputSectionData (addOutputSection l sec fileName) name file
      = findInputSectionData l name file := by
  unfold findInputSectionData
  rw [addOutputSection_inputSectionsData]
  split
  · exact find_insertInputSectionData_ne _ _ _ h _
  · rfl

theorem mapFind_addOutputSection_same (l : Linker) (sec : SectionTableRecord)
    (fileName : String) :
    mapFind SectionTableRecord.name sec.name (addOutputSection l sec fileName).sectionTable
      = some (match mapFind SectionTableRecord.name sec.name l.sectionTable with
        | some p =>
          { p with
            length := (p.length + sec.length) % 4294967296,
            sectionData :=
              if (p.length + sec.length) % 4294967296 ≠ 0 then p.sectionData ++ sec.sectionData
              else p.sectionData }
        | none =>
          { sec with
            id := if sec.name = "UNDEF" then 0 else if sec.name = "ABS" then 1
                  else l.sectionTable.length,
            baseAddress := 0 }) := by
  rw [addOutputSection_sectionTable]
  cases hfind : mapFind SectionTableRecord.name sec.name l.sectionTable with
  | none =>
    have h := mapFind_mapInsert_absent SectionTableRecord.name (fun x => x.name.data)
      (fun _ _ h => name_data_injective _ _ h)
      { sec with
        id := if sec.name = "UNDEF" then 0 else if sec.name = "ABS" then 1
              else l.sectionTable.length,
        baseAddress := 0 } l.sectionTable hfind sec.name
    rw [if_pos rfl] at h
    exact h
  | some p =>
    refine (mapFind_mapModify _ _ _ ?_ _).trans ?_
    · exact fun _ => rfl
    · rw [hfind]
      rfl

theorem aggregates_addOutputSection_other (l : Linker) (E : List (SectionTableRecord × String))
    (sec : SectionTableRecord) (fileName name : String) (h : sec.name ≠ name)
    (hT : sectionAggregates l E name) (hD : basesRecorded l E name) :
    sectionAggregates (addOutputSection l sec fileName) (E ++ [(sec, fileName)]) name
      ∧ basesRecorded (addOutputSection l sec fileName) (E ++ [(sec, fileName)]) name := by
  constructor
  · unfold sectionAggregates at hT ⊢
    rw [mapFind_addOutputSection_other l sec fileName name h,
      contributions_append_other E sec fileName name h]
    exact hT
  · unfold basesRecorded contributionsBefore at hD ⊢
    intro file
    rw [findInputSectionData_addOutputSection_other l sec fileName name file (fun hh => h hh.1),
      contributions_append_other E sec fileName name h]
    exact hD file

theorem aggregates_addOutputSection_same (l : Linker) (E : List (SectionTableRecord × String))
    (sec : SectionTableRecord) (fileName : String)
    (hfile : ∀ e ∈ contributions E sec.name, e.2 ≠ fileName)
    (hlength : sec.length = sec.sectionData.length)
    (hsize : totalLength (contributions E sec.name) + sec.length < 4294967296)
    (hT : sectionAggregates l E sec.name) (hD : basesRecorded l E sec.name) :
    sectionAggregates (addOutputSection l sec fileName) (E ++ [(sec, fileName)]) sec.name
      ∧ basesRecorded (addOutputSection l sec fileName) (E ++ [(sec, fileName)]) sec.name := by
  have hprev : ((mapFind SectionTableRecord.name sec.name l.sectionTable).map
      SectionTableRecord.length).getD 0 = totalLength (contributions E sec.name) := by
    unfold sectionAggregates at hT
    cases hfind : mapFind SectionTableRecord.name sec.name l.sectionTable with
    | none =>
      rw [hfind] at hT
      simp only at hT
      rw [hT]
      rfl
    | some r =>
      rw [hfind] at hT
      exact hT.2.2.1
  constructor
  · unfold sectionAggregates at hT ⊢
    rw [mapFind_addOutputSection_same, contributions_append_same]
    cases hfind : mapFind SectionTableRecord.name sec.name l.sectionTable with
    | none =>
      rw [hfind] at hT
      simp only at hT ⊢
      rw [hT]
      simp [totalLength, joinedData]
    | some r =>
      rw [hfind] at hT
      simp only at hT ⊢
      obtain ⟨_, hname, hlen, hdata, hbase⟩ := hT
      have hsum : (r.length + sec.length) % 4294967296 = r.length + sec.length := by
        rw [hlen]
        exact Nat.mod_eq_of_lt hsize
      refine ⟨by simp, hname, ?_, ?_, hbase⟩
      · rw [hsum, totalLength_append, hlen]
        simp [totalLength]
      · rw [joinedData_append, ← hdata, hsum]
        have hjoin : joinedData [(sec, fileName)] = sec.sectionData := by simp [joinedData]
        rw [hjoin]
        by_cases hzero : r.length + sec.length = 0
        · have : sec.sectionData = [] := by
            apply List.eq_nil_of_length_eq_zero
            omega
          simp [hzero, this]
        · simp [hzero]
  · unfold basesRecorded at hD ⊢
    intro file
    by_cases hundef : sec.name = "UNDEF"
    · rw [if_pos hundef]
      have := hD file
      rw [if_pos hundef] at this
      unfold findInputSectionData at this ⊢
      rw [addOutputSection_inputSectionsData, if_neg (by simpa using hundef)]
      exact this
    · rw [if_neg hundef]
      have hDfile := hD file
      rw [if_neg hundef] at hDfile
      unfold contributionsBefore
      rw [contributions_append_same, List.find?_append]
      by_cases hf : fileName = file
      · subst hf
        have hnone : (contributions E sec.name).find? (fun e => decide (e.2 = fileName)) = none := by
          rw [List.find?_eq_none]
          intro e he
          simpa using hfile e he
        rw [hnone] at hDfile ⊢
        simp only [Option.map_none'] at hDfile
        unfold findInputSectionData at hDfile ⊢
        rw [addOutputSection_inputSectionsData, if_pos hundef, hprev]
        rw [find_insertInputSectionData_absent
          ⟨sec.length, sec.name, fileName, totalLength (contributions E sec.name)⟩ _ hDfile]
        have htake : List.takeWhile (fun e => decide (e.2 ≠ fileName))
            (contributions E sec.name ++ [(sec, fileName)]) = contributions E sec.name := by
          rw [List.takeWhile_append_of_pos]
          · simp
          · intro e he
            simpa using hfile e he
        rw [htake]
        simp
      · rw [findInputSectionData_addOutputSection_other l sec fileName sec.name file
          (fun hh => hf hh.2), hDfile]
        have hlast : List.find? (fun e => decide (e.2 = file)) [(sec, fileName)] = none := by
          simp [hf]
        rw [hlast, Option.or_none]
        cases hfound : (contributions E sec.name).find? (fun e => decide (e.2 = file)) with
        | none => rfl
        | some e0 =>
          have := takeWhile_append_of_find (fun e => decide (e.2 = file))
            (contributions E sec.name) [(sec, fileName)] e0 hfound
          simp only [decide_not] at this ⊢
          rw [this]
          simp [contributionsBefore]

end Linker

namespace Linker

theorem contributions_append (E F : List (SectionTableRecord × String)) (name : String) :
    contributions (E ++ F) name = contributions E name ++ contributions F name := by
  unfold contributions
  rw [List.filter_append]

theorem aggregates_congr (l l1 : Linker) (E : List (SectionTableRecord × String)) (name : String)
    (hT : l1.sectionTable = l.sectionTable) (hD : l1.InputSectionsData = l.InputSectionsData)
    (h : sectionAggregates l E name ∧ basesRecorded l E name) :
    sectionAggregates l1 E name ∧ basesRecorded l1 E name := by
  unfold sectionAggregates basesRecorded findInputSectionData at h ⊢
  rw [hT, hD]
  exact h

theorem aggregates_foldl (name : String) (evs : List (SectionTableRecord × String)) :
    ∀ (E : List (SectionTableRecord × String)) (l : Linker),
      sectionAggregates l E name ∧ basesRecorded l E name →
      ((contributions (E ++ evs) name).map Prod.snd).Nodup →
      (∀ e ∈ contributions (E ++ evs) name, e.1.length = e.1.sectionData.length) →
      totalLength (contributions (E ++ evs) name) < 4294967296 →
      sectionAggregates (evs.foldl (fun l e => addOutputSection l e.1 e.2) l) (E ++ evs) name
        ∧ basesRecorded (evs.foldl (fun l e => addOutputSection l e.1 e.2) l) (E ++ evs) name := by
  induction evs with
  | nil =>
    intro E l h _ _ _
    rw [List.append_nil]
    exact h
  | cons e rest ih =>
    intro E l h hnodup hwell hsize
    have hsplit : E ++ e :: rest = (E ++ [e]) ++ rest := by simp
    rw [hsplit] at hnodup hwell hsize ⊢
    rw [List.foldl_cons]
    refine ih (E ++ [e]) (addOutputSection l e.1 e.2) ?_ hnodup hwell hsize
    by_cases hname : e.1.name = name
    · subst hname
      have hmem : e ∈ contributions ((E ++ [e]) ++ rest) e.1.name := by
        unfold contributions
        simp
      rw [contributions_append, contributions_append_same E e.1 e.2] at hnodup hsize
      rw [List.map_append, List.map_append] at hnodup
      rw [totalLength_append, totalLength_append] at hsize
      refine aggregates_addOutputSection_same l E e.1 e.2 ?_ (hwell e hmem) ?_ h.1 h.2
      · intro c hc heq
        have h1 := (List.nodup_append.1 hnodup).1
        have h2 := (List.nodup_append.1 h1).2.2
        exact h2 (List.mem_map_of_mem Prod.snd hc) (by simp [heq])
      · simp only [totalLength, List.map_cons, List.map_nil, List.sum_cons, List.sum_nil] at hsize ⊢
        omega
    · exact aggregates_addOutputSection_other l E e.1 e.2 name hname h.1 h.2

theorem aggregates_readObjectFile (name : String) (l : Linker) (filePath : String)
    (o : ObjectFile) (E : List (SectionTableRecord × String))
    (h : sectionAggregates l E name ∧ basesRecorded l E name)
    (hnodup : ((contributions (E ++ o.sections.map (fun s => (s, filePath))) name).map
      Prod.snd).Nodup)
    (hwell : ∀ e ∈ contributions (E ++ o.sections.map (fun s => (s, filePath))) name,
      e.1.length = e.1.sectionData.length)
    (hsize : totalLength (contributions (E ++ o.sections.map (fun s => (s, filePath))) name)
      < 4294967296) :
    sectionAggregates (readObjectFile l filePath o)
        (E ++ o.sections.map (fun s => (s, filePath))) name
      ∧ basesRecorded (readObjectFile l filePath o)
        (E ++ o.sections.map (fun s => (s, filePath))) name := by
  have hfold := aggregates_foldl name (o.sections.map (fun s => (s, filePath))) E l h hnodup
    hwell hsize
  rw [List.foldl_map] at hfold
  unfold readObjectFile
  obtain ⟨r1, r2, _, _⟩ := foldl_addOutputRelocation filePath o.relocations
    (o.symbols.foldl (fun l symbol => (addOutputSymbol l { symbol with file := filePath }).1)
      (o.sections.foldl (fun l sec => addOutputSection l sec filePath) l))
  obtain ⟨s1, s2, _⟩ := foldl_addOutputSymbol_sectionTable filePath o.symbols
    (o.sections.foldl (fun l sec => addOutputSection l sec filePath) l)
  exact aggregates_congr _ _ _ _ (r1.trans s1) (r2.trans s2) hfold

theorem inputSections_cons (fs : String → Option ObjectFile) (p : String) (ps : List String)
    (o : ObjectFile) (h : fs p = some o) :
    inputSections fs (p :: ps) = o.sections.map (fun s => (s, p)) ++ inputSections fs ps := by
  unfold inputSections
  rw [List.flatMap_cons, h]

theorem aggregates_fillFrom (fs : String → Option ObjectFile) (name : String)
    (paths : List String) :
    ∀ (E : List (SectionTableRecord × String)) (l : Linker),
      sectionAggregates l E name ∧ basesRecorded l E name →
      (∀ p ∈ paths, (fs p).isSome = true) →
      ((contributions (E ++ inputSections fs paths) name).map Prod.snd).Nodup →
      (∀ e ∈ contributions (E ++ inputSections fs paths) name,
        e.1.length = e.1.sectionData.length) →
      totalLength (contributions (E ++ inputSections fs paths) name) < 4294967296 →
      sectionAggregates (fillFrom fs l paths).1 (E ++ inputSections fs paths) name
        ∧ basesRecorded (fillFrom fs l paths).1 (E ++ inputSections fs paths) name := by
  induction paths with
  | nil =>
    intro E l h _ _ _ _
    have : inputSections fs [] = [] := rfl
    rw [this, List.append_nil]
    exact h
  | cons p ps ih =>
    intro E l h hopen hnodup hwell hsize
    obtain ⟨o, ho⟩ := Option.isSome_iff_exists.1 (hopen p (List.mem_cons_self _ _))
    rw [inputSections_cons fs p ps o ho, ← List.append_assoc] at hnodup hwell hsize ⊢
    have hfill : fillFrom fs l (p :: ps) = fillFrom fs (readObjectFile l p o) ps := by
      show (match fs p with
        | none => _
        | some o => fillFrom fs (readObjectFile l p o) ps) = _
      rw [ho]
    rw [hfill]
    refine ih _ _ ?_ (fun q hq => hopen q (List.mem_cons_of_mem _ hq)) hnodup hwell hsize
    rw [contributions_append, List.map_append] at hnodup
    rw [contributions_append, totalLength_append] at hsize
    refine aggregates_readObjectFile name l p o E h (List.nodup_append.1 hnodup).1 ?_ (by omega)
    intro e he
    apply hwell e
    rw [contributions_append]
    exact List.mem_append_left _ he

end Linker

theorem dedup_length_append_singleton {α : Type} [DecidableEq α] (xs : List α) (x : α) :
    ((xs ++ [x]).dedup).length = if x ∈ xs then xs.dedup.length else xs.dedup.length + 1 := by
  rw [← List.card_toFinset, ← List.card_toFinset, List.toFinset_append]
  by_cases h : x ∈ xs
  · rw [if_pos h]
    congr 1
    ext y
    simp only [Finset.mem_union, List.mem_toFinset, List.mem_singleton]
    constructor
    · rintro (hy | hy)
      · exact hy
      · exact hy ▸ h
    · exact Or.inl
  · rw [if_neg h]
    have : xs.toFinset ∪ [x].toFinset = insert x xs.toFinset := by
      ext y
      simp only [Finset.mem_union, List.mem_toFinset, List.mem_singleton, Finset.mem_insert]
      exact Or.comm
    rw [this, Finset.card_insert_of_not_mem (by simpa using h)]

theorem takeWhile_ne_append_of_mem {α : Type} [DecidableEq α] (xs ys : List α) (x : α)
    (h : x ∈ xs) :
    (xs ++ ys).takeWhile (fun m => decide (m ≠ x)) = xs.takeWhile (fun m => decide (m ≠ x)) := by
  induction xs with
  | nil => simp at h
  | cons a as ih =>
    rw [List.cons_append, List.takeWhile_cons, List.takeWhile_cons]
    by_cases ha : a = x
    · simp [ha]
    · have hmem : x ∈ as := by
        rcases List.mem_cons.1 h with h | h
        · exact absurd h.symm ha
        · exact h
      have ih := ih hmem
      simp only [decide_not] at ih ⊢
      simp [ha, ih]

theorem takeWhile_ne_append_of_not_mem {α : Type} [DecidableEq α] (xs : List α) (x : α)
    (h : x ∉ xs) :
    (xs ++ [x]).takeWhile (fun m => decide (m ≠ x)) = xs := by
  rw [List.takeWhile_append_of_pos]
  · simp
  · intro a ha
    have : a ≠ x := fun hax => h (hax ▸ ha)
    simpa using this

namespace Linker

theorem length_addOutputSection (l : Linker) (sec : SectionTableRecord) (fileName : String) :
    (addOutputSection l sec fileName).sectionTable.length
      = if (mapFind SectionTableRecord.name sec.name l.sectionTable).isSome
        then l.sectionTable.length else l.sectionTable.length + 1 := by
  rw [addOutputSection_sectionTable]
  cases hfind : mapFind SectionTableRecord.name sec.name l.sectionTable with
  | some p => simp [mapModify]
  | none =>
    simp only [Option.isSome_none, Bool.false_eq_true, if_false]
    apply length_mapInsert_absent
    intro y hy h
    exact (mapFind_eq_none SectionTableRecord.name sec.name l.sectionTable).1 hfind y hy
      (name_data_injective _ _ h)

theorem sectionIdsAssigned_addOutputSection (l : Linker) (E : List (SectionTableRecord × String))
    (sec : SectionTableRecord) (fileName : String) (h : sectionIdsAssigned l E) :
    sectionIdsAssigned (addOutputSection l sec fileName) (E ++ [(sec, fileName)]) := by
  obtain ⟨hlen, hnames⟩ := h
  have hmemiff := (hnames sec.name).1
  unfold sectionIdsAssigned
  rw [length_addOutputSection, List.map_append, List.map_cons, List.map_nil,
    dedup_length_append_singleton]
  constructor
  · by_cases hmem : sec.name ∈ E.map (fun e => e.1.name)
    · rw [if_pos (hmemiff.2 hmem), if_pos hmem, hlen]
    · rw [if_neg (fun hh => hmem (hmemiff.1 hh)), if_neg hmem, hlen]
  · intro name
    by_cases hname : sec.name = name
    · subst hname
      rw [mapFind_addOutputSection_same]
      refine ⟨by simp, ?_⟩
      intro r hr
      rw [Option.some.injEq] at hr
      rw [← hr]
      unfold firstEncounterIndex
      rw [List.map_append, List.map_cons, List.map_nil]
      cases hfind : mapFind SectionTableRecord.name sec.name l.sectionTable with
      | none =>
        have hmem : sec.name ∉ E.map (fun e => e.1.name) := by
          intro hh
          have := hmemiff.2 hh
          rw [hfind] at this
          exact Bool.noConfusion this
        simp only
        rw [takeWhile_ne_append_of_not_mem _ _ hmem, hlen]
      | some p =>
        have hmem : sec.name ∈ E.map (fun e => e.1.name) := by
          apply hmemiff.1
          rw [hfind]
          rfl
        simp only
        rw [takeWhile_ne_append_of_mem _ _ _ hmem]
        exact (hnames sec.name).2 p hfind
    · rw [mapFind_addOutputSection_other l sec fileName name hname]
      constructor
      · rw [(hnames name).1]
        simp only [List.mem_append, List.mem_singleton]
        constructor
        · exact Or.inl
        · rintro (hh | hh)
          · exact hh
          · exact absurd hh.symm hname
      · intro r hr
        have hmem : name ∈ E.map (fun e => e.1.name) := by
          apply (hnames name).1.1
          rw [hr]
          rfl
        rw [(hnames name).2 r hr]
        unfold firstEncounterIndex
        rw [List.map_append, takeWhile_ne_append_of_mem _ _ _ hmem]

end Linker

namespace Linker

theorem sectionIdsAssigned_foldl (evs : List (SectionTableRecord × String)) :
    ∀ (E : List (SectionTableRecord × String)) (l : Linker),
      sectionIdsAssigned l E →
      sectionIdsAssigned (evs.foldl (fun l e => addOutputSection l e.1 e.2) l) (E ++ evs) := by
  induction evs with
  | nil =>
    intro E l h
    rw [List.append_nil]
    exact h
  | cons e rest ih =>
    intro E l h
    have hsplit : E ++ e :: rest = (E ++ [e]) ++ rest := by simp
    rw [hsplit, List.foldl_cons]
    exact ih (E ++ [e]) (addOutputSection l e.1 e.2)
      (sectionIdsAssigned_addOutputSection l E e.1 e.2 h)

theorem sectionIdsAssigned_readObjectFile (l : Linker) (filePath : String) (o : ObjectFile)
    (E : List (SectionTableRecord × String)) (h : sectionIdsAssigned l E) :
    sectionIdsAssigned (readObjectFile l filePath o)
      (E ++ o.sections.map (fun s => (s, filePath))) := by
  have hfold := sectionIdsAssigned_foldl (o.sections.map (fun s => (s, filePath))) E l h
  rw [List.foldl_map] at hfold
  unfold readObjectFile
  obtain ⟨r1, _, _, _⟩ := foldl_addOutputRelocation filePath o.relocations
    (o.symbols.foldl (fun l symbol => (addOutputSymbol l { symbol with file := filePath }).1)
      (o.sections.foldl (fun l sec => addOutputSection l sec filePath) l))
  obtain ⟨s1, _, _⟩ := foldl_addOutputSymbol_sectionTable filePath o.symbols
    (o.sections.foldl (fun l sec => addOutputSection l sec filePath) l)
  unfold sectionIdsAssigned at hfold ⊢
  simp only
  rw [r1, s1]
  exact hfold

theorem fillFrom_cons (fs : String → Option ObjectFile) (l : Linker) (p : String)
    (ps : List String) (o : ObjectFile) (ho : fs p = some o) :
    fillFrom fs l (p :: ps) = fillFrom fs (readObjectFile l p o) ps := by
  show (match fs p with
    | none => _
    | some o => fillFrom fs (readObjectFile l p o) ps) = _
  rw [ho]

theorem sectionIdsAssigned_fillFrom (fs : String → Option ObjectFile) (paths : List String) :
    ∀ (E : List (SectionTableRecord × String)) (l : Linker),
      sectionIdsAssigned l E →
      (∀ p ∈ paths, (fs p).isSome = true) →
      sectionIdsAssigned (fillFrom fs l paths).1 (E ++ inputSections fs paths)
        ∧ (fillFrom fs l paths).2 = true := by
  induction paths with
  | nil =>
    intro E l h _
    have : inputSections fs [] = [] := rfl
    rw [this, List.append_nil]
    exact ⟨h, rfl⟩
  | cons p ps ih =>
    intro E l h hopen
    obtain ⟨o, ho⟩ := Option.isSome_iff_exists.1 (hopen p (List.mem_cons_self _ _))
    rw [inputSections_cons fs p ps o ho, ← List.append_assoc, fillFrom_cons fs l p ps o ho]
    exact ih _ _ (sectionIdsAssigned_readObjectFile l p o E h)
      (fun q hq => hopen q (List.mem_cons_of_mem _ hq))

end Linker

namespace Linker

theorem sectionSymbolPresent_addOutputSection (l : Linker) (sec : SectionTableRecord)
    (fileName name : String) (h : sectionSymbolPresent l name) :
    sectionSymbolPresent (addOutputSection l sec fileName) name := by
  obtain ⟨hsec, hsym⟩ := h
  constructor
  · by_cases hname : sec.name = name
    · subst hname
      rw [mapFind_addOutputSection_same]
      rfl
    · rw [mapFind_addOutputSection_other l sec fileName name hname]
      exact hsec
  · rw [addOutputSection_symbolTable]
    cases hfind : mapFind SectionTableRecord.name sec.name l.sectionTable with
    | some p => exact hsym
    | none =>
      have hname : sec.name ≠ name := by
        intro hh
        rw [hh] at hfind
        rw [hfind] at hsec
        exact Bool.noConfusion hsec
      simp only
      rw [mapFind_mapInsert_ne SymbolTableRecord.name _ _ _ name hname]
      exact hsym

theorem addOutputSymbol_symbolTable (l : Linker) (symbol : SymbolTableRecord) (name : String)
    (h : (mapFind SymbolTableRecord.name name l.symbolTable).isSome = true
      ∨ symbol.isExtern = true ∨ symbol.name ≠ name) :
    mapFind SymbolTableRecord.name name (addOutputSymbol l symbol).1.symbolTable
      = mapFind SymbolTableRecord.name name l.symbolTable := by
  unfold addOutputSymbol
  split
  · rfl
  · rename_i hext
    split
    · rfl
    · rename_i hfind
      have hname : symbol.name ≠ name := by
        rcases h with h | h | h
        · intro hh
          rw [hh] at hfind
          exact hfind h
        · exact absurd h hext
        · exact h
      exact mapFind_mapInsert_ne SymbolTableRecord.name _ _ _ name hname

theorem sectionSymbolPresent_addOutputSymbol (l : Linker) (symbol : SymbolTableRecord)
    (name : String) (h : sectionSymbolPresent l name) :
    sectionSymbolPresent (addOutputSymbol l symbol).1 name := by
  obtain ⟨hsec, sym, hsym, hrest⟩ := h
  unfold sectionSymbolPresent
  rw [(addOutputSymbol_sectionTable l symbol).1,
    addOutputSymbol_symbolTable l symbol name (Or.inl (by rw [hsym]; rfl))]
  exact ⟨hsec, sym, hsym, hrest⟩

theorem nameUnused_addOutputSymbol (l : Linker) (symbol : SymbolTableRecord) (name : String)
    (hsymbol : symbol.isExtern = true ∨ symbol.name ≠ name) (h : nameUnused l name) :
    nameUnused (addOutputSymbol l symbol).1 name := by
  unfold nameUnused
  rw [(addOutputSymbol_sectionTable l symbol).1,
    addOutputSymbol_symbolTable l symbol name (Or.inr hsymbol)]
  exact h

theorem nameUnused_addOutputSection_other (l : Linker) (sec : SectionTableRecord)
    (fileName name : String) (hname : sec.name ≠ name) (h : nameUnused l name) :
    nameUnused (addOutputSection l sec fileName) name := by
  unfold nameUnused
  rw [mapFind_addOutputSection_other l sec fileName name hname, addOutputSection_symbolTable]
  refine ⟨h.1, ?_⟩
  cases mapFind SectionTableRecord.name sec.name l.sectionTable with
  | some p => exact h.2
  | none =>
    simp only
    rw [mapFind_mapInsert_ne SymbolTableRecord.name _ _ _ name hname]
    exact h.2

theorem sectionSymbolPresent_of_nameUnused (l : Linker) (sec : SectionTableRecord)
    (fileName : String) (h : nameUnused l sec.name) :
    sectionSymbolPresent (addOutputSection l sec fileName) sec.name := by
  constructor
  · rw [mapFind_addOutputSection_same]
    rfl
  · rw [addOutputSection_symbolTable, h.1]
    simp only
    have hfound := mapFind_mapInsert_absent SymbolTableRecord.name (fun x => x.name.data)
      (fun _ _ hh => name_data_injective _ _ hh)
      ⟨if sec.name = "UNDEF" then 0 else if sec.name = "ABS" then 1 else l.symbolTable.length,
        0, true, true, false, sec.name, sec.name, fileName⟩ l.symbolTable h.2 sec.name
    rw [if_pos rfl] at hfound
    exact ⟨_, hfound, rfl, rfl, rfl, rfl, rfl, rfl⟩

end Linker

namespace Linker

theorem sectionSymbolPresent_readObjectFile (l : Linker) (filePath : String) (o : ObjectFile)
    (name : String) (h : sectionSymbolPresent l name) :
    sectionSymbolPresent (readObjectFile l filePath o) name := by
  have hsections : ∀ (secs : List SectionTableRecord) (l : Linker), sectionSymbolPresent l name →
      sectionSymbolPresent (secs.foldl (fun l sec => addOutputSection l sec filePath) l) name := by
    intro secs
    induction secs with
    | nil => exact fun l h => h
    | cons s rest ih =>
      exact fun l h => ih _ (sectionSymbolPresent_addOutputSection l s filePath name h)
  have hsymbols : ∀ (symbols : List SymbolTableRecord) (l : Linker),
      sectionSymbolPresent l name →
      sectionSymbolPresent (symbols.foldl
        (fun l symbol => (addOutputSymbol l { symbol with file := filePath }).1) l) name := by
    intro symbols
    induction symbols with
    | nil => exact fun l h => h
    | cons s rest ih =>
      exact fun l h => ih _ (sectionSymbolPresent_addOutputSymbol l _ name h)
  have h2 := hsymbols o.symbols _ (hsections o.sections l h)
  obtain ⟨r1, _, _, r4⟩ := foldl_addOutputRelocation filePath o.relocations
    (o.symbols.foldl (fun l symbol => (addOutputSymbol l { symbol with file := filePath }).1)
      (o.sections.foldl (fun l sec => addOutputSection l sec filePath) l))
  unfold readObjectFile
  unfold sectionSymbolPresent at h2 ⊢
  simp only
  rw [r1, r4]
  exact h2

theorem sectionSymbolPresent_fillFrom (fs : String → Option ObjectFile) (name : String)
    (paths : List String) :
    ∀ l : Linker, sectionSymbolPresent l name →
      sectionSymbolPresent (fillFrom fs l paths).1 name := by
  induction paths with
  | nil => exact fun l h => h
  | cons p ps ih =>
    intro l h
    cases ho : fs p with
    | none =>
      have : fillFrom fs l (p :: ps)
          = ({ l with linkingErrors := l.linkingErrors ++ [p ++ " opening failed."] }, false) := by
        show (match fs p with
          | none => _
          | some o => fillFrom fs (readObjectFile l p o) ps) = _
        rw [ho]
      rw [this]
      exact h
    | some o =>
      rw [fillFrom_cons fs l p ps o ho]
      exact ih _ (sectionSymbolPresent_readObjectFile l p o name h)

theorem nameUnused_sections (filePath name : String) (secs : List SectionTableRecord) :
    ∀ l : Linker, nameUnused l name →
      if secs.any (fun s => decide (s.name = name)) = true then
        sectionSymbolPresent (secs.foldl (fun l sec => addOutputSection l sec filePath) l) name
      else nameUnused (secs.foldl (fun l sec => addOutputSection l sec filePath) l) name := by
  induction secs with
  | nil =>
    intro l h
    simpa using h
  | cons s rest ih =>
    intro l h
    rw [List.foldl_cons]
    by_cases hname : s.name = name
    · have hany : (s :: rest).any (fun s => decide (s.name = name)) = true := by
        simp [hname]
      rw [if_pos hany]
      subst hname
      have hpresent := sectionSymbolPresent_of_nameUnused l s filePath h
      have hsections : ∀ (secs : List SectionTableRecord) (l : Linker),
          sectionSymbolPresent l s.name →
          sectionSymbolPresent (secs.foldl (fun l sec => addOutputSection l sec filePath) l)
            s.name := by
        intro secs
        induction secs with
        | nil => exact fun l h => h
        | cons t rest ih =>
          exact fun l h => ih _ (sectionSymbolPresent_addOutputSection l t filePath s.name h)
      exact hsections rest _ hpresent
    · have hany : (s :: rest).any (fun s => decide (s.name = name))
          = rest.any (fun s => decide (s.name = name)) := by
        simp [hname]
      rw [hany]
      exact ih _ (nameUnused_addOutputSection_other l s filePath name hname h)

theorem nameUnused_symbols (filePath name : String) (symbols : List SymbolTableRecord)
    (hsymbols : ∀ s ∈ symbols, s.isExtern = true ∨ s.name ≠ name) :
    ∀ l : Linker, nameUnused l name →
      nameUnused (symbols.foldl
        (fun l symbol => (addOutputSymbol l { symbol with file := filePath }).1) l) name := by
  induction symbols with
  | nil => exact fun l h => h
  | cons s rest ih =>
    intro l h
    rw [List.foldl_cons]
    exact ih (fun t ht => hsymbols t (List.mem_cons_of_mem _ ht)) _
      (nameUnused_addOutputSymbol l _ name (hsymbols s (List.mem_cons_self _ _)) h)

theorem nameUnused_readObjectFile (l : Linker) (filePath : String) (o : ObjectFile)
    (name : String) (h : nameUnused l name) :
    (o.sections.any (fun s => decide (s.name = name)) = true →
        sectionSymbolPresent (readObjectFile l filePath o) name)
      ∧ (o.sections.any (fun s => decide (s.name = name)) = false →
        (∀ s ∈ o.symbols, s.isExtern = true ∨ s.name ≠ name) →
        nameUnused (readObjectFile l filePath o) name) := by
  have hsecs := nameUnused_sections filePath name o.sections l h
  constructor
  · intro hany
    rw [if_pos hany] at hsecs
    have hsymbols : ∀ (symbols : List SymbolTableRecord) (l : Linker),
        sectionSymbolPresent l name →
        sectionSymbolPresent (symbols.foldl
          (fun l symbol => (addOutputSymbol l { symbol with file := filePath }).1) l) name := by
      intro symbols
      induction symbols with
      | nil => exact fun l h => h
      | cons s rest ih =>
        exact fun l h => ih _ (sectionSymbolPresent_addOutputSymbol l _ name h)
    have h2 := hsymbols o.symbols _ hsecs
    obtain ⟨r1, _, _, r4⟩ := foldl_addOutputRelocation filePath o.relocations
      (o.symbols.foldl (fun l symbol => (addOutputSymbol l { symbol with file := filePath }).1)
        (o.sections.foldl (fun l sec => addOutputSection l sec filePath) l))
    unfold readObjectFile
    unfold sectionSymbolPresent at h2 ⊢
    simp only
    rw [r1, r4]
    exact h2
  · intro hany hsymbols
    rw [if_neg (by rw [hany]; decide)] at hsecs
    have h2 := nameUnused_symbols filePath name o.symbols hsymbols _ hsecs
    obtain ⟨r1, _, _, r4⟩ := foldl_addOutputRelocation filePath o.relocations
      (o.symbols.foldl (fun l symbol => (addOutputSymbol l { symbol with file := filePath }).1)
        (o.sections.foldl (fun l sec => addOutputSection l sec filePath) l))
    unfold readObjectFile
    unfold nameUnused at h2 ⊢
    simp only
    rw [r1, r4]
    exact h2

theorem sectionSymbolPresent_of_fillFrom (fs : String → Option ObjectFile) (name : String)
    (paths : List String) :
    ∀ l : Linker, nameUnused l name →
      (∀ p ∈ paths, (fs p).isSome = true) →
      (∃ p ∈ paths, hasSection fs name p = true) →
      name ∉ symbolNamesBefore fs paths name →
      sectionSymbolPresent (fillFrom fs l paths).1 name := by
  induction paths with
  | nil =>
    intro l _ _ hsome _
    obtain ⟨p, hp, _⟩ := hsome
    exact absurd hp (List.not_mem_nil _)
  | cons p ps ih =>
    intro l h hopen hsome hclash
    obtain ⟨o, ho⟩ := Option.isSome_iff_exists.1 (hopen p (List.mem_cons_self _ _))
    rw [fillFrom_cons fs l p ps o ho]
    have hhas : hasSection fs name p = o.sections.any (fun s => decide (s.name = name)) := by
      unfold hasSection
      rw [ho]
    obtain ⟨hpresent, hunused⟩ := nameUnused_readObjectFile l p o name h
    by_cases hany : o.sections.any (fun s => decide (s.name = name)) = true
    · exact sectionSymbolPresent_fillFrom fs name ps _ (hpresent hany)
    · simp only [Bool.not_eq_true] at hany
      have htake : symbolNamesBefore fs (p :: ps) name
          = (o.symbols.filter (fun s => !s.isExtern)).map (fun s => s.name)
            ++ symbolNamesBefore fs ps name := by
        unfold symbolNamesBefore
        rw [List.takeWhile_cons, hhas, hany]
        simp only [Bool.not_false, if_true, List.flatMap_cons, ho]
      rw [htake, List.mem_append, not_or] at hclash
      refine ih _ (hunused hany ?_) (fun q hq => hopen q (List.mem_cons_of_mem _ hq)) ?_ hclash.2
      · intro s hs
        by_cases hext : s.isExtern = true
        · exact Or.inl hext
        · right
          intro hname
          apply hclash.1
          rw [List.mem_map]
          exact ⟨s, List.mem_filter.2 ⟨hs, by simpa using hext⟩, hname⟩
      · obtain ⟨q, hq, hqhas⟩ := hsome
        rcases List.mem_cons.1 hq with hqp | hqps
        · rw [hqp, hhas, hany] at hqhas
          exact Bool.noConfusion hqhas
        · exact ⟨q, hqps, hqhas⟩

end Linker

namespace Linker

theorem hasSection_of_contribution (fs : String → Option ObjectFile) (paths : List String)
    (name : String) (e : SectionTableRecord × String)
    (he : e ∈ contributions (inputSections fs paths) name) :
    e.2 ∈ paths ∧ hasSection fs name e.2 = true := by
  unfold contributions inputSections at he
  rw [List.mem_filter, List.mem_flatMap] at he
  obtain ⟨⟨p, hp, hmem⟩, hname⟩ := he
  cases ho : fs p with
  | none =>
    rw [ho] at hmem
    exact absurd hmem (List.not_mem_nil _)
  | some o =>
    rw [ho] at hmem
    simp only [List.mem_map] at hmem
    obtain ⟨s, hs, hse⟩ := hmem
    have h2 : e.2 = p := by rw [← hse]
    have h1 : e.1 = s := by rw [← hse]
    rw [h2]
    refine ⟨hp, ?_⟩
    unfold hasSection
    rw [ho]
    simp only [List.any_eq_true]
    exact ⟨s, hs, by rw [← h1]; exact hname⟩

theorem firstEncounterIndex_ge_two (E : List (SectionTableRecord × String)) (name : String)
    (hreserved : (E.map (fun e => e.1.name)).take 2 = ["UNDEF", "ABS"])
    (h1 : name ≠ "UNDEF") (h2 : name ≠ "ABS") :
    2 ≤ firstEncounterIndex E name := by
  unfold firstEncounterIndex
  generalize E.map (fun e => e.1.name) = names at hreserved
  match names, hreserved with
  | a :: b :: rest, h =>
    simp only [List.take_succ_cons, List.take_zero, List.cons.injEq, and_true] at h
    obtain ⟨ha, hb⟩ := h
    subst ha hb
    rw [List.takeWhile_cons, if_pos (by simpa using Ne.symm h1), List.takeWhile_cons,
      if_pos (by simpa using Ne.symm h2), ← List.card_toFinset]
    have hsub : ({"UNDEF", "ABS"} : Finset String)
        ⊆ ("UNDEF" :: "ABS" :: rest.takeWhile (fun m => decide (m ≠ name))).toFinset := by
      intro x hx
      simp only [Finset.mem_insert, Finset.mem_singleton] at hx
      simp only [List.toFinset_cons, Finset.mem_insert, List.mem_toFinset]
      rcases hx with hx | hx
      · exact Or.inl hx
      · exact Or.inr (Or.inl hx)
    have hcard : ({"UNDEF", "ABS"} : Finset String).card = 2 := by decide
    rw [← hcard]
    exact Finset.card_le_card hsub

end Linker

/-! ## Lemmas on the placement of sections by the linker -/

theorem mem_mapInsert {α κ : Type} [LT κ] [∀ a b : κ, Decidable (a < b)] [DecidableEq κ]
    (key : α → κ) (x : α) (m : List α) (y : α) (hy : y ∈ mapInsert key x m) : y = x ∨ y ∈ m := by
  induction m with
  | nil =>
    unfold mapInsert at hy
    exact Or.inl (List.mem_singleton.1 hy)
  | cons z zs ih =>
    unfold mapInsert at hy
    split at hy
    · exact List.mem_cons.1 hy
    · split at hy
      · exact Or.inr hy
      · rcases List.mem_cons.1 hy with h | h
        · exact Or.inr (h ▸ List.mem_cons_self _ _)
        · rcases ih h with h | h
          · exact Or.inl h
          · exact Or.inr (List.mem_cons_of_mem _ h)

theorem pairwise_mapInsert {α : Type} (key : α → Int) (x : α) (m : List α)
    (h : m.Pairwise (fun a b => key a < key b)) :
    (mapInsert key x m).Pairwise (fun a b => key a < key b) := by
  induction m with
  | nil =>
    unfold mapInsert
    exact List.pairwise_singleton _ _
  | cons z zs ih =>
    unfold mapInsert
    obtain ⟨hz, hzs⟩ := List.pairwise_cons.1 h
    split
    · rename_i hlt
      refine List.pairwise_cons.2 ⟨?_, h⟩
      intro b hb
      rcases List.mem_cons.1 hb with hb | hb
      · rw [hb]
        exact hlt
      · exact lt_trans hlt (hz b hb)
    · rename_i hlt
      split
      · exact h
      · rename_i hne
        refine List.pairwise_cons.2 ⟨?_, ih hzs⟩
        intro b hb
        rcases mem_mapInsert key x zs b hb with hb | hb
        · rw [hb]
          omega
        · exact hz b hb

theorem foldl_mapInsert_pairwise {α β : Type} (key : β → Int) (g : α → β) (xs : List α) :
    ∀ acc : List β, acc.Pairwise (fun a b => key a < key b) →
      (xs.foldl (fun m s => mapInsert key (g s) m) acc).Pairwise (fun a b => key a < key b) := by
  induction xs with
  | nil => exact fun acc h => h
  | cons s rest ih => exact fun acc h => ih _ (pairwise_mapInsert key (g s) acc h)

theorem foldl_mapInsert_perm {α β : Type} (key : β → Int) (g : α → β) (xs : List α) :
    ∀ acc : List β, (acc.map key ++ xs.map (fun s => key (g s))).Nodup →
      (xs.foldl (fun m s => mapInsert key (g s) m) acc).Perm (acc ++ xs.map g) := by
  induction xs with
  | nil =>
    intro acc _
    simp
  | cons s rest ih =>
    intro acc h
    rw [List.foldl_cons, List.map_cons]
    have habs : ∀ y ∈ acc, key y ≠ key (g s) := by
      intro y hy heq
      rw [List.map_cons] at h
      have hdis := (List.nodup_append.1 h).2.2
      exact hdis (List.mem_map_of_mem key hy) (by rw [heq]; exact List.mem_cons_self _ _)
    have hperm := perm_mapInsert_absent key (g s) acc habs
    have hnodup : ((mapInsert key (g s) acc).map key ++ rest.map (fun s => key (g s))).Nodup := by
      have hp : ((mapInsert key (g s) acc).map key ++ rest.map (fun s => key (g s))).Perm
          (acc.map key ++ (s :: rest).map (fun s => key (g s))) := by
        rw [List.map_cons]
        exact ((hperm.map key).append_right _).trans (by
          rw [List.map_cons]
          exact List.perm_middle.symm)
      exact hp.nodup_iff.2 h
    exact (ih _ hnodup).trans ((hperm.append_right _).trans List.perm_middle.symm)

theorem mapFind_of_mem {α κ : Type} [DecidableEq κ] (key : α → κ) (m : List α) (s : α)
    (hnodup : (m.map key).Nodup) (hs : s ∈ m) : mapFind key (key s) m = some s := by
  cases hfind : mapFind key (key s) m with
  | none => exact absurd rfl ((mapFind_eq_none key (key s) m).1 hfind s hs)
  | some t =>
    rw [mapFind_unique key (key s) m t hnodup hfind s hs rfl]

namespace Linker

theorem shiftInputSection_tables (name : String) (base : Nat) (l : Linker) (fileName : String) :
    (shiftInputSection name base l fileName).sectionTable = l.sectionTable
      ∧ (shiftInputSection name base l fileName).inputFilesPaths = l.inputFilesPaths
      ∧ (shiftInputSection name base l fileName).symbolTable = l.symbolTable := by
  unfold shiftInputSection
  split <;> exact ⟨rfl, rfl, rfl⟩

theorem foldl_shiftInputSection_tables (name : String) (base : Nat) (paths : List String) :
    ∀ l : Linker,
      (paths.foldl (shiftInputSection name base) l).sectionTable = l.sectionTable
        ∧ (paths.foldl (shiftInputSection name base) l).inputFilesPaths = l.inputFilesPaths
        ∧ (paths.foldl (shiftInputSection name base) l).symbolTable = l.symbolTable := by
  induction paths with
  | nil => exact fun l => ⟨rfl, rfl, rfl⟩
  | cons p ps ih =>
    intro l
    rw [List.foldl_cons]
    obtain ⟨h1, h2, h3⟩ := ih (shiftInputSection name base l p)
    obtain ⟨g1, g2, g3⟩ := shiftInputSection_tables name base l p
    exact ⟨h1.trans g1, h2.trans g2, h3.trans g3⟩

/-- The three outcomes of one step of `placeSections`. -/
theorem placeSections_cons (l : Linker) (cursor : Nat) (item : Int × String)
    (rest : List (Int × String)) :
    (∃ sec, mapFind SectionTableRecord.name item.2 l.sectionTable = some sec
        ∧ ¬ (item.2 = "UNDEF" ∨ item.2 = "ABS")
        ∧ ¬ (cursor ≥ 0xFF00 ∧ cursor ≤ 0xFFFF)
        ∧ placeSections l cursor (item :: rest)
          = placeSections (placeSection l item.2 cursor)
              ((cursor + sec.length) % 4294967296) rest)
      ∨ (((mapFind SectionTableRecord.name item.2 l.sectionTable) = none
            ∨ item.2 = "UNDEF" ∨ item.2 = "ABS")
          ∧ placeSections l cursor (item :: rest) = placeSections l cursor rest)
      ∨ (placeSections l cursor (item :: rest)).2 = false := by
  cases hfind : mapFind SectionTableRecord.name item.2 l.sectionTable with
  | none =>
    right; left
    refine ⟨Or.inl rfl, ?_⟩
    show (match mapFind SectionTableRecord.name item.2 l.sectionTable with
      | none => placeSections l cursor rest
      | some sec => _) = _
    rw [hfind]
  | some sec =>
    have hname : sec.name = item.2 := (mapFind_some_mem _ _ _ _ hfind).2
    by_cases hres : item.2 = "UNDEF" ∨ item.2 = "ABS"
    · right; left
      refine ⟨Or.inr hres, ?_⟩
      conv_lhs => unfold placeSections
      rw [hfind]
      simp only
      rw [hname, if_pos hres]
    · by_cases hreg : cursor ≥ 0xFF00 ∧ cursor ≤ 0xFFFF
      · right; right
        unfold placeSections
        rw [hfind]
        simp only
        rw [hname, if_neg hres, if_pos hreg]
      · left
        refine ⟨sec, rfl, hres, hreg, ?_⟩
        conv_lhs => unfold placeSections
        rw [hfind]
        simp only
        rw [hname, if_neg hres, if_neg hreg]
        rfl

end Linker

namespace Linker

theorem placeSection_tables (l : Linker) (name : String) (base : Nat) :
    (placeSection l name base).sectionTable
        = mapModify SectionTableRecord.name name
            (fun (s : SectionTableRecord) => { s with baseAddress := base }) l.sectionTable
      ∧ (placeSection l name base).inputFilesPaths = l.inputFilesPaths
      ∧ (placeSection l name base).symbolTable = l.symbolTable := by
  unfold placeSection
  exact foldl_shiftInputSection_tables name base l.inputFilesPaths _

theorem mapFind_placeSection_other (l : Linker) (name : String) (base : Nat) (m : String)
    (h : m ≠ name) :
    mapFind SectionTableRecord.name m (placeSection l name base).sectionTable
      = mapFind SectionTableRecord.name m l.sectionTable := by
  rw [(placeSection_tables l name base).1]
  refine mapFind_mapModify_ne _ _ _ _ ?_ h _
  exact fun _ => rfl

theorem mapFind_placeSection_same (l : Linker) (name : String) (base : Nat) :
    mapFind SectionTableRecord.name name (placeSection l name base).sectionTable
      = (mapFind SectionTableRecord.name name l.sectionTable).map
          (fun (s : SectionTableRecord) => { s with baseAddress := base }) := by
  rw [(placeSection_tables l name base).1]
  refine mapFind_mapModify _ _ _ ?_ _
  exact fun _ => rfl

theorem sectionLength_placeSection (l : Linker) (name : String) (base : Nat) (m : String) :
    sectionLength (placeSection l name base) m = sectionLength l m := by
  unfold sectionLength
  by_cases h : m = name
  · subst h
    rw [mapFind_placeSection_same]
    cases mapFind SectionTableRecord.name m l.sectionTable <;> rfl
  · rw [mapFind_placeSection_other l name base m h]

theorem placeSections_tables (items : List (Int × String)) :
    ∀ (l : Linker) (cursor : Nat) (l1 : Linker), placeSections l cursor items = (l1, true) →
      l1.inputFilesPaths = l.inputFilesPaths ∧ l1.symbolTable = l.symbolTable
        ∧ (∀ m, sectionLength l1 m = sectionLength l m)
        ∧ (∀ m, (m ∉ items.map Prod.snd ∨ m = "UNDEF" ∨ m = "ABS") →
            mapFind SectionTableRecord.name m l1.sectionTable
              = mapFind SectionTableRecord.name m l.sectionTable) := by
  induction items with
  | nil =>
    intro l cursor l1 h
    have : l1 = l := by
      have h2 : placeSections l cursor [] = (l, true) := rfl
      rw [h2] at h
      exact (Prod.mk.inj h).1.symm
    subst this
    exact ⟨rfl, rfl, fun _ => rfl, fun _ _ => rfl⟩
  | cons item rest ih =>
    intro l cursor l1 h
    rcases placeSections_cons l cursor item rest with
      ⟨sec, _, hres, _, hstep⟩ | ⟨_, hstep⟩ | hfail
    · rw [hstep] at h
      obtain ⟨h1, h2, h3, h4⟩ := ih _ _ _ h
      obtain ⟨_, g2, g3⟩ := placeSection_tables l item.2 cursor
      refine ⟨h1.trans g2, h2.trans g3, fun m => (h3 m).trans (sectionLength_placeSection _ _ _ m),
        ?_⟩
      intro m hm
      have hne : m ≠ item.2 := by
        rcases hm with hm | hm
        · intro heq
          apply hm
          rw [heq]
          exact List.mem_map_of_mem Prod.snd (List.mem_cons_self _ _)
        · intro heq
          rw [heq] at hm
          exact hres hm
      rw [h4 m ?_, mapFind_placeSection_other l item.2 cursor m hne]
      rcases hm with hm | hm
      · left
        intro hmem
        apply hm
        rw [List.map_cons]
        exact List.mem_cons_of_mem _ hmem
      · exact Or.inr hm
    · rw [hstep] at h
      obtain ⟨h1, h2, h3, h4⟩ := ih _ _ _ h
      refine ⟨h1, h2, h3, ?_⟩
      intro m hm
      apply h4 m
      rcases hm with hm | hm
      · left
        intro hmem
        apply hm
        rw [List.map_cons]
        exact List.mem_cons_of_mem _ hmem
      · exact Or.inr hm
    · rw [h] at hfail
      exact Bool.noConfusion hfail

end Linker

namespace Linker

theorem isSome_mapFind_placeSection (l : Linker) (name : String) (base : Nat) (m : String)
    (h : (mapFind SectionTableRecord.name m l.sectionTable).isSome = true) :
    (mapFind SectionTableRecord.name m (placeSection l name base).sectionTable).isSome = true := by
  by_cases hm : m = name
  · subst hm
    rw [mapFind_placeSection_same]
    cases hfind : mapFind SectionTableRecord.name m l.sectionTable with
    | none =>
      rw [hfind] at h
      exact Bool.noConfusion h
    | some s => rfl
  · rw [mapFind_placeSection_other l name base m hm]
    exact h

theorem placeSections_placedFrom (items : List (Int × String)) :
    ∀ (l : Linker) (cursor : Nat) (l1 : Linker), placeSections l cursor items = (l1, true) →
      (items.map Prod.snd).Nodup →
      (∀ item ∈ items, (mapFind SectionTableRecord.name item.2 l.sectionTable).isSome = true) →
      cursor + (items.map (fun item => sectionLength l item.2)).sum < 4294967296 →
      placedFrom l1 cursor
        ((items.map Prod.snd).filter (fun name => decide (¬ (name = "UNDEF" ∨ name = "ABS")))) := by
  induction items with
  | nil =>
    intro l cursor l1 _ _ _ _
    exact True.intro
  | cons item rest ih =>
    intro l cursor l1 h hnodup hpresent hsize
    rw [List.map_cons, List.nodup_cons] at hnodup
    rw [List.map_cons, List.sum_cons] at hsize
    rw [List.map_cons]
    rcases placeSections_cons l cursor item rest with
      ⟨sec, hfind, hres, _, hstep⟩ | ⟨hskip, hstep⟩ | hfail
    · rw [hstep] at h
      have hlen : sectionLength l item.2 = sec.length := by
        unfold sectionLength
        rw [hfind]
      have hnext : (cursor + sec.length) % 4294967296 = cursor + sec.length := by
        apply Nat.mod_eq_of_lt
        omega
      rw [hnext] at h
      rw [List.filter_cons_of_pos (by simpa using hres)]
      obtain ⟨_, _, h3, h4⟩ := placeSections_tables rest _ _ _ h
      have hfound : mapFind SectionTableRecord.name item.2 l1.sectionTable
          = some { sec with baseAddress := cursor } := by
        rw [h4 item.2 (Or.inl hnodup.1), mapFind_placeSection_same, hfind]
        rfl
      refine ⟨?_, ?_⟩
      · unfold sectionBase
        rw [hfound]
      · have hlen1 : sectionLength l1 item.2 = sec.length := by
          rw [h3, sectionLength_placeSection, hlen]
        rw [hlen1]
        refine ih _ _ _ h hnodup.2 ?_ ?_
        · intro it hit
          exact isSome_mapFind_placeSection l item.2 cursor it.2
            (hpresent it (List.mem_cons_of_mem _ hit))
        · have : (rest.map (fun it => sectionLength (placeSection l item.2 cursor) it.2))
              = rest.map (fun it => sectionLength l it.2) := by
            apply List.map_congr_left
            intro it _
            exact sectionLength_placeSection l item.2 cursor it.2
          rw [this]
          omega
    · rw [hstep] at h
      have hres : item.2 = "UNDEF" ∨ item.2 = "ABS" := by
        rcases hskip with hnone | hres
        · have := hpresent item (List.mem_cons_self _ _)
          rw [hnone] at this
          exact Bool.noConfusion this
        · exact hres
      rw [List.filter_cons_of_neg (by simp only [decide_eq_true_eq]; exact fun hh => hh hres)]
      refine ih _ _ _ h hnodup.2 (fun it hit => hpresent it (List.mem_cons_of_mem _ hit)) ?_
      omega
    · rw [h] at hfail
      exact Bool.noConfusion hfail

theorem placedFrom_pairwise (l : Linker) (names : List String) :
    ∀ cursor : Nat, placedFrom l cursor names →
      (∀ name ∈ names, cursor ≤ sectionBase l name)
        ∧ names.Pairwise
            (fun n m => sectionBase l n + sectionLength l n ≤ sectionBase l m) := by
  induction names with
  | nil =>
    intro cursor _
    exact ⟨fun _ h => absurd h (List.not_mem_nil _), List.Pairwise.nil⟩
  | cons n rest ih =>
    intro cursor h
    obtain ⟨hbase, hrest⟩ := h
    obtain ⟨hlow, hpair⟩ := ih _ hrest
    refine ⟨?_, List.pairwise_cons.2 ⟨?_, hpair⟩⟩
    · intro m hm
      rcases List.mem_cons.1 hm with hm | hm
      · rw [hm, hbase]
      · have := hlow m hm
        omega
    · intro m hm
      have := hlow m hm
      omega

end Linker

namespace Linker

theorem sectionNamesOrderedByID_perm (l : Linker)
    (hids : (l.sectionTable.map (fun s => toInt (s.id : Int))).Nodup) :
    (sectionNamesOrderedByID l).Perm
      (l.sectionTable.map (fun s => (toInt (s.id : Int), s.name))) := by
  have h := foldl_mapInsert_perm (Prod.fst : Int × String → Int)
    (fun (s : SectionTableRecord) => (toInt (s.id : Int), s.name)) l.sectionTable []
    (by simpa using hids)
  simpa using h

theorem sectionNamesOrderedByID_facts (l : Linker)
    (hnames : (l.sectionTable.map SectionTableRecord.name).Nodup)
    (hids : (l.sectionTable.map (fun s => toInt (s.id : Int))).Nodup) :
    ((sectionNamesOrderedByID l).map Prod.snd).Nodup
      ∧ (∀ item ∈ sectionNamesOrderedByID l,
          (mapFind SectionTableRecord.name item.2 l.sectionTable).isSome = true)
      ∧ ((sectionNamesOrderedByID l).map (fun item => sectionLength l item.2)).sum
          = (l.sectionTable.map SectionTableRecord.length).sum
      ∧ ∀ s ∈ l.sectionTable, s.name ∈ (sectionNamesOrderedByID l).map Prod.snd := by
  have hperm := sectionNamesOrderedByID_perm l hids
  refine ⟨?_, ?_, ?_, ?_⟩
  · rw [(hperm.map Prod.snd).nodup_iff, List.map_map]
    exact hnames
  · intro item hitem
    obtain ⟨s, hs, hsi⟩ := List.mem_map.1 (hperm.mem_iff.1 hitem)
    rw [← hsi]
    show (mapFind SectionTableRecord.name s.name l.sectionTable).isSome = true
    rw [mapFind_of_mem SectionTableRecord.name l.sectionTable s hnames hs]
    rfl
  · rw [(hperm.map (fun item => sectionLength l item.2)).sum_eq, List.map_map]
    congr 1
    apply List.map_congr_left
    intro s hs
    show sectionLength l s.name = s.length
    unfold sectionLength
    rw [mapFind_of_mem SectionTableRecord.name l.sectionTable s hnames hs]
  · intro s hs
    rw [(hperm.map Prod.snd).mem_iff, List.map_map]
    exact List.mem_map_of_mem _ hs

theorem setSectionsBaseAddress_placed (l l2 : Linker)
    (hplace : setSectionsBaseAddress l = (l2, true)) :
    ∃ lp, placeSections l 0 (sectionNamesOrderedByID l) = (lp, true)
      ∧ l2.sectionTable = lp.sectionTable
      ∧ l2.InputSectionsData = lp.InputSectionsData
      ∧ l2.symbolTable = lp.symbolTable.map (rehomeSymbol lp) := by
  unfold setSectionsBaseAddress at hplace
  cases h : placeSections l 0 (sectionNamesOrderedByID l) with
  | mk lp b =>
    rw [h] at hplace
    cases b with
    | false =>
      simp only at hplace
      exact absurd (Prod.mk.inj hplace).2 (by decide)
    | true =>
      simp only at hplace
      have := (Prod.mk.inj hplace).1
      rw [← this]
      exact ⟨lp, rfl, rfl, rfl, rfl⟩

theorem placedFrom_congr (l l1 : Linker) (h : l1.sectionTable = l.sectionTable)
    (names : List String) :
    ∀ cursor, placedFrom l cursor names → placedFrom l1 cursor names := by
  induction names with
  | nil => exact fun _ _ => True.intro
  | cons n rest ih =>
    intro cursor hp
    obtain ⟨hbase, hrest⟩ := hp
    have hb : sectionBase l1 n = sectionBase l n := by
      unfold sectionBase
      rw [h]
    have hl : sectionLength l1 n = sectionLength l n := by
      unfold sectionLength
      rw [h]
    refine ⟨hb.trans hbase, ?_⟩
    rw [hl]
    exact ih _ hrest

end Linker

namespace Linker

theorem findInputSectionData_shiftInputSection (name : String) (base : Nat) (l : Linker)
    (fileName n f : String) :
    findInputSectionData (shiftInputSection name base l fileName) n f
      = if n = name ∧ f = fileName then
          (findInputSectionData l n f).map (InputSectionData.movedBy base)
        else findInputSectionData l n f := by
  unfold shiftInputSection InputSectionData.movedBy
  cases hfind : findInputSectionData l name fileName with
  | none =>
    simp only
    split
    · rename_i h
      rw [h.1, h.2, hfind]
      rfl
    · rfl
  | some a0 =>
    simp only
    unfold findInputSectionData
    simp only
    rw [List.find?_map]
    have hcomp : ((fun (a : InputSectionData) => decide (a.name = n ∧ a.file = f)) ∘
        (fun (a : InputSectionData) =>
          if a.name = name ∧ a.file = fileName then
            { a with baseAddressOfUnaggregatedSection :=
                (a.baseAddressOfUnaggregatedSection + base) % 4294967296 }
          else a)) = (fun (a : InputSectionData) => decide (a.name = n ∧ a.file = f)) := by
      funext a
      simp only [Function.comp]
      split <;> rfl
    rw [hcomp]
    cases hq : l.InputSectionsData.find? (fun a => decide (a.name = n ∧ a.file = f)) with
    | none =>
      simp only [Option.map_none']
      split <;> rfl
    | some a =>
      have ha : a.name = n ∧ a.file = f := by simpa using List.find?_some hq
      simp only [Option.map_some']
      by_cases hkey : n = name ∧ f = fileName
      · rw [if_pos hkey, if_pos ⟨ha.1.trans hkey.1, ha.2.trans hkey.2⟩]
      · rw [if_neg hkey, if_neg (fun hh => hkey ⟨ha.1.symm.trans hh.1, ha.2.symm.trans hh.2⟩)]

theorem findInputSectionData_foldl_shift (name : String) (base : Nat) (n f : String)
    (paths : List String) (hpaths : paths.Nodup) :
    ∀ l : Linker,
      findInputSectionData (paths.foldl (shiftInputSection name base) l) n f
        = if n = name ∧ f ∈ paths then
            (findInputSectionData l n f).map (InputSectionData.movedBy base)
          else findInputSectionData l n f := by
  induction paths with
  | nil =>
    intro l
    simp
  | cons p ps ih =>
    intro l
    rw [List.nodup_cons] at hpaths
    rw [List.foldl_cons, ih hpaths.2, findInputSectionData_shiftInputSection]
    by_cases hn : n = name
    · by_cases hfp : f = p
      · have hnot : f ∉ ps := hfp ▸ hpaths.1
        simp [hn, hfp, hpaths.1]
      · by_cases hfps : f ∈ ps
        · simp [hn, hfp, hfps]
        · simp [hn, hfp, hfps]
    · simp [hn]

theorem findInputSectionData_placeSection (l : Linker) (name : String) (base : Nat)
    (n f : String) (hpaths : l.inputFilesPaths.Nodup) :
    findInputSectionData (placeSection l name base) n f
      = if n = name ∧ f ∈ l.inputFilesPaths then
          (findInputSectionData l n f).map (InputSectionData.movedBy base)
        else findInputSectionData l n f := by
  unfold placeSection
  exact findInputSectionData_foldl_shift name base n f l.inputFilesPaths hpaths _

end Linker

namespace Linker

theorem placeSections_bases (items : List (Int × String)) :
    ∀ (l : Linker) (cursor : Nat) (l1 : Linker), placeSections l cursor items = (l1, true) →
      l.inputFilesPaths.Nodup →
      (items.map Prod.snd).Nodup →
      (∀ item ∈ items, (mapFind SectionTableRecord.name item.2 l.sectionTable).isSome = true) →
      ∀ n f, findInputSectionData l1 n f
        = if (n ∈ items.map Prod.snd ∧ ¬ (n = "UNDEF" ∨ n = "ABS")) ∧ f ∈ l.inputFilesPaths then
            (findInputSectionData l n f).map (InputSectionData.movedBy (sectionBase l1 n))
          else findInputSectionData l n f := by
  induction items with
  | nil =>
    intro l cursor l1 h _ _ _ n f
    have : l1 = l := by
      have h2 : placeSections l cursor [] = (l, true) := rfl
      rw [h2] at h
      exact (Prod.mk.inj h).1.symm
    subst this
    simp
  | cons item rest ih =>
    intro l cursor l1 h hpaths hnodup hpresent n f
    rw [List.map_cons, List.nodup_cons] at hnodup
    rcases placeSections_cons l cursor item rest with
      ⟨sec, hfind, hres, _, hstep⟩ | ⟨hskip, hstep⟩ | hfail
    · rw [hstep] at h
      obtain ⟨_, _, _, h4⟩ := placeSections_tables rest _ _ _ h
      have hbase : sectionBase l1 item.2 = cursor := by
        unfold sectionBase
        rw [h4 item.2 (Or.inl hnodup.1), mapFind_placeSection_same, hfind]
        rfl
      have hpaths1 : (placeSection l item.2 cursor).inputFilesPaths = l.inputFilesPaths :=
        (placeSection_tables l item.2 cursor).2.1
      have hih := ih _ _ _ h (by rw [hpaths1]; exact hpaths) hnodup.2
        (fun it hit => isSome_mapFind_placeSection l item.2 cursor it.2
          (hpresent it (List.mem_cons_of_mem _ hit))) n f
      rw [hih, hpaths1, findInputSectionData_placeSection l item.2 cursor n f hpaths]
      by_cases hn : n = item.2
      · subst hn
        have hnot : item.2 ∉ rest.map Prod.snd := hnodup.1
        rw [hbase]
        by_cases hf : f ∈ l.inputFilesPaths
        · simp [hnot, hf, hres]
        · simp [hnot, hf]
      · by_cases hmem : n ∈ rest.map Prod.snd
        · simp [hn, hmem]
        · simp [hn, hmem]
    · rw [hstep] at h
      have hres : item.2 = "UNDEF" ∨ item.2 = "ABS" := by
        rcases hskip with hnone | hres
        · have := hpresent item (List.mem_cons_self _ _)
          rw [hnone] at this
          exact Bool.noConfusion this
        · exact hres
      have hih := ih _ _ _ h hpaths hnodup.2
        (fun it hit => hpresent it (List.mem_cons_of_mem _ hit)) n f
      rw [hih]
      by_cases hn : n = item.2
      · subst hn
        have hnot : item.2 ∉ rest.map Prod.snd := hnodup.1
        simp [hnot, hres]
      · simp only [List.map_cons, List.mem_cons, hn, false_or]
    · rw [h] at hfail
      exact Bool.noConfusion hfail

end Linker

namespace Linker

theorem contributions_files_nodup (E : List (SectionTableRecord × String))
    (h : (E.map (fun e => (e.1.name, e.2))).Nodup) (name : String) :
    ((contributions E name).map Prod.snd).Nodup := by
  unfold contributions
  have hsub : ((E.filter (fun e => decide (e.1.name = name))).map
      (fun e => (e.1.name, e.2))).Nodup :=
    h.sublist ((List.filter_sublist E).map _)
  have hmap : (E.filter (fun e => decide (e.1.name = name))).map Prod.snd
      = ((E.filter (fun e => decide (e.1.name = name))).map (fun e => (e.1.name, e.2))).map
          Prod.snd := by
    rw [List.map_map]
    rfl
  rw [hmap]
  apply List.Nodup.map_on _ hsub
  intro x hx y hy hxy
  obtain ⟨a, ha, hax⟩ := List.mem_map.1 hx
  obtain ⟨b, hb, hby⟩ := List.mem_map.1 hy
  have han : a.1.name = name := by simpa using (List.mem_filter.1 ha).2
  have hbn : b.1.name = name := by simpa using (List.mem_filter.1 hb).2
  rw [← hax, ← hby] at hxy ⊢
  simp only at hxy
  rw [han, hbn, hxy]

theorem totalLength_contributions_le (E : List (SectionTableRecord × String)) (name : String) :
    totalLength (contributions E name) ≤ totalLength E := by
  unfold contributions
  induction E with
  | nil => exact Nat.le_refl _
  | cons e rest ih =>
    rw [List.filter_cons]
    split
    · simp only [totalLength, List.map_cons, List.sum_cons] at ih ⊢
      omega
    · simp only [totalLength, List.map_cons, List.sum_cons] at ih ⊢
      omega

theorem names_nodup_addOutputSection (l : Linker) (sec : SectionTableRecord) (fileName : String)
    (h : (l.sectionTable.map SectionTableRecord.name).Nodup) :
    ((addOutputSection l sec fileName).sectionTable.map SectionTableRecord.name).Nodup := by
  rw [addOutputSection_sectionTable]
  cases hfind : mapFind SectionTableRecord.name sec.name l.sectionTable with
  | some p =>
    simp only
    rw [map_key_mapModify]
    · exact h
    · exact fun _ => rfl
  | none =>
    simp only
    have hne : ∀ y ∈ l.sectionTable, y.name.data ≠ sec.name.data := by
      intro y hy hh
      exact (mapFind_eq_none SectionTableRecord.name sec.name l.sectionTable).1 hfind y hy
        (name_data_injective _ _ hh)
    have hperm := perm_mapInsert_absent (fun (x : SectionTableRecord) => x.name.data)
      { sec with
        id := if sec.name = "UNDEF" then 0 else if sec.name = "ABS" then 1
              else l.sectionTable.length,
        baseAddress := 0 } l.sectionTable hne
    rw [(hperm.map SectionTableRecord.name).nodup_iff, List.map_cons, List.nodup_cons]
    refine ⟨?_, h⟩
    intro hmem
    obtain ⟨y, hy, hname⟩ := List.mem_map.1 hmem
    exact (mapFind_eq_none SectionTableRecord.name sec.name l.sectionTable).1 hfind y hy hname

theorem names_nodup_readObjectFile (l : Linker) (filePath : String) (o : ObjectFile)
    (h : (l.sectionTable.map SectionTableRecord.name).Nodup) :
    ((readObjectFile l filePath o).sectionTable.map SectionTableRecord.name).Nodup := by
  have hsections : ∀ (secs : List SectionTableRecord) (l : Linker),
      (l.sectionTable.map SectionTableRecord.name).Nodup →
      ((secs.foldl (fun l sec => addOutputSection l sec filePath) l).sectionTable.map
        SectionTableRecord.name).Nodup := by
    intro secs
    induction secs with
    | nil => exact fun l h => h
    | cons s rest ih => exact fun l h => ih _ (names_nodup_addOutputSection l s filePath h)
  unfold readObjectFile
  obtain ⟨r1, _, _, _⟩ := foldl_addOutputRelocation filePath o.relocations
    (o.symbols.foldl (fun l symbol => (addOutputSymbol l { symbol with file := filePath }).1)
      (o.sections.foldl (fun l sec => addOutputSection l sec filePath) l))
  obtain ⟨s1, _, _⟩ := foldl_addOutputSymbol_sectionTable filePath o.symbols
    (o.sections.foldl (fun l sec => addOutputSection l sec filePath) l)
  simp only
  rw [r1, s1]
  exact hsections o.sections l h

theorem names_nodup_fillFrom (fs : String → Option ObjectFile) (paths : List String) :
    ∀ l : Linker, (l.sectionTable.map SectionTableRecord.name).Nodup →
      ((fillFrom fs l paths).1.sectionTable.map SectionTableRecord.name).Nodup
        ∧ (fillFrom fs l paths).1.inputFilesPaths = l.inputFilesPaths := by
  induction paths with
  | nil => exact fun l h => ⟨h, rfl⟩
  | cons p ps ih =>
    intro l h
    cases ho : fs p with
    | none =>
      have : fillFrom fs l (p :: ps)
          = ({ l with linkingErrors := l.linkingErrors ++ [p ++ " opening failed."] }, false) := by
        show (match fs p with
          | none => _
          | some o => fillFrom fs (readObjectFile l p o) ps) = _
        rw [ho]
      rw [this]
      exact ⟨h, rfl⟩
    | some o =>
      rw [fillFrom_cons fs l p ps o ho]
      obtain ⟨h1, h2⟩ := ih _ (names_nodup_readObjectFile l p o h)
      refine ⟨h1, h2.trans ?_⟩
      unfold readObjectFile
      obtain ⟨_, _, r3, _⟩ := foldl_addOutputRelocation p o.relocations
        (o.symbols.foldl (fun l symbol => (addOutputSymbol l { symbol with file := p }).1)
          (o.sections.foldl (fun l sec => addOutputSection l sec p) l))
      obtain ⟨_, _, s3⟩ := foldl_addOutputSymbol_sectionTable p o.symbols
        (o.sections.foldl (fun l sec => addOutputSection l sec p) l)
      have hsections : ∀ (secs : List SectionTableRecord) (l : Linker),
          (secs.foldl (fun l sec => addOutputSection l sec p) l).inputFilesPaths
            = l.inputFilesPaths := by
        intro secs
        induction secs with
        | nil => exact fun l => rfl
        | cons s rest ih =>
          exact fun l => (ih _).trans (addOutputSection_inputFilesPaths l s p)
      simp only
      rw [r3, s3]
      exact hsections o.sections l

theorem rehomeSymbol_congr (l l1 : Linker) (hT : l1.sectionTable = l.sectionTable)
    (hD : l1.InputSectionsData = l.InputSectionsData) (symbol : SymbolTableRecord) :
    rehomeSymbol l1 symbol = rehomeSymbol l symbol := by
  unfold rehomeSymbol sectionBase inputSectionBase findInputSectionData
  rw [hT, hD]

end Linker

namespace Linker

theorem intake_aggregates (fs : String → Option ObjectFile) (paths : List String)
    (out name : String)
    (hopen : ∀ p ∈ paths, (fs p).isSome = true)
    (hfiles : ((contributions (inputSections fs paths) name).map Prod.snd).Nodup)
    (hlength : ∀ e ∈ contributions (inputSections fs paths) name,
      e.1.length = e.1.sectionData.length)
    (hsize : totalLength (contributions (inputSections fs paths) name) < 4294967296) :
    sectionAggregates (fillOutputTablesFromInputFiles fs (new paths out)).1
        (inputSections fs paths) name
      ∧ basesRecorded (fillOutputTablesFromInputFiles fs (new paths out)).1
        (inputSections fs paths) name := by
  have hagg := aggregates_fillFrom fs name paths [] (new paths out)
    ⟨by unfold sectionAggregates; rfl,
      by intro file; unfold findInputSectionData; simp [new, contributions]⟩
    hopen (by simpa using hfiles) (by simpa using hlength) (by simpa using hsize)
  rw [List.nil_append] at hagg
  exact hagg

theorem recorded_base (l : Linker) (E : List (SectionTableRecord × String)) (name : String)
    (hfiles : ((contributions E name).map Prod.snd).Nodup)
    (hD : basesRecorded l E name) (hundef : name ≠ "UNDEF")
    (e : SectionTableRecord × String) (he : e ∈ contributions E name) :
    findInputSectionData l name e.2
      = some ⟨e.1.length, name, e.2, totalLength (contributionsBefore E name e.2)⟩ := by
  rw [hD e.2, if_neg hundef]
  cases hfound : (contributions E name).find? (fun c => decide (c.2 = e.2)) with
  | none =>
    rw [List.find?_eq_none] at hfound
    have := hfound e he
    simp at this
  | some c =>
    have hc : c ∈ contributions E name := List.mem_of_find?_eq_some hfound
    have hc2 : c.2 = e.2 := by simpa using List.find?_some hfound
    have hce : c = e := List.inj_on_of_nodup_map hfiles hc he hc2
    rw [hce]
    rfl

end Linker

/-! ## Linker: placement by id, re-homing of symbols, aggregation of sections -/

namespace Linker

/-- C12.  When the section table holds one entry for each name, with pairwise
distinct ids and lengths that sum up below 2^32, and
`Linker::setSectionsBaseAddress` returns true: the map `sectionTableOrderedByID`
lists every section once, by ascending id; the lengths are as before; the user
sections, taken in that order, lie one after the other from address 0 (the
first has base 0, each next one the base plus the length of the one before),
so that their address ranges do not overlap; and the entries of `UNDEF` and
`ABS` are as before. -/
theorem setSectionsBaseAddress_places_in_id_order (l l2 : Linker)
    (hnames : (l.sectionTable.map SectionTableRecord.name).Nodup)
    (hids : (l.sectionTable.map (fun s => toInt (s.id : Int))).Nodup)
    (hsize : (l.sectionTable.map SectionTableRecord.length).sum < 4294967296)
    (hplace : setSectionsBaseAddress l = (l2, true)) :
    (sectionNamesOrderedByID l).Perm
        (l.sectionTable.map (fun s => (toInt (s.id : Int), s.name)))
      ∧ (sectionNamesOrderedByID l).Pairwise (fun a b => a.1 < b.1)
      ∧ (∀ name, sectionLength l2 name = sectionLength l name)
      ∧ placedFrom l2 0 (userSectionNames l)
      ∧ (userSectionNames l).Pairwise
          (fun n m => sectionBase l2 n + sectionLength l2 n ≤ sectionBase l2 m)
      ∧ (∀ name, name = "UNDEF" ∨ name = "ABS" →
          mapFind SectionTableRecord.name name l2.sectionTable
            = mapFind SectionTableRecord.name name l.sectionTable) := by
  obtain ⟨lp, hlp, htable, _, _⟩ := setSectionsBaseAddress_placed l l2 hplace
  obtain ⟨hnodup, hpresent, hsum, _⟩ := sectionNamesOrderedByID_facts l hnames hids
  obtain ⟨_, _, hlen, hkeep⟩ := placeSections_tables _ _ _ _ hlp
  have hplaced : placedFrom l2 0 (userSectionNames l) :=
    placedFrom_congr lp l2 htable _ 0
      (placeSections_placedFrom _ l 0 lp hlp hnodup hpresent (by rw [hsum]; omega))
  refine ⟨sectionNamesOrderedByID_perm l hids, ?_, ?_, hplaced,
    (placedFrom_pairwise l2 _ 0 hplaced).2, ?_⟩
  · exact foldl_mapInsert_pairwise Prod.fst _ l.sectionTable [] List.Pairwise.nil
  · intro name
    have : sectionLength l2 name = sectionLength lp name := by
      unfold sectionLength
      rw [htable]
    rw [this, hlen]
  · intro name hname
    rw [htable]
    exact hkeep name (Or.inr hname)

/-- C12, witness: `a.o` with `text` (3 bytes) and `data` (3 bytes), `b.o` with
`data` (2 bytes) and `text` (1 byte): `text` is placed at 0 and `data` at 4. -/
theorem setSectionsBaseAddress_places_in_id_order_witness :
    (afterTextDataIntake.sectionTable.map SectionTableRecord.name).Nodup
      ∧ (afterTextDataIntake.sectionTable.map (fun s => toInt (s.id : Int))).Nodup
      ∧ (afterTextDataIntake.sectionTable.map SectionTableRecord.length).sum < 4294967296
      ∧ userSectionNames afterTextDataIntake = ["text", "data"]
      ∧ placedFrom (setSectionsBaseAddress afterTextDataIntake).1 0
          (userSectionNames afterTextDataIntake)
      ∧ sectionBase (setSectionsBaseAddress afterTextDataIntake).1 "data" = 4 :=
  ⟨by decide, by decide, by decide, by decide,
    (setSectionsBaseAddress_places_in_id_order afterTextDataIntake
      (setSectionsBaseAddress afterTextDataIntake).1 (by decide) (by decide) (by decide)
      (by decide)).2.2.2.1,
    by decide⟩

/-- C13 (the code diverges).  The command line lists `a.o` twice; `x` is defined in
`a.o` at offset 1 of `data`, no contribution to `data` precedes that of `a.o`,
and `data` is placed at 6: `setSectionsBaseAddress` returns true and leaves `x`
at 13, not at 6 + 0 + 1, because the base of `data` is added to the record of
`a.o` once for each time the path is listed. -/
theorem setSectionsBaseAddress_duplicate_path_shifts_twice :
    (mapFind SymbolTableRecord.name "x"
        (fillOutputTablesFromInputFiles textDataFiles
          (new ["a.o", "a.o"] "out.hex")).1.symbolTable).map
          (fun s => (s.sectionName, s.file, s.offset)) = some ("data", "a.o", 1)
      ∧ totalLength (contributionsBefore (inputSections textDataFiles ["a.o", "a.o"])
          "data" "a.o") = 0
      ∧ (setSectionsBaseAddress (fillOutputTablesFromInputFiles textDataFiles
          (new ["a.o", "a.o"] "out.hex")).1).2 = true
      ∧ sectionBase (setSectionsBaseAddress (fillOutputTablesFromInputFiles textDataFiles
          (new ["a.o", "a.o"] "out.hex")).1).1 "data" = 6
      ∧ (mapFind SymbolTableRecord.name "x"
          (setSectionsBaseAddress (fillOutputTablesFromInputFiles textDataFiles
            (new ["a.o", "a.o"] "out.hex")).1).1.symbolTable).map (fun s => s.offset)
          = some 13 := by
  decide

/-- Re-homing when every path is listed once.
For input files that open, are listed once each, have at
most one section of a name each, with `length` equal to the number of bytes
and a total below 2^32, and that leave the section table with pairwise distinct
ids: when `setSectionsBaseAddress` returns true, every symbol of the table is
re-homed by `rehomeSymbol`; the symbol of a section gets the base address of
the section; a symbol in `ABS` is left as it is; and a symbol that is not a
section symbol, defined by file `f` at offset `o` of the user section `s`, gets
`o` plus the base address of `s` plus the sum of the lengths of the
contributions to `s` of the files before `f` (the values being below 2^31). -/
theorem setSectionsBaseAddress_rehomes (fs : String → Option ObjectFile) (paths : List String)
    (out : String) (l2 : Linker)
    (hopen : ∀ p ∈ paths, (fs p).isSome = true)
    (hpaths : paths.Nodup)
    (hfiles : ((inputSections fs paths).map (fun e => (e.1.name, e.2))).Nodup)
    (hlength : ∀ e ∈ inputSections fs paths, e.1.length = e.1.sectionData.length)
    (hsize : totalLength (inputSections fs paths) < 4294967296)
    (hids : ((fillOutputTablesFromInputFiles fs (new paths out)).1.sectionTable.map
      (fun s => toInt (s.id : Int))).Nodup)
    (hplace : setSectionsBaseAddress (fillOutputTablesFromInputFiles fs (new paths out)).1
      = (l2, true)) :
    l2.symbolTable
        = (fillOutputTablesFromInputFiles fs (new paths out)).1.symbolTable.map (rehomeSymbol l2)
      ∧ ∀ symbol ∈ (fillOutputTablesFromInputFiles fs (new paths out)).1.symbolTable,
        (symbol.name = symbol.sectionName → sectionBase l2 symbol.name < 2147483648 →
            (rehomeSymbol l2 symbol).offset = sectionBase l2 symbol.name)
          ∧ (symbol.name ≠ symbol.sectionName → symbol.sectionName = "ABS" →
            rehomeSymbol l2 symbol = symbol)
          ∧ (symbol.name ≠ symbol.sectionName → symbol.sectionName ≠ "ABS" →
            symbol.sectionName ≠ "UNDEF" →
            (∃ e ∈ contributions (inputSections fs paths) symbol.sectionName, e.2 = symbol.file) →
            0 ≤ symbol.offset →
            symbol.offset + sectionBase l2 symbol.sectionName
              + totalLength (contributionsBefore (inputSections fs paths) symbol.sectionName
                  symbol.file) < 2147483648 →
            (rehomeSymbol l2 symbol).offset
              = symbol.offset + sectionBase l2 symbol.sectionName
                + totalLength (contributionsBefore (inputSections fs paths) symbol.sectionName
                    symbol.file)) := by
  obtain ⟨lp, hlp, htable, hdata, hsymbols⟩ := setSectionsBaseAddress_placed _ l2 hplace
  have hfill : fillOutputTablesFromInputFiles fs (new paths out)
      = fillFrom fs (new paths out) paths := rfl
  obtain ⟨hnames, hpathsEq⟩ := names_nodup_fillFrom fs paths (new paths out) List.nodup_nil
  rw [← hfill] at hnames hpathsEq
  obtain ⟨hnodup, hpresent, _, hall⟩ := sectionNamesOrderedByID_facts _ hnames hids
  obtain ⟨_, hsym, _, _⟩ := placeSections_tables _ _ _ _ hlp
  have hcongr : rehomeSymbol lp = rehomeSymbol l2 :=
    funext (fun s => (rehomeSymbol_congr lp l2 htable hdata s).symm)
  constructor
  · rw [hsymbols, hsym, hcongr]
  · intro symbol _
    refine ⟨?_, ?_, ?_⟩
    · intro hname hbound
      unfold rehomeSymbol
      rw [if_pos hname]
      show toInt ((sectionBase l2 symbol.name : Nat) : Int) = _
      unfold toInt
      omega
    · intro hname habs
      unfold rehomeSymbol
      rw [if_neg hname, if_neg (not_not.2 habs)]
    · intro hname habs hundef hcontrib hpos hbound
      obtain ⟨e, he, hefile⟩ := hcontrib
      have hfilesN := contributions_files_nodup _ hfiles symbol.sectionName
      have hagg := intake_aggregates fs paths out symbol.sectionName hopen hfilesN
        (fun c hc => hlength c (List.mem_filter.1 hc).1)
        (Nat.lt_of_le_of_lt (totalLength_contributions_le _ _) hsize)
      have hrec := recorded_base _ _ symbol.sectionName hfilesN hagg.2 hundef e he
      rw [hefile] at hrec
      -- the section is placed, and the file is one of the input paths
      have hfileMem : symbol.file ∈ paths := by
        rw [← hefile]
        exact (hasSection_of_contribution fs paths symbol.sectionName e he).1
      have hitem : symbol.sectionName ∈ (sectionNamesOrderedByID
          (fillOutputTablesFromInputFiles fs (new paths out)).1).map Prod.snd := by
        have hT := hagg.1
        unfold sectionAggregates at hT
        cases hfind : mapFind SectionTableRecord.name symbol.sectionName
            (fillOutputTablesFromInputFiles fs (new paths out)).1.sectionTable with
        | none =>
          rw [hfind] at hT
          rw [hT] at he
          exact absurd he (List.not_mem_nil _)
        | some r =>
          obtain ⟨hr, hrname⟩ := mapFind_some_mem _ _ _ _ hfind
          rw [← hrname]
          exact hall r hr
      have hbases := placeSections_bases _ _ _ _ hlp (by rw [hpathsEq]; exact hpaths) hnodup
        hpresent symbol.sectionName symbol.file
      rw [if_pos ⟨⟨hitem, by simp [hundef, habs]⟩, by rw [hpathsEq]; exact hfileMem⟩, hrec]
        at hbases
      have hb2 : inputSectionBase l2 symbol.sectionName symbol.file
          = (totalLength (contributionsBefore (inputSections fs paths) symbol.sectionName
              symbol.file) + sectionBase l2 symbol.sectionName) % 4294967296 := by
        unfold inputSectionBase findInputSectionData
        rw [hdata]
        unfold findInputSectionData at hbases
        rw [hbases]
        have : sectionBase lp symbol.sectionName = sectionBase l2 symbol.sectionName := by
          unfold sectionBase
          rw [htable]
        rw [← this]
        rfl
      unfold rehomeSymbol
      rw [if_neg hname, if_pos habs]
      show toInt (symbol.offset + ((inputSectionBase l2 symbol.sectionName symbol.file : Nat) : Int))
        = _
      rw [hb2]
      unfold toInt
      omega

/-- An instance of the re-homing:
`x` is defined in `a.o` at offset 1 of `data`, `y` in `b.o` at
offset 0 of `data`; `data` is placed at 4 and `a.o` contributes 3 bytes to it,
so `x` ends at 5 and `y` at 7. -/
theorem setSectionsBaseAddress_rehomes_witness :
    (["a.o", "b.o"] : List String).Nodup
      ∧ ((inputSections textDataFiles ["a.o", "b.o"]).map (fun e => (e.1.name, e.2))).Nodup
      ∧ totalLength (inputSections textDataFiles ["a.o", "b.o"]) < 4294967296
      ∧ (rehomeSymbol (setSectionsBaseAddress afterTextDataIntake).1
          ⟨4, 1, true, true, false, "data", "x", "a.o"⟩).offset = 5
      ∧ (rehomeSymbol (setSectionsBaseAddress afterTextDataIntake).1
          ⟨5, 0, true, true, false, "data", "y", "b.o"⟩).offset = 7 :=
  ⟨by decide, by decide, by decide,
    (((setSectionsBaseAddress_rehomes textDataFiles ["a.o", "b.o"] "out.hex"
      (setSectionsBaseAddress afterTextDataIntake).1 (by decide) (by decide) (by decide)
      (by decide) (by decide) (by decide) (by decide)).2
        ⟨4, 1, true, true, false, "data", "x", "a.o"⟩ (by decide)).2.2
        (by decide) (by decide) (by decide) ⟨(⟨3, 3, "data", [0, 0, 0], 0⟩, "a.o"), by decide, rfl⟩
        (by decide) (by decide)).trans (by decide),
    (((setSectionsBaseAddress_rehomes textDataFiles ["a.o", "b.o"] "out.hex"
      (setSectionsBaseAddress afterTextDataIntake).1 (by decide) (by decide) (by decide)
      (by decide) (by decide) (by decide) (by decide)).2
        ⟨5, 0, true, true, false, "data", "y", "b.o"⟩ (by decide)).2.2
        (by decide) (by decide) (by decide) ⟨(⟨2, 2, "data", [0, 0], 0⟩, "b.o"), by decide, rfl⟩
        (by decide) (by decide)).trans (by decide)⟩

/-- C14 (the code diverges).  File `a.o` defines the global label `data` in
`text`, and file `b.o` has the section `data`: after the intake the section
`data` is in the section table with id 3, but the symbol `data` is the label of
`a.o`, global and in section `text`, because `symbolTable.insert` leaves an
entry of the same name as it is. -/
theorem addOutputSection_keeps_earlier_symbol :
    (mapFind SectionTableRecord.name "data"
        (fillOutputTablesFromInputFiles labelThenSectionFiles
          (new ["a.o", "b.o"] "out.hex")).1.sectionTable).map (fun s => (s.id, s.length))
        = some (3, 2)
      ∧ mapFind SymbolTableRecord.name "data"
          (fillOutputTablesFromInputFiles labelThenSectionFiles
            (new ["a.o", "b.o"] "out.hex")).1.symbolTable
        = some ⟨3, 0, true, false, false, "text", "data", "a.o"⟩ := by
  decide

/-- Aggregation of the sections over the input files.
For input files that open, each with at most one
contribution to the section `name`, of `length` equal to its number of bytes,
the lengths summing up below 2^32, the first sections met being `UNDEF` and
`ABS`, and no file read before the first one with a section `name` having a
non-extern symbol of that name: after `fillOutputTablesFromInputFiles` the entry
of `name` holds the bytes of the contributions in input order and the sum of
their lengths; the record of each contribution (for a name other than `UNDEF`)
holds the sum of the lengths of the contributions before it; a user section
has as id the number of distinct section names met before it, at least 2; and
the symbol `name` is the section symbol: local, defined, not extern, at offset
0 of the section. -/
theorem fillOutputTables_aggregates (fs : String → Option ObjectFile) (paths : List String)
    (out name : String)
    (hopen : ∀ p ∈ paths, (fs p).isSome = true)
    (hfiles : ((contributions (inputSections fs paths) name).map Prod.snd).Nodup)
    (hlength : ∀ e ∈ contributions (inputSections fs paths) name,
      e.1.length = e.1.sectionData.length)
    (hsize : totalLength (contributions (inputSections fs paths) name) < 4294967296)
    (hreserved : ((inputSections fs paths).map (fun e => e.1.name)).take 2 = ["UNDEF", "ABS"])
    (hsymbol : name ∉ symbolNamesBefore fs paths name)
    (hseen : contributions (inputSections fs paths) name ≠ []) :
    ∃ sec, mapFind SectionTableRecord.name name
          (fillOutputTablesFromInputFiles fs (new paths out)).1.sectionTable = some sec
      ∧ sec.sectionData = joinedData (contributions (inputSections fs paths) name)
      ∧ sec.length = totalLength (contributions (inputSections fs paths) name)
      ∧ (name ≠ "UNDEF" → ∀ e ∈ contributions (inputSections fs paths) name,
          findInputSectionData (fillOutputTablesFromInputFiles fs (new paths out)).1 name e.2
            = some ⟨e.1.length, name, e.2,
                totalLength (contributionsBefore (inputSections fs paths) name e.2)⟩)
      ∧ (name ≠ "UNDEF" → name ≠ "ABS" →
          sec.id = firstEncounterIndex (inputSections fs paths) name ∧ 2 ≤ sec.id)
      ∧ ∃ symbol, mapFind SymbolTableRecord.name name
            (fillOutputTablesFromInputFiles fs (new paths out)).1.symbolTable = some symbol
          ∧ symbol.isDefined = true ∧ symbol.isLocal = true ∧ symbol.isExtern = false
          ∧ symbol.name = name ∧ symbol.sectionName = name ∧ symbol.offset = 0 := by
  obtain ⟨hT, hD⟩ := intake_aggregates fs paths out name hopen hfiles hlength hsize
  have hfill : fillOutputTablesFromInputFiles fs (new paths out)
      = fillFrom fs (new paths out) paths := rfl
  have hids := (sectionIdsAssigned_fillFrom fs paths [] (new paths out)
    ⟨rfl, fun n => ⟨by simp [new, mapFind], fun r hr => by simp [new, mapFind] at hr⟩⟩ hopen).1
  rw [List.nil_append, ← hfill] at hids
  obtain ⟨e0, he0⟩ := List.exists_mem_of_ne_nil _ hseen
  have hsym := sectionSymbolPresent_of_fillFrom fs name paths (new paths out) ⟨rfl, rfl⟩ hopen
    ⟨e0.2, hasSection_of_contribution fs paths name e0 he0⟩ hsymbol
  rw [← hfill] at hsym
  unfold sectionAggregates at hT
  cases hfind : mapFind SectionTableRecord.name name
      (fillOutputTablesFromInputFiles fs (new paths out)).1.sectionTable with
  | none =>
    rw [hfind] at hT
    exact absurd hT hseen
  | some sec =>
    rw [hfind] at hT
    obtain ⟨_, _, hlen, hdata, _⟩ := hT
    refine ⟨sec, rfl, hdata, hlen, ?_, ?_, hsym.2⟩
    · intro hundef e he
      exact recorded_base _ _ name hfiles hD hundef e he
    · intro h1 h2
      have hid := (hids.2 name).2 sec hfind
      rw [if_neg h1, if_neg h2] at hid
      rw [hid]
      exact ⟨rfl, firstEncounterIndex_ge_two _ name hreserved h1 h2⟩

/-- An instance of the aggregation: the section `data` of `a.o` (3 bytes) and `b.o` (2 bytes). -/
theorem fillOutputTables_aggregates_witness :
    ((contributions (inputSections textDataFiles ["a.o", "b.o"]) "data").map Prod.snd).Nodup
      ∧ "data" ∉ symbolNamesBefore textDataFiles ["a.o", "b.o"] "data"
      ∧ ∃ sec, mapFind SectionTableRecord.name "data" afterTextDataIntake.sectionTable = some sec
        ∧ sec.sectionData
          = joinedData (contributions (inputSections textDataFiles ["a.o", "b.o"]) "data")
        ∧ sec.length
          = totalLength (contributions (inputSections textDataFiles ["a.o", "b.o"]) "data")
        ∧ ("data" ≠ "UNDEF" →
          ∀ e ∈ contributions (inputSections textDataFiles ["a.o", "b.o"]) "data",
            findInputSectionData afterTextDataIntake "data" e.2
              = some ⟨e.1.length, "data", e.2,
                  totalLength (contributionsBefore (inputSections textDataFiles ["a.o", "b.o"])
                    "data" e.2)⟩)
        ∧ ("data" ≠ "UNDEF" → "data" ≠ "ABS" →
          sec.id = firstEncounterIndex (inputSections textDataFiles ["a.o", "b.o"]) "data"
            ∧ 2 ≤ sec.id)
        ∧ ∃ symbol, mapFind SymbolTableRecord.name "data" afterTextDataIntake.symbolTable
              = some symbol
            ∧ symbol.isDefined = true ∧ symbol.isLocal = true ∧ symbol.isExtern = false
            ∧ symbol.name = "data" ∧ symbol.sectionName = "data" ∧ symbol.offset = 0 :=
  ⟨by decide, by decide,
    fillOutputTables_aggregates textDataFiles ["a.o", "b.o"] "out.hex" "data" (by decide)
      (by decide) (by decide) (by decide) (by decide) (by decide) (by decide)⟩

end Linker

/-! ## Lemmas on the bits of machine integers -/

namespace Emulator

theorem bitAt_add_mul (z t : Int) (n k : Nat) (h : k < n) :
    bitAt (z + 2 ^ n * t) k = bitAt z k := by
  unfold bitAt
  have hn : (2 : Int) ^ n = 2 ^ k * (2 * 2 ^ (n - k - 1)) := by
    rw [← pow_succ', ← pow_add]
    congr 1
    omega
  have hpos : (0 : Int) < 2 ^ k := by positivity
  have h1 : (z + 2 ^ n * t) / 2 ^ k = z / 2 ^ k + 2 * (2 ^ (n - k - 1) * t) := by
    rw [hn, mul_assoc, Int.add_mul_ediv_left _ _ (ne_of_gt hpos)]
    ring
  rw [h1, Int.add_mul_emod_self_left]

theorem bitAt_toShort (z : Int) (k : Nat) (h : k < 16) : bitAt (toShort z) k = bitAt z k := by
  have : toShort z = z + 2 ^ 16 * (-((z + 32768) / 65536)) := by
    unfold toShort
    omega
  rw [this]
  exact bitAt_add_mul _ _ _ _ h

theorem bitAt_toInt (z : Int) (k : Nat) (h : k < 32) : bitAt (toInt z) k = bitAt z k := by
  have : toInt z = z + 2 ^ 32 * (-((z + 2147483648) / 4294967296)) := by
    unfold toInt
    omega
  rw [this]
  exact bitAt_add_mul _ _ _ _ h

theorem bitAt_natCast (n k : Nat) : bitAt (n : Int) k = n.testBit k := by
  unfold bitAt
  rw [Nat.testBit_to_div_mod]
  have : ((n : Int) / 2 ^ k % 2 = 1) ↔ (n / 2 ^ k % 2 = 1) := by
    have h : ((n / 2 ^ k % 2 : Nat) : Int) = (n : Int) / 2 ^ k % 2 := by
      push_cast
      rfl
    rw [← h]
    omega
  exact decide_eq_decide.2 this

theorem bitAt_toUnsigned (x : Int) (k : Nat) (h : k < 32) :
    (toUnsigned x).testBit k = bitAt x k := by
  rw [← bitAt_natCast]
  have hx : ((toUnsigned x : Nat) : Int) = x + 2 ^ 32 * (-(x / 4294967296)) := by
    unfold toUnsigned
    omega
  rw [hx]
  exact bitAt_add_mul _ _ _ _ h

theorem bitAt_bitOr (x y : Int) (k : Nat) (h : k < 32) :
    bitAt (bitOr x y) k = (bitAt x k || bitAt y k) := by
  unfold bitOr
  rw [bitAt_toInt _ _ h, bitAt_natCast, Nat.testBit_or, bitAt_toUnsigned _ _ h,
    bitAt_toUnsigned _ _ h]

theorem bitAt_bitAnd (x y : Int) (k : Nat) (h : k < 32) :
    bitAt (bitAnd x y) k = (bitAt x k && bitAt y k) := by
  unfold bitAnd
  rw [bitAt_toInt _ _ h, bitAt_natCast, Nat.testBit_and, bitAt_toUnsigned _ _ h,
    bitAt_toUnsigned _ _ h]

theorem toShort_range (z : Int) : -32768 ≤ toShort z ∧ toShort z < 32768 := by
  unfold toShort
  omega

/-- A `short` whose sixteen bits are clear is zero. -/
theorem eq_zero_of_bits (x : Int) (hx : -32768 ≤ x ∧ x < 32768)
    (h : ∀ k, k < 16 → Emulator.bitAt x k = false) : x = 0 := by
  have e : ∀ k, k < 16 → ¬ (x / 2 ^ k % 2 = 1) := fun k hk =>
    of_decide_eq_false (h k hk)
  have b15 : 0 ≤ x := by
    have t := e 15 (by decide)
    norm_num at t
    omega
  have b14 : x < 16384 := by
    have t := e 14 (by decide)
    norm_num at t
    omega
  have b13 : x < 8192 := by
    have t := e 13 (by decide)
    norm_num at t
    omega
  have b12 : x < 4096 := by
    have t := e 12 (by decide)
    norm_num at t
    omega
  have b11 : x < 2048 := by
    have t := e 11 (by decide)
    norm_num at t
    omega
  have b10 : x < 1024 := by
    have t := e 10 (by decide)
    norm_num at t
    omega
  have b9 : x < 512 := by
    have t := e 9 (by decide)
    norm_num at t
    omega
  have b8 : x < 256 := by
    have t := e 8 (by decide)
    norm_num at t
    omega
  have b7 : x < 128 := by
    have t := e 7 (by decide)
    norm_num at t
    omega
  have b6 : x < 64 := by
    have t := e 6 (by decide)
    norm_num at t
    omega
  have b5 : x < 32 := by
    have t := e 5 (by decide)
    norm_num at t
    omega
  have b4 : x < 16 := by
    have t := e 4 (by decide)
    norm_num at t
    omega
  have b3 : x < 8 := by
    have t := e 3 (by decide)
    norm_num at t
    omega
  have b2 : x < 4 := by
    have t := e 2 (by decide)
    norm_num at t
    omega
  have b1 : x < 2 := by
    have t := e 1 (by decide)
    norm_num at t
    omega
  have b0 : x < 1 := by
    have t := e 0 (by decide)
    norm_num at t
    omega
  omega

end Emulator

/-! ## Lemmas on the registers of the emulator -/

namespace Emulator

theorem reg_setReg (e : Emulator) (i j v : Int) (hlen : e.registers.length = NO_REGISTERS)
    (hi : 0 ≤ i ∧ i < 9) (hj : 0 ≤ j) :
    reg (setReg e i v) j = if j = i then toShort v else reg e j := by
  unfold reg setReg
  simp only [List.getD_eq_getElem?_getD, List.getElem?_set]
  have hlt : i.toNat < e.registers.length := by rw [hlen]; unfold NO_REGISTERS; omega
  by_cases h : j = i
  · subst h
    simp [hlt]
  · have hne : ¬ (i.toNat = j.toNat) := by omega
    simp [h, hne]

theorem length_setReg (e : Emulator) (i v : Int) :
    (setReg e i v).registers.length = e.registers.length := by
  simp [setReg]

theorem memory_setReg (e : Emulator) (i v : Int) : (setReg e i v).memory = e.memory := rfl

theorem cd_setReg (e : Emulator) (i v : Int) : (setReg e i v).cd = e.cd := rfl

theorem errors_setReg (e : Emulator) (i v : Int) :
    (setReg e i v).emulatingErrors = e.emulatingErrors := rfl

theorem reg_range (e : Emulator) (i : Int) (h : ∀ r ∈ e.registers, -32768 ≤ r ∧ r < 32768) :
    -32768 ≤ reg e i ∧ reg e i < 32768 := by
  unfold reg
  rw [List.getD_eq_getElem?_getD]
  cases hget : e.registers[i.toNat]? with
  | none => simp
  | some r => exact h r (List.getElem?_mem hget)

theorem getOperand_state (e : Emulator)
    (hmode : 0 ≤ e.cd.addressingMode ∧ e.cd.addressingMode ≤ regdir_disp) :
    (getOperand e).1 = e := by
  unfold getOperand
  have h := hmode
  unfold regdir_disp at h
  split_ifs with h0 h1 h2 h3 h4 h5
  · rfl
  · rfl
  · rfl
  · rfl
  · rfl
  · rfl
  · exfalso
    unfold immed at h0
    unfold regdir at h1
    unfold regind at h2
    unfold regind_disp at h3
    unfold memdir at h4
    unfold regdir_disp at h5
    omega

theorem zero_flag_condition (p : Int) :
    (toShort (bitAnd p FLAG_z) ≠ 0) ↔ bitAt p 0 = true := by
  constructor
  · intro h
    by_contra hb
    apply h
    apply eq_zero_of_bits _ (toShort_range _)
    intro k hk
    rw [bitAt_toShort _ _ hk, bitAt_bitAnd _ _ _ (by omega)]
    interval_cases k
    · simp [hb]
    all_goals (rw [Bool.and_eq_false_iff]; right; unfold FLAG_z; decide)
  · intro h hz
    have : bitAt (toShort (bitAnd p FLAG_z)) 0 = true := by
      rw [bitAt_toShort _ _ (by decide), bitAt_bitAnd _ _ _ (by decide), h]
      decide
    rw [hz] at this
    exact absurd this (by decide)

theorem greater_condition (p : Int) :
    (toShort (bitOr (toShort (bitOr (toShort (bitAnd p FLAG_z)) (bitAnd p FLAG_o)))
        (bitAnd p FLAG_n)) = 0)
      ↔ (bitAt p 0 = false ∧ bitAt p 1 = false ∧ bitAt p 3 = false) := by
  have bits : ∀ k, k < 16 →
      bitAt (toShort (bitOr (toShort (bitOr (toShort (bitAnd p FLAG_z)) (bitAnd p FLAG_o)))
        (bitAnd p FLAG_n))) k
      = ((bitAt p k && bitAt FLAG_z k) || (bitAt p k && bitAt FLAG_o k)
          || (bitAt p k && bitAt FLAG_n k)) := by
    intro k hk
    rw [bitAt_toShort _ _ hk, bitAt_bitOr _ _ _ (by omega), bitAt_toShort _ _ hk,
      bitAt_bitOr _ _ _ (by omega), bitAt_toShort _ _ hk, bitAt_bitAnd _ _ _ (by omega),
      bitAt_bitAnd _ _ _ (by omega), bitAt_bitAnd _ _ _ (by omega)]
  constructor
  · intro h
    have b0 := bits 0 (by decide)
    have b1 := bits 1 (by decide)
    have b3 := bits 3 (by decide)
    rw [h] at b0 b1 b3
    have c0 : bitAt FLAG_z 0 = true := by decide
    have c1 : bitAt FLAG_o 1 = true := by decide
    have c3 : bitAt FLAG_n 3 = true := by decide
    have z : ∀ k, bitAt 0 k = false := by
      intro k
      simp [bitAt]
    rw [z] at b0 b1 b3
    refine ⟨?_, ?_, ?_⟩
    · cases hb : bitAt p 0
      · rfl
      · rw [hb, c0] at b0; simp at b0
    · cases hb : bitAt p 1
      · rfl
      · rw [hb, c1] at b1; simp at b1
    · cases hb : bitAt p 3
      · rfl
      · rw [hb, c3] at b3; simp at b3
  · rintro ⟨h0, h1, h3⟩
    apply eq_zero_of_bits _ (toShort_range _)
    intro k hk
    rw [bits k hk]
    interval_cases k
    · rw [h0]; decide
    · rw [h1]; decide
    · have : bitAt FLAG_z 2 = false ∧ bitAt FLAG_o 2 = false ∧ bitAt FLAG_n 2 = false := by
        decide
      simp [this.1, this.2.1, this.2.2]
    · rw [h3]; decide
    all_goals
      (simp only [Bool.or_eq_false_iff, Bool.and_eq_false_iff]
       exact ⟨⟨Or.inr (by decide), Or.inr (by decide)⟩, Or.inr (by decide)⟩)

end Emulator

namespace Emulator

theorem commandExecute_jump_eq (e : Emulator) (running : Bool)
    (hm : e.cd.mnemonic = MNEMONIC_jmp ∨ e.cd.mnemonic = MNEMONIC_jeq
      ∨ e.cd.mnemonic = MNEMONIC_jne ∨ e.cd.mnemonic = MNEMONIC_jgt) :
    commandExecute e running =
      if evaluateJumpCondition e then
        if (setReg (getOperand e).1 pc (getOperand e).2).emulatingErrors.length ≠ 0 then
          ⟨setReg (getOperand e).1 pc (getOperand e).2, running, false⟩
        else ⟨setReg (getOperand e).1 pc (getOperand e).2, running, true⟩
      else ⟨e, running, true⟩ := by
  unfold commandExecute
  have h1 : e.cd.mnemonic ≠ MNEMONIC_halt := by
    rcases hm with h | h | h | h <;> rw [h] <;> decide
  have h2 : e.cd.mnemonic ≠ MNEMONIC_int := by
    rcases hm with h | h | h | h <;> rw [h] <;> decide
  have h3 : e.cd.mnemonic ≠ MNEMONIC_iret := by
    rcases hm with h | h | h | h <;> rw [h] <;> decide
  have h4 : e.cd.mnemonic ≠ MNEMONIC_call := by
    rcases hm with h | h | h | h <;> rw [h] <;> decide
  have h5 : e.cd.mnemonic ≠ MNEMONIC_ret := by
    rcases hm with h | h | h | h <;> rw [h] <;> decide
  simp only [h1, h2, h3, h4, h5, if_false, hm, if_true]


/-- C26.  Execution of a decoded jump command (`jmp`, `jeq`, `jne`, `jgt`, the
addressing mode being one of the six the decoder lets through, no error
pending): the jump is taken always for `jmp`, for `jeq` exactly when bit 0 (Z)
of `psw` is set, for `jne` exactly when it is clear, for `jgt` exactly when
bits 0 (Z), 1 (O) and 3 (N) are all clear; a taken jump stores the operand in
`pc` and changes nothing else, and a jump not taken returns the state as it
is, `pc` at the next command. -/
theorem commandExecute_jump (e : Emulator) (running : Bool)
    (hm : e.cd.mnemonic = MNEMONIC_jmp ∨ e.cd.mnemonic = MNEMONIC_jeq
      ∨ e.cd.mnemonic = MNEMONIC_jne ∨ e.cd.mnemonic = MNEMONIC_jgt)
    (hmode : 0 ≤ e.cd.addressingMode ∧ e.cd.addressingMode ≤ regdir_disp)
    (herr : e.emulatingErrors = []) (hlen : e.registers.length = NO_REGISTERS) :
    (evaluateJumpCondition e = true ↔
      (e.cd.mnemonic = MNEMONIC_jmp
        ∨ (e.cd.mnemonic = MNEMONIC_jeq ∧ bitAt (reg e psw) 0 = true)
        ∨ (e.cd.mnemonic = MNEMONIC_jne ∧ bitAt (reg e psw) 0 = false)
        ∨ (e.cd.mnemonic = MNEMONIC_jgt ∧ bitAt (reg e psw) 0 = false
            ∧ bitAt (reg e psw) 1 = false ∧ bitAt (reg e psw) 3 = false)))
    ∧ (evaluateJumpCondition e = true →
        commandExecute e running = ⟨setReg e pc (getOperand e).2, running, true⟩
        ∧ reg (commandExecute e running).emulator pc = toShort (getOperand e).2
        ∧ (∀ j, 0 ≤ j → j ≠ pc → reg (commandExecute e running).emulator j = reg e j)
        ∧ (commandExecute e running).emulator.memory = e.memory)
    ∧ (evaluateJumpCondition e = false → commandExecute e running = ⟨e, running, true⟩) := by
  refine ⟨?_, ?_, ?_⟩
  · unfold evaluateJumpCondition
    rcases hm with h | h | h | h
    · rw [h]
      simp only [show MNEMONIC_jmp ≠ MNEMONIC_jeq by decide, show MNEMONIC_jmp ≠ MNEMONIC_jne
        by decide, show MNEMONIC_jmp ≠ MNEMONIC_jgt by decide, if_false, true_or]
    · rw [h]
      simp only [if_true, decide_eq_true_eq, zero_flag_condition,
        show MNEMONIC_jeq ≠ MNEMONIC_jmp by decide, show MNEMONIC_jeq ≠ MNEMONIC_jne by decide,
        show MNEMONIC_jeq ≠ MNEMONIC_jgt by decide, false_and, false_or, or_false, true_and]
    · rw [h]
      have hz := zero_flag_condition (reg e psw)
      simp only [show MNEMONIC_jne ≠ MNEMONIC_jeq by decide, if_false, if_true,
        decide_eq_true_eq, show MNEMONIC_jne ≠ MNEMONIC_jmp by decide,
        show MNEMONIC_jne ≠ MNEMONIC_jgt by decide, false_and, false_or, or_false, true_and]
      constructor
      · intro h0
        cases hb : bitAt (reg e psw) 0
        · rfl
        · exact absurd h0 (hz.2 hb)
      · intro hb
        by_contra h0
        rw [hz.1 h0] at hb
        exact Bool.noConfusion hb
    · rw [h]
      simp only [show MNEMONIC_jgt ≠ MNEMONIC_jeq by decide, show MNEMONIC_jgt ≠ MNEMONIC_jne
        by decide, if_false, if_true, decide_eq_true_eq, greater_condition,
        show MNEMONIC_jgt ≠ MNEMONIC_jmp by decide, false_and, false_or, true_and]
  · intro hc
    have heq : commandExecute e running = ⟨setReg e pc (getOperand e).2, running, true⟩ := by
      rw [commandExecute_jump_eq e running hm, hc, getOperand_state e hmode]
      simp [errors_setReg, herr]
    rw [heq]
    refine ⟨rfl, ?_, ?_, rfl⟩
    · show reg (setReg e pc (getOperand e).2) pc = _
      rw [reg_setReg e pc pc _ hlen (by decide) (by decide), if_pos rfl]
    · intro j hj hne
      show reg (setReg e pc (getOperand e).2) j = _
      rw [reg_setReg e pc j _ hlen (by decide) hj, if_neg hne]
  · intro hc
    rw [commandExecute_jump_eq e running hm, hc]
    rfl

end Emulator

namespace Emulator

theorem commandExecute_div_eq (e : Emulator) (running : Bool)
    (hm : e.cd.mnemonic = MNEMONIC_div) :
    commandExecute e running =
      if reg e e.cd.rSrc = 0 then
        ⟨pushError e "Division with zero is undefined.", running, false⟩
      else ⟨setReg e e.cd.rDst (Int.tdiv (reg e e.cd.rDst) (reg e e.cd.rSrc)), running, true⟩ := by
  unfold commandExecute
  rw [hm]
  simp only [show MNEMONIC_div ≠ MNEMONIC_halt by decide, show MNEMONIC_div ≠ MNEMONIC_int by decide,
    show MNEMONIC_div ≠ MNEMONIC_iret by decide, show MNEMONIC_div ≠ MNEMONIC_call by decide,
    show MNEMONIC_div ≠ MNEMONIC_ret by decide, show MNEMONIC_div ≠ MNEMONIC_jmp by decide,
    show MNEMONIC_div ≠ MNEMONIC_jeq by decide, show MNEMONIC_div ≠ MNEMONIC_jne by decide,
    show MNEMONIC_div ≠ MNEMONIC_jgt by decide, show MNEMONIC_div ≠ MNEMONIC_xchg by decide,
    show MNEMONIC_div ≠ MNEMONIC_add by decide, show MNEMONIC_div ≠ MNEMONIC_sub by decide,
    show MNEMONIC_div ≠ MNEMONIC_mul by decide, if_false, or_self, if_true]

/-- C28.  Execution of a decoded `div rDst,rSrc`: the call fails exactly when
`reg[rSrc] = 0`, and then the state is the one before with the message
"Division with zero is undefined." appended to the errors, so that no
register and no memory byte has changed; otherwise the call succeeds,
`reg[rDst]` holds the quotient truncated toward zero and converted to
`short`, every other register (`psw` among them when it is not `rDst`) and
the memory are as before. -/
theorem commandExecute_div (e : Emulator) (running : Bool)
    (hm : e.cd.mnemonic = MNEMONIC_div) (hlen : e.registers.length = NO_REGISTERS)
    (hD : 0 ≤ e.cd.rDst ∧ e.cd.rDst ≤ 8) :
    ((commandExecute e running).ok = false ↔ reg e e.cd.rSrc = 0)
    ∧ (reg e e.cd.rSrc = 0 →
        commandExecute e running
          = ⟨{ e with emulatingErrors := e.emulatingErrors ++ ["Division with zero is undefined."] },
              running, false⟩)
    ∧ (reg e e.cd.rSrc ≠ 0 →
        (commandExecute e running).ok = true
        ∧ reg (commandExecute e running).emulator e.cd.rDst
            = toShort (Int.tdiv (reg e e.cd.rDst) (reg e e.cd.rSrc))
        ∧ (∀ j, 0 ≤ j → j ≠ e.cd.rDst → reg (commandExecute e running).emulator j = reg e j)
        ∧ (e.cd.rDst ≠ psw → reg (commandExecute e running).emulator psw = reg e psw)
        ∧ (commandExecute e running).emulator.memory = e.memory
        ∧ (commandExecute e running).emulator.emulatingErrors = e.emulatingErrors) := by
  rw [commandExecute_div_eq e running hm]
  by_cases hz : reg e e.cd.rSrc = 0
  · rw [if_pos hz]
    exact ⟨⟨fun _ => hz, fun _ => rfl⟩, fun _ => rfl, fun h => absurd hz h⟩
  · rw [if_neg hz]
    refine ⟨⟨fun h => Bool.noConfusion h, fun h => absurd h hz⟩, fun h => absurd h hz,
      fun _ => ⟨rfl, ?_, ?_, ?_, rfl, rfl⟩⟩
    · show reg (setReg e e.cd.rDst _) e.cd.rDst = _
      rw [reg_setReg e _ _ _ hlen ⟨hD.1, by omega⟩ hD.1, if_pos rfl]
    · intro j hj hne
      show reg (setReg e e.cd.rDst _) j = _
      rw [reg_setReg e _ _ _ hlen ⟨hD.1, by omega⟩ hj, if_neg hne]
    · intro hne
      show reg (setReg e e.cd.rDst _) psw = _
      rw [reg_setReg e _ _ _ hlen ⟨hD.1, by omega⟩ (by decide), if_neg (Ne.symm hne)]

/-! ### Flags -/

theorem flag_step (e : Emulator) (m : Int) (c : Prop) [Decidable c]
    (hlen : e.registers.length = NO_REGISTERS) :
    (if c then setFlag e m else clearFlag e m).registers.length = NO_REGISTERS
    ∧ (if c then setFlag e m else clearFlag e m).memory = e.memory
    ∧ (if c then setFlag e m else clearFlag e m).cd = e.cd
    ∧ (if c then setFlag e m else clearFlag e m).emulatingErrors = e.emulatingErrors
    ∧ (∀ j, 0 ≤ j → j ≠ psw → reg (if c then setFlag e m else clearFlag e m) j = reg e j)
    ∧ (∀ k, k < 16 → bitAt (reg (if c then setFlag e m else clearFlag e m) psw) k
        = if c then (bitAt (reg e psw) k || bitAt m k)
          else (bitAt (reg e psw) k && bitAt (bitNot m) k)) := by
  by_cases hc : c
  · simp only [hc, if_true]
    refine ⟨by rw [setFlag, length_setReg, hlen], rfl, rfl, rfl, ?_, ?_⟩
    · intro j hj hne
      rw [setFlag, reg_setReg e _ _ _ hlen (by decide) hj, if_neg hne]
    · intro k hk
      rw [setFlag, reg_setReg e _ _ _ hlen (by decide) (by decide), if_pos rfl,
        bitAt_toShort _ _ hk, bitAt_bitOr _ _ _ (by omega)]
  · simp only [hc, if_false]
    refine ⟨by rw [clearFlag, length_setReg, hlen], rfl, rfl, rfl, ?_, ?_⟩
    · intro j hj hne
      rw [clearFlag, reg_setReg e _ _ _ hlen (by decide) hj, if_neg hne]
    · intro k hk
      change bitAt (reg (clearFlag e m) psw) k = (bitAt (reg e psw) k && bitAt (bitNot m) k)
      rw [clearFlag, reg_setReg e _ _ _ hlen (by decide) (by decide), if_pos rfl,
        bitAt_toShort _ _ hk, bitAt_bitAnd _ _ _ (by omega)]

theorem commandExecute_cmp_eq (e : Emulator) (running : Bool)
    (hm : e.cd.mnemonic = MNEMONIC_cmp) :
    commandExecute e running
      = ⟨updatePswFlags e (toShort (reg e e.cd.rDst - reg e e.cd.rSrc)), running, true⟩ := by
  unfold commandExecute
  rw [hm]
  simp only [show MNEMONIC_cmp ≠ MNEMONIC_halt by decide, show MNEMONIC_cmp ≠ MNEMONIC_int by decide,
    show MNEMONIC_cmp ≠ MNEMONIC_iret by decide, show MNEMONIC_cmp ≠ MNEMONIC_call by decide,
    show MNEMONIC_cmp ≠ MNEMONIC_ret by decide, show MNEMONIC_cmp ≠ MNEMONIC_jmp by decide,
    show MNEMONIC_cmp ≠ MNEMONIC_jeq by decide, show MNEMONIC_cmp ≠ MNEMONIC_jne by decide,
    show MNEMONIC_cmp ≠ MNEMONIC_jgt by decide, show MNEMONIC_cmp ≠ MNEMONIC_xchg by decide,
    show MNEMONIC_cmp ≠ MNEMONIC_add by decide, show MNEMONIC_cmp ≠ MNEMONIC_sub by decide,
    show MNEMONIC_cmp ≠ MNEMONIC_mul by decide, show MNEMONIC_cmp ≠ MNEMONIC_div by decide,
    if_false, or_self, if_true]

end Emulator

namespace Emulator

theorem updatePswFlags_cmp (e : Emulator) (result : Int) (hm : e.cd.mnemonic = MNEMONIC_cmp)
    (hlen : e.registers.length = NO_REGISTERS) :
    ∃ (c o : Prop) (_ : Decidable c) (_ : Decidable o),
      updatePswFlags e result =
        (if o then
          setFlag (if c then
              setFlag (if result < 0 then
                setFlag (if result = 0 then setFlag e FLAG_z else clearFlag e FLAG_z) FLAG_n
                else clearFlag (if result = 0 then setFlag e FLAG_z else clearFlag e FLAG_z) FLAG_n)
                FLAG_c
            else clearFlag (if result < 0 then
                setFlag (if result = 0 then setFlag e FLAG_z else clearFlag e FLAG_z) FLAG_n
                else clearFlag (if result = 0 then setFlag e FLAG_z else clearFlag e FLAG_z) FLAG_n)
                FLAG_c) FLAG_o
        else
          clearFlag (if c then
              setFlag (if result < 0 then
                setFlag (if result = 0 then setFlag e FLAG_z else clearFlag e FLAG_z) FLAG_n
                else clearFlag (if result = 0 then setFlag e FLAG_z else clearFlag e FLAG_z) FLAG_n)
                FLAG_c
            else clearFlag (if result < 0 then
                setFlag (if result = 0 then setFlag e FLAG_z else clearFlag e FLAG_z) FLAG_n
                else clearFlag (if result = 0 then setFlag e FLAG_z else clearFlag e FLAG_z) FLAG_n)
                FLAG_c) FLAG_o) := by
  have s1 := flag_step e FLAG_z (result = 0) hlen
  have s2 := flag_step _ FLAG_n (result < 0) s1.1
  have hcd : (if result < 0 then
      setFlag (if result = 0 then setFlag e FLAG_z else clearFlag e FLAG_z) FLAG_n
      else clearFlag (if result = 0 then setFlag e FLAG_z else clearFlag e FLAG_z) FLAG_n).cd.mnemonic
        = MNEMONIC_cmp := by
    rw [s2.2.2.1, s1.2.2.1, hm]
  unfold updatePswFlags
  simp only [hcd, if_true]
  exact ⟨_, _, inferInstance, inferInstance, rfl⟩

/-- C27.  Execution of a decoded `cmp rDst,rSrc` in a state whose registers
hold `short` values: the call succeeds, no register other than `psw` and no memory
byte changes, bit 0 (Z) of `psw` is set exactly when `reg[rDst] = reg[rSrc]`,
bit 3 (N) exactly when bit 15 of the difference `reg[rDst] - reg[rSrc]` is
set, and bits 4 to 15 of `psw` are as before; for `reg[rDst] = 3` and
`reg[rSrc] = 5` the flags become Z = 0, O = 0, C = 1, N = 1. -/
theorem commandExecute_cmp (e : Emulator) (running : Bool)
    (hm : e.cd.mnemonic = MNEMONIC_cmp) (hlen : e.registers.length = NO_REGISTERS)
    (hrange : ∀ r ∈ e.registers, -32768 ≤ r ∧ r < 32768) :
    (commandExecute e running).ok = true
    ∧ (commandExecute e running).running = running
    ∧ (commandExecute e running).emulator.memory = e.memory
    ∧ (∀ j, 0 ≤ j → j ≠ psw → reg (commandExecute e running).emulator j = reg e j)
    ∧ (bitAt (reg (commandExecute e running).emulator psw) 0 = true
        ↔ reg e e.cd.rDst = reg e e.cd.rSrc)
    ∧ (bitAt (reg (commandExecute e running).emulator psw) 3 = true
        ↔ bitAt (reg e e.cd.rDst - reg e e.cd.rSrc) 15 = true)
    ∧ (∀ k, 4 ≤ k → k < 16 →
        bitAt (reg (commandExecute e running).emulator psw) k = bitAt (reg e psw) k)
    ∧ (bitAt (reg (commandExecute (beforeCmp 3 5) true).emulator psw) 0 = false
        ∧ bitAt (reg (commandExecute (beforeCmp 3 5) true).emulator psw) 1 = false
        ∧ bitAt (reg (commandExecute (beforeCmp 3 5) true).emulator psw) 2 = true
        ∧ bitAt (reg (commandExecute (beforeCmp 3 5) true).emulator psw) 3 = true) := by
  rw [commandExecute_cmp_eq e running hm]
  obtain ⟨c, o, dc, do_, heq⟩ :=
    updatePswFlags_cmp e (toShort (reg e e.cd.rDst - reg e e.cd.rSrc)) hm hlen
  have s1 := flag_step e FLAG_z (toShort (reg e e.cd.rDst - reg e e.cd.rSrc) = 0) hlen
  have s2 := flag_step _ FLAG_n (toShort (reg e e.cd.rDst - reg e e.cd.rSrc) < 0) s1.1
  have s3 := flag_step _ FLAG_c c s2.1
  have s4 := flag_step _ FLAG_o o s3.1
  have hd := reg_range e e.cd.rDst hrange
  have hs := reg_range e e.cd.rSrc hrange
  refine ⟨rfl, rfl, ?_, ?_, ?_, ?_, ?_, by decide⟩
  · show (updatePswFlags e _).memory = _
    rw [heq, s4.2.1, s3.2.1, s2.2.1, s1.2.1]
  · intro j hj hne
    show reg (updatePswFlags e _) j = _
    rw [heq, s4.2.2.2.2.1 j hj hne, s3.2.2.2.2.1 j hj hne, s2.2.2.2.2.1 j hj hne,
      s1.2.2.2.2.1 j hj hne]
  · show bitAt (reg (updatePswFlags e _) psw) 0 = true ↔ _
    rw [heq, s4.2.2.2.2.2 0 (by decide), s3.2.2.2.2.2 0 (by decide),
      s2.2.2.2.2.2 0 (by decide), s1.2.2.2.2.2 0 (by decide)]
    have k1 : bitAt FLAG_z 0 = true := by decide
    have k2 : bitAt (bitNot FLAG_z) 0 = false := by decide
    have k3 : bitAt FLAG_n 0 = false := by decide
    have k4 : bitAt (bitNot FLAG_n) 0 = true := by decide
    have k5 : bitAt FLAG_c 0 = false := by decide
    have k6 : bitAt (bitNot FLAG_c) 0 = true := by decide
    have k7 : bitAt FLAG_o 0 = false := by decide
    have k8 : bitAt (bitNot FLAG_o) 0 = true := by decide
    simp only [k1, k2, k3, k4, k5, k6, k7, k8, Bool.or_false, Bool.and_true, ite_self,
      Bool.or_true, Bool.and_false]
    have hz : toShort (reg e e.cd.rDst - reg e e.cd.rSrc) = 0 ↔ reg e e.cd.rDst = reg e e.cd.rSrc := by
      unfold toShort
      omega
    rw [← hz]
    by_cases h0 : toShort (reg e e.cd.rDst - reg e e.cd.rSrc) = 0
    · simp [h0]
    · simp [h0]
  · show bitAt (reg (updatePswFlags e _) psw) 3 = true ↔ _
    rw [heq, s4.2.2.2.2.2 3 (by decide), s3.2.2.2.2.2 3 (by decide),
      s2.2.2.2.2.2 3 (by decide), s1.2.2.2.2.2 3 (by decide)]
    have k3 : bitAt FLAG_n 3 = true := by decide
    have k4 : bitAt (bitNot FLAG_n) 3 = false := by decide
    have k5 : bitAt FLAG_c 3 = false := by decide
    have k6 : bitAt (bitNot FLAG_c) 3 = true := by decide
    have k7 : bitAt FLAG_o 3 = false := by decide
    have k8 : bitAt (bitNot FLAG_o) 3 = true := by decide
    simp only [k3, k4, k5, k6, k7, k8, Bool.or_false, Bool.and_true, ite_self,
      Bool.or_true, Bool.and_false]
    have hn : toShort (reg e e.cd.rDst - reg e e.cd.rSrc) < 0
        ↔ bitAt (reg e e.cd.rDst - reg e e.cd.rSrc) 15 = true := by
      unfold toShort bitAt
      rw [decide_eq_true_eq]
      norm_num
      omega
    rw [← hn]
    by_cases h0 : toShort (reg e e.cd.rDst - reg e e.cd.rSrc) < 0
    · simp [h0]
    · simp [h0]
  · intro k hk4 hk16
    show bitAt (reg (updatePswFlags e _) psw) k = _
    rw [heq, s4.2.2.2.2.2 k hk16, s3.2.2.2.2.2 k hk16, s2.2.2.2.2.2 k hk16,
      s1.2.2.2.2.2 k hk16]
    have k1 : bitAt FLAG_z k = false ∧ bitAt (bitNot FLAG_z) k = true
        ∧ bitAt FLAG_n k = false ∧ bitAt (bitNot FLAG_n) k = true
        ∧ bitAt FLAG_c k = false ∧ bitAt (bitNot FLAG_c) k = true
        ∧ bitAt FLAG_o k = false ∧ bitAt (bitNot FLAG_o) k = true := by
      interval_cases k <;> decide
    obtain ⟨a1, a2, a3, a4, a5, a6, a7, a8⟩ := k1
    simp only [a1, a2, a3, a4, a5, a6, a7, a8, Bool.or_false, Bool.and_true, ite_self]

end Emulator

namespace Emulator

theorem commandExecute_int_eq (e : Emulator) (running : Bool)
    (hm : e.cd.mnemonic = MNEMONIC_int) :
    commandExecute e running =
      ⟨setReg (pushOnStack (pushOnStack e (reg e pc)) (reg (pushOnStack e (reg e pc)) psw)) pc
        (readFromMemory (pushOnStack (pushOnStack e (reg e pc)) (reg (pushOnStack e (reg e pc)) psw))
          ((Int.tmod (reg (pushOnStack (pushOnStack e (reg e pc))
            (reg (pushOnStack e (reg e pc)) psw)) e.cd.rDst) 8 * 2) % 65536)
          WORD LITTLE_ENDIAN_ORDER), running, true⟩ := by
  unfold commandExecute
  rw [hm]
  simp only [show MNEMONIC_int ≠ MNEMONIC_halt by decide, if_false, if_true]
  rfl

theorem length_writeToMemory (e : Emulator) (a : Int) (n : Nat) (v : Int) :
    (writeToMemory e a n v).registers = e.registers := by
  unfold writeToMemory
  split_ifs <;> rfl

theorem registers_pushOnStack (e : Emulator) (v : Int) :
    (pushOnStack e v).registers = e.registers.set 6 (toShort (reg e sp - 2)) := by
  unfold pushOnStack
  rw [length_writeToMemory]
  rfl

theorem reg_pushOnStack (e : Emulator) (v j : Int) (hlen : e.registers.length = NO_REGISTERS)
    (hj : 0 ≤ j) :
    reg (pushOnStack e v) j = if j = sp then toShort (reg e sp - 2) else reg e j := by
  have h := reg_setReg e sp j (reg e sp - 2) hlen (by decide) hj
  unfold reg at h ⊢
  rw [registers_pushOnStack]
  exact h

theorem length_pushOnStack (e : Emulator) (v : Int) :
    (pushOnStack e v).registers.length = e.registers.length := by
  rw [registers_pushOnStack, List.length_set]

end Emulator

theorem tmod_eight_neg (v : Int) (h : v < 0) : Int.tmod v 8 = -((-v) % 8) := by
  obtain ⟨n, rfl⟩ := Int.eq_negSucc_of_lt_zero h
  show -((Nat.succ n % 8 : Nat) : Int) = _
  rw [Int.neg_negSucc]
  push_cast
  rfl

namespace Emulator

theorem toShort_toShort (x : Int) : toShort (toShort x) = toShort x := by
  unfold toShort
  omega

theorem toShort_readFromMemory (e : Emulator) (a : Int) (n : Nat) (l : Bool) :
    toShort (readFromMemory e a n l) = readFromMemory e a n l := by
  unfold readFromMemory
  split_ifs <;> exact toShort_toShort _

/-- C25.  Execution of a decoded `int rDst` on one of `r0..r5` whose value is
negative and not a multiple of 8: the call pushes `pc` and then `psw`, so
that `sp` has decreased by 4, but the handler address stored in `pc` is the
little-endian word at address `2 * (v mod 8) + 65520`, which lies in the last
fourteen bytes of the address space and not in the interrupt vector table at
addresses 0 to 15. -/
theorem commandExecute_int_negative_entry (e : Emulator) (running : Bool)
    (hm : e.cd.mnemonic = MNEMONIC_int) (hlen : e.registers.length = NO_REGISTERS)
    (hD : 0 ≤ e.cd.rDst ∧ e.cd.rDst ≤ 5)
    (hneg : reg e e.cd.rDst < 0) (hnd : reg e e.cd.rDst % 8 ≠ 0) :
    (commandExecute e running).ok = true
    ∧ (commandExecute e running).emulator.memory
        = (pushOnStack (pushOnStack e (reg e pc)) (reg e psw)).memory
    ∧ reg (commandExecute e running).emulator sp = toShort (reg e sp - 4)
    ∧ 65522 ≤ 2 * (reg e e.cd.rDst % 8) + 65520
    ∧ 2 * (reg e e.cd.rDst % 8) + 65520 < 65536
    ∧ reg (commandExecute e running).emulator pc
        = readFromMemory (pushOnStack (pushOnStack e (reg e pc)) (reg e psw))
            (2 * (reg e e.cd.rDst % 8) + 65520) WORD LITTLE_ENDIAN_ORDER := by
  have hl1 : (pushOnStack e (reg e pc)).registers.length = NO_REGISTERS := by
    rw [length_pushOnStack, hlen]
  have hl2 : (pushOnStack (pushOnStack e (reg e pc)) (reg e psw)).registers.length
      = NO_REGISTERS := by
    rw [length_pushOnStack, hl1]
  have hpsw : reg (pushOnStack e (reg e pc)) psw = reg e psw := by
    rw [reg_pushOnStack e _ _ hlen (by decide), if_neg (by decide)]
  have hdst : reg (pushOnStack (pushOnStack e (reg e pc)) (reg e psw)) e.cd.rDst
      = reg e e.cd.rDst := by
    have hne : e.cd.rDst ≠ sp := by unfold sp; omega
    rw [reg_pushOnStack _ _ _ hl1 hD.1, if_neg hne, reg_pushOnStack _ _ _ hlen hD.1, if_neg hne]
  have haddr : (Int.tmod (reg e e.cd.rDst) 8 * 2) % 65536 = 2 * (reg e e.cd.rDst % 8) + 65520 := by
    rw [tmod_eight_neg _ hneg]
    omega
  rw [commandExecute_int_eq e running hm, hpsw]
  refine ⟨rfl, memory_setReg _ _ _, ?_, by omega, by omega, ?_⟩
  · show reg (setReg _ pc _) sp = _
    rw [reg_setReg _ _ _ _ hl2 (by decide) (by decide), if_neg (by decide),
      reg_pushOnStack _ _ _ hl1 (by decide), if_pos rfl,
      reg_pushOnStack _ _ _ hlen (by decide), if_pos rfl]
    unfold toShort
    omega
  · show reg (setReg _ pc _) pc = _
    rw [reg_setReg _ _ _ _ hl2 (by decide) (by decide), if_pos rfl, hdst, haddr]
    exact toShort_readFromMemory _ _ _ _

end Emulator

namespace Emulator

theorem commandExecute_ldr_eq (e : Emulator) (running : Bool)
    (hm : e.cd.mnemonic = MNEMONIC_ldr_pop) :
    commandExecute e running =
      if (setReg (getOperand e).1 (getOperand e).1.cd.rDst (getOperand e).2).emulatingErrors.length
          ≠ 0 then
        ⟨setReg (getOperand e).1 (getOperand e).1.cd.rDst (getOperand e).2, running, false⟩
      else
        ⟨updateSource (setReg (getOperand e).1 (getOperand e).1.cd.rDst (getOperand e).2),
          running, true⟩ := by
  unfold commandExecute
  rw [hm]
  simp only [show MNEMONIC_ldr_pop ≠ MNEMONIC_halt by decide,
    show MNEMONIC_ldr_pop ≠ MNEMONIC_int by decide,
    show MNEMONIC_ldr_pop ≠ MNEMONIC_iret by decide,
    show MNEMONIC_ldr_pop ≠ MNEMONIC_call by decide,
    show MNEMONIC_ldr_pop ≠ MNEMONIC_ret by decide,
    show MNEMONIC_ldr_pop ≠ MNEMONIC_jmp by decide,
    show MNEMONIC_ldr_pop ≠ MNEMONIC_jeq by decide,
    show MNEMONIC_ldr_pop ≠ MNEMONIC_jne by decide,
    show MNEMONIC_ldr_pop ≠ MNEMONIC_jgt by decide,
    show MNEMONIC_ldr_pop ≠ MNEMONIC_xchg by decide,
    show MNEMONIC_ldr_pop ≠ MNEMONIC_add by decide,
    show MNEMONIC_ldr_pop ≠ MNEMONIC_sub by decide,
    show MNEMONIC_ldr_pop ≠ MNEMONIC_mul by decide,
    show MNEMONIC_ldr_pop ≠ MNEMONIC_div by decide,
    show MNEMONIC_ldr_pop ≠ MNEMONIC_cmp by decide,
    show MNEMONIC_ldr_pop ≠ MNEMONIC_not by decide,
    show MNEMONIC_ldr_pop ≠ MNEMONIC_and by decide,
    show MNEMONIC_ldr_pop ≠ MNEMONIC_or by decide,
    show MNEMONIC_ldr_pop ≠ MNEMONIC_xor by decide,
    show MNEMONIC_ldr_pop ≠ MNEMONIC_test by decide,
    show MNEMONIC_ldr_pop ≠ MNEMONIC_shl by decide,
    show MNEMONIC_ldr_pop ≠ MNEMONIC_shr by decide,
    if_false, or_self, if_true]

theorem commandExecute_str_eq (e : Emulator) (running : Bool)
    (hm : e.cd.mnemonic = MNEMONIC_str_push) :
    commandExecute e running =
      ⟨(setOperand (updateSource e)).1, running, (setOperand (updateSource e)).2⟩ := by
  unfold commandExecute
  rw [hm]
  simp only [show MNEMONIC_str_push ≠ MNEMONIC_halt by decide,
    show MNEMONIC_str_push ≠ MNEMONIC_int by decide,
    show MNEMONIC_str_push ≠ MNEMONIC_iret by decide,
    show MNEMONIC_str_push ≠ MNEMONIC_call by decide,
    show MNEMONIC_str_push ≠ MNEMONIC_ret by decide,
    show MNEMONIC_str_push ≠ MNEMONIC_jmp by decide,
    show MNEMONIC_str_push ≠ MNEMONIC_jeq by decide,
    show MNEMONIC_str_push ≠ MNEMONIC_jne by decide,
    show MNEMONIC_str_push ≠ MNEMONIC_jgt by decide,
    show MNEMONIC_str_push ≠ MNEMONIC_xchg by decide,
    show MNEMONIC_str_push ≠ MNEMONIC_add by decide,
    show MNEMONIC_str_push ≠ MNEMONIC_sub by decide,
    show MNEMONIC_str_push ≠ MNEMONIC_mul by decide,
    show MNEMONIC_str_push ≠ MNEMONIC_div by decide,
    show MNEMONIC_str_push ≠ MNEMONIC_cmp by decide,
    show MNEMONIC_str_push ≠ MNEMONIC_not by decide,
    show MNEMONIC_str_push ≠ MNEMONIC_and by decide,
    show MNEMONIC_str_push ≠ MNEMONIC_or by decide,
    show MNEMONIC_str_push ≠ MNEMONIC_xor by decide,
    show MNEMONIC_str_push ≠ MNEMONIC_test by decide,
    show MNEMONIC_str_push ≠ MNEMONIC_shl by decide,
    show MNEMONIC_str_push ≠ MNEMONIC_shr by decide,
    show MNEMONIC_str_push ≠ MNEMONIC_ldr_pop by decide,
    if_false, or_self, if_true]
  cases h : setOperand (updateSource e) with
  | mk e1 b => cases b <;> rfl

end Emulator

namespace Emulator

theorem emulateStep_decoded (e e1 : Emulator) (running : Bool)
    (h : commandFetchAndDecode { e with cd := CommandData.empty } = (e1, true)) :
    emulateStep e running = commandExecute e1 running := by
  unfold emulateStep
  rw [h]
  rfl

theorem getD_set_same (l : List Int) (i : Nat) (v d : Int) (h : i < l.length) :
    (l.set i v).getD i d = v := by
  simp [List.getD_eq_getElem?_getD, List.getElem?_set, h]

theorem getD_set_ne (l : List Int) (i j : Nat) (v d : Int) (h : i ≠ j) :
    (l.set i v).getD j d = l.getD j d := by
  simp [List.getD_eq_getElem?_getD, List.getElem?_set, h]

end Emulator

namespace Emulator

theorem emulateStep_push (e : Emulator) (A : Int) (hA : 0 ≤ A ∧ A ≤ 5)
    (hlen : e.registers.length = NO_REGISTERS)
    (h : holdsAtPc e [toChar 0xB0, toChar (A * 16 + 6), 0x12]) :
    emulateStep e true =
      ⟨{ memory := (e.memory.set ((reg e sp - 2) % 65536).toNat (toChar (reg e A % 256))).set
            ((reg e sp - 2) % 65536 + 1).toNat (toChar (reg e A / 256 % 256))
         registers := (e.registers.set 7 (toShort (reg e pc + 3))).set 6 (toShort (reg e sp - 2))
         cd := ⟨MNEMONIC_str_push, A, 6, pre_decrement, regind, 0⟩
         emulatingErrors := e.emulatingErrors }, true, true⟩ := by
  have h1 : toChar 0xB0 % 256 = 0xA0 ∨ toChar 0xB0 % 256 = 0xB0 := Or.inr (by decide)
  have h2 : toChar (A * 16 + 6) % 256 = A * 16 + 6 := by rw [toChar_mod]; omega
  have h3 : (0x12 : Int) % 256 = 1 * 16 + 2 := by decide
  have h4 : (2 : Int) = regdir ∨ (2 : Int) = regind := Or.inr rfl
  have h5 : holdsAtPc { e with cd := CommandData.empty } [toChar 0xB0, toChar (A * 16 + 6), 0x12] := h
  have hd := decode_loadStore_short { e with cd := CommandData.empty } hlen rfl
    (toChar 0xB0) (toChar (A * 16 + 6)) 0x12 A 6 1 2 h5 h1 h2 (by omega) (by decide) h3 (by decide) h4
  rw [emulateStep_decoded e _ true hd]
  have hm : (atPc { e with cd := CommandData.empty } 3
      ⟨toChar 0xB0 % 256, A, 6, 1, 2, 0⟩).cd.mnemonic = MNEMONIC_str_push := by
    show toChar 0xB0 % 256 = MNEMONIC_str_push
    decide
  rw [commandExecute_str_eq _ _ hm]
  have hsp : reg (atPc { e with cd := CommandData.empty } 3
      ⟨toChar 0xB0 % 256, A, 6, 1, 2, 0⟩) 6 = reg e sp := by
    unfold reg atPc sp
    simp [List.getD_eq_getElem?_getD, List.getElem?_set]
  have hus : updateSource (atPc { e with cd := CommandData.empty } 3
      ⟨toChar 0xB0 % 256, A, 6, 1, 2, 0⟩)
      = Emulator.mk e.memory
          ((e.registers.set 7 (toShort (reg e pc + 3))).set 6 (toShort (reg e sp - 2)))
          ⟨MNEMONIC_str_push, A, 6, pre_decrement, regind, 0⟩ e.emulatingErrors := by
    unfold updateSource
    rw [if_pos (Or.inl (by show (1 : Int) = pre_decrement; decide))]
    unfold setReg
    rw [show (atPc { e with cd := CommandData.empty } 3
      ⟨toChar 0xB0 % 256, A, 6, 1, 2, 0⟩).cd.rSrc = 6 from rfl, hsp]
    rfl
  rw [hus]
  have hso : ∀ x : Emulator, x.cd.addressingMode = regind →
      setOperand x = (writeToMemory x (reg x x.cd.rSrc % 65536) WORD (reg x x.cd.rDst), true) := by
    intro x hx
    unfold setOperand
    rw [if_neg (by rw [hx]; decide), if_pos hx]
  rw [hso _ rfl]
  have hr6 : reg (Emulator.mk e.memory
          ((e.registers.set 7 (toShort (reg e pc + 3))).set 6 (toShort (reg e sp - 2)))
          ⟨MNEMONIC_str_push, A, 6, pre_decrement, regind, 0⟩ e.emulatingErrors) 6
      = toShort (reg e sp - 2) := by
    show List.getD _ _ _ = _
    rw [show (6 : Int).toNat = 6 from rfl, getD_set_same]
    rw [List.length_set, hlen]
    decide
  have hrA : reg (Emulator.mk e.memory
          ((e.registers.set 7 (toShort (reg e pc + 3))).set 6 (toShort (reg e sp - 2)))
          ⟨MNEMONIC_str_push, A, 6, pre_decrement, regind, 0⟩ e.emulatingErrors) A
      = reg e A := by
    show List.getD _ _ _ = _
    rw [getD_set_ne _ _ _ _ _ (by omega), getD_set_ne _ _ _ _ _ (by omega)]
    rfl
  have hmod : toShort (reg e sp - 2) % 65536 = (reg e sp - 2) % 65536 := by
    unfold toShort; omega
  show ExecResult.mk (writeToMemory _ (reg _ 6 % 65536) WORD (reg _ A)) true true = _
  rw [hr6, hrA, hmod]
  rfl

end Emulator

namespace Emulator

theorem emulateStep_pop (e : Emulator) (B : Int) (hB : 0 ≤ B ∧ B ≤ 5)
    (hlen : e.registers.length = NO_REGISTERS) (herr : e.emulatingErrors = [])
    (h : holdsAtPc e [toChar 0xA0, toChar (B * 16 + 6), 0x42]) :
    emulateStep e true =
      ⟨Emulator.mk e.memory
        (((e.registers.set 7 (toShort (reg e pc + 3))).set B.toNat
            (readFromMemory e (reg e sp % 65536) WORD LITTLE_ENDIAN_ORDER)).set 6
          (toShort (reg e sp + 2)))
        ⟨MNEMONIC_ldr_pop, B, 6, post_increment, regind, 0⟩ [], true, true⟩ := by
  have h1 : toChar 0xA0 % 256 = 0xA0 ∨ toChar 0xA0 % 256 = 0xB0 := Or.inl (by decide)
  have h2 : toChar (B * 16 + 6) % 256 = B * 16 + 6 := by rw [toChar_mod]; omega
  have h3 : (0x42 : Int) % 256 = 4 * 16 + 2 := by decide
  have h4 : (2 : Int) = regdir ∨ (2 : Int) = regind := Or.inr rfl
  have h5 : holdsAtPc { e with cd := CommandData.empty } [toChar 0xA0, toChar (B * 16 + 6), 0x42] := h
  have hd := decode_loadStore_short { e with cd := CommandData.empty } hlen rfl
    (toChar 0xA0) (toChar (B * 16 + 6)) 0x42 B 6 4 2 h5 h1 h2 (by omega) (by decide) h3 (by decide) h4
  rw [emulateStep_decoded e _ true hd]
  have hm : (atPc { e with cd := CommandData.empty } 3
      ⟨toChar 0xA0 % 256, B, 6, 4, 2, 0⟩).cd.mnemonic = MNEMONIC_ldr_pop := by
    show toChar 0xA0 % 256 = MNEMONIC_ldr_pop
    decide
  rw [commandExecute_ldr_eq _ _ hm]
  have hsp : reg (atPc { e with cd := CommandData.empty } 3
      ⟨toChar 0xA0 % 256, B, 6, 4, 2, 0⟩) 6 = reg e sp := by
    unfold reg atPc sp
    simp [List.getD_eq_getElem?_getD, List.getElem?_set]
  have hgo : getOperand (atPc { e with cd := CommandData.empty } 3
      ⟨toChar 0xA0 % 256, B, 6, 4, 2, 0⟩)
      = (atPc { e with cd := CommandData.empty } 3 ⟨toChar 0xA0 % 256, B, 6, 4, 2, 0⟩,
          readFromMemory e (reg e sp % 65536) WORD LITTLE_ENDIAN_ORDER) := by
    unfold getOperand
    rw [if_neg (by show ¬ ((2 : Int) = immed); decide),
      if_neg (by show ¬ ((2 : Int) = regdir); decide),
      if_pos (by show (2 : Int) = regind; decide)]
    rw [show (atPc { e with cd := CommandData.empty } 3
      ⟨toChar 0xA0 % 256, B, 6, 4, 2, 0⟩).cd.rSrc = 6 from rfl, hsp]
    rfl
  rw [hgo]
  dsimp only
  have herr2 : (setReg (atPc { e with cd := CommandData.empty } 3
      ⟨toChar 0xA0 % 256, B, 6, 4, 2, 0⟩) B
        (readFromMemory e (reg e sp % 65536) WORD LITTLE_ENDIAN_ORDER)).emulatingErrors.length = 0 := by
    show e.emulatingErrors.length = 0
    rw [herr]
    rfl
  rw [show (atPc { e with cd := CommandData.empty } 3
      ⟨toChar 0xA0 % 256, B, 6, 4, 2, 0⟩).cd.rDst = B from rfl, if_neg (by rw [herr2]; simp)]
  have hst : setReg (atPc { e with cd := CommandData.empty } 3
      ⟨toChar 0xA0 % 256, B, 6, 4, 2, 0⟩) B
        (readFromMemory e (reg e sp % 65536) WORD LITTLE_ENDIAN_ORDER)
      = Emulator.mk e.memory
          ((e.registers.set 7 (toShort (reg e pc + 3))).set B.toNat
            (readFromMemory e (reg e sp % 65536) WORD LITTLE_ENDIAN_ORDER))
          ⟨MNEMONIC_ldr_pop, B, 6, post_increment, regind, 0⟩ [] := by
    unfold setReg
    rw [toShort_readFromMemory]
    show Emulator.mk _ _ _ e.emulatingErrors = _
    rw [herr]
    rfl
  rw [hst]
  unfold updateSource
  rw [if_neg (by show ¬ (post_increment = pre_decrement ∨ post_increment = post_decrement); decide),
    if_pos (Or.inr rfl)]
  have hr6 : reg (Emulator.mk e.memory
          ((e.registers.set 7 (toShort (reg e pc + 3))).set B.toNat
            (readFromMemory e (reg e sp % 65536) WORD LITTLE_ENDIAN_ORDER))
          ⟨MNEMONIC_ldr_pop, B, 6, post_increment, regind, 0⟩ []) 6 = reg e sp := by
    show List.getD _ _ _ = _
    rw [show (6 : Int).toNat = 6 from rfl, getD_set_ne _ _ _ _ _ (by omega),
      getD_set_ne _ _ _ _ _ (by omega)]
    rfl
  show ExecResult.mk (setReg _ 6 (reg _ 6 + 2)) true true = _
  rw [hr6]
  rfl

end Emulator

namespace Assembler

theorem commandBytes_push (junk : Int) (A : Fin 6) :
    commandBytes junk ("push " ++ generalRegister A)
      = [toChar 0xB0, toChar ((A.val : Int) * 16 + 6), 0x12] := by
  fin_cases A <;> rfl

theorem commandBytes_pop (junk : Int) (B : Fin 6) :
    commandBytes junk ("pop " ++ generalRegister B)
      = [toChar 0xA0, toChar ((B.val : Int) * 16 + 6), 0x42] := by
  fin_cases B <;> rfl

end Assembler

namespace Emulator

theorem holdsAtPc_initial (e : Emulator) (xs ys : List Int) (h : holdsAtPc e (xs ++ ys)) :
    holdsAtPc e xs := by
  obtain ⟨hb, hget⟩ := h
  rw [List.length_append] at hb
  refine ⟨by omega, fun i hi => ?_⟩
  rw [hget i (by rw [List.length_append]; omega)]
  simp [List.getD_eq_getElem?_getD, List.getElem?_append_left hi]

theorem word_round_trip (v : Int) (hv : -32768 ≤ v ∧ v < 32768) :
    toShort (bitOr (toChar (v / 256 % 256) * 256) (toChar (v % 256) % 256)) = v := by
  rw [bitOr_shifted _ _ (by unfold toChar; omega) (by omega), toShort_payload]
  unfold toShort
  omega

/-- The two iterations of the loop of `emulate` on `push rA`, `pop rB`. -/
theorem push_pop_steps (e : Emulator) (A B : Int) (hA : 0 ≤ A ∧ A ≤ 5) (hB : 0 ≤ B ∧ B ≤ 5)
    (hwt : wellTyped e) (herr : e.emulatingErrors = [])
    (hcode : holdsAtPc e ([toChar 0xB0, toChar (A * 16 + 6), 0x12]
      ++ [toChar 0xA0, toChar (B * 16 + 6), 0x42]))
    (hsp : reg e sp ≠ 1)
    (hfree : (reg e sp - 2) % 65536 + 1 < reg e pc % 65536
      ∨ reg e pc % 65536 + 6 ≤ (reg e sp - 2) % 65536) :
    emulateStep e true =
      ⟨Emulator.mk
        ((e.memory.set ((reg e sp - 2) % 65536).toNat (toChar (reg e A % 256))).set
            ((reg e sp - 2) % 65536 + 1).toNat (toChar (reg e A / 256 % 256)))
        ((e.registers.set 7 (toShort (reg e pc + 3))).set 6 (toShort (reg e sp - 2)))
        ⟨MNEMONIC_str_push, A, 6, pre_decrement, regind, 0⟩ e.emulatingErrors, true, true⟩
    ∧ emulateStep (emulateStep e true).emulator true =
      ⟨Emulator.mk
        ((e.memory.set ((reg e sp - 2) % 65536).toNat (toChar (reg e A % 256))).set
            ((reg e sp - 2) % 65536 + 1).toNat (toChar (reg e A / 256 % 256)))
        (((((e.registers.set 7 (toShort (reg e pc + 3))).set 6 (toShort (reg e sp - 2))).set 7
            (toShort (reg e pc + 6))).set B.toNat (reg e A)).set 6 (reg e sp))
        ⟨MNEMONIC_ldr_pop, B, 6, post_increment, regind, 0⟩ [], true, true⟩ := by
  obtain ⟨hlen, hrange, hmlen, hmrange⟩ := hwt
  have hs := reg_range e sp hrange
  have hp := reg_range e pc hrange
  have ha := reg_range e A hrange
  have h1 := emulateStep_push e A hA hlen (holdsAtPc_initial e _ _ hcode)
  refine ⟨h1, ?_⟩
  rw [h1]
  dsimp only
  obtain ⟨hb, hget⟩ := hcode
  have hb6 : (reg e pc % 65536).toNat + 6 ≤ 65536 := hb
  unfold MEMORY_SIZE at hmlen
  have hpc1 : reg (Emulator.mk
        ((e.memory.set ((reg e sp - 2) % 65536).toNat (toChar (reg e A % 256))).set
            ((reg e sp - 2) % 65536 + 1).toNat (toChar (reg e A / 256 % 256)))
        ((e.registers.set 7 (toShort (reg e pc + 3))).set 6 (toShort (reg e sp - 2)))
        ⟨MNEMONIC_str_push, A, 6, pre_decrement, regind, 0⟩ e.emulatingErrors) pc
      = toShort (reg e pc + 3) := by
    show List.getD _ _ _ = _
    rw [show pc.toNat = 7 from rfl, getD_set_ne _ _ _ _ _ (by decide), getD_set_same]
    rw [hlen]
    decide
  have hsp1 : reg (Emulator.mk
        ((e.memory.set ((reg e sp - 2) % 65536).toNat (toChar (reg e A % 256))).set
            ((reg e sp - 2) % 65536 + 1).toNat (toChar (reg e A / 256 % 256)))
        ((e.registers.set 7 (toShort (reg e pc + 3))).set 6 (toShort (reg e sp - 2)))
        ⟨MNEMONIC_str_push, A, 6, pre_decrement, regind, 0⟩ e.emulatingErrors) sp
      = toShort (reg e sp - 2) := by
    show List.getD _ _ _ = _
    rw [show sp.toNat = 6 from rfl, getD_set_same]
    rw [List.length_set, hlen]
    decide
  have hcode1 : holdsAtPc (Emulator.mk
        ((e.memory.set ((reg e sp - 2) % 65536).toNat (toChar (reg e A % 256))).set
            ((reg e sp - 2) % 65536 + 1).toNat (toChar (reg e A / 256 % 256)))
        ((e.registers.set 7 (toShort (reg e pc + 3))).set 6 (toShort (reg e sp - 2)))
        ⟨MNEMONIC_str_push, A, 6, pre_decrement, regind, 0⟩ e.emulatingErrors)
      [toChar 0xA0, toChar (B * 16 + 6), 0x42] := by
    unfold holdsAtPc
    rw [hpc1]
    have hpa : (toShort (reg e pc + 3) % 65536).toNat = (reg e pc % 65536).toNat + 3 := by
      unfold toShort
      omega
    rw [hpa]
    refine ⟨by simp only [List.length_cons, List.length_nil]; omega, fun i hi => ?_⟩
    simp only [List.length_cons, List.length_nil] at hi
    show List.getD _ _ _ = _
    rw [getD_set_ne _ _ _ _ _ (by omega), getD_set_ne _ _ _ _ _ (by omega)]
    have hi6 : 3 + i < ([toChar 0xB0, toChar (A * 16 + 6), 0x12]
        ++ [toChar 0xA0, toChar (B * 16 + 6), 0x42]).length := by
      simp only [List.length_append, List.length_cons, List.length_nil]
      omega
    have hg := hget (3 + i) hi6
    rw [show (reg e pc % 65536).toNat + 3 + i = (reg e pc % 65536).toNat + (3 + i) by omega, hg]
    interval_cases i <;> rfl
  have hlen1 : ((e.registers.set 7 (toShort (reg e pc + 3))).set 6
      (toShort (reg e sp - 2))).length = NO_REGISTERS := by
    rw [List.length_set, List.length_set, hlen]
  have h2 := emulateStep_pop _ B hB (by exact hlen1) (by exact herr) hcode1
  rw [h2, hpc1, hsp1]
  have hrd : readFromMemory (Emulator.mk
        ((e.memory.set ((reg e sp - 2) % 65536).toNat (toChar (reg e A % 256))).set
            ((reg e sp - 2) % 65536 + 1).toNat (toChar (reg e A / 256 % 256)))
        ((e.registers.set 7 (toShort (reg e pc + 3))).set 6 (toShort (reg e sp - 2)))
        ⟨MNEMONIC_str_push, A, 6, pre_decrement, regind, 0⟩ e.emulatingErrors)
        (toShort (reg e sp - 2) % 65536) WORD LITTLE_ENDIAN_ORDER = reg e A := by
    have hmod : toShort (reg e sp - 2) % 65536 = (reg e sp - 2) % 65536 := by
      unfold toShort; omega
    rw [hmod]
    unfold readFromMemory
    simp only [LITTLE_ENDIAN_ORDER, if_true]
    show toShort (bitOr (List.getD _ _ _ * 256) (List.getD _ _ _ % 256)) = _
    rw [getD_set_same _ _ _ _ (by rw [List.length_set]; omega),
      getD_set_ne _ _ _ _ _ (by omega), getD_set_same _ _ _ _ (by omega)]
    exact word_round_trip _ ha
  have e1 : toShort (toShort (reg e pc + 3) + 3) = toShort (reg e pc + 6) := by
    unfold toShort; omega
  have e2 : toShort (toShort (reg e sp - 2) + 2) = reg e sp := by
    unfold toShort; omega
  rw [hrd, e1, e2, herr]

end Emulator

namespace Emulator

theorem emulateLoop_continue (fuel : Nat) (e e1 : Emulator)
    (h : emulateStep e true = ⟨e1, true, true⟩) :
    emulateLoop (fuel + 1) e = emulateLoop fuel e1 := by
  rw [emulateLoop]
  simp only [h]
  rfl

theorem emulateLoop_halt (fuel : Nat) (e e1 : Emulator)
    (h : emulateStep e true = ⟨e1, false, true⟩) :
    emulateLoop (fuel + 1) e = some (e1, true) := by
  rw [emulateLoop]
  simp only [h]
  rfl

theorem emulateStep_halt (e : Emulator) (hlen : e.registers.length = NO_REGISTERS)
    (h : holdsAtPc e [0]) :
    emulateStep e true =
      ⟨Emulator.mk e.memory (e.registers.set 7 (toShort (reg e pc + 1)))
        ⟨MNEMONIC_halt, 0, 0, 0, 0, 0⟩ e.emulatingErrors, false, true⟩ := by
  have h5 : holdsAtPc { e with cd := CommandData.empty } [0] := h
  have hd := decode_one_byte { e with cd := CommandData.empty } hlen rfl 0 h5 (Or.inl (by decide))
  rw [emulateStep_decoded e _ true hd]
  unfold commandExecute
  rw [if_pos (by show (0 : Int) % 256 = MNEMONIC_halt; decide)]
  rfl

theorem emulateStep_ldr_immediate (e : Emulator) (D hi lo : Int) (hD : 0 ≤ D ∧ D ≤ 5)
    (hlen : e.registers.length = NO_REGISTERS) (herr : e.emulatingErrors = [])
    (hhi : -128 ≤ hi ∧ hi ≤ 127)
    (h : holdsAtPc e [toChar 0xA0, toChar (D * 16 + 15), 0, hi, lo]) :
    emulateStep e true =
      ⟨Emulator.mk e.memory
        ((e.registers.set 7 (toShort (reg e pc + 5))).set D.toNat (toShort (hi * 256 + lo % 256)))
        ⟨MNEMONIC_ldr_pop, D, 15, no_update, immed, toShort (hi * 256 + lo % 256)⟩ [],
        true, true⟩ := by
  have h1 : toChar 0xA0 % 256 = 0xA0 ∨ toChar 0xA0 % 256 = 0xB0 := Or.inl (by decide)
  have h2 : toChar (D * 16 + 15) % 256 = D * 16 + 15 := by rw [toChar_mod]; omega
  have h3 : (0 : Int) % 256 = 0 * 16 + 0 := by decide
  have h4 : ((0 : Int) = immed ∧ toChar 0xA0 % 256 = 0xA0) ∨ (0 : Int) = regind_disp
      ∨ (0 : Int) = memdir := Or.inl (by decide)
  have h5 : holdsAtPc { e with cd := CommandData.empty }
      [toChar 0xA0, toChar (D * 16 + 15), 0, hi, lo] := h
  have hd := decode_loadStore_long { e with cd := CommandData.empty } hlen rfl
    (toChar 0xA0) (toChar (D * 16 + 15)) 0 hi lo D 15 0 0 h5 h1 h2 (by omega) (by decide) h3
    (by decide) h4 hhi
  rw [emulateStep_decoded e _ true hd]
  have hm : (atPc { e with cd := CommandData.empty } 5
      ⟨toChar 0xA0 % 256, D, 15, 0, 0, toShort (hi * 256 + lo % 256)⟩).cd.mnemonic
        = MNEMONIC_ldr_pop := by
    show toChar 0xA0 % 256 = MNEMONIC_ldr_pop
    decide
  rw [commandExecute_ldr_eq _ _ hm]
  have hgo : getOperand (atPc { e with cd := CommandData.empty } 5
      ⟨toChar 0xA0 % 256, D, 15, 0, 0, toShort (hi * 256 + lo % 256)⟩)
      = (atPc { e with cd := CommandData.empty } 5
          ⟨toChar 0xA0 % 256, D, 15, 0, 0, toShort (hi * 256 + lo % 256)⟩,
          toShort (hi * 256 + lo % 256)) := by
    unfold getOperand
    rw [if_pos (by show (0 : Int) = immed; decide)]
    rfl
  rw [hgo]
  dsimp only
  have herr2 : (setReg (atPc { e with cd := CommandData.empty } 5
      ⟨toChar 0xA0 % 256, D, 15, 0, 0, toShort (hi * 256 + lo % 256)⟩) D
        (toShort (hi * 256 + lo % 256))).emulatingErrors.length = 0 := by
    show e.emulatingErrors.length = 0
    rw [herr]
    rfl
  rw [show (atPc { e with cd := CommandData.empty } 5
      ⟨toChar 0xA0 % 256, D, 15, 0, 0, toShort (hi * 256 + lo % 256)⟩).cd.rDst = D from rfl,
    if_neg (by rw [herr2]; simp)]
  unfold updateSource
  rw [if_neg (by show ¬ (no_update = pre_decrement ∨ no_update = post_decrement); decide),
    if_neg (by show ¬ (no_update = pre_increment ∨ no_update = post_increment); decide)]
  unfold setReg
  rw [toShort_toShort]
  show ExecResult.mk (Emulator.mk _ _ _ e.emulatingErrors) _ _ = _
  rw [herr]
  rfl

end Emulator

namespace Emulator

theorem getD_append_replicate (bytes : List Int) (n i : Nat) (h : i < bytes.length) :
    (bytes ++ List.replicate n 0).getD i 0 = bytes.getD i 0 := by
  simp [List.getD_eq_getElem?_getD, List.getElem?_append_left h]

theorem reg_mk (m rs : List Int) (c : CommandData) (er : List String) (i : Int) :
    reg (Emulator.mk m rs c er) i = rs.getD i.toNat 0 := rfl

theorem fill_pushPopImage (junk : Int) :
    fillMemoryFromInputFile new (pushPopImage junk)
      = (Emulator.mk ([2, 0, -96, 15, 0, 0, 5, -80, 6, 18, -96, 22, 66, 0]
          ++ List.replicate 65536 0) (List.replicate 9 0) CommandData.empty [], true) := by
  rfl

/-- The run of `emulate` on the image of `ldr r0,$5`, `push r0`, `pop r1`, `halt`. -/
theorem emulate_pushPopImage (junk : Int) :
    ∃ e, emulate 4 new (pushPopImage junk) = some (e, true)
      ∧ reg e 0 = 5 ∧ reg e 1 = 5 ∧ reg e sp = toShort 0xFF00 := by
  unfold emulate
  rw [fill_pushPopImage]
  dsimp only
  rw [if_neg (by decide)]
  have hM : ∀ i, i < 14 → ([2, 0, -96, 15, 0, 0, 5, -80, 6, 18, -96, 22, 66, 0]
      ++ List.replicate 65536 0).getD i 0
      = ([2, 0, -96, 15, 0, 0, 5, -80, 6, 18, -96, 22, 66, 0] : List Int).getD i 0 :=
    fun i hi => getD_append_replicate _ _ _ hi
  have hMlen : ([2, 0, -96, 15, 0, 0, 5, -80, 6, 18, -96, 22, 66, 0]
      ++ List.replicate 65536 (0 : Int)).length = 65550 := by
    rw [List.length_append, List.length_replicate]
    rfl
  have hMrange : ∀ b ∈ ([2, 0, -96, 15, 0, 0, 5, -80, 6, 18, -96, 22, 66, 0]
      ++ List.replicate 65536 (0 : Int)), -128 ≤ b ∧ b < 128 := by
    intro b hb
    rw [List.mem_append] at hb
    rcases hb with hb | hb
    · revert b
      decide
    · rw [List.eq_of_mem_replicate hb]
      decide
  generalize ([2, 0, -96, 15, 0, 0, 5, -80, 6, 18, -96, 22, 66, 0]
      ++ List.replicate 65536 (0 : Int)) = M at hM hMlen hMrange ⊢
  have hinit : setReg (setReg (setReg (Emulator.mk M (List.replicate 9 0) CommandData.empty [])
      pc (readFromMemory (Emulator.mk M (List.replicate 9 0) CommandData.empty [])
        IVT_ENTRY_PROGRAM_START WORD LITTLE_ENDIAN_ORDER)) sp MMAP_REGISTERS_START_ADDRESS)
      psw 0x6000
      = Emulator.mk M [0, 0, 0, 0, 0, 0, -256, 2, 24576] CommandData.empty [] := by
    have hr : readFromMemory (Emulator.mk M (List.replicate 9 0) CommandData.empty [])
        IVT_ENTRY_PROGRAM_START WORD LITTLE_ENDIAN_ORDER = 2 := by
      unfold readFromMemory
      show toShort (bitOr (M.getD 1 0 * 256) (M.getD 0 0 % 256)) = 2
      rw [hM 0 (by decide), hM 1 (by decide)]
      decide
    rw [hr]
    rfl
  rw [hinit]
  -- ldr r0,$5
  have c1 : holdsAtPc (Emulator.mk M [0, 0, 0, 0, 0, 0, -256, 2, 24576] CommandData.empty [])
      [toChar 0xA0, toChar (0 * 16 + 15), 0, 0, 5] := by
    refine ⟨by rw [reg_mk]; decide, fun i hi => ?_⟩
    simp only [List.length_cons, List.length_nil] at hi
    show M.getD (2 + i) 0 = _
    rw [hM _ (by omega)]
    interval_cases i <;> rfl
  have s1 := emulateStep_ldr_immediate _ 0 0 5 (by decide) (by exact rfl) (by exact rfl)
    (by decide) c1
  have r1 : (([0, 0, 0, 0, 0, 0, -256, 2, 24576] : List Int).set 7
      (toShort (reg (Emulator.mk M [0, 0, 0, 0, 0, 0, -256, 2, 24576] CommandData.empty []) pc
        + 5))).set (0 : Int).toNat (toShort (0 * 256 + 5 % 256))
      = [5, 0, 0, 0, 0, 0, -256, 7, 24576] := by rw [reg_mk]; decide
  rw [r1] at s1
  rw [emulateLoop_continue 3 _ _ s1]
  -- push r0, pop r1
  have c2 : holdsAtPc (Emulator.mk M [5, 0, 0, 0, 0, 0, -256, 7, 24576]
      ⟨MNEMONIC_ldr_pop, 0, 15, no_update, immed, toShort (0 * 256 + 5 % 256)⟩ [])
      ([toChar 0xB0, toChar (0 * 16 + 6), 0x12] ++ [toChar 0xA0, toChar (1 * 16 + 6), 0x42]) := by
    refine ⟨by rw [reg_mk]; decide, fun i hi => ?_⟩
    simp only [List.length_append, List.length_cons, List.length_nil] at hi
    show M.getD (7 + i) 0 = _
    rw [hM _ (by omega)]
    interval_cases i <;> rfl
  have w2 : wellTyped (Emulator.mk M [5, 0, 0, 0, 0, 0, -256, 7, 24576]
      ⟨MNEMONIC_ldr_pop, 0, 15, no_update, immed, toShort (0 * 256 + 5 % 256)⟩ []) := by
    refine ⟨rfl, by show ∀ r ∈ [5, 0, 0, 0, 0, 0, -256, 7, 24576], -32768 ≤ r ∧ r < 32768; decide, ?_, hMrange⟩
    show 65536 ≤ M.length
    rw [hMlen]
    decide
  have s23 := push_pop_steps _ 0 1 (by decide) (by decide) w2 rfl c2
    (by rw [reg_mk]; decide) (Or.inr (by rw [reg_mk, reg_mk]; decide))
  obtain ⟨s2, s3⟩ := s23
  rw [emulateLoop_continue 2 _ _ s2]
  rw [s2] at s3
  have r3 : (((((([5, 0, 0, 0, 0, 0, -256, 7, 24576] : List Int).set 7 (toShort
      (reg (Emulator.mk M [5, 0, 0, 0, 0, 0, -256, 7, 24576]
      ⟨MNEMONIC_ldr_pop, 0, 15, no_update, immed, toShort (0 * 256 + 5 % 256)⟩ []) pc + 3))).set 6
      (toShort (reg (Emulator.mk M [5, 0, 0, 0, 0, 0, -256, 7, 24576]
      ⟨MNEMONIC_ldr_pop, 0, 15, no_update, immed, toShort (0 * 256 + 5 % 256)⟩ []) sp - 2))).set 7
      (toShort (reg (Emulator.mk M [5, 0, 0, 0, 0, 0, -256, 7, 24576]
      ⟨MNEMONIC_ldr_pop, 0, 15, no_update, immed, toShort (0 * 256 + 5 % 256)⟩ []) pc + 6))).set
      (1 : Int).toNat (reg (Emulator.mk M [5, 0, 0, 0, 0, 0, -256, 7, 24576]
      ⟨MNEMONIC_ldr_pop, 0, 15, no_update, immed, toShort (0 * 256 + 5 % 256)⟩ []) 0)).set 6
      (reg (Emulator.mk M [5, 0, 0, 0, 0, 0, -256, 7, 24576]
      ⟨MNEMONIC_ldr_pop, 0, 15, no_update, immed, toShort (0 * 256 + 5 % 256)⟩ []) sp))
      = [5, 5, 0, 0, 0, 0, -256, 13, 24576] := by simp only [reg_mk]; decide
  dsimp only at s3
  rw [r3] at s3
  rw [emulateLoop_continue 1 _ _ s3]
  -- halt
  have hw : ((reg (Emulator.mk M [5, 0, 0, 0, 0, 0, -256, 7, 24576]
      ⟨MNEMONIC_ldr_pop, 0, 15, no_update, immed, toShort (0 * 256 + 5 % 256)⟩ []) sp - 2)
      % 65536).toNat = 65278 := by rw [reg_mk]; decide
  have hw1 : ((reg (Emulator.mk M [5, 0, 0, 0, 0, 0, -256, 7, 24576]
      ⟨MNEMONIC_ldr_pop, 0, 15, no_update, immed, toShort (0 * 256 + 5 % 256)⟩ []) sp - 2)
      % 65536 + 1).toNat = 65279 := by rw [reg_mk]; decide
  rw [hw, hw1]
  have c4 : holdsAtPc (Emulator.mk ((M.set 65278 (toChar
      (reg (Emulator.mk M [5, 0, 0, 0, 0, 0, -256, 7, 24576]
      ⟨MNEMONIC_ldr_pop, 0, 15, no_update, immed, toShort (0 * 256 + 5 % 256)⟩ []) 0 % 256))).set
      65279 (toChar (reg (Emulator.mk M [5, 0, 0, 0, 0, 0, -256, 7, 24576]
      ⟨MNEMONIC_ldr_pop, 0, 15, no_update, immed, toShort (0 * 256 + 5 % 256)⟩ []) 0 / 256 % 256)))
      [5, 5, 0, 0, 0, 0, -256, 13, 24576]
      ⟨MNEMONIC_ldr_pop, 1, 6, post_increment, regind, 0⟩ []) [0] := by
    refine ⟨by rw [reg_mk]; decide, fun i hi => ?_⟩
    simp only [List.length_cons, List.length_nil] at hi
    show List.getD _ (13 + i) 0 = _
    rw [getD_set_ne _ _ _ _ _ (by omega), getD_set_ne _ _ _ _ _ (by omega), hM _ (by omega)]
    interval_cases i
    rfl
  have s4 := emulateStep_halt _ (by exact rfl) c4
  rw [emulateLoop_halt 0 _ _ s4]
  refine ⟨_, rfl, ?_, ?_, ?_⟩ <;> (simp only [reg_mk]; decide)

end Emulator

namespace Emulator

/-- C24.  Stack round trip.  From a well-typed state without pending error in
which `sp ≠ 1`, `pc` points at the bytes that the assembler emits for
`push rA` followed by those for `pop rB` (A, B in 0..5), and these six bytes
are clear of the two addresses `sp - 2`, `sp - 1` (mod 2^16), two iterations
of the loop of `emulate` succeed and keep running; after the first one `sp`
is `sp - 2` and the memory holds the low byte of `reg[A]` at `sp - 2` and
the high byte at `sp - 1`; after the second one `reg[B]` is the original
`reg[A]`, `sp` is the original `sp`, the other registers among `r0..r5` and
`psw` are as before, `pc` has advanced by 6, and every memory byte other than
those two is as before.  Moreover the run of `emulate` on the image of
`ldr r0,$5`, `push r0`, `pop r1`, `halt` ends successfully with
`r0 = r1 = 5` and `sp = 0xFF00`. -/
theorem push_pop_round_trip (junk : Int) (A B : Fin 6) (e : Emulator)
    (hwt : wellTyped e) (herr : e.emulatingErrors = [])
    (hcode : holdsAtPc e (Assembler.commandBytes junk ("push " ++ Assembler.generalRegister A)
      ++ Assembler.commandBytes junk ("pop " ++ Assembler.generalRegister B)))
    (hsp : reg e sp ≠ 1)
    (hfree : (reg e sp - 2) % 65536 + 1 < reg e pc % 65536
      ∨ reg e pc % 65536 + 6 ≤ (reg e sp - 2) % 65536) :
    ((emulateStep e true).ok = true ∧ (emulateStep e true).running = true
      ∧ reg (emulateStep e true).emulator sp = toShort (reg e sp - 2)
      ∧ (emulateStep e true).emulator.memory.getD ((reg e sp - 2) % 65536).toNat 0
          = toChar (reg e A.val % 256)
      ∧ (emulateStep e true).emulator.memory.getD (((reg e sp - 2) % 65536).toNat + 1) 0
          = toChar (reg e A.val / 256 % 256))
    ∧ ((emulateStep (emulateStep e true).emulator true).ok = true
      ∧ (emulateStep (emulateStep e true).emulator true).running = true
      ∧ reg (emulateStep (emulateStep e true).emulator true).emulator B.val = reg e A.val
      ∧ reg (emulateStep (emulateStep e true).emulator true).emulator sp = reg e sp
      ∧ (∀ j : Fin 6, j ≠ B →
          reg (emulateStep (emulateStep e true).emulator true).emulator j.val = reg e j.val)
      ∧ reg (emulateStep (emulateStep e true).emulator true).emulator psw = reg e psw
      ∧ reg (emulateStep (emulateStep e true).emulator true).emulator pc = toShort (reg e pc + 6)
      ∧ (∀ i, i ≠ ((reg e sp - 2) % 65536).toNat → i ≠ ((reg e sp - 2) % 65536).toNat + 1 →
          (emulateStep (emulateStep e true).emulator true).emulator.memory.getD i 0
            = e.memory.getD i 0))
    ∧ (∃ f, emulate 4 new (pushPopImage junk) = some (f, true)
        ∧ reg f 0 = 5 ∧ reg f 1 = 5 ∧ reg f sp = toShort 0xFF00) := by
  rw [Assembler.commandBytes_push, Assembler.commandBytes_pop] at hcode
  have hA : (0 : Int) ≤ A.val ∧ (A.val : Int) ≤ 5 := by have := A.isLt; omega
  have hB : (0 : Int) ≤ B.val ∧ (B.val : Int) ≤ 5 := by have := B.isLt; omega
  obtain ⟨s1, s2⟩ := push_pop_steps e A.val B.val hA hB hwt herr hcode hsp hfree
  obtain ⟨hlen, hrange, hmlen, hmrange⟩ := hwt
  unfold MEMORY_SIZE at hmlen
  unfold NO_REGISTERS at hlen
  have hs := reg_range e sp hrange
  have hw1 : ((reg e sp - 2) % 65536 + 1).toNat = ((reg e sp - 2) % 65536).toNat + 1 := by omega
  refine ⟨?_, ?_, emulate_pushPopImage junk⟩
  · rw [s1]
    refine ⟨rfl, rfl, ?_, ?_, ?_⟩
    · rw [reg_mk, show sp.toNat = 6 from rfl, getD_set_same _ _ _ _ (by rw [List.length_set]; omega)]
    · show List.getD _ _ _ = _
      rw [hw1, getD_set_ne _ _ _ _ _ (by omega), getD_set_same _ _ _ _ (by omega)]
    · show List.getD _ _ _ = _
      rw [hw1, getD_set_same _ _ _ _ (by rw [List.length_set]; omega)]
  · rw [s2]
    have hBn : ((B.val : Nat) : Int).toNat = B.val := by omega
    refine ⟨rfl, rfl, ?_, ?_, ?_, ?_, ?_, ?_⟩
    · rw [reg_mk, getD_set_ne _ _ _ _ _ (by omega), getD_set_same _ _ _ _ (by
        simp only [List.length_set]; omega)]
    · rw [reg_mk, show sp.toNat = 6 from rfl, getD_set_same _ _ _ _ (by
        simp only [List.length_set]; omega)]
    · intro j hj
      have hjB : (j.val : Nat) ≠ B.val := fun h => hj (Fin.ext h)
      have hjlt := j.isLt
      rw [reg_mk, getD_set_ne _ _ _ _ _ (by omega), getD_set_ne _ _ _ _ _ (by omega),
        getD_set_ne _ _ _ _ _ (by omega), getD_set_ne _ _ _ _ _ (by omega),
        getD_set_ne _ _ _ _ _ (by omega)]
      rfl
    · have hBlt := B.isLt
      rw [reg_mk, show psw.toNat = 8 from rfl, getD_set_ne _ _ _ _ _ (by omega),
        getD_set_ne _ _ _ _ _ (by omega), getD_set_ne _ _ _ _ _ (by omega),
        getD_set_ne _ _ _ _ _ (by omega), getD_set_ne _ _ _ _ _ (by omega)]
      rfl
    · have hBlt := B.isLt
      rw [reg_mk, show pc.toNat = 7 from rfl, getD_set_ne _ _ _ _ _ (by omega),
        getD_set_ne _ _ _ _ _ (by omega), getD_set_same _ _ _ _ (by
          simp only [List.length_set]; omega)]
    · intro i hi1 hi2
      show List.getD _ _ _ = _
      rw [hw1, getD_set_ne _ _ _ _ _ (by omega), getD_set_ne _ _ _ _ _ (by omega)]

end Emulator

namespace Assembler

end Assembler

namespace Assembler

/-- C22 (the claim fails).  After `assemble` on the source `.section text`,
`jmp target`, `halt`, `target: halt`, `.end` the relocation table is not
empty, and the bytes at the section offsets 3 and 4 are `00 06`, not
`00 02`. -/
theorem assemble_forward_jump_relocated :
    (assemble 0 new forwardJumpSource).map
      (fun p => (decide (p.1.relocationTable = []), ((sectionDataOf p.1 "text").drop 3).take 2))
      = some (false, [0, 6]) := by
  decide

/-- C22 (amended).  `assemble` on the source `.section text`, `jmp target`,
`halt`, `target: halt`, `.end` succeeds and writes an object file; the pass
leaves one forward-reference record for `target` (offset 3 of `text`, source
line 2) and no error; `target` is a local symbol at offset 6 of `text`;
backpatching adds exactly one relocation record, for the section `text` at
offset 4, of type `R_HYP_16_C`, against the section symbol `text`; and the
data of `text` is `50 FF 00 00 06 00 00`, the payload bytes at offsets 3 and 4
being `00 06`, the section offset of `target`. -/
theorem assemble_forward_jump :
    (assemble 0 new forwardJumpSource).map (fun p => (p.2.1, p.2.2.isSome, p.1.errorMessages))
      = some (true, true, [])
    ∧ (assemblePass 0 new forwardJumpSource).map
        (fun p => (p.2, p.1.forwardReferenceTable, p.1.relocationTable))
      = some (true, [⟨"text", 3, false, '+', 2, "target"⟩], [])
    ∧ (assemble 0 new forwardJumpSource).map
        (fun p => mapFind SymbolTableRecord.name "target" p.1.symbolTable)
      = some (some ⟨3, 6, true, true, false, "text", "target"⟩)
    ∧ (assemble 0 new forwardJumpSource).map (fun p => p.1.relocationTable)
      = some [⟨"text", 4, "R_HYP_16_C", "text"⟩]
    ∧ (assemble 0 new forwardJumpSource).map (fun p => sectionDataOf p.1 "text")
      = some [0x50, -1, 0, 0, 6, 0, 0] := by
  decide

/-- C23 (the code diverges).  On the source `.section text`, `halt`,
`.section text`, `.end` the pass and the backpatching both return true,
`assemble` returns true and writes the object file, and yet `errorMessages`
holds the message "Symbol is previously defined." for line 3:
`addSectionSymbol` drops the result of `addSymbol`, which has recorded it. -/
theorem assemble_succeeds_with_error_message :
    (assemblePass 0 new reopenedSectionSource).map (fun p => (p.2, p.1.errorMessages))
      = some (true, [(3, "Symbol is previously defined.")])
    ∧ ((assemblePass 0 new reopenedSectionSource).bind (fun p => backpatching p.1)).map
        (fun q => (q.2, q.1.errorMessages))
      = some (true, [(3, "Symbol is previously defined.")])
    ∧ (assemble 0 new reopenedSectionSource).map
        (fun p => (p.2.1, p.2.2.isSome, p.1.errorMessages))
      = some (true, true, [(3, "Symbol is previously defined.")]) := by
  decide

end Assembler

/-! ## Lemmas on backpatching -/

namespace Assembler

end Assembler

namespace Assembler

end Assembler

namespace Assembler

theorem mapFind_of_sectionData (x : Assembler) (sec : String) (n : Nat)
    (h : n < (sectionDataOf x sec).length) :
    ∃ s, mapFind SectionTableRecord.name sec x.sectionTable = some s
      ∧ s.sectionData = sectionDataOf x sec := by
  unfold sectionDataOf at h ⊢
  cases hf : mapFind SectionTableRecord.name sec x.sectionTable with
  | none =>
    rw [hf] at h
    exact absurd h (by simp)
  | some s => exact ⟨s, rfl, rfl⟩

end Assembler

namespace Assembler

end Assembler

namespace Assembler

end Assembler

/-! ## Lemmas on the object file -/

namespace Linker
open Assembler

theorem wordBytes_append (x : Int) (rest : List Int) :
    wordBytes x ++ rest = toChar (x % 256) :: toChar (x / 256 % 256) :: toChar (x / 65536 % 256)
      :: toChar (x / 16777216 % 256) :: rest := rfl

theorem readWord_cons (b0 b1 b2 b3 : Int) (rest : List Int) :
    readWord (b0 :: b1 :: b2 :: b3 :: rest)
      = some ((b0 % 256 + 256 * (b1 % 256) + 65536 * (b2 % 256) + 16777216 * (b3 % 256)).toNat,
          rest) := rfl

theorem readWord_wordBytes (n : Nat) (hn : n < 4294967296) (rest : List Int) :
    readWord (wordBytes n ++ rest) = some (n, rest) := by
  rw [wordBytes_append, readWord_cons]
  have h0 := Emulator.toChar_mod ((n : Int) % 256)
  have h1 := Emulator.toChar_mod ((n : Int) / 256 % 256)
  have h2 := Emulator.toChar_mod ((n : Int) / 65536 % 256)
  have h3 := Emulator.toChar_mod ((n : Int) / 16777216 % 256)
  rw [h0, h1, h2, h3]
  congr 2
  omega

theorem readInt_wordBytes (x : Int) (hx : -2147483648 ≤ x ∧ x < 2147483648) (rest : List Int) :
    readInt (wordBytes x ++ rest) = some (x, rest) := by
  unfold readInt
  rw [wordBytes_append, readWord_cons]
  have h0 := Emulator.toChar_mod (x % 256)
  have h1 := Emulator.toChar_mod (x / 256 % 256)
  have h2 := Emulator.toChar_mod (x / 65536 % 256)
  have h3 := Emulator.toChar_mod (x / 16777216 % 256)
  rw [h0, h1, h2, h3]
  have hv : toInt (((x % 256 % 256 + 256 * (x / 256 % 256 % 256) + 65536 * (x / 65536 % 256 % 256)
      + 16777216 * (x / 16777216 % 256 % 256)).toNat : Nat) : Int) = x := by
    unfold toInt
    omega
  show some (toInt _, rest) = _
  rw [hv]

theorem readBool_boolByte (b : Bool) (rest : List Int) :
    readBool (boolByte b ++ rest) = some (b, rest) := by
  cases b <;> rfl

theorem readChars_append (d rest : List Int) :
    readChars d.length (d ++ rest) = some (d, rest) := by
  unfold readChars
  rw [if_pos (by simp)]
  simp

theorem char_round_trip (c : Char) (h : c.toNat < 256) :
    Char.ofNat ((toChar c.toNat) % 256).toNat = c := by
  have h1 : ((toChar c.toNat) % 256).toNat = c.toNat := by
    rw [Emulator.toChar_mod]
    omega
  rw [h1]
  exact Char.ofNat_toNat c

theorem readString_stringBytes (s : String) (hs : s.length < 4294967296)
    (hc : ∀ c ∈ s.data, c.toNat < 256) (rest : List Int) :
    readString (stringBytes s ++ rest) = some (s, rest) := by
  unfold readString stringBytes
  rw [List.append_assoc, readWord_wordBytes _ hs]
  simp only [Option.some_bind]
  have hl : s.length = (s.data.map (fun c => toChar c.toNat)).length := by
    rw [List.length_map]
    rfl
  rw [hl, readChars_append]
  simp only [Option.map_some', List.map_map]
  congr 2
  have : s.data.map ((fun b => Char.ofNat (b % 256).toNat) ∘ fun c => toChar (c.toNat : Int)) = s.data := by
    conv_rhs => rw [← List.map_id s.data]
    apply List.map_congr_left
    intro c hcm
    exact char_round_trip c (hc c hcm)
  rw [this]

end Linker

namespace Linker
open Assembler

theorem readSection_sectionBytes (s : Assembler.SectionTableRecord) (rest : List Int)
    (hid : s.id < 4294967296) (hlen : s.length < 4294967296)
    (hname : s.name.length < 4294967296 ∧ ∀ c ∈ s.name.data, c.toNat < 256)
    (hdata : s.sectionData.length < 4294967296) :
    readSection (sectionBytes s ++ rest)
      = some (⟨s.id, s.length, s.name, s.sectionData, 0⟩, rest) := by
  unfold readSection sectionBytes
  simp only [List.append_assoc]
  rw [readWord_wordBytes _ hid]
  simp only [Option.some_bind]
  rw [readWord_wordBytes _ hlen]
  simp only [Option.some_bind]
  rw [readString_stringBytes _ hname.1 hname.2]
  simp only [Option.some_bind]
  rw [readWord_wordBytes _ hdata]
  simp only [Option.some_bind]
  rw [readChars_append]
  rfl

theorem readSymbol_symbolBytes (s : Assembler.SymbolTableRecord) (rest : List Int)
    (hid : s.id < 4294967296) (hoff : -2147483648 ≤ s.offset ∧ s.offset < 2147483648)
    (hsec : s.sectionName.length < 4294967296 ∧ ∀ c ∈ s.sectionName.data, c.toNat < 256)
    (hname : s.name.length < 4294967296 ∧ ∀ c ∈ s.name.data, c.toNat < 256) :
    readSymbol (symbolBytes s ++ rest)
      = some (⟨s.id, s.offset, s.isDefined, s.isLocal, s.isExtern, s.sectionName, s.name, ""⟩,
          rest) := by
  unfold readSymbol symbolBytes
  simp only [List.append_assoc]
  rw [readWord_wordBytes _ hid]
  simp only [Option.some_bind]
  rw [readInt_wordBytes _ hoff]
  simp only [Option.some_bind]
  rw [readBool_boolByte]
  simp only [Option.some_bind]
  rw [readBool_boolByte]
  simp only [Option.some_bind]
  rw [readBool_boolByte]
  simp only [Option.some_bind]
  rw [readString_stringBytes _ hsec.1 hsec.2]
  simp only [Option.some_bind]
  rw [readString_stringBytes _ hname.1 hname.2]
  rfl

theorem readRelocation_relocationBytes (r : Assembler.RelocationTableRecord) (rest : List Int)
    (hsec : r.sectionName.length < 4294967296 ∧ ∀ c ∈ r.sectionName.data, c.toNat < 256)
    (hoff : r.offset < 4294967296)
    (htype : r.type.length < 4294967296 ∧ ∀ c ∈ r.type.data, c.toNat < 256)
    (hsym : r.symbol.length < 4294967296 ∧ ∀ c ∈ r.symbol.data, c.toNat < 256) :
    readRelocation (relocationBytes r ++ rest)
      = some (⟨r.sectionName, r.offset, r.type, r.symbol, ""⟩, rest) := by
  unfold readRelocation relocationBytes
  simp only [List.append_assoc]
  rw [readString_stringBytes _ hsec.1 hsec.2]
  simp only [Option.some_bind]
  rw [readWord_wordBytes _ hoff]
  simp only [Option.some_bind]
  rw [readString_stringBytes _ htype.1 htype.2]
  simp only [Option.some_bind]
  rw [readString_stringBytes _ hsym.1 hsym.2]
  rfl

theorem readMany_flatMap {α β : Type} (read : List Int → Option (β × List Int))
    (enc : α → List Int) (f : α → β) :
    ∀ (xs : List α) (rest : List Int),
      (∀ x ∈ xs, ∀ tail, read (enc x ++ tail) = some (f x, tail)) →
      readMany read xs.length (xs.flatMap enc ++ rest) = some (xs.map f, rest) := by
  intro xs
  induction xs with
  | nil =>
    intro rest _
    rfl
  | cons x xs ih =>
    intro rest h
    rw [List.length_cons, readMany, List.flatMap_cons, List.append_assoc,
      h x (List.mem_cons_self _ _)]
    simp only [Option.some_bind]
    rw [ih rest (fun y hy => h y (List.mem_cons_of_mem _ hy))]
    rfl

end Linker

theorem mapInsert_last {α : Type} (key : α → Int) (x : α) (m : List α)
    (h : ∀ y ∈ m, key y < key x) : mapInsert key x m = m ++ [x] := by
  induction m with
  | nil => rfl
  | cons y ys ih =>
    have hy := h y (List.mem_cons_self _ _)
    unfold mapInsert
    rw [if_neg (by omega), if_neg (by omega), ih (fun z hz => h z (List.mem_cons_of_mem _ hz))]
    rfl

theorem foldl_mapInsert_sorted {α : Type} (key : α → Int) (xs : List α) :
    ∀ acc : List α, (acc ++ xs).Pairwise (fun a b => key a < key b) →
      xs.foldl (fun m s => mapInsert key s m) acc = acc ++ xs := by
  induction xs with
  | nil =>
    intro acc _
    simp
  | cons x xs ih =>
    intro acc h
    rw [List.foldl_cons, mapInsert_last key x acc, ih]
    · simp
    · simpa using h
    · intro y hy
      rw [List.pairwise_append] at h
      exact h.2.2 y hy x (List.mem_cons_self _ _)

namespace Linker
open Assembler

theorem sectionTableOrderedByID_facts (a : Assembler)
    (hids : (a.sectionTable.map (fun s => toInt (s.id : Int))).Nodup) :
    (sectionTableOrderedByID a).Perm a.sectionTable
      ∧ (sectionTableOrderedByID a).Pairwise
          (fun s t => toInt (s.id : Int) < toInt (t.id : Int)) := by
  constructor
  · have h := foldl_mapInsert_perm (fun (x : Assembler.SectionTableRecord) => toInt (x.id : Int))
      (fun (s : Assembler.SectionTableRecord) => s) a.sectionTable [] (by simpa using hids)
    simpa using h
  · exact foldl_mapInsert_pairwise (fun (x : Assembler.SectionTableRecord) => toInt (x.id : Int))
      (fun (s : Assembler.SectionTableRecord) => s) a.sectionTable [] List.Pairwise.nil

end Linker

namespace Linker
open Assembler

/-- The reads of the linker on the bytes written for given tables. -/
theorem parse_written (n1 n2 n3 : Nat) (secs : List Assembler.SectionTableRecord)
    (syms : List Assembler.SymbolTableRecord) (rels : List Assembler.RelocationTableRecord)
    (h1 : n1 = secs.length) (h2 : n2 = syms.length) (h3 : n3 = rels.length)
    (hn1 : n1 < 4294967296) (hn2 : n2 < 4294967296) (hn3 : n3 < 4294967296)
    (hsecs : ∀ s ∈ secs, s.id < 4294967296 ∧ s.length < 4294967296
        ∧ isByteString s.name ∧ s.sectionData.length < 4294967296)
    (hsyms : ∀ s ∈ syms, s.id < 4294967296
        ∧ (-2147483648 ≤ s.offset ∧ s.offset < 2147483648)
        ∧ isByteString s.sectionName ∧ isByteString s.name)
    (hrels : ∀ r ∈ rels, isByteString r.sectionName ∧ r.offset < 4294967296
        ∧ isByteString r.type ∧ isByteString r.symbol) :
    parseObjectFile (wordBytes n1 ++ secs.flatMap sectionBytes
        ++ wordBytes n2 ++ syms.flatMap symbolBytes
        ++ wordBytes n3 ++ rels.flatMap relocationBytes)
      = some ⟨secs.map (fun s => ⟨s.id, s.length, s.name, s.sectionData, 0⟩),
          syms.map (fun s =>
            ⟨s.id, s.offset, s.isDefined, s.isLocal, s.isExtern, s.sectionName, s.name, ""⟩),
          rels.map (fun r => ⟨r.sectionName, r.offset, r.type, r.symbol, ""⟩)⟩ := by
  unfold parseObjectFile
  simp only [List.append_assoc]
  rw [readWord_wordBytes _ hn1]
  simp only [Option.some_bind]
  rw [h1, readMany_flatMap readSection sectionBytes
    (fun s => (⟨s.id, s.length, s.name, s.sectionData, 0⟩ : SectionTableRecord)) secs _
    (fun s hs tail => readSection_sectionBytes s tail (hsecs s hs).1 (hsecs s hs).2.1
      (hsecs s hs).2.2.1 (hsecs s hs).2.2.2)]
  simp only [Option.some_bind]
  rw [readWord_wordBytes _ hn2]
  simp only [Option.some_bind]
  rw [h2, readMany_flatMap readSymbol symbolBytes
    (fun s => (⟨s.id, s.offset, s.isDefined, s.isLocal, s.isExtern, s.sectionName, s.name, ""⟩ :
      SymbolTableRecord)) syms _
    (fun s hs tail => readSymbol_symbolBytes s tail (hsyms s hs).1 (hsyms s hs).2.1
      (hsyms s hs).2.2.1 (hsyms s hs).2.2.2)]
  simp only [Option.some_bind]
  rw [readWord_wordBytes _ hn3]
  simp only [Option.some_bind]
  have hr := readMany_flatMap readRelocation relocationBytes
    (fun r => (⟨r.sectionName, r.offset, r.type, r.symbol, ""⟩ : RelocationTableRecord)) rels []
    (fun r hr tail => readRelocation_relocationBytes r tail (hrels r hr).1 (hrels r hr).2.1
      (hrels r hr).2.2.1 (hrels r hr).2.2.2)
  rw [List.append_nil] at hr
  rw [h3, hr]
  rfl

end Linker

namespace Assembler

/-- C30.  Object-file round trip.  For an assembler state whose tables are
typed as in the source and whose section ids are pairwise distinct, the
reads of `Linker::fillOutputTablesFromInputFiles` on the bytes written by
`Assembler::writeBinaryFile` succeed and give: the sections, each with its id,
length, name and data, in the ascending order of the ids, every section of
the table being among them; the symbols, each with its id, offset, the three
flags, section and name, in the order written (the order of the symbol
table); and the relocation records, each with its section, offset, type and
symbol, in the order written.  Writing the tables read gives the same bytes
again. -/
theorem writeBinaryFile_round_trip (a : Assembler) (h : typedTables a) :
    Linker.parseObjectFile (writeBinaryFile a)
      = some ⟨(sectionTableOrderedByID a).map (fun s => ⟨s.id, s.length, s.name, s.sectionData, 0⟩),
          a.symbolTable.map (fun s =>
            ⟨s.id, s.offset, s.isDefined, s.isLocal, s.isExtern, s.sectionName, s.name, ""⟩),
          a.relocationTable.map (fun r => ⟨r.sectionName, r.offset, r.type, r.symbol, ""⟩)⟩
    ∧ (sectionTableOrderedByID a).Perm a.sectionTable
    ∧ (sectionTableOrderedByID a).Pairwise (fun s t => toInt (s.id : Int) < toInt (t.id : Int))
    ∧ ∀ o, Linker.parseObjectFile (writeBinaryFile a) = some o →
        o.sectionRecords = sectionTableOrderedByID a
        ∧ o.symbolRecords = a.symbolTable
        ∧ o.relocationRecords = a.relocationTable
        ∧ writeBinaryFile
            { a with
              sectionTable := o.sectionRecords,
              symbolTable := o.symbolRecords,
              relocationTable := o.relocationRecords }
            = writeBinaryFile a := by
  obtain ⟨hids, hn1, hn2, hn3, hsecs, hsyms, hrels⟩ := h
  obtain ⟨hperm, hsorted⟩ := Linker.sectionTableOrderedByID_facts a hids
  have hparse := Linker.parse_written a.sectionTable.length a.symbolTable.length
    a.relocationTable.length (sectionTableOrderedByID a) a.symbolTable a.relocationTable
    hperm.length_eq.symm rfl rfl (by omega) (by omega) (by omega)
    (fun s hs => hsecs s (hperm.mem_iff.1 hs)) hsyms hrels
  have hparse2 : Linker.parseObjectFile (writeBinaryFile a) = _ := hparse
  refine ⟨hparse2, hperm, hsorted, ?_⟩
  intro o ho
  rw [hparse2, Option.some.injEq] at ho
  subst ho
  have e1 : Linker.ObjectFile.sectionRecords
      ⟨(sectionTableOrderedByID a).map (fun s => ⟨s.id, s.length, s.name, s.sectionData, 0⟩),
        a.symbolTable.map (fun s =>
          ⟨s.id, s.offset, s.isDefined, s.isLocal, s.isExtern, s.sectionName, s.name, ""⟩),
        a.relocationTable.map (fun r => ⟨r.sectionName, r.offset, r.type, r.symbol, ""⟩)⟩
      = sectionTableOrderedByID a := by
    unfold Linker.ObjectFile.sectionRecords
    simp only [List.map_map]
    conv_rhs => rw [← List.map_id (sectionTableOrderedByID a)]
    rfl
  have e2 : Linker.ObjectFile.symbolRecords
      ⟨(sectionTableOrderedByID a).map (fun s => ⟨s.id, s.length, s.name, s.sectionData, 0⟩),
        a.symbolTable.map (fun s =>
          ⟨s.id, s.offset, s.isDefined, s.isLocal, s.isExtern, s.sectionName, s.name, ""⟩),
        a.relocationTable.map (fun r => ⟨r.sectionName, r.offset, r.type, r.symbol, ""⟩)⟩
      = a.symbolTable := by
    unfold Linker.ObjectFile.symbolRecords
    simp only [List.map_map]
    conv_rhs => rw [← List.map_id a.symbolTable]
    rfl
  have e3 : Linker.ObjectFile.relocationRecords
      ⟨(sectionTableOrderedByID a).map (fun s => ⟨s.id, s.length, s.name, s.sectionData, 0⟩),
        a.symbolTable.map (fun s =>
          ⟨s.id, s.offset, s.isDefined, s.isLocal, s.isExtern, s.sectionName, s.name, ""⟩),
        a.relocationTable.map (fun r => ⟨r.sectionName, r.offset, r.type, r.symbol, ""⟩)⟩
      = a.relocationTable := by
    unfold Linker.ObjectFile.relocationRecords
    simp only [List.map_map]
    conv_rhs => rw [← List.map_id a.relocationTable]
    rfl
  refine ⟨e1, e2, e3, ?_⟩
  rw [e1, e2, e3]
  have hsame : sectionTableOrderedByID
      { a with
        sectionTable := sectionTableOrderedByID a,
        symbolTable := a.symbolTable,
        relocationTable := a.relocationTable }
      = sectionTableOrderedByID a := by
    have := foldl_mapInsert_sorted (fun (x : Assembler.SectionTableRecord) => toInt (x.id : Int))
      (sectionTableOrderedByID a) [] (by simpa using hsorted)
    simpa [sectionTableOrderedByID] using this
  unfold writeBinaryFile
  rw [hsame]
  show wordBytes ((sectionTableOrderedByID a).length : Nat) ++ _ ++ _ ++ _ ++ _ ++ _ = _
  rw [hperm.length_eq]

end Assembler

namespace Emulator

theorem commandExecute_jump_witness :
    evaluateJumpCondition jgtAfterNegative = false
      ∧ commandExecute jgtAfterNegative true = ⟨jgtAfterNegative, true, true⟩ :=
  ⟨by decide, (commandExecute_jump jgtAfterNegative true (Or.inr (Or.inr (Or.inr rfl)))
    (by decide) rfl rfl).2.2 (by decide)⟩

theorem commandExecute_cmp_witness :
    bitAt (reg (commandExecute (beforeCmp 7 7) true).emulator psw) 0 = true :=
  (commandExecute_cmp (beforeCmp 7 7) true rfl rfl (by decide)).2.2.2.2.1.2 rfl

theorem commandExecute_div_witness :
    (commandExecute (beforeDiv 7 0) true).ok = false
      ∧ reg (commandExecute (beforeDiv (-7) 2) true).emulator 0 = -3 :=
  ⟨(commandExecute_div (beforeDiv 7 0) true rfl rfl (by decide)).1.2 (by decide),
    ((commandExecute_div (beforeDiv (-7) 2) true rfl rfl (by decide)).2.2 (by decide)).2.1.trans
      (by decide)⟩

end Emulator

namespace Emulator

theorem getD_append_right_replicate (xs ys : List Int) (i : Nat) (h : xs.length ≤ i) :
    (xs ++ ys).getD i 0 = ys.getD (i - xs.length) 0 := by
  simp only [List.getD_eq_getElem?_getD, List.getElem?_append_right h]

/-- The word that `int r0` reads in the state `beforeInt`. -/
theorem readFromMemory_beforeInt :
    readFromMemory (pushOnStack (pushOnStack beforeInt (reg beforeInt pc)) (reg beforeInt psw))
      (2 * (reg beforeInt beforeInt.cd.rDst % 8) + 65520) WORD LITTLE_ENDIAN_ORDER = 0x40 := by
  have ha : 2 * (reg beforeInt beforeInt.cd.rDst % 8) + 65520 = 65534 := by decide
  rw [ha]
  unfold readFromMemory
  simp only [LITTLE_ENDIAN_ORDER, WORD, if_true]
  have hm : (pushOnStack (pushOnStack beforeInt (reg beforeInt pc)) (reg beforeInt psw)).memory
      = (((beforeInt.memory.set 65278 0).set 65279 1).set 65276 0).set 65277 96 := by
    unfold pushOnStack writeToMemory
    simp only [WORD, BYTE]
    rfl
  rw [hm]
  have hmem : beforeInt.memory
      = List.replicate 14 0 ++ [0x20, 0] ++ List.replicate 65518 0 ++ [0x40, 0] := rfl
  have hl : (List.replicate 14 (0 : Int) ++ [0x20, 0] ++ List.replicate 65518 0).length
      = 65534 := by
    simp only [List.length_append, List.length_replicate, List.length_cons, List.length_nil]
  have h0 : ((((beforeInt.memory.set 65278 0).set 65279 1).set 65276 0).set 65277 96).getD
      (65534 : Int).toNat 0 = 0x40 := by
    rw [show (65534 : Int).toNat = 65534 from rfl, getD_set_ne _ _ _ _ _ (by decide),
      getD_set_ne _ _ _ _ _ (by decide), getD_set_ne _ _ _ _ _ (by decide),
      getD_set_ne _ _ _ _ _ (by decide)]
    rw [hmem, getD_append_right_replicate _ _ _ (by rw [hl]), hl]
    rfl
  have h1 : ((((beforeInt.memory.set 65278 0).set 65279 1).set 65276 0).set 65277 96).getD
      ((65534 : Int) + 1).toNat 0 = 0 := by
    rw [show ((65534 : Int) + 1).toNat = 65535 from rfl, getD_set_ne _ _ _ _ _ (by decide),
      getD_set_ne _ _ _ _ _ (by decide), getD_set_ne _ _ _ _ _ (by decide),
      getD_set_ne _ _ _ _ _ (by decide)]
    rw [hmem, getD_append_right_replicate _ _ _ (by rw [hl]; decide), hl]
    rfl
  rw [h0, h1]
  decide

theorem commandExecute_int_negative_entry_witness :
    reg beforeInt 0 = -1
      ∧ readFromMemory beforeInt 14 WORD LITTLE_ENDIAN_ORDER = 0x20
      ∧ reg (commandExecute beforeInt true).emulator sp = toShort (reg beforeInt sp - 4)
      ∧ reg (commandExecute beforeInt true).emulator pc = 0x40 :=
  ⟨by decide, by decide,
    (commandExecute_int_negative_entry beforeInt true rfl rfl (by decide) (by decide)
      (by decide)).2.2.1,
    (commandExecute_int_negative_entry beforeInt true rfl rfl (by decide) (by decide)
      (by decide)).2.2.2.2.2.trans readFromMemory_beforeInt⟩

end Emulator

namespace Emulator

theorem wellTyped_pushPopState : wellTyped pushPopState := by
  have hmem : pushPopState.memory
      = [-80, 6, 18, -96, 22, 66] ++ List.replicate 65530 (0 : Int) := rfl
  have hsmall : ∀ b ∈ ([-80, 6, 18, -96, 22, 66] : List Int), -128 ≤ b ∧ b < 128 := by decide
  have hlen : ([-80, 6, 18, -96, 22, 66] ++ List.replicate 65530 (0 : Int)).length = 65536 := by
    rw [List.length_append, List.length_replicate]
    rfl
  refine ⟨rfl, by decide, ?_, ?_⟩
  · rw [hmem, hlen]
    exact Nat.le_refl _
  · intro b hb
    rw [hmem, List.mem_append] at hb
    rcases hb with h | h
    · exact hsmall b h
    · rw [List.eq_of_mem_replicate h]
      decide

theorem holdsAtPc_pushPopState (junk : Int) :
    holdsAtPc pushPopState
      (Assembler.commandBytes junk ("push " ++ Assembler.generalRegister 0)
        ++ Assembler.commandBytes junk ("pop " ++ Assembler.generalRegister 1)) := by
  rw [Assembler.commandBytes_push, Assembler.commandBytes_pop]
  refine ⟨by decide, fun i hi => ?_⟩
  simp only [List.length_append, List.length_cons, List.length_nil] at hi
  show ([-80, 6, 18, -96, 22, 66] ++ List.replicate 65530 (0 : Int)).getD (0 + i) 0 = _
  rw [getD_append_replicate _ _ _ (by simp only [List.length_cons, List.length_nil]; omega)]
  interval_cases i <;> rfl

theorem push_pop_round_trip_witness :
    reg pushPopState 0 = 7
      ∧ reg (emulateStep (emulateStep pushPopState true).emulator true).emulator 1 = 7
      ∧ reg (emulateStep (emulateStep pushPopState true).emulator true).emulator sp
          = reg pushPopState sp :=
  ⟨by decide,
    (push_pop_round_trip 0 0 1 pushPopState wellTyped_pushPopState rfl
      (holdsAtPc_pushPopState 0) (by decide) (Or.inr (by decide))).2.1.2.2.1.trans (by decide),
    (push_pop_round_trip 0 0 1 pushPopState wellTyped_pushPopState rfl
      (holdsAtPc_pushPopState 0) (by decide) (Or.inr (by decide))).2.1.2.2.2.1⟩

end Emulator

namespace Assembler

theorem typedTables_afterForwardJump : typedTables afterForwardJump := by
  unfold typedTables isByteString
  refine ⟨by decide, by decide, by decide, by decide, ?_, ?_, ?_⟩
  · decide
  · decide
  · decide

theorem writeBinaryFile_round_trip_witness :
    (Linker.parseObjectFile (writeBinaryFile afterForwardJump)).map
        (fun o => o.sections.map (fun s => (s.id, s.name, s.sectionData)))
      = some [(0, "UNDEF", []), (1, "ABS", []), (2, "text", [80, -1, 0, 0, 6, 0, 0])]
    ∧ (Linker.parseObjectFile (writeBinaryFile afterForwardJump)).map
        (fun o => o.relocations.map (fun r => (r.sectionName, r.offset, r.symbol)))
      = some [("text", 4, "text")] := by
  have h := (writeBinaryFile_round_trip afterForwardJump typedTables_afterForwardJump).1
  rw [h]
  constructor
  · decide
  · decide

end Assembler

/-! ## Shifts, and `jgt` after `cmp` -/

theorem bitAnd_one (x : Int) : bitAnd x 1 = x % 2 := by
  unfold bitAnd
  have h1 : toUnsigned 1 = 1 := by decide
  rw [h1, Nat.and_one_is_mod]
  unfold toInt toUnsigned
  push_cast
  omega

namespace Emulator

theorem bitAt_zero_iff (x : Int) : bitAt x 0 = true ↔ x % 2 = 1 := by
  unfold bitAt
  simp

theorem bitAt_ediv_pow (x : Int) (k : Nat) : bitAt (x / 2 ^ k) 0 = bitAt x k := by
  unfold bitAt
  simp

theorem commandExecute_shift_eq (e : Emulator) (running : Bool)
    (hm : e.cd.mnemonic = MNEMONIC_shl ∨ e.cd.mnemonic = MNEMONIC_shr) :
    commandExecute e running
      = ⟨setReg (updatePswFlags e
            (if e.cd.mnemonic = MNEMONIC_shl then
              toShort (shiftLeft (reg e e.cd.rDst) (reg e e.cd.rSrc))
            else toShort (shiftRight (reg e e.cd.rDst) (reg e e.cd.rSrc))))
          (updatePswFlags e
            (if e.cd.mnemonic = MNEMONIC_shl then
              toShort (shiftLeft (reg e e.cd.rDst) (reg e e.cd.rSrc))
            else toShort (shiftRight (reg e e.cd.rDst) (reg e e.cd.rSrc)))).cd.rDst
          (if e.cd.mnemonic = MNEMONIC_shl then
              toShort (shiftLeft (reg e e.cd.rDst) (reg e e.cd.rSrc))
            else toShort (shiftRight (reg e e.cd.rDst) (reg e e.cd.rSrc))), running, true⟩ := by
  unfold commandExecute
  rcases hm with hm | hm
  · rw [hm]
    simp only [show MNEMONIC_shl ≠ MNEMONIC_halt by decide, show MNEMONIC_shl ≠ MNEMONIC_int by decide,
      show MNEMONIC_shl ≠ MNEMONIC_iret by decide, show MNEMONIC_shl ≠ MNEMONIC_call by decide,
      show MNEMONIC_shl ≠ MNEMONIC_ret by decide, show MNEMONIC_shl ≠ MNEMONIC_jmp by decide,
      show MNEMONIC_shl ≠ MNEMONIC_jeq by decide, show MNEMONIC_shl ≠ MNEMONIC_jne by decide,
      show MNEMONIC_shl ≠ MNEMONIC_jgt by decide, show MNEMONIC_shl ≠ MNEMONIC_xchg by decide,
      show MNEMONIC_shl ≠ MNEMONIC_add by decide, show MNEMONIC_shl ≠ MNEMONIC_sub by decide,
      show MNEMONIC_shl ≠ MNEMONIC_mul by decide, show MNEMONIC_shl ≠ MNEMONIC_div by decide,
      show MNEMONIC_shl ≠ MNEMONIC_cmp by decide, show MNEMONIC_shl ≠ MNEMONIC_not by decide,
      show MNEMONIC_shl ≠ MNEMONIC_and by decide, show MNEMONIC_shl ≠ MNEMONIC_or by decide,
      show MNEMONIC_shl ≠ MNEMONIC_xor by decide, show MNEMONIC_shl ≠ MNEMONIC_test by decide,
      if_false, or_self, if_true, true_or]
  · rw [hm]
    simp only [show MNEMONIC_shr ≠ MNEMONIC_halt by decide, show MNEMONIC_shr ≠ MNEMONIC_int by decide,
      show MNEMONIC_shr ≠ MNEMONIC_iret by decide, show MNEMONIC_shr ≠ MNEMONIC_call by decide,
      show MNEMONIC_shr ≠ MNEMONIC_ret by decide, show MNEMONIC_shr ≠ MNEMONIC_jmp by decide,
      show MNEMONIC_shr ≠ MNEMONIC_jeq by decide, show MNEMONIC_shr ≠ MNEMONIC_jne by decide,
      show MNEMONIC_shr ≠ MNEMONIC_jgt by decide, show MNEMONIC_shr ≠ MNEMONIC_xchg by decide,
      show MNEMONIC_shr ≠ MNEMONIC_add by decide, show MNEMONIC_shr ≠ MNEMONIC_sub by decide,
      show MNEMONIC_shr ≠ MNEMONIC_mul by decide, show MNEMONIC_shr ≠ MNEMONIC_div by decide,
      show MNEMONIC_shr ≠ MNEMONIC_cmp by decide, show MNEMONIC_shr ≠ MNEMONIC_not by decide,
      show MNEMONIC_shr ≠ MNEMONIC_and by decide, show MNEMONIC_shr ≠ MNEMONIC_or by decide,
      show MNEMONIC_shr ≠ MNEMONIC_xor by decide, show MNEMONIC_shr ≠ MNEMONIC_test by decide,
      show MNEMONIC_shr ≠ MNEMONIC_shl by decide,
      if_false, or_self, if_true, or_true]

/-- The carry test of `updatePswFlags` for a shift: `(op1 >> (16 - op2)) & 1` for
`shl`, `(op1 >> (op2 - 1)) & 1` for `shr`. -/
theorem updatePswFlags_shift (e : Emulator) (result : Int)
    (hm : e.cd.mnemonic = MNEMONIC_shl ∨ e.cd.mnemonic = MNEMONIC_shr)
    (hlen : e.registers.length = NO_REGISTERS)
    (hD : 0 ≤ e.cd.rDst ∧ e.cd.rDst ≠ psw) (hS : 0 ≤ e.cd.rSrc ∧ e.cd.rSrc ≠ psw) :
    updatePswFlags e result =
      (if bitAnd (shiftRight (reg e e.cd.rDst)
            (if e.cd.mnemonic = MNEMONIC_shl then 16 - reg e e.cd.rSrc else reg e e.cd.rSrc - 1)) 1 ≠ 0
        then
          setFlag (if result < 0 then
            setFlag (if result = 0 then setFlag e FLAG_z else clearFlag e FLAG_z) FLAG_n
            else clearFlag (if result = 0 then setFlag e FLAG_z else clearFlag e FLAG_z) FLAG_n)
            FLAG_c
        else
          clearFlag (if result < 0 then
            setFlag (if result = 0 then setFlag e FLAG_z else clearFlag e FLAG_z) FLAG_n
            else clearFlag (if result = 0 then setFlag e FLAG_z else clearFlag e FLAG_z) FLAG_n)
            FLAG_c) := by
  have s1 := flag_step e FLAG_z (result = 0) hlen
  have s2 := flag_step _ FLAG_n (result < 0) s1.1
  have hcd : (if result < 0 then
      setFlag (if result = 0 then setFlag e FLAG_z else clearFlag e FLAG_z) FLAG_n
      else clearFlag (if result = 0 then setFlag e FLAG_z else clearFlag e FLAG_z) FLAG_n).cd
        = e.cd := by
    rw [s2.2.2.1, s1.2.2.1]
  have hregs : ∀ j, 0 ≤ j → j ≠ psw → reg (if result < 0 then
      setFlag (if result = 0 then setFlag e FLAG_z else clearFlag e FLAG_z) FLAG_n
      else clearFlag (if result = 0 then setFlag e FLAG_z else clearFlag e FLAG_z) FLAG_n) j
        = reg e j := by
    intro j hj hne
    rw [s2.2.2.2.2.1 j hj hne, s1.2.2.2.2.1 j hj hne]
  unfold updatePswFlags
  simp only [hcd, hregs _ hD.1 hD.2, hregs _ hS.1 hS.2]
  rcases hm with hm | hm
  · simp only [hm, show MNEMONIC_shl ≠ MNEMONIC_cmp by decide, if_false, if_true]
  · simp only [hm, show MNEMONIC_shr ≠ MNEMONIC_cmp by decide,
      show MNEMONIC_shr ≠ MNEMONIC_shl by decide, if_false, if_true]

end Emulator

theorem toShort_toInt (z : Int) : toShort (toInt z) = toShort z := by
  unfold toShort toInt
  omega

namespace Emulator

/-- The carry condition of a shift read as a bit of the first operand. -/
theorem carry_condition (d : Int) (k : Int) (hk : 0 ≤ k ∧ k < 32) :
    (bitAnd (shiftRight d k) 1 ≠ 0) ↔ bitAt d k.toNat = true := by
  rw [bitAnd_one]
  unfold shiftRight bitAt
  have hk2 : (k % 32).toNat = k.toNat := by
    have : k % 32 = k := Int.emod_eq_of_lt hk.1 hk.2
    rw [this]
  rw [hk2, decide_eq_true_eq]
  omega

/-- The state and flags after the flag update of a shift. -/
theorem updatePswFlags_shift_facts (e : Emulator) (result : Int)
    (hm : e.cd.mnemonic = MNEMONIC_shl ∨ e.cd.mnemonic = MNEMONIC_shr)
    (hlen : e.registers.length = NO_REGISTERS)
    (hD : 0 ≤ e.cd.rDst ∧ e.cd.rDst ≠ psw) (hS : 0 ≤ e.cd.rSrc ∧ e.cd.rSrc ≠ psw) :
    (updatePswFlags e result).registers.length = NO_REGISTERS
    ∧ (updatePswFlags e result).memory = e.memory
    ∧ (updatePswFlags e result).cd = e.cd
    ∧ (updatePswFlags e result).emulatingErrors = e.emulatingErrors
    ∧ (∀ j, 0 ≤ j → j ≠ psw → reg (updatePswFlags e result) j = reg e j)
    ∧ (bitAt (reg (updatePswFlags e result) psw) 0 = true ↔ result = 0)
    ∧ (bitAt (reg (updatePswFlags e result) psw) 3 = true ↔ result < 0)
    ∧ (bitAt (reg (updatePswFlags e result) psw) 2 = true ↔
        bitAnd (shiftRight (reg e e.cd.rDst)
          (if e.cd.mnemonic = MNEMONIC_shl then 16 - reg e e.cd.rSrc
            else reg e e.cd.rSrc - 1)) 1 ≠ 0)
    ∧ bitAt (reg (updatePswFlags e result) psw) 1 = bitAt (reg e psw) 1
    ∧ (∀ k, 4 ≤ k → k < 16 →
        bitAt (reg (updatePswFlags e result) psw) k = bitAt (reg e psw) k) := by
  rw [updatePswFlags_shift e result hm hlen hD hS]
  have s1 := flag_step e FLAG_z (result = 0) hlen
  have s2 := flag_step _ FLAG_n (result < 0) s1.1
  have s3 := flag_step _ FLAG_c (bitAnd (shiftRight (reg e e.cd.rDst)
          (if e.cd.mnemonic = MNEMONIC_shl then 16 - reg e e.cd.rSrc
            else reg e e.cd.rSrc - 1)) 1 ≠ 0) s2.1
  refine ⟨s3.1, ?_, ?_, ?_, ?_, ?_, ?_, ?_, ?_, ?_⟩
  · rw [s3.2.1, s2.2.1, s1.2.1]
  · rw [s3.2.2.1, s2.2.2.1, s1.2.2.1]
  · rw [s3.2.2.2.1, s2.2.2.2.1, s1.2.2.2.1]
  · intro j hj hne
    rw [s3.2.2.2.2.1 j hj hne, s2.2.2.2.2.1 j hj hne, s1.2.2.2.2.1 j hj hne]
  · rw [s3.2.2.2.2.2 0 (by decide), s2.2.2.2.2.2 0 (by decide), s1.2.2.2.2.2 0 (by decide)]
    have k1 : bitAt FLAG_z 0 = true := by decide
    have k2 : bitAt (bitNot FLAG_z) 0 = false := by decide
    have k3 : bitAt FLAG_n 0 = false := by decide
    have k4 : bitAt (bitNot FLAG_n) 0 = true := by decide
    have k5 : bitAt FLAG_c 0 = false := by decide
    have k6 : bitAt (bitNot FLAG_c) 0 = true := by decide
    simp only [k1, k2, k3, k4, k5, k6, Bool.or_false, Bool.and_true, ite_self,
      Bool.or_true, Bool.and_false]
    by_cases h0 : result = 0
    · simp [h0]
    · simp [h0]
  · rw [s3.2.2.2.2.2 3 (by decide), s2.2.2.2.2.2 3 (by decide), s1.2.2.2.2.2 3 (by decide)]
    have k3 : bitAt FLAG_n 3 = true := by decide
    have k4 : bitAt (bitNot FLAG_n) 3 = false := by decide
    have k5 : bitAt FLAG_c 3 = false := by decide
    have k6 : bitAt (bitNot FLAG_c) 3 = true := by decide
    simp only [k3, k4, k5, k6, Bool.or_false, Bool.and_true, ite_self,
      Bool.or_true, Bool.and_false]
    by_cases h0 : result < 0
    · simp [h0]
    · simp [h0]
  · rw [s3.2.2.2.2.2 2 (by decide)]
    have k5 : bitAt FLAG_c 2 = true := by decide
    have k6 : bitAt (bitNot FLAG_c) 2 = false := by decide
    simp only [k5, k6, Bool.or_true, Bool.and_false]
    by_cases h0 : bitAnd (shiftRight (reg e e.cd.rDst)
          (if e.cd.mnemonic = MNEMONIC_shl then 16 - reg e e.cd.rSrc
            else reg e e.cd.rSrc - 1)) 1 ≠ 0
    · simp [h0]
    · simp [h0]
  · rw [s3.2.2.2.2.2 1 (by decide), s2.2.2.2.2.2 1 (by decide), s1.2.2.2.2.2 1 (by decide)]
    have k1 : bitAt FLAG_z 1 = false := by decide
    have k2 : bitAt (bitNot FLAG_z) 1 = true := by decide
    have k3 : bitAt FLAG_n 1 = false := by decide
    have k4 : bitAt (bitNot FLAG_n) 1 = true := by decide
    have k5 : bitAt FLAG_c 1 = false := by decide
    have k6 : bitAt (bitNot FLAG_c) 1 = true := by decide
    simp only [k1, k2, k3, k4, k5, k6, Bool.or_false, Bool.and_true, ite_self]
  · intro k hk4 hk16
    rw [s3.2.2.2.2.2 k hk16, s2.2.2.2.2.2 k hk16, s1.2.2.2.2.2 k hk16]
    have k1 : bitAt FLAG_z k = false ∧ bitAt (bitNot FLAG_z) k = true
        ∧ bitAt FLAG_n k = false ∧ bitAt (bitNot FLAG_n) k = true
        ∧ bitAt FLAG_c k = false ∧ bitAt (bitNot FLAG_c) k = true := by
      interval_cases k <;> decide
    obtain ⟨a1, a2, a3, a4, a5, a6⟩ := k1
    simp only [a1, a2, a3, a4, a5, a6, Bool.or_false, Bool.and_true, ite_self]

end Emulator

namespace Emulator

/-- C36.  Execution of a decoded `shl rDst,rSrc` or `shr rDst,rSrc` on registers
other than `psw` that hold `short` values, the count `s = reg[rSrc]` being in
1..15: the call succeeds and changes no memory byte and no register other than
`rDst` and `psw`; `reg[rDst]` becomes the `short` with the bits of
`reg[rDst] * 2^s` modulo 2^16 for `shl`, and `reg[rDst]` shifted right by `s`
with the sign kept (the quotient by `2^s` rounded down) for `shr`; Z (bit 0 of
`psw`) is set exactly when that result is 0, N (bit 3) exactly when bit 15 of
the result is set, C (bit 2) is bit `16 - s` of the original `reg[rDst]` for
`shl` and bit `s - 1` for `shr`, and O (bit 1) and bits 4 to 15 of `psw` are as
before. -/
theorem commandExecute_shift (e : Emulator) (running : Bool)
    (hm : e.cd.mnemonic = MNEMONIC_shl ∨ e.cd.mnemonic = MNEMONIC_shr)
    (hlen : e.registers.length = NO_REGISTERS)
    (hrange : ∀ r ∈ e.registers, -32768 ≤ r ∧ r < 32768)
    (hD : 0 ≤ e.cd.rDst ∧ e.cd.rDst ≤ 7) (hS : 0 ≤ e.cd.rSrc ∧ e.cd.rSrc ≤ 7)
    (hs : 1 ≤ reg e e.cd.rSrc ∧ reg e e.cd.rSrc ≤ 15) :
    (commandExecute e running).ok = true
    ∧ (commandExecute e running).running = running
    ∧ (commandExecute e running).emulator.memory = e.memory
    ∧ (∀ j, 0 ≤ j → j ≠ psw → j ≠ e.cd.rDst →
        reg (commandExecute e running).emulator j = reg e j)
    ∧ (e.cd.mnemonic = MNEMONIC_shl →
        reg (commandExecute e running).emulator e.cd.rDst
            = toShort (reg e e.cd.rDst * 2 ^ (reg e e.cd.rSrc).toNat)
        ∧ reg (commandExecute e running).emulator e.cd.rDst % 65536
            = (reg e e.cd.rDst * 2 ^ (reg e e.cd.rSrc).toNat) % 65536
        ∧ bitAt (reg (commandExecute e running).emulator psw) 2
            = bitAt (reg e e.cd.rDst) (16 - (reg e e.cd.rSrc).toNat))
    ∧ (e.cd.mnemonic = MNEMONIC_shr →
        reg (commandExecute e running).emulator e.cd.rDst
            = reg e e.cd.rDst / 2 ^ (reg e e.cd.rSrc).toNat
        ∧ bitAt (reg (commandExecute e running).emulator psw) 2
            = bitAt (reg e e.cd.rDst) ((reg e e.cd.rSrc).toNat - 1))
    ∧ (bitAt (reg (commandExecute e running).emulator psw) 0 = true
        ↔ reg (commandExecute e running).emulator e.cd.rDst = 0)
    ∧ (bitAt (reg (commandExecute e running).emulator psw) 3 = true
        ↔ bitAt (reg (commandExecute e running).emulator e.cd.rDst) 15 = true)
    ∧ bitAt (reg (commandExecute e running).emulator psw) 1 = bitAt (reg e psw) 1
    ∧ (∀ k, 4 ≤ k → k < 16 →
        bitAt (reg (commandExecute e running).emulator psw) k = bitAt (reg e psw) k) := by
  have hDp : 0 ≤ e.cd.rDst ∧ e.cd.rDst ≠ psw := ⟨hD.1, by unfold psw; omega⟩
  have hSp : 0 ≤ e.cd.rSrc ∧ e.cd.rSrc ≠ psw := ⟨hS.1, by unfold psw; omega⟩
  have hD9 : 0 ≤ e.cd.rDst ∧ e.cd.rDst < 9 := ⟨hD.1, by omega⟩
  rw [commandExecute_shift_eq e running hm]
  generalize htmp : (if e.cd.mnemonic = MNEMONIC_shl then
      toShort (shiftLeft (reg e e.cd.rDst) (reg e e.cd.rSrc))
    else toShort (shiftRight (reg e e.cd.rDst) (reg e e.cd.rSrc))) = tmp
  obtain ⟨ulen, umem, ucd, -, uregs, uz, un, uc, uo, uk⟩ :=
    updatePswFlags_shift_facts e tmp hm hlen hDp hSp
  have hd := reg_range e e.cd.rDst hrange
  have htr : -32768 ≤ tmp ∧ tmp < 32768 := by
    rw [← htmp]
    split_ifs
    · exact toShort_range _
    · exact toShort_range _
  have htt : toShort tmp = tmp := by
    unfold toShort
    omega
  have hpsw : reg (setReg (updatePswFlags e tmp) (updatePswFlags e tmp).cd.rDst tmp) psw
      = reg (updatePswFlags e tmp) psw := by
    rw [ucd, reg_setReg _ _ _ _ ulen hD9 (by decide), if_neg (Ne.symm hDp.2)]
  have hdst : reg (setReg (updatePswFlags e tmp) (updatePswFlags e tmp).cd.rDst tmp) e.cd.rDst
      = tmp := by
    rw [ucd, reg_setReg _ _ _ _ ulen hD9 hD.1, if_pos rfl, htt]
  have hsn : ((reg e e.cd.rSrc) % 32).toNat = (reg e e.cd.rSrc).toNat := by
    have : reg e e.cd.rSrc % 32 = reg e e.cd.rSrc := Int.emod_eq_of_lt (by omega) (by omega)
    rw [this]
  have hpow : (0 : Int) < 2 ^ (reg e e.cd.rSrc).toNat := by positivity
  show true = true ∧ running = running ∧ _
  rw [hpsw, hdst]
  refine ⟨rfl, rfl, ?_, ?_, ?_, ?_, uz, ?_, uo, uk⟩
  · show (setReg _ _ _).memory = _
    rw [memory_setReg, umem]
  · intro j hj hne hne2
    rw [ucd, reg_setReg _ _ _ _ ulen hD9 hj, if_neg hne2, uregs j hj hne]
  · intro hshl
    have ht : tmp = toShort (reg e e.cd.rDst * 2 ^ (reg e e.cd.rSrc).toNat) := by
      rw [← htmp, if_pos hshl]
      unfold shiftLeft
      rw [hsn, toShort_toInt]
    refine ⟨ht, ?_, ?_⟩
    · rw [ht]
      unfold toShort
      omega
    · have hc := uc
      rw [if_pos hshl, carry_condition _ _ (by omega)] at hc
      have hn : (16 - reg e e.cd.rSrc).toNat = 16 - (reg e e.cd.rSrc).toNat := by omega
      rw [hn] at hc
      exact Bool.eq_iff_iff.2 hc
  · intro hshr
    have hne : e.cd.mnemonic ≠ MNEMONIC_shl := by
      rw [hshr]
      decide
    have hlo : -32768 ≤ reg e e.cd.rDst / 2 ^ (reg e e.cd.rSrc).toNat :=
      Int.le_ediv_of_mul_le hpow (by nlinarith [hd.1, hd.2])
    have hhi : reg e e.cd.rDst / 2 ^ (reg e e.cd.rSrc).toNat < 32768 :=
      Int.ediv_lt_of_lt_mul hpow (by nlinarith [hd.1, hd.2])
    have ht : tmp = reg e e.cd.rDst / 2 ^ (reg e e.cd.rSrc).toNat := by
      rw [← htmp, if_neg hne]
      unfold shiftRight
      rw [hsn]
      unfold toShort
      omega
    refine ⟨ht, ?_⟩
    have hc := uc
    rw [if_neg hne, carry_condition _ _ (by omega)] at hc
    have hn : (reg e e.cd.rSrc - 1).toNat = (reg e e.cd.rSrc).toNat - 1 := by omega
    rw [hn] at hc
    exact Bool.eq_iff_iff.2 hc
  · rw [un]
    unfold bitAt
    rw [decide_eq_true_eq]
    norm_num
    omega

/-- C31 (the code diverges).  Execution of a decoded `shl rDst,rSrc` on
registers other than `psw` that hold `short` values, with `reg[rSrc] = 0`: the
call succeeds and `reg[rDst]` is as before, but C (bit 2 of `psw`) is set
exactly when `reg[rDst]` is negative, the test `(op1 >> (16 - op2)) & 1`
reading the sign of the promoted operand; it is cleared only for the values
from 0 to 32767. -/
theorem commandExecute_shl_zero (e : Emulator) (running : Bool)
    (hm : e.cd.mnemonic = MNEMONIC_shl)
    (hlen : e.registers.length = NO_REGISTERS)
    (hrange : ∀ r ∈ e.registers, -32768 ≤ r ∧ r < 32768)
    (hD : 0 ≤ e.cd.rDst ∧ e.cd.rDst ≤ 7) (hS : 0 ≤ e.cd.rSrc ∧ e.cd.rSrc ≤ 7)
    (hs : reg e e.cd.rSrc = 0) :
    (commandExecute e running).ok = true
    ∧ reg (commandExecute e running).emulator e.cd.rDst = reg e e.cd.rDst
    ∧ (bitAt (reg (commandExecute e running).emulator psw) 2 = true ↔ reg e e.cd.rDst < 0) := by
  have hDp : 0 ≤ e.cd.rDst ∧ e.cd.rDst ≠ psw := ⟨hD.1, by unfold psw; omega⟩
  have hSp : 0 ≤ e.cd.rSrc ∧ e.cd.rSrc ≠ psw := ⟨hS.1, by unfold psw; omega⟩
  have hD9 : 0 ≤ e.cd.rDst ∧ e.cd.rDst < 9 := ⟨hD.1, by omega⟩
  rw [commandExecute_shift_eq e running (Or.inl hm)]
  generalize htmp : (if e.cd.mnemonic = MNEMONIC_shl then
      toShort (shiftLeft (reg e e.cd.rDst) (reg e e.cd.rSrc))
    else toShort (shiftRight (reg e e.cd.rDst) (reg e e.cd.rSrc))) = tmp
  obtain ⟨ulen, -, ucd, -, -, -, -, uc, -, -⟩ :=
    updatePswFlags_shift_facts e tmp (Or.inl hm) hlen hDp hSp
  have hd := reg_range e e.cd.rDst hrange
  have ht : tmp = reg e e.cd.rDst := by
    rw [← htmp, if_pos hm, hs]
    unfold shiftLeft
    rw [toShort_toInt]
    have : ((0 : Int) % 32).toNat = 0 := by decide
    rw [this, pow_zero, mul_one]
    unfold toShort
    omega
  have htt : toShort tmp = tmp := by
    rw [ht]
    unfold toShort
    omega
  refine ⟨rfl, ?_, ?_⟩
  · show reg (setReg _ _ _) _ = _
    rw [ucd, reg_setReg _ _ _ _ ulen hD9 hD.1, if_pos rfl, htt, ht]
  · show bitAt (reg (setReg _ _ _) psw) 2 = true ↔ _
    rw [ucd, reg_setReg _ _ _ _ ulen hD9 (by decide), if_neg (Ne.symm hDp.2), uc, if_pos hm, hs,
      bitAnd_one]
    unfold shiftRight
    have : (((16 : Int) - 0) % 32).toNat = 16 := by decide
    rw [this]
    omega

end Emulator

namespace Emulator

end Emulator

namespace Emulator

theorem commandExecute_shift_witness :
    reg (commandExecute (beforeShl 16385 2) true).emulator 0 = 4
      ∧ bitAt (reg (commandExecute (beforeShl 16385 2) true).emulator psw) 2 = true
      ∧ reg (commandExecute (beforeShr (-7) 1) true).emulator 0 = -4
      ∧ bitAt (reg (commandExecute (beforeShr (-7) 1) true).emulator psw) 2 = true :=
  ⟨((commandExecute_shift (beforeShl 16385 2) true (Or.inl rfl) rfl (by decide) (by decide)
      (by decide) (by decide)).2.2.2.2.1 rfl).1.trans (by decide),
    ((commandExecute_shift (beforeShl 16385 2) true (Or.inl rfl) rfl (by decide) (by decide)
      (by decide) (by decide)).2.2.2.2.1 rfl).2.2.trans (by decide),
    ((commandExecute_shift (beforeShr (-7) 1) true (Or.inr rfl) rfl (by decide) (by decide)
      (by decide) (by decide)).2.2.2.2.2.1 rfl).1.trans (by decide),
    ((commandExecute_shift (beforeShr (-7) 1) true (Or.inr rfl) rfl (by decide) (by decide)
      (by decide) (by decide)).2.2.2.2.2.1 rfl).2.trans (by decide)⟩

theorem commandExecute_shl_zero_witness :
    reg (beforeShl (-1) 0) 1 = 0
      ∧ reg (commandExecute (beforeShl (-1) 0) true).emulator 0 = -1
      ∧ bitAt (reg (commandExecute (beforeShl (-1) 0) true).emulator psw) 2 = true :=
  ⟨by decide,
    (commandExecute_shl_zero (beforeShl (-1) 0) true rfl rfl (by decide) (by decide) (by decide)
      (by decide)).2.1.trans (by decide),
    (commandExecute_shl_zero (beforeShl (-1) 0) true rfl rfl (by decide) (by decide) (by decide)
      (by decide)).2.2.2 (by decide)⟩

end Emulator


/-! ## The two addressing methods of the assembler -/

namespace Assembler

/-- C33.  `Assembler::absoluteAddressing(symbol, isLittleEndian, operation)` in a
state whose location counter `lc` is at least four below 2^32, for a symbol
whose record, if there is one, is not both local and extern.  A symbol of the
section `ABS` gives its offset and the state is as before.  Any other symbol
of the table adds exactly one relocation record, with the current section,
the offset `lc` for a directive (little endian) and `lc + 4` for a command,
the type `R_HYP_16` or `R_HYP_16_C`, and the section of the symbol when the
symbol is local, its own name otherwise; the value returned is the offset of
the symbol when it is local and 0 otherwise, whatever `operation` is.  A
symbol that is not in the table adds exactly one forward-reference record
(current section, offset `lc` or `lc + 3`, the endianness, the operation, the
current line, the symbol) and gives 0. -/
theorem absoluteAddressing_cases (a : Assembler) (symbol : String) (isLittleEndian : Bool)
    (operation : Char)
    (hlc : a.locationCounter + 4 < 4294967296)
    (hflags : ∀ s, mapFind SymbolTableRecord.name symbol a.symbolTable = some s →
      ¬ (s.isLocal = true ∧ s.isExtern = true)) :
    (∀ s, mapFind SymbolTableRecord.name symbol a.symbolTable = some s → s.sectionName = "ABS" →
      absoluteAddressing a symbol isLittleEndian operation = (a, s.offset))
    ∧ (∀ s, mapFind SymbolTableRecord.name symbol a.symbolTable = some s → s.sectionName ≠ "ABS" →
      absoluteAddressing a symbol isLittleEndian operation
        = ({ a with relocationTable := a.relocationTable ++
              [⟨a.currentSection, (a.locationCounter + (if isLittleEndian then 0 else 4)) % 4294967296,
                if isLittleEndian then "R_HYP_16" else "R_HYP_16_C",
                if s.isLocal then s.sectionName else s.name⟩] },
            if s.isLocal then s.offset else 0))
    ∧ (mapFind SymbolTableRecord.name symbol a.symbolTable = none →
      absoluteAddressing a symbol isLittleEndian operation
        = ({ a with forwardReferenceTable := a.forwardReferenceTable ++
              [⟨a.currentSection, (a.locationCounter + (if isLittleEndian then 0 else 3)) % 4294967296,
                isLittleEndian, operation, a.currentLine, symbol⟩] }, 0)) := by
  refine ⟨?_, ?_, ?_⟩
  · intro s hs habs
    unfold absoluteAddressing
    rw [hs]
    simp only [habs, if_true]
  · intro s hs habs
    have hf := hflags s hs
    have hmod : (a.locationCounter + (if isLittleEndian then 0 else 4)) % 4294967296
        = a.locationCounter + (if isLittleEndian then 0 else 4) := by
      apply Nat.mod_eq_of_lt
      split_ifs <;> omega
    unfold absoluteAddressing
    rw [hs, hmod]
    simp only [habs, if_false]
    cases hl : s.isLocal <;> cases he : s.isExtern
    · simp
    · simp
    · simp
    · exact absurd ⟨hl, he⟩ hf
  · intro hs
    have hmod : (a.locationCounter + (if isLittleEndian then 0 else 3)) % 4294967296
        = a.locationCounter + (if isLittleEndian then 0 else 3) := by
      apply Nat.mod_eq_of_lt
      split_ifs <;> omega
    unfold absoluteAddressing
    rw [hs, hmod]

end Assembler

namespace Assembler
open Emulator

/-- The value of `relativeAddressing` and the relocation records it adds depend
on the symbol table, the current section and the location counter only. -/
theorem relativeAddressing_frame (a b : Assembler) (symbol : String)
    (hT : b.symbolTable = a.symbolTable) (hc : b.currentSection = a.currentSection)
    (hl : b.locationCounter = a.locationCounter) :
    (relativeAddressing b symbol).2 = (relativeAddressing a symbol).2
    ∧ (relativeAddressing b symbol).1.sectionTable = b.sectionTable
    ∧ (relativeAddressing b symbol).1.currentSection = b.currentSection
    ∧ (relativeAddressing b symbol).1.locationCounter = b.locationCounter
    ∧ (relativeAddressing b symbol).1.symbolTable = b.symbolTable
    ∧ (relativeAddressing b symbol).1.relocationTable
        = b.relocationTable
          ++ (relativeAddressing a symbol).1.relocationTable.drop a.relocationTable.length := by
  unfold relativeAddressing
  rw [hT, hc, hl]
  cases mapFind SymbolTableRecord.name symbol a.symbolTable with
  | none => simp [hT, hc, hl]
  | some s =>
    simp only
    split_ifs <;> simp [hT, hc, hl]

/-- The four bytes that follow the first byte of a command with a `%symbol`
operand, in terms of the section data. -/
theorem pcrel_bytes (a : Assembler) (t : SectionTableRecord) (symbol : String) (b0 b1 b2 : Int)
    (hsec : mapFind SectionTableRecord.name a.currentSection a.sectionTable = some t) :
    sectionDataOf (advance (pushPayload
        (relativeAddressing (pushByte (pushByte (pushByte a b0) b1) b2) symbol).1
        (relativeAddressing (pushByte (pushByte (pushByte a b0) b1) b2) symbol).2) 5)
        a.currentSection
      = t.sectionData ++ [toChar b0, toChar b1, toChar b2,
          toChar ((relativeAddressing a symbol).2 / 256 % 256),
          toChar ((relativeAddressing a symbol).2 % 256)]
    ∧ (advance (pushPayload
        (relativeAddressing (pushByte (pushByte (pushByte a b0) b1) b2) symbol).1
        (relativeAddressing (pushByte (pushByte (pushByte a b0) b1) b2) symbol).2) 5).locationCounter
      = a.locationCounter + 5
    ∧ (advance (pushPayload
        (relativeAddressing (pushByte (pushByte (pushByte a b0) b1) b2) symbol).1
        (relativeAddressing (pushByte (pushByte (pushByte a b0) b1) b2) symbol).2) 5).relocationTable
      = (relativeAddressing a symbol).1.relocationTable := by
  have p1 := pushBytes_spec [b0, b1, b2] a t hsec
  have hpb : pushBytes a [b0, b1, b2] = pushByte (pushByte (pushByte a b0) b1) b2 := rfl
  rw [hpb] at p1
  obtain ⟨fv, fs, fc, fl, -, fr⟩ := relativeAddressing_frame a
    (pushByte (pushByte (pushByte a b0) b1) b2) symbol rfl rfl rfl
  obtain ⟨s1, hs1, hd1⟩ := mapFind_of_sectionData
    (pushByte (pushByte (pushByte a b0) b1) b2) a.currentSection 0
    (by rw [p1.1]; simp)
  have hX : mapFind SectionTableRecord.name
      (relativeAddressing (pushByte (pushByte (pushByte a b0) b1) b2) symbol).1.currentSection
      (relativeAddressing (pushByte (pushByte (pushByte a b0) b1) b2) symbol).1.sectionTable
      = some s1 := by
    rw [fc, fs]
    exact hs1
  have p2 := pushBytes_spec
    [(relativeAddressing (pushByte (pushByte (pushByte a b0) b1) b2) symbol).2 / 256 % 256,
     (relativeAddressing (pushByte (pushByte (pushByte a b0) b1) b2) symbol).2 % 256] _ s1 hX
  refine ⟨?_, ?_, ?_⟩
  · have h := p2.1
    rw [fc] at h
    have h2 : sectionDataOf (advance (pushPayload
        (relativeAddressing (pushByte (pushByte (pushByte a b0) b1) b2) symbol).1
        (relativeAddressing (pushByte (pushByte (pushByte a b0) b1) b2) symbol).2) 5)
        a.currentSection = s1.sectionData ++ List.map toChar
          [(relativeAddressing (pushByte (pushByte (pushByte a b0) b1) b2) symbol).2 / 256 % 256,
           (relativeAddressing (pushByte (pushByte (pushByte a b0) b1) b2) symbol).2 % 256] := h
    rw [h2, hd1, p1.1, fv]
    simp
  · have h2 : (advance (pushPayload
        (relativeAddressing (pushByte (pushByte (pushByte a b0) b1) b2) symbol).1
        (relativeAddressing (pushByte (pushByte (pushByte a b0) b1) b2) symbol).2) 5).locationCounter
        = (relativeAddressing (pushByte (pushByte (pushByte a b0) b1) b2) symbol).1.locationCounter
          + 5 := congrArg (· + 5) p2.2.1
    rw [h2, fl]
    rfl
  · show (relativeAddressing (pushByte (pushByte (pushByte a b0) b1) b2) symbol).1.relocationTable = _
    rw [fr]
    show a.relocationTable ++ _ = _
    unfold relativeAddressing
    cases mapFind SymbolTableRecord.name symbol a.symbolTable with
    | none => simp
    | some s =>
      simp only
      split_ifs <;> simp

end Assembler

namespace Assembler
open Emulator

theorem bitOr_07_register : ∀ r : Fin 9, bitOr 0x07 ((r : Int) * 16) = (r : Int) * 16 + 7 := by
  decide

/-- C34.  `Assembler::relativeAddressing(symbol)` at the offset `lc` (at least
four below 2^32) of a section of the table, for a symbol of the table that is
outside `ABS` and not both local and extern.  When the symbol is defined and
its section is the current one, the value is `offset - (lc + 3) - 2` (as an
`int`, hence with the same sixteen low bits) and the state is as before.
Otherwise exactly one relocation record is added, of type `R_HYP_16_PC_C`, with
the current section, the offset `lc + 4` and the section of the symbol when
the symbol is local, its own name otherwise, and the value is `offset - 2` for
a local symbol and -2 otherwise.  A jump with the operand `%symbol` stores the
bytes `F7`, `05` and the payload, a load or store the bytes `rD7`, `03` and
the payload, so that the decoder finds `rSrc = 7` with the mode `regdir_disp`
(5) for a jump and `regind_disp` (3) for `ldr` and `str`. -/
theorem relativeAddressing_cases (junk : Int) (a : Assembler) (inputLine symbol : String)
    (s : SymbolTableRecord) (t : SectionTableRecord)
    (hfind : mapFind SymbolTableRecord.name symbol a.symbolTable = some s)
    (habs : s.sectionName ≠ "ABS")
    (hflags : ¬ (s.isLocal = true ∧ s.isExtern = true))
    (hlc : a.locationCounter + 4 < 4294967296)
    (hsec : mapFind SectionTableRecord.name a.currentSection a.sectionTable = some t) :
    (s.isDefined = true ∧ s.sectionName = a.currentSection →
      relativeAddressing a symbol
          = (a, toInt (s.offset - ((a.locationCounter : Int) + 3) - 2))
        ∧ toInt (s.offset - ((a.locationCounter : Int) + 3) - 2) % 65536
          = (s.offset - ((a.locationCounter : Int) + 3) - 2) % 65536)
    ∧ (¬ (s.isDefined = true ∧ s.sectionName = a.currentSection) →
      relativeAddressing a symbol
        = ({ a with relocationTable := a.relocationTable ++
              [⟨a.currentSection, (a.locationCounter + 4) % 4294967296, "R_HYP_16_PC_C",
                if s.isLocal then s.sectionName else s.name⟩] },
            if s.isLocal then toInt (s.offset - 2) else -2))
    ∧ (∀ c : JumpCommand, ∃ a1,
        processForm junk a inputLine (.jump c (some (.pcrel symbol.data))) = some (a1, true)
        ∧ sectionDataOf a1 a.currentSection
            = t.sectionData ++ [toChar (c.opcode % 256), toChar 0xF7, toChar 0x05,
                toChar ((relativeAddressing a symbol).2 / 256 % 256),
                toChar ((relativeAddressing a symbol).2 % 256)]
        ∧ a1.locationCounter = a.locationCounter + 5
        ∧ a1.relocationTable = (relativeAddressing a symbol).1.relocationTable
        ∧ ∀ e : Emulator, e.registers.length = 9 → e.cd = CommandData.empty →
            holdsAtPc e [toChar (c.opcode % 256), toChar 0xF7, toChar 0x05,
                toChar ((relativeAddressing a symbol).2 / 256 % 256),
                toChar ((relativeAddressing a symbol).2 % 256)] →
            commandFetchAndDecode e
              = (atPc e 5 ⟨c.mnemonic, 0xF, 7, no_update, regdir_disp,
                  toShort (relativeAddressing a symbol).2⟩, true))
    ∧ (∀ (c : LoadStoreCommand) (rD : Fin 9), ∃ a1,
        processForm junk a inputLine (.loadStore c rD (some (.pcrel symbol.data))) = some (a1, true)
        ∧ sectionDataOf a1 a.currentSection
            = t.sectionData ++ [toChar (c.opcode % 256), toChar (bitOr 0x07 ((rD : Int) * 16)),
                toChar 0x03,
                toChar ((relativeAddressing a symbol).2 / 256 % 256),
                toChar ((relativeAddressing a symbol).2 % 256)]
        ∧ a1.locationCounter = a.locationCounter + 5
        ∧ a1.relocationTable = (relativeAddressing a symbol).1.relocationTable
        ∧ ∀ e : Emulator, e.registers.length = 9 → e.cd = CommandData.empty →
            holdsAtPc e [toChar (c.opcode % 256), toChar (bitOr 0x07 ((rD : Int) * 16)),
                toChar 0x03,
                toChar ((relativeAddressing a symbol).2 / 256 % 256),
                toChar ((relativeAddressing a symbol).2 % 256)] →
            commandFetchAndDecode e
              = (atPc e 5 ⟨c.mnemonic, (rD : Int), 7, no_update, regind_disp,
                  toShort (relativeAddressing a symbol).2⟩, true)) := by
  have hmod : (a.locationCounter + 4) % 4294967296 = a.locationCounter + 4 :=
    Nat.mod_eq_of_lt hlc
  refine ⟨?_, ?_, ?_, ?_⟩
  · intro hsame
    constructor
    · unfold relativeAddressing
      rw [hfind]
      have : s.offset - ((a.locationCounter : Int) + 3) + -2
          = s.offset - ((a.locationCounter : Int) + 3) - 2 := by ring
      simp only
      rw [if_neg habs, if_pos hsame, this]
    · unfold toInt
      omega
  · intro hother
    unfold relativeAddressing
    rw [hfind, hmod]
    simp only [habs, if_false, hother]
    have : s.offset + -2 = s.offset - 2 := by ring
    rw [this]
    cases hl : s.isLocal <;> cases he : s.isExtern
    · simp
    · simp
    · simp
    · exact absurd ⟨hl, he⟩ hflags
  · intro c
    have hop : jumpMnemonic (toChar (c.opcode % 256) % 256) = some c.mnemonic := by
      cases c <;> decide
    obtain ⟨h1, h2, h3⟩ := pcrel_bytes a t symbol (c.opcode % 256) 0xF7 0x05 hsec
    refine ⟨_, rfl, h1, h2, h3, ?_⟩
    intro e hlen hcd hmem
    have hd := decode_jump_long e hlen hcd c.mnemonic (toChar (c.opcode % 256))
      (toChar 0xF7) (toChar 0x05) (toChar ((relativeAddressing a symbol).2 / 256 % 256))
      (toChar ((relativeAddressing a symbol).2 % 256)) 7 regdir_disp hmem hop
      (by decide) (by omega) (by decide) (Or.inr (Or.inr (Or.inr rfl))) (toChar_range _)
    rw [hd, payload_bytes]
    rfl
  · intro c rD
    have hb0 : toChar (c.opcode % 256) % 256 = 0xA0 ∨ toChar (c.opcode % 256) % 256 = 0xB0 := by
      cases c <;> decide
    have hmn : toChar (c.opcode % 256) % 256 = c.mnemonic := by cases c <;> decide
    have hD := register_bounds rD
    obtain ⟨h1, h2, h3⟩ := pcrel_bytes a t symbol (c.opcode % 256)
      (bitOr 0x07 ((rD : Int) * 16)) 0x03 hsec
    refine ⟨_, rfl, h1, h2, h3, ?_⟩
    intro e hlen hcd hmem
    have hd := decode_loadStore_long e hlen hcd (toChar (c.opcode % 256))
      (toChar (bitOr 0x07 ((rD : Int) * 16))) (toChar 0x03)
      (toChar ((relativeAddressing a symbol).2 / 256 % 256))
      (toChar ((relativeAddressing a symbol).2 % 256)) (rD : Int) 7 0 regind_disp hmem
      hb0 (by rw [toChar_mod, bitOr_07_register]; omega) hD (by omega) (by decide) (by omega)
      (Or.inr (Or.inl rfl)) (toChar_range _)
    rw [hd, payload_bytes, hmn]
    rfl

end Assembler


/-! ## Backpatching against direct emission -/

namespace Assembler

end Assembler

namespace Assembler

end Assembler


/-! ## Jumps to the next instruction, negative displacements -/

namespace Assembler

/-- C32 (the claim fails).  After `assemble` on the source `.section text`,
`jmp %L`, `L: halt`, `.end` the two payload bytes of the jump (section offsets
3 and 4) are `00 00`, not `FF FE`. -/
theorem assemble_jump_to_next_payload :
    (assemble 0 new (jumpToNextSource "jmp")).map
        (fun p => (p.2.1, ((sectionDataOf p.1 "text").drop 3).take 2))
      = some (true, [0, 0])
    ∧ ([0, 0] : List Int) ≠ [toChar 0xFF, toChar 0xFE] := by
  decide

/-- C32 (amended).  For a record made by `relativeAddressing` at the offset `lc`
of a section other than `ABS` (offset `lc + 3`, big endian, operation `'R'`)
whose symbol is defined in that section at the offset `lc + 5`, the offset of
the next instruction, `backpatching` computes the value 0, stores the bytes
`00 00` and adds no relocation record.  So `assemble` on `.section text`,
`<jump> %L`, `L: halt`, `.end` succeeds for each of `jmp`, `call`, `jeq`, `jne`,
`jgt` with the section data `<opcode> F7 05 00 00 00` and an empty relocation
table.  The payload `FF FE` (-2) is left, with one `R_HYP_16_PC_C` record
against `L` at offset 4, when `.global L` precedes the jump. -/
theorem assemble_jump_to_next (x : Assembler) (sectionName symbol : String) (lc line : Nat)
    (s : SymbolTableRecord)
    (hfind : mapFind SymbolTableRecord.name symbol x.symbolTable = some s)
    (hsec : s.sectionName = sectionName) (habs : sectionName ≠ "ABS")
    (hdef : s.isDefined = true) (hoff : s.offset = (lc : Int) + 5)
    (hlc : lc + 5 < 4294967296) :
    (fillValueOf x ⟨sectionName, lc + 3, false, 'R', line, symbol⟩).2 = 0
    ∧ patchBytes false (fillValueOf x ⟨sectionName, lc + 3, false, 'R', line, symbol⟩).2 = (0, 0)
    ∧ (fillValueOf x ⟨sectionName, lc + 3, false, 'R', line, symbol⟩).1.relocationTable
        = x.relocationTable
    ∧ (assemble 0 new (jumpToNextSource "jmp")).map
        (fun p => (p.2.1, sectionDataOf p.1 "text", p.1.relocationTable))
        = some (true, [0x50, toChar 0xF7, 5, 0, 0, 0], [])
    ∧ (assemble 0 new (jumpToNextSource "call")).map
        (fun p => (p.2.1, sectionDataOf p.1 "text", p.1.relocationTable))
        = some (true, [0x30, toChar 0xF7, 5, 0, 0, 0], [])
    ∧ (assemble 0 new (jumpToNextSource "jeq")).map
        (fun p => (p.2.1, sectionDataOf p.1 "text", p.1.relocationTable))
        = some (true, [0x51, toChar 0xF7, 5, 0, 0, 0], [])
    ∧ (assemble 0 new (jumpToNextSource "jne")).map
        (fun p => (p.2.1, sectionDataOf p.1 "text", p.1.relocationTable))
        = some (true, [0x52, toChar 0xF7, 5, 0, 0, 0], [])
    ∧ (assemble 0 new (jumpToNextSource "jgt")).map
        (fun p => (p.2.1, sectionDataOf p.1 "text", p.1.relocationTable))
        = some (true, [0x53, toChar 0xF7, 5, 0, 0, 0], [])
    ∧ (assemble 0 new globalJumpToNextSource).map
        (fun p => (p.2.1, sectionDataOf p.1 "text", p.1.relocationTable))
        = some (true, [0x50, toChar 0xF7, 5, toChar 0xFF, toChar 0xFE, 0],
            [⟨"text", 4, "R_HYP_16_PC_C", "L"⟩]) := by
  have hv : fillValueOf x ⟨sectionName, lc + 3, false, 'R', line, symbol⟩
      = ({ x with currentSection := sectionName, locationCounter := lc }, 0) := by
    unfold fillValueOf
    simp only [if_true]
    have hlc2 : toUnsigned (((lc + 3 : Nat) : Int) - 3) = lc := by
      unfold toUnsigned
      omega
    rw [hlc2]
    unfold relativeAddressing
    simp only [hfind]
    rw [if_neg (by rw [hsec]; exact habs), if_pos ⟨hdef, hsec⟩, hoff]
    have : toInt ((lc : Int) + 5 - ((lc : Int) + 3) + -2) = 0 := by
      unfold toInt
      omega
    rw [this]
    rfl
  rw [hv]
  refine ⟨rfl, rfl, rfl, ?_, ?_, ?_, ?_, ?_, ?_⟩ <;> decide

/-- C39 (the code diverges).  For `ldr r0,[r1 - 5]` and `str r0,[r1 - 5]`
`processCommand` stores the payload `00 05`, the one of `ldr r0,[r1 + 5]`, and
not `FF FB`, which it stores for the jump operand `*[r1 - 5]`: in the branch
of `ldr` and `str` the test that sets the operation to `'-'` is written for an
operand that starts with `*[`.  The decoder reads the payload 5, so that the
effective address of the load is `reg[r1] + 5`. -/
theorem processCommand_load_store_drops_minus :
    commandBytes 0 "ldr r0,[r1 - 5]" = [toChar 0xA0, 0x01, 0x03, 0x00, 0x05]
    ∧ commandBytes 0 "str r0,[r1 - 5]" = [toChar 0xB0, 0x01, 0x03, 0x00, 0x05]
    ∧ commandBytes 0 "ldr r0,[r1 + 5]" = [toChar 0xA0, 0x01, 0x03, 0x00, 0x05]
    ∧ commandBytes 0 "jmp *[r1 - 5]" = [0x50, toChar 0xF1, 0x03, toChar 0xFF, toChar 0xFB]
    ∧ classifyLoadStoreOperand "[r1 - 5]".data = some (.displacement 1 '+' ['5'])
    ∧ classifyJumpOperand "*[r1 - 5]".data = some (.displacement 1 '-' ['5'])
    ∧ (Emulator.commandFetchAndDecode
        (Emulator.withProgram (commandBytes 0 "ldr r0,[r1 - 5]"))).1.cd
        = ⟨Emulator.MNEMONIC_ldr_pop, 0, 1, Emulator.no_update, Emulator.regind_disp, 5⟩
    ∧ (Emulator.commandFetchAndDecode
        (Emulator.withProgram (commandBytes 0 "jmp *[r1 - 5]"))).1.cd
        = ⟨Emulator.MNEMONIC_jmp, 15, 1, Emulator.no_update, Emulator.regind_disp, -5⟩ := by
  refine ⟨?_, ?_, ?_, ?_, ?_, ?_, ?_, ?_⟩ <;> decide

end Assembler

namespace Assembler

theorem absoluteAddressing_cases_witness :
    absoluteAddressing afterNearAndFar "near" false '-'
        = ({ afterNearAndFar with relocationTable := [⟨"data", 6, "R_HYP_16_C", "text"⟩] }, 1)
    ∧ (absoluteAddressing afterNearAndFar "far" true '+').2 = 0
    ∧ (absoluteAddressing afterNearAndFar "later" false '-').1.forwardReferenceTable
        = [⟨"data", 5, false, '-', 6, "later"⟩] :=
  have hflags : ∀ (symbol : String) (s : SymbolTableRecord),
      mapFind SymbolTableRecord.name symbol afterNearAndFar.symbolTable = some s →
        ¬ (s.isLocal = true ∧ s.isExtern = true) := by
    intro symbol s hs
    have hall : ∀ q ∈ afterNearAndFar.symbolTable, ¬ (q.isLocal = true ∧ q.isExtern = true) := by
      decide
    exact hall s (mapFind_some_mem _ _ _ _ hs).1
  ⟨((absoluteAddressing_cases afterNearAndFar "near" false '-' (by decide)
      (hflags "near")).2.1 ⟨4, 1, true, true, false, "text", "near"⟩ (by decide)
      (by decide)).trans (by decide),
    (congrArg Prod.snd ((absoluteAddressing_cases afterNearAndFar "far" true '+' (by decide)
      (hflags "far")).2.1 ⟨2, 0, false, false, true, "UNDEF", "far"⟩ (by decide)
      (by decide))).trans (by decide),
    (congrArg (fun p => p.1.forwardReferenceTable)
      ((absoluteAddressing_cases afterNearAndFar "later" false '-' (by decide)
        (hflags "later")).2.2 (by decide))).trans (by decide)⟩

theorem relativeAddressing_cases_witness :
    (relativeAddressing afterNearAndFar "near").2 = -1
    ∧ (relativeAddressing afterNearAndFar "near").1.relocationTable
        = [⟨"data", 6, "R_HYP_16_PC_C", "text"⟩] :=
  ⟨(congrArg Prod.snd ((relativeAddressing_cases 0 afterNearAndFar "jmp %near" "near"
      ⟨4, 1, true, true, false, "text", "near"⟩ ⟨3, 2, "data", [0, 0]⟩ (by decide) (by decide)
      (by decide) (by decide) (by decide)).2.1 (by decide))).trans (by decide),
    (congrArg (fun p => p.1.relocationTable) ((relativeAddressing_cases 0 afterNearAndFar
      "jmp %near" "near" ⟨4, 1, true, true, false, "text", "near"⟩ ⟨3, 2, "data", [0, 0]⟩
      (by decide) (by decide) (by decide) (by decide) (by decide)).2.1 (by decide))).trans
      (by decide)⟩

theorem assemble_jump_to_next_witness :
    (fillValueOf afterForwardJump ⟨"text", 4, false, 'R', 2, "target"⟩).2 = 0 :=
  (assemble_jump_to_next afterForwardJump "text" "target" 1 2
    ⟨3, 6, true, true, false, "text", "target"⟩ (by decide) rfl (by decide) rfl (by decide)
    (by decide)).1

end Assembler


/-! ## PC-relative relocation in the linker -/

namespace Linker

end Linker

namespace Linker

end Linker


/-! ## The cleaning of the input lines -/

namespace Assembler

theorem stripComment_eq (l : List Char) (h : ∀ c ∈ l, isLineTerminator c = false) :
    stripComment l = l.takeWhile (fun c => c != '#') := by
  unfold stripComment
  split_ifs with hc
  · have hall : ∀ c ∈ (l.dropWhile (fun c => c != '#')).drop 1, (!isLineTerminator c) = true := by
      intro c hc
      have h1 : c ∈ l := (List.dropWhile_sublist _).subset (List.mem_of_mem_drop hc)
      rw [h c h1]
      rfl
    rw [List.dropWhile_eq_nil_iff.2 hall, List.append_nil]
  · have hnot : ∀ c ∈ l, (c != '#') = true := by
      intro c hcl
      by_contra hne
      apply hc
      have : c = '#' := by simpa using hne
      rw [← this]
      exact List.elem_eq_true_of_mem hcl
    exact (List.takeWhile_eq_self_iff.2 hnot).symm

theorem not_mem_stripComment (l : List Char) (h : ∀ c ∈ l, isLineTerminator c = false) :
    '#' ∉ stripComment l := by
  rw [stripComment_eq l h]
  intro hm
  have := List.mem_takeWhile_imp hm
  simp at this

theorem mem_replaceTabs (l : List Char) (c : Char) (h : c ∈ replaceTabs l) :
    c ≠ '\t' ∧ (c ∈ l ∨ (c = ' ' ∧ '\t' ∈ l)) := by
  unfold replaceTabs at h
  obtain ⟨x, hx, hxc⟩ := List.mem_map.1 h
  by_cases ht : x = '\t'
  · rw [if_pos ht] at hxc
    rw [← hxc]
    exact ⟨by decide, Or.inr ⟨rfl, ht ▸ hx⟩⟩
  · rw [if_neg ht] at hxc
    rw [← hxc]
    exact ⟨ht, Or.inl hx⟩

theorem collapseSpaces_facts (l : List Char) :
    (∀ c ∈ collapseSpaces l, c ∈ l)
    ∧ (collapseSpaces l).Chain' (fun x y => ¬ (x = ' ' ∧ y = ' '))
    ∧ (collapseSpaces l).head? = l.head?
    ∧ (collapseSpaces l).filter (fun c => c != ' ') = l.filter (fun c => c != ' ') := by
  induction l using collapseSpaces.induct with
  | case1 => simp [collapseSpaces]
  | case2 c => simp [collapseSpaces]
  | case3 c d rest hcd ih =>
    obtain ⟨i1, i2, i3, i4⟩ := ih
    rw [collapseSpaces, if_pos hcd]
    refine ⟨fun x hx => List.mem_cons_of_mem _ (i1 x hx), i2, ?_, ?_⟩
    · rw [i3, hcd.1, hcd.2]
      rfl
    · rw [i4, hcd.1]
      simp
  | case4 c d rest hcd ih =>
    obtain ⟨i1, i2, i3, i4⟩ := ih
    rw [collapseSpaces, if_neg hcd]
    refine ⟨?_, ?_, rfl, ?_⟩
    · intro x hx
      rcases List.mem_cons.1 hx with hx | hx
      · rw [hx]
        exact List.mem_cons_self _ _
      · exact List.mem_cons_of_mem _ (i1 x hx)
    · rw [List.chain'_cons']
      refine ⟨?_, i2⟩
      intro y hy
      rw [i3] at hy
      have : y = d := by simpa using hy.symm
      rw [this]
      exact hcd
    · rw [List.filter_cons, i4]
      conv_rhs => rw [List.filter_cons]

end Assembler

namespace Assembler

theorem filter_dropWhile_blank (l : List Char) :
    (l.dropWhile (fun c => c == ' ')).filter (fun c => c != ' ') = l.filter (fun c => c != ' ') := by
  induction l with
  | nil => rfl
  | cons c rest ih =>
    by_cases hc : c = ' '
    · subst hc
      simp only [List.dropWhile_cons, beq_self_eq_true, if_true, ih, List.filter_cons]
      simp
    · have h1 : (c == ' ') = false := by simpa using hc
      simp only [List.dropWhile_cons, h1]
      rfl

/-- The text from the first to the last character other than a blank. -/
theorem core_facts (l : List Char) :
    ((l.dropWhile (fun c => c == ' ')).reverse.dropWhile (fun c => c == ' ')).reverse <:+: l
    ∧ (∀ x, (((l.dropWhile (fun c => c == ' ')).reverse.dropWhile
          (fun c => c == ' ')).reverse).head? = some x → x ≠ ' ')
    ∧ (∀ x, (((l.dropWhile (fun c => c == ' ')).reverse.dropWhile
          (fun c => c == ' ')).reverse).getLast? = some x → x ≠ ' ')
    ∧ (((l.dropWhile (fun c => c == ' ')).reverse.dropWhile
          (fun c => c == ' ')).reverse).filter (fun c => c != ' ')
        = l.filter (fun c => c != ' ') := by
  have hpre : ((l.dropWhile (fun c => c == ' ')).reverse.dropWhile (fun c => c == ' ')).reverse
      <+: l.dropWhile (fun c => c == ' ') := by
    have := List.dropWhile_suffix (fun c => c == ' ') (l := (l.dropWhile (fun c => c == ' ')).reverse)
    have h2 := List.reverse_prefix.2 this
    rw [List.reverse_reverse] at h2
    exact h2
  have hsuf : l.dropWhile (fun c => c == ' ') <:+ l := List.dropWhile_suffix _
  refine ⟨hpre.isInfix.trans hsuf.isInfix, ?_, ?_, ?_⟩
  · intro x hx
    obtain ⟨t, ht⟩ := hpre
    have hne : ((l.dropWhile (fun c => c == ' ')).reverse.dropWhile (fun c => c == ' ')).reverse
        ≠ [] := by
      intro h0
      rw [h0] at hx
      exact absurd hx (by simp)
    have hh : (l.dropWhile (fun c => c == ' ')).head? = some x := by
      rw [← ht, List.head?_append_of_ne_nil _ hne]
      exact hx
    have := List.head?_dropWhile_not (fun c => c == ' ') l
    rw [hh] at this
    simpa using this
  · intro x hx
    rw [List.getLast?_reverse] at hx
    have := List.head?_dropWhile_not (fun c => c == ' ')
      (l.dropWhile (fun c => c == ' ')).reverse
    rw [hx] at this
    simpa using this
  · rw [List.filter_reverse, filter_dropWhile_blank, ← List.filter_reverse, List.reverse_reverse,
      filter_dropWhile_blank]

theorem trimBounds_facts (l : List Char) (h : ∀ c ∈ l, isLineTerminator c = false) :
    trimBounds l <:+: l
    ∧ (2 ≤ (l.filter (fun c => c != ' ')).length →
        (∀ x, (trimBounds l).head? = some x → x ≠ ' ')
        ∧ (∀ x, (trimBounds l).getLast? = some x → x ≠ ' ')
        ∧ trimBounds l ≠ []) := by
  obtain ⟨c1, c2, c3, c4⟩ := core_facts l
  unfold trimBounds
  simp only
  split_ifs with hc
  · refine ⟨c1, fun _ => ⟨c2, c3, ?_⟩⟩
    intro h0
    rw [h0] at hc
    simp at hc
  · refine ⟨List.infix_refl _, ?_⟩
    intro h2
    exfalso
    apply hc
    constructor
    · rw [← c4] at h2
      exact le_trans h2 (List.length_filter_le _ _)
    · rw [List.all_eq_true]
      intro x hx
      have h1 : x ∈ l := c1.subset (List.mem_of_mem_drop ((List.dropLast_sublist _).subset hx))
      rw [h x h1]
      rfl

end Assembler

namespace Assembler

/-- The replacement around a delimiter removes blanks only: a condition on the
adjacent pairs that can fail only at a blank is kept, the input having no two
blanks in a row. -/
theorem removeSpacesAround_generic (d : Char) (Bad : Char → Char → Prop)
    (hB : ∀ x y, Bad x y → x = ' ' ∨ y = ' ') :
    ∀ (l : List Char) (flag : Bool),
      l.Chain' (fun x y => ¬ (x = ' ' ∧ y = ' ')) → l.Chain' (fun x y => ¬ Bad x y) →
      (removeSpacesAround d flag l).Chain' (fun x y => ¬ Bad x y)
      ∧ (∀ y, (removeSpacesAround d flag l).head? = some y →
          l.head? = some y ∨ (l.head? = some ' ' ∧ l.tail.head? = some y))
      ∧ (∀ c ∈ removeSpacesAround d flag l, c ∈ l) := by
  intro l
  induction l with
  | nil =>
    intro flag _ _
    simp [removeSpacesAround]
  | cons c rest ih =>
    intro flag hdb hbad
    have hdb1 := (List.chain'_cons'.1 hdb).1
    have hbad1 := (List.chain'_cons'.1 hbad).1
    have hdb2 := (List.chain'_cons'.1 hdb).2
    have hbad2 := (List.chain'_cons'.1 hbad).2
    have emit : ∀ flag1,
        (c :: removeSpacesAround d flag1 rest).Chain' (fun x y => ¬ Bad x y)
        ∧ (∀ y, (c :: removeSpacesAround d flag1 rest).head? = some y →
          (c :: rest).head? = some y ∨ ((c :: rest).head? = some ' ' ∧ (c :: rest).tail.head? = some y))
        ∧ (∀ x ∈ c :: removeSpacesAround d flag1 rest, x ∈ c :: rest) := by
      intro flag1
      obtain ⟨i1, i2, i3⟩ := ih flag1 hdb2 hbad2
      refine ⟨?_, fun y hy => Or.inl hy, ?_⟩
      · rw [List.chain'_cons']
        refine ⟨?_, i1⟩
        intro y hy
        rcases i2 y hy with h | ⟨h1, h2⟩
        · exact hbad1 y h
        · intro hb
          rcases hB c y hb with hc | hy1
          · exact hdb1 ' ' h1 ⟨hc, rfl⟩
          · cases rest with
            | nil => simp at h1
            | cons r t =>
              have hr : r = ' ' := by simpa using h1
              exact (List.chain'_cons'.1 hdb2).1 y h2 ⟨hr, hy1⟩
      · intro x hx
        rcases List.mem_cons.1 hx with hx | hx
        · rw [hx]
          exact List.mem_cons_self _ _
        · exact List.mem_cons_of_mem _ (i3 x hx)
    have skip : c = ' ' →
        (removeSpacesAround d false rest).Chain' (fun x y => ¬ Bad x y)
        ∧ (∀ y, (removeSpacesAround d false rest).head? = some y →
          (c :: rest).head? = some y ∨ ((c :: rest).head? = some ' ' ∧ (c :: rest).tail.head? = some y))
        ∧ (∀ x ∈ removeSpacesAround d false rest, x ∈ c :: rest) := by
      intro hc
      obtain ⟨i1, i2, i3⟩ := ih false hdb2 hbad2
      refine ⟨i1, ?_, fun x hx => List.mem_cons_of_mem _ (i3 x hx)⟩
      intro y hy
      rcases i2 y hy with h | ⟨h1, _⟩
      · exact Or.inr ⟨by rw [hc]; rfl, h⟩
      · exact absurd ⟨hc, rfl⟩ (hdb1 ' ' h1)
    rw [removeSpacesAround]
    split_ifs with h1 h2 h3 h4
    · have := emit true
      rw [h1] at this ⊢
      exact this
    · exact skip h2
    · exact skip h2
    · have := emit false
      rw [h2] at this ⊢
      exact this
    · exact emit false

/-- After the replacement around the delimiter `d` no blank stands next to `d`,
the input having no two blanks in a row. -/
theorem removeSpacesAround_delimiter (d : Char) (hd : d ≠ ' ') :
    ∀ (l : List Char) (flag : Bool),
      l.Chain' (fun x y => ¬ (x = ' ' ∧ y = ' ')) →
      (removeSpacesAround d flag l).Chain'
          (fun x y => ¬ ((x = d ∧ y = ' ') ∨ (x = ' ' ∧ y = d)))
      ∧ (flag = true → (removeSpacesAround d flag l).head? ≠ some ' ') := by
  intro l
  induction l with
  | nil =>
    intro flag _
    simp [removeSpacesAround]
  | cons c rest ih =>
    intro flag hdb
    have hdb1 := (List.chain'_cons'.1 hdb).1
    have hdb2 := (List.chain'_cons'.1 hdb).2
    have hhead := fun flag1 => (removeSpacesAround_generic d (fun x y => x = ' ' ∧ y = ' ')
      (fun _ _ h => Or.inl h.1) rest flag1 hdb2 hdb2).2.1
    rw [removeSpacesAround]
    split_ifs with h1 h2 h3 h4
    · obtain ⟨i1, i2⟩ := ih true hdb2
      refine ⟨?_, fun _ => by simp [hd]⟩
      rw [List.chain'_cons']
      refine ⟨?_, i1⟩
      intro y hy
      rintro (⟨-, hy1⟩ | ⟨hx, -⟩)
      · rw [hy1] at hy
        exact i2 rfl hy
      · exact hd hx
    · obtain ⟨i1, -⟩ := ih false hdb2
      refine ⟨i1, fun _ => ?_⟩
      intro hy
      rcases hhead false ' ' hy with h | ⟨h, -⟩
      · exact hdb1 ' ' h ⟨h2, rfl⟩
      · exact hdb1 ' ' h ⟨h2, rfl⟩
    · obtain ⟨i1, -⟩ := ih false hdb2
      exact ⟨i1, fun hf => absurd hf h3⟩
    · obtain ⟨i1, -⟩ := ih false hdb2
      refine ⟨?_, fun hf => absurd hf h3⟩
      rw [List.chain'_cons']
      refine ⟨?_, i1⟩
      intro y hy
      rintro (⟨hx, -⟩ | ⟨-, hy1⟩)
      · exact hd hx.symm
      · rcases hhead false y hy with h | ⟨h, -⟩
        · rw [hy1] at h
          exact h4 h
        · exact hdb1 ' ' h ⟨h2, rfl⟩
    · obtain ⟨i1, -⟩ := ih false hdb2
      refine ⟨?_, fun _ => by simp [h2]⟩
      rw [List.chain'_cons']
      refine ⟨?_, i1⟩
      intro y _
      rintro (⟨hx, -⟩ | ⟨hx, -⟩)
      · exact h1 hx
      · exact h2 hx

theorem getLast?_cons_of_some (x c : Char) (o : List Char) (h : o.getLast? = some c) :
    (x :: o).getLast? = some c := by
  cases o with
  | nil => simp at h
  | cons y t =>
    rw [List.getLast?_cons_cons]
    exact h

/-- The replacement around a delimiter keeps a first and a last character that
are not blanks. -/
theorem removeSpacesAround_ends (d : Char) :
    ∀ (l : List Char) (flag : Bool),
      (∀ c, l.head? = some c → c ≠ ' ' → (removeSpacesAround d flag l).head? = some c)
      ∧ (∀ c, l.getLast? = some c → c ≠ ' ' → (removeSpacesAround d flag l).getLast? = some c) := by
  intro l
  induction l with
  | nil =>
    intro flag
    simp
  | cons x rest ih =>
    intro flag
    constructor
    · intro c hc hne
      have hx : x = c := by simpa using hc
      rw [removeSpacesAround]
      split_ifs with h1 h2 h3 h4
      · rw [← h1, hx]
        rfl
      · exact absurd (hx ▸ h2) hne
      · exact absurd (hx ▸ h2) hne
      · exact absurd (hx ▸ h2) hne
      · rw [hx]
        rfl
    · intro c hc hne
      cases rest with
      | nil =>
        have hx : x = c := by simpa using hc
        rw [removeSpacesAround]
        split_ifs with h1 h2 h3 h4
        · rw [← h1, hx]
          simp [removeSpacesAround]
        · exact absurd (hx ▸ h2) hne
        · exact absurd (hx ▸ h2) hne
        · exact absurd (hx ▸ h2) hne
        · rw [hx]
          simp [removeSpacesAround]
      | cons y t =>
        rw [List.getLast?_cons_cons] at hc
        have i := fun flag1 => (ih flag1).2 c hc hne
        rw [removeSpacesAround]
        split_ifs with h1 h2 h3 h4
        · exact getLast?_cons_of_some _ _ _ (i true)
        · exact i false
        · exact i false
        · exact getLast?_cons_of_some _ _ _ (i false)
        · exact getLast?_cons_of_some _ _ _ (i false)

end Assembler

namespace Assembler

theorem filter_replaceTabs (l : List Char) :
    (replaceTabs l).filter (fun c => c != ' ')
      = (l.filter (fun c => c != ' ' && c != '\t')) := by
  unfold replaceTabs
  induction l with
  | nil => rfl
  | cons c rest ih =>
    rw [List.map_cons, List.filter_cons, List.filter_cons, ih]
    by_cases ht : c = '\t'
    · subst ht
      simp
    · rw [if_neg ht]
      by_cases hs : c = ' '
      · subst hs
        simp
      · simp [hs, ht]

/-- The cleaned form of a line that holds no line terminator: it has no `#`,
no tab, no two blanks in a row and no blank next to `,` or `:`; and when the
line has two characters or more other than blanks and tabs before its first
`#`, it neither starts nor ends with a blank. -/
theorem cleanLine_facts (line : String) (h : ∀ c ∈ line.data, isLineTerminator c = false) :
    '#' ∉ (cleanLine line).data
    ∧ '\t' ∉ (cleanLine line).data
    ∧ (cleanLine line).data.Chain' (fun x y => ¬ (x = ' ' ∧ y = ' '))
    ∧ (cleanLine line).data.Chain' (fun x y => ¬ ((x = ',' ∧ y = ' ') ∨ (x = ' ' ∧ y = ',')))
    ∧ (cleanLine line).data.Chain' (fun x y => ¬ ((x = ':' ∧ y = ' ') ∨ (x = ' ' ∧ y = ':')))
    ∧ (2 ≤ ((line.data.takeWhile (fun c => c != '#')).filter
          (fun c => c != ' ' && c != '\t')).length →
        (cleanLine line).data.head? ≠ some ' ' ∧ (cleanLine line).data.getLast? ≠ some ' ') := by
  have e1 := stripComment_eq line.data h
  have n1 := not_mem_stripComment line.data h
  have t1 : ∀ c ∈ stripComment line.data, isLineTerminator c = false := by
    intro c hc
    rw [e1] at hc
    exact h c ((List.takeWhile_sublist _).subset hc)
  -- tabs
  have m2 := mem_replaceTabs (stripComment line.data)
  have n2 : '#' ∉ replaceTabs (stripComment line.data) := by
    intro hm
    rcases (m2 _ hm).2 with h1 | ⟨h1, -⟩
    · exact n1 h1
    · exact absurd h1 (by decide)
  have b2 : '\t' ∉ replaceTabs (stripComment line.data) := fun hm => (m2 _ hm).1 rfl
  have t2 : ∀ c ∈ replaceTabs (stripComment line.data), isLineTerminator c = false := by
    intro c hc
    rcases (m2 _ hc).2 with h1 | ⟨h1, -⟩
    · exact t1 c h1
    · rw [h1]
      rfl
  -- runs of blanks
  obtain ⟨m3, c3, -, f3⟩ := collapseSpaces_facts (replaceTabs (stripComment line.data))
  have t3 : ∀ c ∈ collapseSpaces (replaceTabs (stripComment line.data)),
      isLineTerminator c = false := fun c hc => t2 c (m3 c hc)
  -- both ends
  obtain ⟨i4, e4⟩ := trimBounds_facts _ t3
  have c4 := c3.infix i4
  -- the two delimiters
  obtain ⟨g5, -, m5⟩ := removeSpacesAround_generic ',' (fun x y => x = ' ' ∧ y = ' ')
    (fun _ _ hb => Or.inl hb.1) _ false c4 c4
  obtain ⟨d5, -⟩ := removeSpacesAround_delimiter ',' (by decide) _ false c4
  obtain ⟨g6, -, m6⟩ := removeSpacesAround_generic ':' (fun x y => x = ' ' ∧ y = ' ')
    (fun _ _ hb => Or.inl hb.1) _ false g5 g5
  obtain ⟨k6, -, -⟩ := removeSpacesAround_generic ':'
    (fun x y => (x = ',' ∧ y = ' ') ∨ (x = ' ' ∧ y = ','))
    (fun _ _ hb => hb.elim (fun hc => Or.inr hc.2) (fun hc => Or.inl hc.1)) _ false g5 d5
  obtain ⟨d6, -⟩ := removeSpacesAround_delimiter ':' (by decide) _ false g5
  have mem : ∀ c ∈ (cleanLine line).data, c ∈ replaceTabs (stripComment line.data) :=
    fun c hc => m3 c (i4.subset (m5 c (m6 c hc)))
  refine ⟨fun hm => n2 (mem _ hm), fun hm => b2 (mem _ hm), g6, k6, d6, ?_⟩
  intro h2
  rw [← e1, ← filter_replaceTabs, ← f3] at h2
  obtain ⟨a1, a2, a3⟩ := e4 h2
  constructor
  · cases hh : (trimBounds (collapseSpaces (replaceTabs (stripComment line.data)))).head? with
    | none =>
      rw [List.head?_eq_none_iff] at hh
      exact absurd hh a3
    | some x =>
      have hx := a1 x hh
      have h5 := (removeSpacesAround_ends ',' _ false).1 x hh hx
      have h6 := (removeSpacesAround_ends ':' _ false).1 x h5 hx
      show (removeSpacesAround ':' false _).head? ≠ _
      rw [h6]
      intro hcon
      injection hcon with hcon
      exact hx hcon
  · cases hh : (trimBounds (collapseSpaces (replaceTabs (stripComment line.data)))).getLast? with
    | none =>
      rw [List.getLast?_eq_none_iff] at hh
      exact absurd hh a3
    | some x =>
      have hx := a2 x hh
      have h5 := (removeSpacesAround_ends ',' _ false).2 x hh hx
      have h6 := (removeSpacesAround_ends ':' _ false).2 x h5 hx
      show (removeSpacesAround ':' false _).getLast? ≠ _
      rw [h6]
      intro hcon
      injection hcon with hcon
      exact hx hcon

theorem cleanLine_facts_example :
    (cleanLine "\tldr  r0 , [ r1 ]   # load").data = "ldr r0,[ r1 ]".data
      ∧ (cleanLine "\tldr  r0 , [ r1 ]   # load").data.head? ≠ some ' ' :=
  ⟨by decide, ((cleanLine_facts "\tldr  r0 , [ r1 ]   # load" (by decide)).2.2.2.2.2
    (by decide)).1⟩

end Assembler

namespace Assembler

/-- C37 (the code diverges).  A line whose text outside the comment has one
character other than blanks keeps its blanks at both ends: the expression
`^( *)([^ ].*[^ ])( *)$` of the fourth replacement needs two such characters,
so that it does not match and the line is left as it is.  The line ` a`
is stored in `inputFile` with its leading blank, `a ` with its trailing blank,
and a tab before the character becomes a leading blank; lines with two
characters or more are trimmed, blank lines are dropped, and the blanks next
to `,` and `:` are removed. -/
theorem readFile_keeps_blanks_of_one_character :
    (cleanLine " a").data = [' ', 'a']
    ∧ (cleanLine "a ").data = ['a', ' ']
    ∧ (cleanLine "\ta  # note").data = [' ', 'a', ' ']
    ∧ (cleanLine "  ab  ").data = ['a', 'b']
    ∧ (cleanLine " a , b : c ").data = ['a', ',', 'b', ':', 'c']
    ∧ readFile [" a", "   ", "halt # stop", "# only a comment"] = ([" a", "halt"], [0, 1, 3]) := by
  decide

end Assembler

